import Mathlib

/-!
# semblance: NE segment relocations and reachability scan

A shallow embedding of `src/ne_segment.c` (with the declarations of `ne.h`):
the relocation reader `read_reloc`, the lookup `get_reloc`, the recursive
scanner `scan_segment` and the passes of `print_segments`.

Conventions of the embedding
* C `byte`/`word`/`dword` values are natural numbers; every place where the
  C code truncates (a `word` cursor that is added to, a `dword` passed as a
  `word` parameter) carries an explicit `% 65536`.
* The input file is a map from positions to bytes; `fseek` followed by a read
  becomes a read at an explicit position.
* Code that can loop or recurse without bound takes a fuel argument and
  reports `Fault.out_of_fuel` when it runs out; an access outside an
  allocated array is reported as `Fault.out_of_bounds`.
-/

namespace Semblance

/-! ## Flags, faults and the input file -/

/-- `INSTR_SCANNED`: byte has been scanned. -/
def INSTR_SCANNED : Nat := 0x01
/-- `INSTR_VALID`: byte begins an instruction. -/
def INSTR_VALID : Nat := 0x02
/-- `INSTR_JUMP`: instruction is jumped to. -/
def INSTR_JUMP : Nat := 0x04
/-- `INSTR_FUNC`: instruction begins a function. -/
def INSTR_FUNC : Nat := 0x08
/-- `INSTR_FAR`: instruction is target of far call/jmp. -/
def INSTR_FAR : Nat := 0x10
/-- `INSTR_RELOC`: byte has relocation data. -/
def INSTR_RELOC : Nat := 0x20

/-- `MAX_INSTR` of `ne.h`. -/
def MAX_INSTR : Nat := 16

/-- Ways in which a run of the embedded code yields no result. -/
inductive Fault where
  /-- the fuel given to a loop or recursion was used up -/
  | out_of_fuel
  /-- an array was indexed outside its allocation (undefined behaviour in C) -/
  | out_of_bounds
  deriving DecidableEq, Repr

/-- The file `f` being dumped: the byte found at each position. -/
abbrev File := Nat → Nat

/-- Modelled from the spec: `read_byte` of `semblance.h` (not among the sources),
here reading the byte at an explicit file position. -/
def read_byte_at (f : File) (pos : Nat) : Nat := f pos % 256

/-- Modelled from the spec: `read_word` of `semblance.h` (not among the sources),
the 16-bit little-endian word at an explicit file position. -/
def read_word_at (f : File) (pos : Nat) : Nat :=
  read_byte_at f pos + 256 * read_byte_at f (pos + 1)

/-! ## Data model (`ne.h`, `ne_segment.c`) -/

/-- `struct _entry` of `ne.h`. -/
structure entry where
  flags : Nat
  segment : Nat
  offset : Nat
  name : Option String
  deriving DecidableEq, Repr

/-- `reloc` of `ne_segment.c`; `offset_count` is the length of `offsets`. -/
structure reloc where
  size : Nat
  type : Nat
  offsets : List Nat
  target_segment : Nat
  target_offset : Nat
  text : Option String
  deriving DecidableEq, Repr

/-- `segment` of `ne_segment.c`; `instr_flags` holds the `min_alloc` bytes that
were allocated, `reloc_count` is the length of `reloc_table`. -/
structure segment where
  cs : Nat
  start : Nat
  length : Nat
  flags : Nat
  min_alloc : Nat
  instr_flags : List Nat
  reloc_table : List reloc
  deriving DecidableEq, Repr

/-! ## Index functions -/

/-- `get_entry_name`: the name field of the first entry at `(cs, ip)`. -/
def get_entry_name (entry_table : List entry) (cs ip : Nat) : Option String :=
  match entry_table with
  | [] => none
  | e :: es =>
    if e.segment = cs ∧ e.offset = ip then e.name else get_entry_name es cs ip

/-- `get_reloc`: the first relocation of the table whose offsets hold `ip`
(`none` is the C `NULL`). -/
def get_reloc (ip : Nat) (reloc_data : List reloc) : Option reloc :=
  match reloc_data with
  | [] => none
  | r :: rs => if ip ∈ r.offsets then some r else get_reloc ip rs

/-! ## `read_reloc` -/

/-- The cursor update inside the chain walk of `read_reloc`:
`if (type & 4) offset_cursor += next; else offset_cursor = next;`
on a 16-bit cursor. -/
def reloc_advance (type offset_cursor next : Nat) : Nat :=
  if type &&& 4 ≠ 0 then (offset_cursor + next) % 65536 else next

/-- First `do … while` loop of `read_reloc`: counts the chain in the 16-bit
counter `offset_count`. -/
def read_reloc_count (f : File) (start length type : Nat) :
    Nat → Nat → Nat → Except Fault Nat
  | 0, _, _ => .error .out_of_fuel
  | fuel + 1, offset_cursor, offset_count =>
    if offset_cursor ≥ length then .ok offset_count
    else
      let next := read_word_at f (start + offset_cursor)
      if next < 0xFFFB then
        read_reloc_count f start length type fuel
          (reloc_advance type offset_cursor next) ((offset_count + 1) % 65536)
      else .ok ((offset_count + 1) % 65536)

/-- Second `do … while` loop of `read_reloc`: the offsets stored, in order. -/
def read_reloc_offsets (f : File) (start length type : Nat) :
    Nat → Nat → Except Fault (List Nat)
  | 0, _ => .error .out_of_fuel
  | fuel + 1, offset_cursor =>
    if offset_cursor ≥ length then .ok []
    else
      let next := read_word_at f (start + offset_cursor)
      if next < 0xFFFB then
        match read_reloc_offsets f start length type fuel
            (reloc_advance type offset_cursor next) with
        | .ok l => .ok (offset_cursor :: l)
        | .error e => .error e
      else .ok [offset_cursor]

/-- The `target_segment`/`target_offset` assignment of `read_reloc`: an
internal reference (`(type & 3) == 0`) with module word `0xff` goes through
`entry_table[ordinal-1]`, every other record takes the two words as they are. -/
def read_reloc_target (entry_table : List entry) (type module ordinal : Nat) :
    Except Fault (Nat × Nat) :=
  if type &&& 3 = 0 then
    if module = 0xff then
      if ordinal = 0 then .error .out_of_bounds
      else match entry_table[ordinal - 1]? with
        | some e => .ok (e.segment, e.offset)
        | none => .error .out_of_bounds
    else .ok (module, ordinal)
  else .ok (module, ordinal)

/-- `read_reloc`, reading the 8-byte record at file position `pos` for a
segment that starts at `start` and has `length` bytes.  The array `offsets`
is allocated for the count of the first walk and filled by the second. -/
def read_reloc (entry_table : List entry) (f : File) (pos start length fuel : Nat) :
    Except Fault reloc :=
  let size := read_byte_at f pos
  let type := read_byte_at f (pos + 1)
  let offset := read_word_at f (pos + 2)
  let module := read_word_at f (pos + 4)
  let ordinal := read_word_at f (pos + 6)
  if type &&& 3 = 3 then .ok ⟨size, type &&& 3, [], 0, 0, none⟩
  else
    match read_reloc_target entry_table type module ordinal with
    | .error e => .error e
    | .ok (target_segment, target_offset) =>
      let text :=
        if type &&& 3 = 0 then get_entry_name entry_table target_segment target_offset
        else none
      match read_reloc_count f start length type fuel offset 0 with
      | .error e => .error e
      | .ok offset_count =>
        match read_reloc_offsets f start length type fuel offset with
        | .error e => .error e
        | .ok offsets =>
          if offsets.length ≤ offset_count then
            .ok ⟨size, type &&& 3, offsets, target_segment, target_offset, text⟩
          else .error .out_of_bounds

/-- A file given by a finite list of bytes (zero elsewhere). -/
def file_of (bytes : List Nat) : File := fun pos => bytes.getD pos 0

/-! ## The chain of a relocation record, as the specification words it -/

/-- The next chained offset: the word stored at `o` when the additive bit
(bit 2 of the raw type) is clear, the 16-bit sum of `o` and that word when
it is set. -/
def chain_next (f : File) (start type o : Nat) : Nat :=
  if type &&& 4 = 0 then read_word_at f (start + o)
  else (o + read_word_at f (start + o)) % 65536

/-- The chain `o_0 = offset`, `o_(k+1) = chain_next o_k`. -/
def chain_offset (f : File) (start type offset : Nat) : Nat → Nat
  | 0 => offset
  | k + 1 => chain_next f start type (chain_offset f start type offset k)

/-- The word `w_k` stored in the segment at `o_k`. -/
def chain_word (f : File) (start type offset k : Nat) : Nat :=
  read_word_at f (start + chain_offset f start type offset k)

/-! ## `print_segments`: reading the segment table and the relocations -/

/-- The statement `instr_flags[i] |= bit` on an allocated flag array. -/
def or_flag (instr_flags : List Nat) (i bit : Nat) : Except Fault (List Nat) :=
  match instr_flags[i]? with
  | some v => .ok (instr_flags.set i (v ||| bit))
  | none => .error .out_of_bounds

/-- The first loop of `print_segments`: `count` table entries of four words
each, read from file position `pos` on; `instr_flags` is `calloc`ed with
`min_alloc` bytes and the relocation table is not yet read. -/
def read_segment_table (f : File) (align pos : Nat) : Nat → Nat → List segment
  | 0, _ => []
  | count + 1, seg =>
    { cs := seg + 1
      start := read_word_at f (pos + 8 * seg) <<< align
      length := read_word_at f (pos + 8 * seg + 2)
      flags := read_word_at f (pos + 8 * seg + 4)
      min_alloc := read_word_at f (pos + 8 * seg + 6)
      instr_flags := List.replicate (read_word_at f (pos + 8 * seg + 6)) 0
      reloc_table := [] } :: read_segment_table f align pos count (seg + 1)

/-- The inner loop of the first pass:
`for (o = 0; o < offset_count; o++) instr_flags[offsets[o]] |= INSTR_RELOC;`. -/
def mark_relocs (instr_flags : List Nat) : List Nat → Except Fault (List Nat)
  | [] => .ok instr_flags
  | o :: os =>
    match or_flag instr_flags o INSTR_RELOC with
    | .ok fl => mark_relocs fl os
    | .error e => .error e

/-- The loop over the relocation records of one segment in the first pass:
record `i` is read at `start + length + 2 + i*8` and its offsets are flagged;
`n` records remain. -/
def read_reloc_table (entry_table : List entry) (f : File) (fuel start length : Nat) :
    Nat → Nat → List Nat → Except Fault (List reloc × List Nat)
  | 0, _, fl => .ok ([], fl)
  | n + 1, i, fl =>
    match read_reloc entry_table f (start + length + 2 + i * 8) start length fuel with
    | .error e => .error e
    | .ok r =>
      match mark_relocs fl r.offsets with
      | .error e => .error e
      | .ok fl1 =>
        match read_reloc_table entry_table f fuel start length n (i + 1) fl1 with
        | .error e => .error e
        | .ok (rs, fl2) => .ok (r :: rs, fl2)

/-- The body of the first pass of `print_segments` for one segment. -/
def first_pass_segment (entry_table : List entry) (f : File) (fuel : Nat) (seg : segment) :
    Except Fault segment :=
  let reloc_count := read_word_at f (seg.start + seg.length)
  match read_reloc_table entry_table f fuel seg.start seg.length reloc_count 0
      seg.instr_flags with
  | .error e => .error e
  | .ok (rs, fl) => .ok { seg with reloc_table := rs, instr_flags := fl }

/-- The first pass of `print_segments`: "just read the relocation data". -/
def print_segments_first_pass (entry_table : List entry) (f : File) (fuel : Nat) :
    List segment → Except Fault (List segment)
  | [] => .ok []
  | seg :: segs =>
    match first_pass_segment entry_table f fuel seg with
    | .error e => .error e
    | .ok seg1 =>
      match print_segments_first_pass entry_table f fuel segs with
      | .error e => .error e
      | .ok segs1 => .ok (seg1 :: segs1)

/-! ## Decoded instructions (`x86_instr.h`) -/

/-- Modelled from the spec: the operand roles, `enum arg` of `x86_instr.h`
(not among the sources), with the names under which the specification and
`ne_segment.c` use them. -/
inductive arg where
  | NONE | ONE
  | AL | CL | DL | BL | AH | CH | DH | BH
  | AX | CX | DX | BX | SP | BP | SI | DI
  | ES | CS | SS | DS | FS | GS
  | ALS | AXS | DXS
  | IMM8 | IMM16 | IMM
  | REL8 | REL16
  | PTR32
  | MOFFS16
  | DSBX | DSSI | ESDI
  | RM | MEM | REG | REG32 | SEG16 | CR32 | DR32 | TR32 | ST | STX
  deriving DecidableEq, Repr

/-- Modelled from the spec: the ModR/M disposition of a decoded instruction
(`DISP_NONE`, `DISP_8`, `DISP_16`, `DISP_REG` of `x86_instr.h`). -/
inductive disptype where
  | DISP_NONE | DISP_8 | DISP_16 | DISP_REG
  deriving DecidableEq, Repr

/-- Modelled from the spec: `op_info` of `x86_instr.h` (not among the sources). -/
structure op_info where
  opcode : Nat := 0
  subcode : Nat := 0
  size : Nat := 0
  name : String := ""
  arg0 : arg := arg.NONE
  arg1 : arg := arg.NONE
  flags : Nat := 0
  deriving DecidableEq, Repr

/-- Modelled from the spec: `instr_info` of `x86_instr.h` (not among the
sources); `prefix_bits` is its field `prefix`, the operand values are `dword`s. -/
structure instr_info where
  prefix_bits : Nat := 0
  op : op_info := {}
  arg0 : Nat := 0
  arg1 : Nat := 0
  arg2 : Nat := 0
  modrm_disp : disptype := disptype.DISP_NONE
  modrm_reg : Nat := 0
  sib_scale : Nat := 0
  sib_index : Nat := 0
  addrsize : Nat := 0
  deriving DecidableEq, Repr

/-- The decoder `get_instr(cs, ip, p, &instr, is32)` of `x86_instr.c`, which is
not among the sources: it is a parameter of the scanner.  It yields the
decoded record and the number of bytes consumed. -/
abbrev Decoder := Nat → Nat → List Nat → Nat → instr_info × Nat

/-! ## `scan_segment` -/

/-- The element `segments[cs-1]` of the global segment list. -/
def get_segment (segments : List segment) (cs : Nat) : Option segment :=
  if cs = 0 then none else segments[cs - 1]?

/-- The statement `segments[cs-1].instr_flags[i] |= bit`. -/
def set_flag (segments : List segment) (cs i bit : Nat) : Except Fault (List segment) :=
  match get_segment segments cs with
  | none => .error .out_of_bounds
  | some seg =>
    match or_flag seg.instr_flags i bit with
    | .error e => .error e
    | .ok fl => .ok (segments.set (cs - 1) { seg with instr_flags := fl })

/-- The flag byte `segments[cs-1].instr_flags[i]`, when it is allocated. -/
def flag_at (segments : List segment) (cs i : Nat) : Option Nat :=
  match get_segment segments cs with
  | none => none
  | some seg => seg.instr_flags[i]?

/-- The loop `for (i = 0; i < instr_length; i++) seg->instr_flags[ip+i] |= INSTR_SCANNED;`
with `n` iterations left and `i` the next index `ip+i`. -/
def mark_scanned (cs : Nat) : Nat → Nat → List segment → Except Fault (List segment)
  | 0, _, segments => .ok segments
  | n + 1, i, segments =>
    match set_flag segments cs i INSTR_SCANNED with
    | .error e => .error e
    | .ok segments1 => mark_scanned cs n (i + 1) segments1

/-- The 16-byte buffer handed to the decoder: zeroed, then filled with the
bytes of the segment from `ip` on, at most `MAX_INSTR` and at most up to the
end of the segment. -/
def read_instr_buffer (f : File) (seg : segment) (ip : Nat) : List Nat :=
  (List.range MAX_INSTR).map fun i =>
    if i < seg.length - ip then read_byte_at f (seg.start + ip + i) else 0

/-- The search `for (i = ip; i < ip+instr_length; i++) if (instr_flags[i] & INSTR_RELOC)`:
the first flagged index among the `n` indices from `i` on.  (Every index
looked at was written by the marking loop just before.) -/
def first_reloc_byte (instr_flags : List Nat) : Nat → Nat → Option Nat
  | 0, _ => none
  | n + 1, i =>
    if instr_flags.getD i 0 &&& INSTR_RELOC ≠ 0 then some i
    else first_reloc_byte instr_flags n (i + 1)

/-- The marking of a far target: `INSTR_FAR`, then `INSTR_FUNC` for a `call`
and `INSTR_JUMP` otherwise, on `segments[target_segment-1].instr_flags[offset]`. -/
def far_mark (segments : List segment) (target_segment offset : Nat) (name : String) :
    Except Fault (List segment) :=
  match set_flag segments target_segment offset INSTR_FAR with
  | .error e => .error e
  | .ok segments1 =>
    set_flag segments1 target_segment offset
      (if name = "call" then INSTR_FUNC else INSTR_JUMP)

/-- The control-transfer part of the loop body of `scan_segment`, without the
recursive call: the flags it sets on the target and the `(cs, ip)` that
`scan_segment` is then called on, if any.  `segments` is the state after the
instruction at `cs:ip` has been marked. -/
def scan_transfer (segments : List segment) (cs ip : Nat) (instr : instr_info)
    (instr_length : Nat) : Except Fault (List segment × Option (Nat × Nat)) :=
  if instr.op.arg0 = arg.PTR32 then
    match get_segment segments cs with
    | none => .error .out_of_bounds
    | some seg =>
      match first_reloc_byte seg.instr_flags instr_length ip with
      | none => .ok (segments, none)
      | some i =>
        match get_reloc i seg.reloc_table with
        | none => .error .out_of_bounds
        | some r =>
          if r.type ≠ 0 then .ok (segments, none)
          else if r.size = 3 then
            match far_mark segments r.target_segment r.target_offset instr.op.name with
            | .error e => .error e
            | .ok segments1 => .ok (segments1, some (r.target_segment, r.target_offset))
          else if r.size = 2 then
            match far_mark segments r.target_segment instr.arg0 instr.op.name with
            | .error e => .error e
            | .ok segments1 => .ok (segments1, some (r.target_segment, instr.arg0 % 65536))
          else .ok (segments, none)
  else if instr.op.arg0 = arg.REL8 ∨ instr.op.arg0 = arg.REL16 then
    match set_flag segments cs instr.arg0
        (if instr.op.name = "call" then INSTR_FUNC else INSTR_JUMP) with
    | .error e => .error e
    | .ok segments1 => .ok (segments1, some (cs, instr.arg0 % 65536))
  else .ok (segments, none)

/-- Whether the loop body of `scan_segment` ends in `return` after the
transfer: a `jmp` in each of the three branches on the operand role, a `ret`
in the last one only. -/
def scan_returns (instr : instr_info) : Bool :=
  if instr.op.arg0 = arg.PTR32 then instr.op.name = "jmp"
  else if instr.op.arg0 = arg.REL8 ∨ instr.op.arg0 = arg.REL16 then instr.op.name = "jmp"
  else if instr.op.name = "jmp" then true
  else if instr.op.name = "ret" then true
  else false

/-- The decoder call of `scan_segment` at `cs:ip` of segment `seg`. -/
def decode_at (get_instr : Decoder) (f : File) (seg : segment) (cs ip : Nat) :
    instr_info × Nat :=
  get_instr cs ip (read_instr_buffer f seg ip) (seg.flags &&& 0x2000)

/-- `scan_segment(cs, ip)` on the global segment list.  One unit of fuel is
spent per call and per iteration of the `while` loop; the test `ip >= length`
on entry and the loop condition are the same test, so an iteration is modelled
as a call at the advanced `ip` (the warnings have no effect on the state).
The `word` variable `ip` wraps at 2^16 when it is advanced; `instr.arg0` is a
`dword` that indexes the flags as it is and is truncated to a `word` when it
is passed on as `ip`. -/
def scan_segment (get_instr : Decoder) (f : File) :
    Nat → List segment → Nat → Nat → Except Fault (List segment)
  | 0, _, _, _ => .error .out_of_fuel
  | fuel + 1, segments, cs, ip =>
    match get_segment segments cs with
    | none => .error .out_of_bounds
    | some seg =>
      if ip ≥ seg.length then .ok segments
      else
        match seg.instr_flags[ip]? with
        | none => .error .out_of_bounds
        | some fl =>
          if fl &&& INSTR_SCANNED ≠ 0 then .ok segments
          else
            let instr := (decode_at get_instr f seg cs ip).1
            let instr_length := (decode_at get_instr f seg cs ip).2
            match set_flag segments cs ip INSTR_VALID with
            | .error e => .error e
            | .ok segments1 =>
              match mark_scanned cs instr_length ip segments1 with
              | .error e => .error e
              | .ok segments2 =>
                match scan_transfer segments2 cs ip instr instr_length with
                | .error e => .error e
                | .ok (segments3, target) =>
                  match (match target with
                    | none => Except.ok segments3
                    | some (tcs, tip) => scan_segment get_instr f fuel segments3 tcs tip) with
                  | .error e => .error e
                  | .ok segments4 =>
                    if scan_returns instr then .ok segments4
                    else scan_segment get_instr f fuel segments4 cs
                      ((ip + instr_length) % 65536)

/-! ## Reading the flag state -/

/-- Whether the flag byte of `cs:i` is allocated and has a bit of `bit` set. -/
def has_flag (segments : List segment) (cs i bit : Nat) : Bool :=
  match flag_at segments cs i with
  | some v => v &&& bit != 0
  | none => false

/-- A segment with its flag bytes cleared: everything the scan never changes
(the fields read from the file, the relocation table, the size of the flag
array). -/
def skeleton (seg : segment) : segment :=
  { seg with instr_flags := List.replicate seg.instr_flags.length 0 }

/-- The runs of `scan_segment` as a relation between the state before and the
state after: `Scan st (some (cs, ip)) st1` is a run of `scan_segment(cs, ip)`
that returns, `Scan st none st1` is the empty run. -/
inductive Scan (get_instr : Decoder) (f : File) :
    List segment → Option (Nat × Nat) → List segment → Prop
  | skip (st : List segment) : Scan get_instr f st none st
  | past_end (st : List segment) (cs ip : Nat) (seg : segment) :
    get_segment st cs = some seg → seg.length ≤ ip →
    Scan get_instr f st (some (cs, ip)) st
  | seen (st : List segment) (cs ip : Nat) (seg : segment) (fl : Nat) :
    get_segment st cs = some seg → ip < seg.length →
    seg.instr_flags[ip]? = some fl → fl &&& INSTR_SCANNED ≠ 0 →
    Scan get_instr f st (some (cs, ip)) st
  | step (st st1 st2 st3 st4 st5 : List segment) (cs ip : Nat) (seg : segment) (fl : Nat)
      (target : Option (Nat × Nat)) :
    get_segment st cs = some seg → ip < seg.length →
    seg.instr_flags[ip]? = some fl → fl &&& INSTR_SCANNED = 0 →
    set_flag st cs ip INSTR_VALID = .ok st1 →
    mark_scanned cs (decode_at get_instr f seg cs ip).2 ip st1 = .ok st2 →
    scan_transfer st2 cs ip (decode_at get_instr f seg cs ip).1
      (decode_at get_instr f seg cs ip).2 = .ok (st3, target) →
    Scan get_instr f st3 target st4 →
    Scan get_instr f st4
      (if scan_returns (decode_at get_instr f seg cs ip).1 then none
       else some (cs, (ip + (decode_at get_instr f seg cs ip).2) % 65536)) st5 →
    Scan get_instr f st (some (cs, ip)) st5

/-! ## `print_segments`: the scan of the entry points -/

/-- The loop over the entry table in the second pass of `print_segments`. -/
def scan_entries (get_instr : Decoder) (f : File) (fuel : Nat) :
    List entry → List segment → Except Fault (List segment)
  | [], segments => .ok segments
  | e :: es, segments =>
    if e.segment = 0xfe then scan_entries get_instr f fuel es segments
    else if e.flags &&& 1 = 0 then scan_entries get_instr f fuel es segments
    else
      match scan_segment get_instr f fuel segments e.segment e.offset with
      | .error err => .error err
      | .ok segments1 =>
        match set_flag segments1 e.segment e.offset INSTR_FUNC with
        | .error err => .error err
        | .ok segments2 => scan_entries get_instr f fuel es segments2

/-- The scan of the program entry point `entry_cs:entry_ip` in the second pass. -/
def scan_program_entry (get_instr : Decoder) (f : File) (fuel entry_cs entry_ip : Nat)
    (segments : List segment) : Except Fault (List segment) :=
  match get_segment segments entry_cs with
  | none => .error .out_of_bounds
  | some seg =>
    if entry_ip ≥ seg.length then .ok segments
    else
      match set_flag segments entry_cs entry_ip INSTR_FUNC with
      | .error e => .error e
      | .ok segments1 => scan_segment get_instr f fuel segments1 entry_cs entry_ip

/-- The second pass of `print_segments`: "scan entry points". -/
def print_segments_second_pass (get_instr : Decoder) (f : File) (fuel : Nat)
    (entry_table : List entry) (entry_cs entry_ip : Nat) (segments : List segment) :
    Except Fault (List segment) :=
  match scan_entries get_instr f fuel entry_table segments with
  | .error e => .error e
  | .ok segments1 => scan_program_entry get_instr f fuel entry_cs entry_ip segments1

/-! ## Flag states of the scan -/

/-- The initial flag state of the scan: every allocated flag byte is zero or
carries `INSTR_RELOC` only. -/
def initial_flags (st : List segment) : Prop :=
  ∀ c j v, flag_at st c j = some v → v = 0 ∨ v = INSTR_RELOC

/-- The flag states reachable from an initial state by calls of
`scan_segment` that return and by the `INSTR_FUNC` markings of the driver. -/
inductive reachable_state (get_instr : Decoder) (f : File) : List segment → Prop
  | init (st : List segment) : initial_flags st → reachable_state get_instr f st
  | scan (st st1 : List segment) (fuel cs ip : Nat) :
    reachable_state get_instr f st →
    scan_segment get_instr f fuel st cs ip = .ok st1 →
    reachable_state get_instr f st1
  | func (st st1 : List segment) (cs ip : Nat) :
    reachable_state get_instr f st →
    set_flag st cs ip INSTR_FUNC = .ok st1 →
    reachable_state get_instr f st1

/-! ## The roots of the scan, as the specification words them -/

/-- An entry is a root when it is not a constant (`segment != 0xFE`) and is
exported (`flags` bit 0 set). -/
def is_root (e : entry) : Bool := e.segment != 0xfe && (e.flags &&& 1) != 0

/-- What the driver does for a root of the entry table: a scan from its
target, then `FUNC` on its byte. -/
def scan_root (get_instr : Decoder) (f : File) (fuel : Nat) (e : entry)
    (st : List segment) : Except Fault (List segment) :=
  match scan_segment get_instr f fuel st e.segment e.offset with
  | .error err => .error err
  | .ok st1 => set_flag st1 e.segment e.offset INSTR_FUNC

/-- The roots of a list handled one after the other. -/
def scan_roots (get_instr : Decoder) (f : File) (fuel : Nat) :
    List entry → List segment → Except Fault (List segment)
  | [], st => .ok st
  | e :: es, st =>
    match scan_root get_instr f fuel e st with
    | .error err => .error err
    | .ok st1 => scan_roots get_instr f fuel es st1

/-! ## Reachability, as the specification words it -/

/-- The `(cs, ip)` that the transfer part of the loop body hands to the
recursive call, read off the decoded instruction, the relocation table and
the `RELOC` flags of the segment alone. -/
def transfer_target (seg : segment) (cs ip : Nat) (instr : instr_info) (instr_length : Nat) :
    Option (Nat × Nat) :=
  if instr.op.arg0 = arg.PTR32 then
    match first_reloc_byte seg.instr_flags instr_length ip with
    | none => none
    | some i =>
      match get_reloc i seg.reloc_table with
      | none => none
      | some r =>
        if r.type ≠ 0 then none
        else if r.size = 3 then some (r.target_segment, r.target_offset)
        else if r.size = 2 then some (r.target_segment, instr.arg0 % 65536)
        else none
  else if instr.op.arg0 = arg.REL8 ∨ instr.op.arg0 = arg.REL16 then
    some (cs, instr.arg0 % 65536)
  else none

/-- The byte `c:j`, if it lies inside its segment, carries `SCANNED`. -/
def scanned_if_inside (st : List segment) (c j : Nat) : Prop :=
  ∀ seg, get_segment st c = some seg → j < seg.length →
    has_flag st c j INSTR_SCANNED = true

/-- The instruction at `c:j` is closed in the state `st`: all its bytes carry
`SCANNED`, and so do the place the scanner goes on at after it and the place
it transfers to, when they lie inside their segments. -/
def closed (get_instr : Decoder) (f : File) (st : List segment) (c j : Nat) : Prop :=
  ∀ seg, get_segment st c = some seg →
    (∀ k, k < (decode_at get_instr f seg c j).2 →
      has_flag st c (j + k) INSTR_SCANNED = true) ∧
    (scan_returns (decode_at get_instr f seg c j).1 = false →
      scanned_if_inside st c ((j + (decode_at get_instr f seg c j).2) % 65536)) ∧
    (∀ tc tj, transfer_target seg c j (decode_at get_instr f seg c j).1
        (decode_at get_instr f seg c j).2 = some (tc, tj) →
      scanned_if_inside st tc tj)

/-- The roots of the driver: the targets of the root entries and the program
entry point. -/
def scan_root_list (entry_table : List entry) (entry_cs entry_ip : Nat) : List (Nat × Nat) :=
  (entry_table.filter is_root).map (fun e => (e.segment, e.offset)) ++ [(entry_cs, entry_ip)]

/-- The instructions reachable from the roots: the least relation that holds
the roots inside their segment and is closed under the fall-through successor
of an instruction that is neither `jmp` nor `ret`, the `arg0` target of a
`REL8`/`REL16` instruction in the same segment, and the target of a `PTR32`
instruction whose first `RELOC`-flagged byte is covered by an Internal
relocation of size 3 (target of the relocation) or 2 (segment of the
relocation, offset `arg0`), every target taken inside its segment's length. -/
inductive reachable_instr (get_instr : Decoder) (f : File) (st : List segment)
    (roots : List (Nat × Nat)) : Nat → Nat → Prop
  | root (cs ip : Nat) (seg : segment) :
    (cs, ip) ∈ roots → get_segment st cs = some seg → ip < seg.length →
    reachable_instr get_instr f st roots cs ip
  | fall (cs ip : Nat) (seg : segment) :
    reachable_instr get_instr f st roots cs ip → get_segment st cs = some seg →
    (decode_at get_instr f seg cs ip).1.op.name ≠ "jmp" →
    (decode_at get_instr f seg cs ip).1.op.name ≠ "ret" →
    ip + (decode_at get_instr f seg cs ip).2 < seg.length →
    reachable_instr get_instr f st roots cs (ip + (decode_at get_instr f seg cs ip).2)
  | near (cs ip : Nat) (seg : segment) :
    reachable_instr get_instr f st roots cs ip → get_segment st cs = some seg →
    ((decode_at get_instr f seg cs ip).1.op.arg0 = arg.REL8 ∨
      (decode_at get_instr f seg cs ip).1.op.arg0 = arg.REL16) →
    (decode_at get_instr f seg cs ip).1.arg0 < seg.length →
    reachable_instr get_instr f st roots cs (decode_at get_instr f seg cs ip).1.arg0
  | far3 (cs ip : Nat) (seg tseg : segment) (i : Nat) (r : reloc) :
    reachable_instr get_instr f st roots cs ip → get_segment st cs = some seg →
    (decode_at get_instr f seg cs ip).1.op.arg0 = arg.PTR32 →
    first_reloc_byte seg.instr_flags (decode_at get_instr f seg cs ip).2 ip = some i →
    get_reloc i seg.reloc_table = some r → r.type = 0 → r.size = 3 →
    get_segment st r.target_segment = some tseg → r.target_offset < tseg.length →
    reachable_instr get_instr f st roots r.target_segment r.target_offset
  | far2 (cs ip : Nat) (seg tseg : segment) (i : Nat) (r : reloc) :
    reachable_instr get_instr f st roots cs ip → get_segment st cs = some seg →
    (decode_at get_instr f seg cs ip).1.op.arg0 = arg.PTR32 →
    first_reloc_byte seg.instr_flags (decode_at get_instr f seg cs ip).2 ip = some i →
    get_reloc i seg.reloc_table = some r → r.type = 0 → r.size = 2 →
    get_segment st r.target_segment = some tseg →
    (decode_at get_instr f seg cs ip).1.arg0 < tseg.length →
    reachable_instr get_instr f st roots r.target_segment
      (decode_at get_instr f seg cs ip).1.arg0

/-- The state `st1` extends the state `st`: same skeleton, no flag bit
cleared, `RELOC` bits unchanged. -/
def extends_state (st st1 : List segment) : Prop :=
  st1.map skeleton = st.map skeleton ∧
  (∀ c j m, has_flag st c j m = true → has_flag st1 c j m = true) ∧
  (∀ c j, has_flag st1 c j INSTR_RELOC = has_flag st c j INSTR_RELOC)

/-! ## The printer: tables and formats -/

/-- The assembler syntax, the global `asm_syntax` of `ne.h` with its values
`GAS`, `NASM`, `MASM`. -/
inductive asm_dialect where
  | GAS | NASM | MASM
  deriving DecidableEq, Repr

/-- The bit masks of `x86_instr.h` that the printer tests in the fields
`prefix` and `op.flags` of a decoded instruction.  The header is not among the
sources: the masks are a parameter of the printer. -/
structure instr_consts where
  PREFIX_SEG_MASK : Nat
  PREFIX_OP32 : Nat
  PREFIX_ADDR32 : Nat
  PREFIX_LOCK : Nat
  PREFIX_REPNE : Nat
  PREFIX_REPE : Nat
  OP_ARG2_IMM : Nat
  OP_ARG2_IMM8 : Nat
  OP_ARG2_CL : Nat
  OP_LOCK : Nat
  OP_REPNE : Nat
  OP_REPE : Nat
  OP_STACK : Nat
  OP_STRING : Nat
  OP_FAR : Nat
  OP_S : Nat
  OP_L : Nat
  OP_LL : Nat
  deriving DecidableEq, Repr

/-- The upper-case form of a hexadecimal digit. -/
def upper_hex (c : Char) : Char :=
  if c = 'a' then 'A' else if c = 'b' then 'B' else if c = 'c' then 'C'
  else if c = 'd' then 'D' else if c = 'e' then 'E' else if c = 'f' then 'F' else c

/-- The conversion `%0<width>x` of `printf`: lower-case hexadecimal digits,
padded with zeros on the left up to `width`. -/
def fmt_x (width n : Nat) : String :=
  String.mk (List.replicate (width - (Nat.toDigits 16 n).length) '0' ++ Nat.toDigits 16 n)

/-- The conversion `%0<width>X` of `printf`: as `fmt_x`, in upper case. -/
def fmt_X (width n : Nat) : String :=
  String.mk ((List.replicate (width - (Nat.toDigits 16 n).length) '0' ++ Nat.toDigits 16 n).map
    upper_hex)

/-- The conversion `%d` of `printf` on a value that is not negative. -/
def fmt_d (n : Nat) : String := String.mk (Nat.toDigits 10 n)

/-- The conversion `%4d` of `printf` on a value that is not negative: padded
with blanks on the left up to 4 characters. -/
def fmt_4d (n : Nat) : String :=
  String.mk (List.replicate (4 - (Nat.toDigits 10 n).length) ' ' ++ Nat.toDigits 10 n)

/-- The bounded copy `snprintf(arg, sizeof(arg), ...)` into a buffer of 32
bytes: the first 31 characters of the formatted text. -/
def snprintf32 (s : String) : String := String.mk (s.data.take 31)

/-- The text that `strcat(out, "0"); out[strlen(out)-1] = '0' + value;` adds to
`out`: one character, the sum taken as a byte; the byte 0 ends the string, so
that nothing is added. -/
def digit_char (value : Nat) : String :=
  if (48 + value) % 256 = 0 then "" else String.singleton (Char.ofNat ((48 + value) % 256))

/-- The table `seg16`. -/
def seg16 : List String := ["es", "cs", "ss", "ds", "fs", "gs"]

/-- The table `reg8`. -/
def reg8 : List String := ["al", "cl", "dl", "bl", "ah", "ch", "dh", "bh"]

/-- The table `reg16`. -/
def reg16 : List String := ["ax", "cx", "dx", "bx", "sp", "bp", "si", "di", ""]

/-- The table `modrm16_gas`. -/
def modrm16_gas : List String :=
  ["%bx,%si", "%bx,%di", "%bp,%si", "%bp,%di", "%si", "%di", "%bp", "%bx"]

/-- The table `modrm16_masm`. -/
def modrm16_masm : List String :=
  ["bx+si", "bx+di", "bp+si", "bp+di", "si", "di", "bp", "bx"]

/-- The text that `get_seg16(out, reg)` appends to `out`; the parameter is a
`byte`, an index beyond the table is a fault. -/
def get_seg16 (asm : asm_dialect) (reg : Nat) : Except Fault String :=
  match seg16[reg % 256]? with
  | none => .error .out_of_bounds
  | some s => .ok ((if asm = asm_dialect.GAS then "%" else "") ++ s)

/-- The text that `get_reg8(out, reg)` appends to `out`; the parameter is a
`byte`, an index beyond the table is a fault. -/
def get_reg8 (asm : asm_dialect) (reg : Nat) : Except Fault String :=
  match reg8[reg % 256]? with
  | none => .error .out_of_bounds
  | some s => .ok ((if asm = asm_dialect.GAS then "%" else "") ++ s)

/-- The text that `get_reg16(out, reg, is32)` appends to `out`; the parameter
`reg` is a `byte`, nothing is appended when it exceeds 7. -/
def get_reg16 (asm : asm_dialect) (reg : Nat) (is32 : Bool) : String :=
  if reg % 256 ≤ 7 then
    (if asm = asm_dialect.GAS then "%" else "") ++ (if is32 then "e" else "")
      ++ reg16.getD (reg % 256) ""
  else ""

/-- Modelled from the spec: the position `argtype - AL` of a role of the range
`AL..BH` of `enum arg`, whose order is that of the table `reg8`. -/
def reg8_index : arg → Option Nat
  | arg.AL => some 0 | arg.CL => some 1 | arg.DL => some 2 | arg.BL => some 3
  | arg.AH => some 4 | arg.CH => some 5 | arg.DH => some 6 | arg.BH => some 7
  | _ => none

/-- Modelled from the spec: the position `argtype - AX` of a role of the range
`AX..DI` of `enum arg`, whose order is that of the table `reg16`. -/
def reg16_index : arg → Option Nat
  | arg.AX => some 0 | arg.CX => some 1 | arg.DX => some 2 | arg.BX => some 3
  | arg.SP => some 4 | arg.BP => some 5 | arg.SI => some 6 | arg.DI => some 7
  | _ => none

/-- Modelled from the spec: the position `argtype - ES` of a role of the range
`ES..GS` of `enum arg`, whose order is that of the table `seg16`. -/
def seg16_index : arg → Option Nat
  | arg.ES => some 0 | arg.CS => some 1 | arg.SS => some 2 | arg.DS => some 3
  | arg.FS => some 4 | arg.GS => some 5
  | _ => none

/-- The first statement of `print_arg`: the register named by a role of one
of the three register ranges, nothing for another role. -/
def print_arg_register (asm : asm_dialect) (argtype : arg) (instr : instr_info) :
    Except Fault String :=
  match reg8_index argtype with
  | some k => get_reg8 asm k
  | none =>
    match reg16_index argtype with
    | some k => .ok (get_reg16 asm k (instr.op.size = 32))
    | none =>
      match seg16_index argtype with
      | some k => get_seg16 asm k
      | none => .ok ""

/-- The text of the segment override of an instruction followed by a colon,
nothing when the instruction has none:
`if (instr->prefix & PREFIX_SEG_MASK) { get_seg16(out, (instr->prefix & PREFIX_SEG_MASK)-1); strcat(out, ":"); }`. -/
def seg_override (K : instr_consts) (asm : asm_dialect) (instr : instr_info) :
    Except Fault String :=
  if instr.prefix_bits &&& K.PREFIX_SEG_MASK ≠ 0 then
    match get_seg16 asm ((instr.prefix_bits &&& K.PREFIX_SEG_MASK) - 1) with
    | .error e => .error e
    | .ok s => .ok (s ++ ":")
  else .ok ""

/-- A displacement of `bits` bits printed with its sign: the value is taken as
a signed integer of that width; `neg` and `pos` are the texts in front of the
magnitude, which is printed by `fmt` with `digits` digits. -/
def signed_disp (fmt : Nat → Nat → String) (neg pos : String) (digits bits value : Nat) :
    String :=
  if value % 2 ^ bits ≥ 2 ^ (bits - 1) then neg ++ fmt digits (2 ^ bits - value % 2 ^ bits)
  else pos ++ fmt digits (value % 2 ^ bits)

/-- The registers between the brackets of a memory operand in GAS syntax:
the entry of `modrm16_gas` under 16-bit addressing, otherwise the base
register, followed by index and scale when `sib_index` is not 0. -/
def print_arg_mem_gas_base (instr : instr_info) : Except Fault String :=
  if instr.addrsize = 16 then
    match modrm16_gas[instr.modrm_reg]? with
    | none => .error .out_of_bounds
    | some s => .ok s
  else
    .ok (get_reg16 asm_dialect.GAS instr.modrm_reg true ++
      (if instr.sib_index ≠ 0 then
        "," ++ get_reg16 asm_dialect.GAS instr.sib_index true ++ "," ++ digit_char instr.sib_scale
      else ""))

/-- The branch `asm_syntax == GAS` of the cases `RM` and `MEM` of `print_arg`
for a memory operand. -/
def print_arg_mem_gas (K : instr_consts) (value : Nat) (instr : instr_info) :
    Except Fault String :=
  match seg_override K asm_dialect.GAS instr with
  | .error e => .error e
  | .ok sg =>
    let head := (if instr.op.opcode = 0xFF ∧ 2 ≤ instr.op.subcode ∧ instr.op.subcode ≤ 5
      then "*" else "") ++ sg
    if instr.modrm_disp = disptype.DISP_8 then
      match print_arg_mem_gas_base instr with
      | .error e => .error e
      | .ok base => .ok (head ++ signed_disp fmt_x "-0x" "0x" 2 8 value ++ "(" ++ base ++ ")")
    else if instr.modrm_disp = disptype.DISP_16 ∧ instr.addrsize = 16 then
      if instr.modrm_reg = 8 then .ok (head ++ "0x" ++ fmt_x 4 value)
      else
        match print_arg_mem_gas_base instr with
        | .error e => .error e
        | .ok base => .ok (head ++ signed_disp fmt_x "-0x" "0x" 4 16 value ++ "(" ++ base ++ ")")
    else if instr.modrm_disp = disptype.DISP_16 ∧ instr.addrsize = 32 then
      if instr.modrm_reg = 8 then .ok (head ++ "0x" ++ fmt_x 8 value)
      else
        match print_arg_mem_gas_base instr with
        | .error e => .error e
        | .ok base => .ok (head ++ signed_disp fmt_x "-0x" "0x" 8 32 value ++ "(" ++ base ++ ")")
    else
      match print_arg_mem_gas_base instr with
      | .error e => .error e
      | .ok base => .ok (head ++ "(" ++ base ++ ")")

/-- The branch for NASM and MASM of the cases `RM` and `MEM` of `print_arg`
for a memory operand. -/
def print_arg_mem_nasm (K : instr_consts) (asm : asm_dialect) (value : Nat)
    (instr : instr_info) : Except Fault String :=
  match seg_override K asm instr with
  | .error e => .error e
  | .ok sg =>
    .ok ((if instr.op.flags &&& K.OP_FAR ≠ 0 then "far "
        else if instr.op.arg0 ≠ arg.REG ∧ instr.op.arg1 ≠ arg.REG then
          (if instr.op.size = 8 then "byte " else if instr.op.size = 16 then "word "
            else if instr.op.size = 32 then "dword " else if instr.op.size = 64 then "qword "
            else if instr.op.size = 80 then "tword " else "")
          ++ (if asm = asm_dialect.MASM then "ptr " else "")
        else "")
      ++ (if asm = asm_dialect.NASM then "[" else "")
      ++ sg
      ++ (if asm = asm_dialect.MASM then "[" else "")
      ++ (if instr.sib_scale ≠ 0 ∧ instr.sib_index < 8 then
          get_reg16 asm instr.sib_index true ++ "*" ++ digit_char instr.sib_scale else "")
      ++ (if instr.modrm_reg < 8 then
          (if instr.sib_scale ≠ 0 ∧ instr.sib_index < 8 then "+" else "")
          ++ (if instr.addrsize = 16 then modrm16_masm.getD instr.modrm_reg ""
            else get_reg16 asm instr.modrm_reg true)
        else "")
      ++ (if instr.modrm_disp = disptype.DISP_8 then signed_disp fmt_X "-" "+" 2 8 value ++ "h"
        else if instr.modrm_disp = disptype.DISP_16 ∧ instr.addrsize = 16 then
          (if instr.modrm_reg = 8 ∧ ¬ (instr.sib_scale ≠ 0 ∧ instr.sib_index < 8)
            then fmt_X 4 value ++ "h" else signed_disp fmt_X "-" "+" 4 16 value ++ "h")
        else if instr.modrm_disp = disptype.DISP_16 ∧ instr.addrsize = 32 then
          (if instr.modrm_reg = 8 ∧ ¬ (instr.sib_scale ≠ 0 ∧ instr.sib_index < 8)
            then fmt_X 8 value ++ "h" else signed_disp fmt_X "-" "+" 8 32 value ++ "h")
        else "")
      ++ "]")

/-- The value `(word) (int8_t) value`: the low byte, sign-extended to 16 bits. -/
def sext8_word (value : Nat) : Nat :=
  if value % 256 < 128 then value % 256 else value % 256 + 0xFF00

/-- The value `(dword) (int8_t) value`: the low byte, sign-extended to 32 bits. -/
def sext8_dword (value : Nat) : Nat :=
  if value % 256 < 128 then value % 256 else value % 256 + 0xFFFFFF00

/-- `print_arg`: the text of one operand and whether `*usedmem` is set.  The
parameters `cs` and `ip` only serve the warnings and are left out.  The roles
of the three register ranges have no case of their own in the `switch`: they
are printed by the statement in front of it, which prints nothing for the
roles that have one. -/
def print_arg (K : instr_consts) (asm : asm_dialect) (value : Nat) (argtype : arg)
    (instr : instr_info) : Except Fault (String × Bool) :=
  match argtype with
  | arg.ONE => .ok (if asm = asm_dialect.GAS then "$0x1" else "1h", false)
  | arg.IMM8 =>
    if instr.op.flags &&& K.OP_STACK ≠ 0 then
      if instr.op.size = 32 then
        .ok (if asm = asm_dialect.GAS then "$0x" ++ fmt_x 8 (sext8_dword value)
          else "dword " ++ fmt_X 8 (sext8_dword value) ++ "h", false)
      else
        .ok (if asm = asm_dialect.GAS then "$0x" ++ fmt_x 4 (sext8_word value)
          else "word " ++ fmt_X 4 (sext8_word value) ++ "h", false)
    else
      .ok (if asm = asm_dialect.GAS then "$0x" ++ fmt_x 2 value
        else fmt_X 2 value ++ "h", false)
  | arg.IMM16 =>
    .ok (if asm = asm_dialect.GAS then "$0x" ++ fmt_x 4 value else fmt_X 4 value ++ "h", false)
  | arg.IMM =>
    if instr.op.flags &&& K.OP_STACK ≠ 0 then
      if instr.op.size = 32 then
        .ok (if asm = asm_dialect.GAS then "$0x" ++ fmt_x 8 value
          else "dword " ++ fmt_X 8 value ++ "h", false)
      else
        .ok (if asm = asm_dialect.GAS then "$0x" ++ fmt_x 4 value
          else "word " ++ fmt_X 4 value ++ "h", false)
    else if instr.op.size = 8 then
      .ok (if asm = asm_dialect.GAS then "$0x" ++ fmt_x 2 value else fmt_X 2 value ++ "h", false)
    else if instr.op.size = 16 then
      .ok (if asm = asm_dialect.GAS then "$0x" ++ fmt_x 4 value else fmt_X 4 value ++ "h", false)
    else if instr.op.size = 32 then
      .ok (if asm = asm_dialect.GAS then "$0x" ++ fmt_x 8 value else fmt_X 8 value ++ "h", false)
    else .ok ("", false)
  | arg.REL8 => .ok (fmt_x 4 value, false)
  | arg.REL16 => .ok (fmt_x 4 value, false)
  | arg.PTR32 => .ok ("", false)
  | arg.MOFFS16 =>
    .ok (if asm = asm_dialect.GAS then "0x" ++ fmt_x 4 value
      else "[" ++ fmt_X 4 value ++ "h]", true)
  | arg.DSBX =>
    if asm ≠ asm_dialect.NASM then
      match seg_override K asm instr with
      | .error e => .error e
      | .ok sg =>
        .ok (sg ++ (if asm = asm_dialect.GAS then "(%" else "[")
          ++ (if instr.prefix_bits &&& K.PREFIX_ADDR32 ≠ 0 then "e" else "") ++ "bx"
          ++ (if asm = asm_dialect.GAS then ")" else "]"), true)
    else .ok ("", true)
  | arg.DSSI =>
    if asm ≠ asm_dialect.NASM then
      match seg_override K asm instr with
      | .error e => .error e
      | .ok sg =>
        .ok (sg ++ (if asm = asm_dialect.GAS then "(%" else "[")
          ++ (if instr.prefix_bits &&& K.PREFIX_ADDR32 ≠ 0 then "e" else "") ++ "si"
          ++ (if asm = asm_dialect.GAS then ")" else "]"), true)
    else .ok ("", true)
  | arg.ESDI =>
    if asm ≠ asm_dialect.NASM then
      .ok ((if asm = asm_dialect.GAS then "%es:(%" else "es:[")
        ++ (if instr.prefix_bits &&& K.PREFIX_ADDR32 ≠ 0 then "e" else "") ++ "di"
        ++ (if asm = asm_dialect.GAS then ")" else "]"), true)
    else .ok ("", true)
  | arg.ALS => .ok (if asm = asm_dialect.GAS then "%al" else "", false)
  | arg.AXS => .ok (if asm = asm_dialect.GAS then "%ax" else "", false)
  | arg.DXS =>
    .ok (if asm = asm_dialect.GAS then "(%dx)"
      else if asm = asm_dialect.MASM then "dx" else "", false)
  | arg.RM | arg.MEM =>
    if instr.modrm_disp = disptype.DISP_REG then
      if instr.op.size = 8 then
        match get_reg8 asm instr.modrm_reg with
        | .error e => .error e
        | .ok s => .ok (s, false)
      else .ok (get_reg16 asm instr.modrm_reg (instr.op.size = 32), false)
    else
      match (if asm = asm_dialect.GAS then print_arg_mem_gas K value instr
        else print_arg_mem_nasm K asm value instr) with
      | .error e => .error e
      | .ok s => .ok (s, true)
  | arg.REG =>
    if instr.op.size = 8 ∨ instr.op.opcode = 0x0FB6 ∨ instr.op.opcode = 0x0FBE then
      match get_reg8 asm value with
      | .error e => .error e
      | .ok s => .ok (s, false)
    else if instr.op.opcode = 0x0FB7 ∨ instr.op.opcode = 0x0FBF then
      .ok (get_reg16 asm value false, false)
    else .ok (get_reg16 asm value (instr.op.size = 32), false)
  | arg.REG32 => .ok (get_reg16 asm value true, false)
  | arg.SEG16 =>
    match get_seg16 asm value with
    | .error e => .error e
    | .ok s => .ok (s, false)
  | arg.CR32 =>
    .ok ((if asm = asm_dialect.GAS then "%" else "") ++ "cr" ++ digit_char value, false)
  | arg.DR32 =>
    .ok ((if asm = asm_dialect.GAS then "%" else "") ++ "dr" ++ digit_char value, false)
  | arg.TR32 =>
    .ok ((if asm = asm_dialect.GAS then "%" else "") ++ "tr" ++ digit_char value, false)
  | arg.ST =>
    .ok ((if asm = asm_dialect.GAS then "%" else "") ++ "st"
      ++ (if asm = asm_dialect.NASM then "0" else ""), false)
  | arg.STX =>
    .ok ((if asm = asm_dialect.GAS then "%" else "") ++ "st"
      ++ (if asm ≠ asm_dialect.NASM then "(" else "") ++ digit_char value
      ++ (if asm ≠ asm_dialect.NASM then ")" else ""), false)
  | _ =>
    match print_arg_register asm argtype instr with
    | .error e => .error e
    | .ok s => .ok (s, false)

/-! ## The printer: `print_instr` -/

/-- An element of the `exports` of an imported module (`export` of `ne.h`);
`name` is a C string that may be `NULL`. -/
structure export_entry where
  ordinal : Nat
  name : Option String
  deriving DecidableEq, Repr

/-- An element of `import_module_table` (`import_module` of `ne.h`);
`export_count` is the length of `exports`. -/
structure import_module where
  name : String
  exports : List export_entry
  deriving DecidableEq, Repr

/-- The element `import_module_table[module-1]`, when it exists. -/
def get_module (import_module_table : List import_module) (module : Nat) :
    Option import_module :=
  if module = 0 then none else import_module_table[module - 1]?

/-- The loop of `get_imported_name` over the exports of a module. -/
def find_export (exports : List export_entry) (ordinal : Nat) : Option String :=
  match exports with
  | [] => none
  | e :: es => if e.ordinal = ordinal then e.name else find_export es ordinal

/-- `get_imported_name(module, ordinal)`: the name of the first export of the
module with that ordinal, `none` (the C `NULL`) when there is none. -/
def get_imported_name (import_module_table : List import_module) (module ordinal : Nat) :
    Except Fault (Option String) :=
  match get_module import_module_table module with
  | none => .error .out_of_bounds
  | some m => .ok (find_export m.exports ordinal)

/-- The characters that the conversion `%.*s` prints from position `i` of
the import name table with precision `n`: at most `n`, up to a byte 0. -/
def read_name (import_name_table : List Nat) : Nat → Nat → Except Fault (List Char)
  | 0, _ => .ok []
  | n + 1, i =>
    match import_name_table[i]? with
    | none => .error .out_of_bounds
    | some b =>
      if b = 0 then .ok []
      else
        match read_name import_name_table n (i + 1) with
        | .error e => .error e
        | .ok cs => .ok (Char.ofNat b :: cs)

/-- The text printed by `"%.*s"` for the arguments
`import_name_table[offset], &import_name_table[offset+1]`: the name whose
length byte stands at `offset`. -/
def import_name (import_name_table : List Nat) (offset : Nat) : Except Fault String :=
  match import_name_table[offset]? with
  | none => .error .out_of_bounds
  | some n =>
    match read_name import_name_table n (offset + 1) with
    | .error e => .error e
    | .ok cs => .ok (String.mk cs)

/-- The operand buffers `arg0`, `arg1`, `arg2` and the pointer `comment` of
`print_instr`. -/
structure operands where
  arg0 : String
  arg1 : String
  arg2 : String
  comment : Option String
  deriving DecidableEq, Repr

/-- The texts that the relocation `r` puts in the place of an operand: the
three cases `r->type == 0`, `1`, `2` of one branch of the relocation loop of
`print_instr`.  `internal` is the text for an internal target, `lead` the text
in front of the module name of an imported one.  The result is the new operand
text, if any, and the new comment, if any. -/
def reloc_text (import_module_table : List import_module) (import_name_table : List Nat)
    (r : reloc) (module : String) (internal : String) (internal_comment : Option (Option String))
    (lead : String) : Except Fault (Option String × Option (Option String)) :=
  if r.type = 0 then .ok (some internal, internal_comment)
  else if r.type = 1 then
    match get_imported_name import_module_table r.target_segment r.target_offset with
    | .error e => .error e
    | .ok c => .ok (some (snprintf32 (lead ++ module ++ "." ++ fmt_d r.target_offset)), some c)
  else if r.type = 2 then
    match import_name import_name_table r.target_offset with
    | .error e => .error e
    | .ok n => .ok (some (snprintf32 (lead ++ module ++ "." ++ n)), none)
  else .ok (none, none)

/-- The first statement of the body of the relocation loop of `print_instr`:
`if (r->type == 1 || r->type == 2) module = import_module_table[r->target_segment-1].name;`
(the variable is not read for another type). -/
def reloc_module (import_module_table : List import_module) (r : reloc) : Except Fault String :=
  if r.type = 1 ∨ r.type = 2 then
    match get_module import_module_table r.target_segment with
    | none => .error .out_of_bounds
    | some m => .ok m.name
  else .ok ""

/-- The body of the relocation loop of `print_instr` for a flagged byte whose
relocation is `r`: the operand buffers and the comment after it. -/
def reloc_rewrite (import_module_table : List import_module) (import_name_table : List Nat)
    (entry_table : List entry) (instr : instr_info) (r : reloc) (s : operands) :
    Except Fault operands :=
  match reloc_module import_module_table r with
  | .error e => .error e
  | .ok module =>
    if instr.op.arg0 = arg.PTR32 ∧ r.size = 3 then
      match reloc_text import_module_table import_name_table r module
          (fmt_d r.target_segment ++ ":" ++ fmt_x 4 r.target_offset) (some r.text) "" with
      | .error e => .error e
      | .ok (t, c) => .ok { s with arg0 := t.getD s.arg0, comment := c.getD s.comment }
    else if instr.op.arg0 = arg.PTR32 ∧ r.size = 2 ∧ r.type = 0 then
      .ok { s with
        arg0 := fmt_d r.target_segment ++ ":" ++ fmt_x 4 instr.arg0,
        comment := get_entry_name entry_table r.target_segment (instr.arg0 % 65536) }
    else if instr.op.arg0 = arg.IMM ∧ r.size = 2 then
      match reloc_text import_module_table import_name_table r module
          ("seg " ++ fmt_d r.target_segment) none "seg " with
      | .error e => .error e
      | .ok (t, c) => .ok { s with arg0 := t.getD s.arg0, comment := c.getD s.comment }
    else if instr.op.arg1 = arg.IMM ∧ r.size = 2 then
      match reloc_text import_module_table import_name_table r module
          ("seg " ++ fmt_d r.target_segment) none "seg " with
      | .error e => .error e
      | .ok (t, c) => .ok { s with arg1 := t.getD s.arg1, comment := c.getD s.comment }
    else if instr.op.arg0 = arg.IMM ∧ r.size = 5 then
      match reloc_text import_module_table import_name_table r module
          (fmt_x 4 r.target_offset) none "" with
      | .error e => .error e
      | .ok (t, c) => .ok { s with arg0 := t.getD s.arg0, comment := c.getD s.comment }
    else if instr.op.arg1 = arg.IMM ∧ r.size = 5 then
      match reloc_text import_module_table import_name_table r module
          (fmt_x 4 r.target_offset) none "" with
      | .error e => .error e
      | .ok (t, c) => .ok { s with arg1 := t.getD s.arg1, comment := c.getD s.comment }
    else .ok s

/-- The relocation loop of `print_instr`,
`for (i = ip; i < ip+len; i++) if (flags[i] & INSTR_RELOC) ...`, with `n`
iterations left and `i` the next index.  `get_reloc` takes the index as a
16-bit word; its result is dereferenced unchecked. -/
def reloc_loop (import_module_table : List import_module) (import_name_table : List Nat)
    (entry_table : List entry) (flags : List Nat) (reloc_data : List reloc)
    (instr : instr_info) : Nat → Nat → operands → Except Fault operands
  | 0, _, s => .ok s
  | n + 1, i, s =>
    match flags[i]? with
    | none => .error .out_of_bounds
    | some v =>
      if v &&& INSTR_RELOC ≠ 0 then
        match get_reloc (i % 65536) reloc_data with
        | none => .error .out_of_bounds
        | some r =>
          match reloc_rewrite import_module_table import_name_table entry_table instr r s with
          | .error e => .error e
          | .ok s1 =>
            reloc_loop import_module_table import_name_table entry_table flags reloc_data
              instr n (i + 1) s1
      else
        reloc_loop import_module_table import_name_table entry_table flags reloc_data
          instr n (i + 1) s

/-- A call of `print_arg` on one of the buffers `arg0`, `arg1`, `arg2` of 32
bytes: a text of more than 31 characters does not fit. -/
def print_arg_buffer (K : instr_consts) (asm : asm_dialect) (value : Nat) (argtype : arg)
    (instr : instr_info) : Except Fault (String × Bool) :=
  match print_arg K asm value argtype instr with
  | .error e => .error e
  | .ok (s, m) => if s.length > 31 then .error .out_of_bounds else .ok (s, m)

/-- The third operand of `print_instr`: printed as `IMM`, `IMM8` or `CL`
according to the flags of the opcode, empty without such a flag. -/
def print_arg2 (K : instr_consts) (asm : asm_dialect) (instr : instr_info) :
    Except Fault (String × Bool) :=
  if instr.op.flags &&& K.OP_ARG2_IMM ≠ 0 then print_arg_buffer K asm instr.arg2 arg.IMM instr
  else if instr.op.flags &&& K.OP_ARG2_IMM8 ≠ 0 then
    print_arg_buffer K asm instr.arg2 arg.IMM8 instr
  else if instr.op.flags &&& K.OP_ARG2_CL ≠ 0 then print_arg_buffer K asm instr.arg2 arg.CL instr
  else .ok ("", false)

/-- The three calls of `print_arg` of `print_instr`: the operand buffers, no
comment yet, and `usedmem`. -/
def print_args (K : instr_consts) (asm : asm_dialect) (instr : instr_info) :
    Except Fault (operands × Bool) :=
  match print_arg_buffer K asm instr.arg0 instr.op.arg0 instr with
  | .error e => .error e
  | .ok (a0, m0) =>
    match print_arg_buffer K asm instr.arg1 instr.op.arg1 instr with
    | .error e => .error e
    | .ok (a1, m1) =>
      match print_arg2 K asm instr with
      | .error e => .error e
      | .ok (a2, m2) => .ok (⟨a0, a1, a2, none⟩, m0 || m1 || m2)

/-- The first part of `print_instr`, up to the end of the relocation loop:
the operand buffers and the comment of the instruction `instr` of `len` bytes
decoded at `ip`, and `usedmem`. -/
def print_instr_operands (K : instr_consts) (asm : asm_dialect)
    (import_module_table : List import_module) (import_name_table : List Nat)
    (entry_table : List entry) (ip : Nat) (flags : List Nat) (reloc_data : List reloc)
    (instr : instr_info) (len : Nat) : Except Fault (operands × Bool) :=
  match print_args K asm instr with
  | .error e => .error e
  | .ok (s, usedmem) =>
    match reloc_loop import_module_table import_name_table entry_table flags reloc_data
        instr len ip s with
    | .error e => .error e
    | .ok s1 => .ok (s1, usedmem)

/-- The name of the opcode after the check for a valid instruction of
`print_instr`: an empty name is replaced by `?`. -/
def instr_name (instr : instr_info) : String :=
  if instr.op.name = "" then "?" else instr.op.name

/-- The statements of `print_instr` under "modify the instruction name if
appropriate": the name that is printed and the buffer `arg0`, which is emptied
for `aam` and `aad` with the operand 10. -/
def print_instr_name (K : instr_consts) (asm : asm_dialect) (instr : instr_info)
    (arg0 : String) : String × String :=
  if instr.op.flags &&& K.OP_STACK ≠ 0 ∧ instr.prefix_bits &&& K.PREFIX_OP32 ≠ 0 then
    (instr_name instr ++ (if instr.op.size = 16 then "w"
      else if asm = asm_dialect.GAS then "l" else "d"), arg0)
  else if instr.op.flags &&& K.OP_STRING ≠ 0 ∧ asm ≠ asm_dialect.GAS then
    (instr_name instr ++ (if instr.op.size = 8 then "b" else if instr.op.size = 16 then "w"
      else if instr.op.size = 32 then "d" else ""), arg0)
  else if instr.op.opcode = 0x98 ∧ instr.prefix_bits &&& K.PREFIX_OP32 ≠ 0 then ("cwde", arg0)
  else if instr.op.opcode = 0x99 ∧ instr.prefix_bits &&& K.PREFIX_OP32 ≠ 0 then ("cdq", arg0)
  else if instr.op.opcode = 0xE3 ∧ instr.prefix_bits &&& K.PREFIX_ADDR32 ≠ 0 then
    ("jecxz", arg0)
  else if instr.op.opcode = 0xD4 ∧ instr.arg0 = 10 then ("aam", "")
  else if instr.op.opcode = 0xD5 ∧ instr.arg0 = 10 then ("aad", "")
  else if asm = asm_dialect.GAS then
    if instr.op.flags &&& K.OP_FAR ≠ 0 then ("l" ++ instr_name instr, arg0)
    else if instr.op.opcode = 0x0FB6 then
      (if instr.op.size = 32 then "movzbl" else "movzbw", arg0)
    else if instr.op.opcode = 0x0FB7 then
      (if instr.op.size = 32 then "movzwl" else "movzww", arg0)
    else if instr.op.opcode = 0x0FBE then
      (if instr.op.size = 32 then "movsbl" else "movsbw", arg0)
    else if instr.op.opcode = 0x0FBF then
      (if instr.op.size = 32 then "movswl" else "movsww", arg0)
    else if instr.op.arg0 ≠ arg.REG ∧ instr.op.arg1 ≠ arg.REG ∧
        instr.modrm_disp ≠ disptype.DISP_REG then
      (instr_name instr ++ (if instr.op.flags &&& K.OP_LL = K.OP_LL then "ll"
        else if instr.op.flags &&& K.OP_S ≠ 0 then "s"
        else if instr.op.flags &&& K.OP_L ≠ 0 then "l"
        else if instr.op.size = 80 then "t"
        else if instr.op.size = 8 then "b"
        else if instr.op.size = 16 then "w"
        else if instr.op.size = 32 then "l" else ""), arg0)
    else (instr_name instr, arg0)
  else (instr_name instr, arg0)

/-- The text of `n` bytes of the buffer `p` from index `i` on, each printed
with `"%02x "`. -/
def hex_bytes (p : List Nat) : Nat → Nat → Except Fault String
  | 0, _ => .ok ""
  | n + 1, i =>
    match p[i]? with
    | none => .error .out_of_bounds
    | some b =>
      match hex_bytes p n (i + 1) with
      | .error e => .error e
      | .ok s => .ok (fmt_x 2 b ++ " " ++ s)

/-- The start of the line of `print_instr`: segment and offset, the first 7
bytes at most, blanks up to the width of 8 bytes; the last blank is replaced
by `>` when the byte at `ip` carries `JUMP`, the last two blanks when it also
carries `FAR` (at least three blanks are printed). -/
def print_instr_head (cs ip : Nat) (flags p : List Nat) (len : Nat) : Except Fault String :=
  match hex_bytes p (min len 7) 0 with
  | .error e => .error e
  | .ok bytes =>
    match flags[ip]? with
    | none => .error .out_of_bounds
    | some v =>
      .ok (fmt_4d cs ++ "." ++ fmt_x 4 ip ++ ":\t" ++ bytes
        ++ String.mk (List.replicate (3 * (8 - min len 7)
            - (if v &&& INSTR_JUMP ≠ 0 then (if v &&& INSTR_FAR ≠ 0 then 2 else 1) else 0)) ' ')
        ++ (if v &&& INSTR_JUMP ≠ 0 then (if v &&& INSTR_FAR ≠ 0 then ">>" else ">") else ""))

/-- The statements of `print_instr` under "print prefixes": the prefix words
in front of the mnemonic. -/
def print_instr_prefixes (K : instr_consts) (asm : asm_dialect) (instr : instr_info)
    (usedmem : Bool) : Except Fault String :=
  match (if instr.prefix_bits &&& K.PREFIX_SEG_MASK ≠ 0 ∧
        (usedmem = false ∨ instr.op.arg0 = arg.ESDI ∨
          (instr.op.arg1 = arg.ESDI ∧ instr.op.arg0 ≠ arg.DSSI)) then
      (match seg16[(instr.prefix_bits &&& K.PREFIX_SEG_MASK) - 1]? with
        | none => Except.error Fault.out_of_bounds
        | some s => Except.ok (s ++ " "))
    else Except.ok "") with
  | .error e => .error e
  | .ok sg =>
    .ok (sg
      ++ (if instr.prefix_bits &&& K.PREFIX_OP32 ≠ 0 ∧ instr.op.size ≠ 16 ∧ instr.op.size ≠ 32
          then (if asm = asm_dialect.GAS then "data32 " else "o32 ") else "")
      ++ (if instr.prefix_bits &&& K.PREFIX_ADDR32 ≠ 0 ∧ asm = asm_dialect.NASM ∧
            instr.op.flags &&& K.OP_STRING ≠ 0 then "a32 "
          else if instr.prefix_bits &&& K.PREFIX_ADDR32 ≠ 0 ∧ usedmem = false ∧
            instr.op.opcode ≠ 0xE3 then (if asm = asm_dialect.GAS then "addr32 " else "a32 ")
          else "")
      ++ (if instr.prefix_bits &&& K.PREFIX_LOCK ≠ 0 then "lock " else "")
      ++ (if instr.prefix_bits &&& K.PREFIX_REPNE ≠ 0 then "repne " else "")
      ++ (if instr.prefix_bits &&& K.PREFIX_REPE ≠ 0 then
          (if instr.op.flags &&& K.OP_REPNE ≠ 0 then "repe " else "rep ") else ""))

/-- The operand part of the line of `print_instr`: a tab when one of the
first two operands is printed, then the operands in the order and with the
separators of the syntax. -/
def print_instr_args (asm : asm_dialect) (arg0 arg1 arg2 : String) : String :=
  (if arg0 ≠ "" ∨ arg1 ≠ "" then "\t" else "")
  ++ (if asm = asm_dialect.GAS then
      (if arg1 ≠ "" then arg1 ++ "," else "") ++ (if arg0 ≠ "" then arg0 else "")
        ++ (if arg2 ≠ "" then "," ++ arg2 else "")
    else
      (if arg0 ≠ "" then arg0 else "") ++ (if arg0 ≠ "" ∧ arg1 ≠ "" then ", " else "")
        ++ (if arg1 ≠ "" then arg1 else "") ++ (if arg2 ≠ "" then ", " ++ arg2 else ""))

/-- The end of the line of `print_instr` for an instruction of more than 7
bytes: a new line with the remaining bytes.  (The final `outp--` moves the
local pointer only: the blank after the last byte stays in the buffer.) -/
def print_instr_wrap (asm : asm_dialect) (cs ip : Nat) (p : List Nat) (len : Nat) :
    Except Fault String :=
  if len > 7 then
    match hex_bytes p (len - 7) 7 with
    | .error e => .error e
    | .ok bytes =>
      .ok ((if asm = asm_dialect.GAS then "\n" ++ fmt_4d cs ++ "." ++ fmt_x 4 (ip + 7) ++ ":\t"
        else "\n\t\t") ++ bytes)
  else .ok ""

/-- The text of an instruction as `print_instr` prints it behind the start of
the line: prefix words, mnemonic, operands and comment.  The comment of an
instruction of role `REL16` without one is the name of the entry at its
target. -/
def print_instr_text (K : instr_consts) (asm : asm_dialect) (entry_table : List entry)
    (cs : Nat) (instr : instr_info) (s : operands) (usedmem : Bool) : Except Fault String :=
  match print_instr_prefixes K asm instr usedmem with
  | .error e => .error e
  | .ok prefixes =>
    .ok (prefixes ++ (print_instr_name K asm instr s.arg0).1
      ++ print_instr_args asm (print_instr_name K asm instr s.arg0).2 s.arg1 s.arg2
      ++ (match (if instr.op.arg0 = arg.REL16 ∧ s.comment = none
            then get_entry_name entry_table cs (instr.arg0 % 65536) else s.comment) with
          | none => ""
          | some c => "\t<" ++ c ++ ">"))

/-- `print_instr`: the line written to `out` and the number of bytes of the
instruction.  The warnings are left out. -/
def print_instr (K : instr_consts) (asm : asm_dialect) (get_instr : Decoder)
    (import_module_table : List import_module) (import_name_table : List Nat)
    (entry_table : List entry) (cs ip : Nat) (flags p : List Nat) (reloc_data : List reloc)
    (is32 : Nat) : Except Fault (String × Nat) :=
  match print_instr_operands K asm import_module_table import_name_table entry_table ip flags
      reloc_data (get_instr cs ip p is32).1 (get_instr cs ip p is32).2 with
  | .error e => .error e
  | .ok (s, usedmem) =>
    match print_instr_head cs ip flags p (get_instr cs ip p is32).2 with
    | .error e => .error e
    | .ok head =>
      match print_instr_text K asm entry_table cs (get_instr cs ip p is32).1 s usedmem with
      | .error e => .error e
      | .ok text =>
        match print_instr_wrap asm cs ip p (get_instr cs ip p is32).2 with
        | .error e => .error e
        | .ok wrap => .ok (head ++ text ++ wrap, (get_instr cs ip p is32).2)

/-! ## A small decoder for the sample runs -/

/-- Sign extension of a byte to a 16-bit word. -/
def sext8 (d : Nat) : Nat := if d < 128 then d else d + 65280

/-- A decoder for a handful of one-byte opcodes with their usual 16-bit
forms: `B8 iw` mov ax, `E8 cw` call, `E9 cw` jmp, `EB cb` jmp short, `C3` ret,
`9A cd` call far, `EA cd` jmp far, `FF C0` inc ax, `90` nop; any other byte is an
unknown one-byte opcode with an empty name. -/
def sample_get_instr : Decoder := fun _ ip p _ =>
  match p with
  | 0xB8 :: lo :: hi :: _ =>
    ({ op := { opcode := 0xB8, name := "mov", arg0 := arg.AX, arg1 := arg.IMM, size := 16 },
       arg1 := lo + 256 * hi }, 3)
  | 0xE8 :: lo :: hi :: _ =>
    ({ op := { opcode := 0xE8, name := "call", arg0 := arg.REL16 },
       arg0 := (ip + 3 + lo + 256 * hi) % 65536 }, 3)
  | 0xE9 :: lo :: hi :: _ =>
    ({ op := { opcode := 0xE9, name := "jmp", arg0 := arg.REL16 },
       arg0 := (ip + 3 + lo + 256 * hi) % 65536 }, 3)
  | 0xEB :: d :: _ =>
    ({ op := { opcode := 0xEB, name := "jmp", arg0 := arg.REL8 },
       arg0 := (ip + 2 + sext8 d) % 65536 }, 2)
  | 0xC3 :: _ => ({ op := { opcode := 0xC3, name := "ret" } }, 1)
  | 0x9A :: lo :: hi :: _ =>
    ({ op := { opcode := 0x9A, name := "call", arg0 := arg.PTR32 }, arg0 := lo + 256 * hi }, 5)
  | 0xEA :: lo :: hi :: _ =>
    ({ op := { opcode := 0xEA, name := "jmp", arg0 := arg.PTR32 }, arg0 := lo + 256 * hi }, 5)
  | 0xFF :: 0xC0 :: _ =>
    ({ op := { opcode := 0xFF, name := "inc", arg0 := arg.RM, size := 16 },
       modrm_disp := disptype.DISP_REG }, 2)
  | 0x90 :: _ => ({ op := { opcode := 0x90, name := "nop" } }, 1)
  | b :: _ => ({ op := { opcode := b } }, 1)
  | [] => ({}, 1)

/-! ## Sample files -/

/-- A segment of 8 bytes at position 0 followed by its relocation data: one
record (size 3, internal, offset 0, target 1:0034) whose chain is 0, 4. -/
def chain_file : File :=
  file_of [4, 0, 0, 0, 0xff, 0xff, 0, 0, 1, 0, 3, 0, 0, 0, 1, 0, 0x34, 0]

/-- As `chain_file`, but the word stored at offset 0 is 0: the chain of the
record returns to offset 0 for ever. -/
def cyclic_file : File :=
  file_of [0, 0, 0, 0, 0xff, 0xff, 0, 0, 1, 0, 3, 0, 0, 0, 1, 0, 0x34, 0]

/-- As `chain_file`, but the word stored at offset 0 is 18, beyond the 8 bytes
of the segment, and the word found at position 18 leads back to offset 4. -/
def abort_file : File :=
  file_of [18, 0, 0, 0, 0xff, 0xff, 0, 0, 1, 0, 3, 0, 0, 0, 1, 0, 0x34, 0, 4, 0]

/-- As `chain_file`, with an internal record that names entry 1 of the entry
table (module word `0xff`, ordinal 1). -/
def entry_file : File :=
  file_of [4, 0, 0, 0, 0xff, 0xff, 0, 0, 1, 0, 3, 0, 0, 0, 0xff, 0, 1, 0]

/-- An entry table with one exported entry at 2:0010. -/
def sample_entries : List entry := [⟨1, 2, 0x10, some "start"⟩]

/-- The segment of the sample files before the first pass. -/
def sample_segment : segment := ⟨1, 0, 8, 0, 8, List.replicate 8 0, []⟩

/-- The segment of `chain_file` after the first pass: offsets 0 and 4 carry
`INSTR_RELOC`. -/
def sample_segment_read : segment :=
  ⟨1, 0, 8, 0, 8, [0x20, 0, 0, 0, 0x20, 0, 0, 0], [⟨3, 0, [0, 4], 1, 0x34, none⟩]⟩

/-- A code segment of 4 bytes at position 0: `mov ax, 1234h` and `ret`. -/
def mov_file : File := file_of [0xB8, 0x34, 0x12, 0xC3]

/-- The segment of `mov_file` before the scan, without relocations. -/
def mov_segment : segment := ⟨1, 0, 4, 0, 4, [0, 0, 0, 0], []⟩

/-- Two exported entries in segment 1: one at the `mov`, one at offset 1,
inside the `mov`. -/
def overlap_entries : List entry := [⟨1, 1, 0, none⟩, ⟨1, 1, 1, none⟩]

/-- The segment of `mov_file` after the scan from `overlap_entries` and from
the program entry 1:0000. -/
def mov_segment_scanned : segment := ⟨1, 0, 4, 0, 4, [0x0b, 0x09, 0x01, 0x03], []⟩

/-- An entry table without roots: a constant entry and an entry that is not
exported. -/
def constant_entries : List entry := [⟨1, 0xfe, 5, none⟩, ⟨0, 1, 0, none⟩]

/-- Two code segments: `call far` (to be relocated) and `ret` in segment 1 at
position 0, `ret` in segment 2 at position 8. -/
def far_file : File := file_of [0x9A, 0, 0, 0, 0, 0xC3, 0, 0, 0xC3]

/-- The relocation of the far pointer of `far_file`: size 3, internal, target 2:0000. -/
def far_reloc : reloc := ⟨3, 0, [1], 2, 0, none⟩

/-- The segments of `far_file` after the first pass. -/
def far_state : List segment :=
  [⟨1, 0, 6, 0, 6, [0, 0x20, 0, 0, 0, 0], [far_reloc]⟩, ⟨2, 8, 1, 0, 1, [0], []⟩]

/-- `far_state` after `VALID` has been set on 1:0000. -/
def far_state_valid : List segment :=
  [⟨1, 0, 6, 0, 6, [2, 0x20, 0, 0, 0, 0], [far_reloc]⟩, ⟨2, 8, 1, 0, 1, [0], []⟩]

/-- `far_state` after the five bytes of the `call far` have been marked. -/
def far_state_marked : List segment :=
  [⟨1, 0, 6, 0, 6, [3, 0x21, 1, 1, 1, 0], [far_reloc]⟩, ⟨2, 8, 1, 0, 1, [0], []⟩]

/-- A code segment of 3 bytes at position 0: `jmp short` to offset 1, the
second byte of the jump itself, where `FF C0` reads as `inc ax`. -/
def jump_file : File := file_of [0xEB, 0xFF, 0xC0]

/-- The segment of `jump_file` before the scan, without relocations. -/
def jump_segment : segment := ⟨1, 0, 3, 0, 3, [0, 0, 0], []⟩

/-- One exported entry at 1:0000. -/
def jump_entries : List entry := [⟨1, 1, 0, none⟩]

/-- The segment of `jump_file` after the scan from `jump_entries` and from the
program entry 1:0000. -/
def jump_segment_scanned : segment := ⟨1, 0, 3, 0, 3, [0x0b, 0x05, 0], []⟩

/-- The segment of `mov_file` after the scan from `jump_entries` and from the
program entry 1:0000. -/
def mov_segment_reached : segment := ⟨1, 0, 4, 0, 4, [0x0b, 0x01, 0x01, 0x03], []⟩

/-- A code segment of 4 bytes at position 0: `call 0003`, `ret`. -/
def call_file : File := file_of [0xE8, 0x00, 0x00, 0xC3]

/-- The segment of `call_file` before the scan. -/
def call_segment : segment := ⟨1, 0, 4, 0, 4, [0, 0, 0, 0], []⟩

/-- The segment of `call_file` after `VALID` has been set on 1:0000. -/
def call_segment_valid : segment := ⟨1, 0, 4, 0, 4, [2, 0, 0, 0], []⟩

/-- The segment of `call_file` after the three bytes of the `call` have been
marked. -/
def call_segment_marked : segment := ⟨1, 0, 4, 0, 4, [3, 1, 1, 0], []⟩

/-- The segment of `call_file` after the scan from 1:0000. -/
def call_segment_scanned : segment := ⟨1, 0, 4, 0, 4, [3, 1, 1, 0x0b], []⟩

/-- A code segment of 3 bytes at position 0: `jmp short` to offset 0, the jump
itself, followed by a `nop`. -/
def loop_file : File := file_of [0xEB, 0xFE, 0x90]

/-- The segment of `loop_file` before the scan. -/
def loop_segment : segment := ⟨1, 0, 3, 0, 3, [0, 0, 0], []⟩

/-- The segment of `loop_file` after `VALID` has been set on 1:0000. -/
def loop_segment_valid : segment := ⟨1, 0, 3, 0, 3, [2, 0, 0], []⟩

/-- The segment of `loop_file` after the two bytes of the `jmp` have been
marked. -/
def loop_segment_marked : segment := ⟨1, 0, 3, 0, 3, [3, 1, 0], []⟩

/-- The segment of `loop_file` after the scan from 1:0000: bytes 0 and 1 are
marked, byte 0 is a jump target. -/
def loop_segment_scanned : segment := ⟨1, 0, 3, 0, 3, [7, 1, 0], []⟩

/-! ## `print_disassembly` and `print_segment_flags` -/

/-- The option bit `DISASSEMBLE_ALL` of `ne.h`, tested in the global `opts`. -/
def DISASSEMBLE_ALL : Nat := 0x01

/-- The loop `while (read_byte() == 0) ip++;` of `print_disassembly`: `pos` is
the position of the file, which every `read_byte` advances by one; `ip` is a
16-bit word. -/
def skip_zero_bytes (f : File) : Nat → Nat → Nat → Except Fault Nat
  | 0, _, _ => .error .out_of_fuel
  | fuel + 1, pos, ip =>
    if read_byte_at f pos = 0 then skip_zero_bytes f fuel (pos + 1) ((ip + 1) % 65536)
    else .ok ip

/-- The loop `while ((ip < seg->length) && !(seg->instr_flags[ip] & INSTR_VALID)) ip++;`
of `print_disassembly`. -/
def skip_invalid_bytes (seg : segment) : Nat → Nat → Except Fault Nat
  | 0, _ => .error .out_of_fuel
  | fuel + 1, ip =>
    if ip < seg.length then
      match seg.instr_flags[ip]? with
      | none => .error .out_of_bounds
      | some v =>
        if v &&& INSTR_VALID = 0 then skip_invalid_bytes seg fuel ((ip + 1) % 65536)
        else .ok ip
    else .ok ip

/-- The statements of `print_disassembly` under "find a valid instruction" for
a byte at `ip` that lacks `VALID`, after `fseek(f, seg->start+ip, SEEK_SET)`:
whether the line `     ...` is printed, and the `ip` at which the loop body
goes on. -/
def skip_invalid (f : File) (opts : Nat) (seg : segment) (fuel ip : Nat) :
    Except Fault (Bool × Nat) :=
  if opts &&& DISASSEMBLE_ALL ≠ 0 then
    if read_byte_at f (seg.start + ip) = 0 then
      match skip_zero_bytes f fuel (seg.start + ip + 1) ((ip + 1) % 65536) with
      | .error e => .error e
      | .ok ip1 => .ok (true, ip1)
    else
      match skip_zero_bytes f fuel (seg.start + ip + 1) ip with
      | .error e => .error e
      | .ok ip1 => .ok (false, ip1)
  else
    match skip_invalid_bytes seg fuel ip with
    | .error e => .error e
    | .ok ip1 => .ok (true, ip1)

/-- The heading that `print_disassembly` prints in front of an instruction
whose byte carries `FUNC`: an empty line and `cs:ip <name>:`. -/
def function_heading (entry_table : List entry) (cs ip : Nat) : List String :=
  ["\n", fmt_d cs ++ ":" ++ fmt_x 4 ip ++ " <"
    ++ (get_entry_name entry_table cs ip).getD "no name" ++ ">:\n"]

/-- `print_disassembly(seg)`: the texts written to the standard output, in
order, by the loop from `ip` on.  One unit of fuel is spent per iteration and
per step of the skipping loops. -/
def print_disassembly (K : instr_consts) (asm : asm_dialect) (get_instr : Decoder)
    (import_module_table : List import_module) (import_name_table : List Nat)
    (entry_table : List entry) (f : File) (opts : Nat) (seg : segment) :
    Nat → Nat → Except Fault (List String)
  | 0, _ => .error .out_of_fuel
  | fuel + 1, ip =>
    if ip ≥ seg.length then .ok []
    else
      match seg.instr_flags[ip]? with
      | none => .error .out_of_bounds
      | some v =>
        match (if v &&& INSTR_VALID = 0 then skip_invalid f opts seg fuel ip
          else Except.ok (false, ip)) with
        | .error e => .error e
        | .ok (dots, ip1) =>
          if ip1 ≥ seg.length then .ok (if dots then ["     ...\n"] else [])
          else
            match seg.instr_flags[ip1]? with
            | none => .error .out_of_bounds
            | some v1 =>
              match print_instr K asm get_instr import_module_table import_name_table
                  entry_table seg.cs ip1 seg.instr_flags (read_instr_buffer f seg ip1)
                  seg.reloc_table (seg.flags &&& 0x2000) with
              | .error e => .error e
              | .ok (out, len) =>
                match print_disassembly K asm get_instr import_module_table
                    import_name_table entry_table f opts seg fuel ((ip1 + len) % 65536) with
                | .error e => .error e
                | .ok rest =>
                  .ok ((if dots then ["     ...\n"] else [])
                    ++ (if v1 &&& INSTR_FUNC ≠ 0 then function_heading entry_table seg.cs ip1
                      else [])
                    ++ [out ++ "\n"] ++ rest)

/-- The description that `print_segment_flags` builds in `buffer` for the
flags word of a segment. -/
def segment_flags_text (flags : Nat) : String :=
  (if flags &&& 0x0001 ≠ 0 then "data" else "code")
  ++ (if flags &&& 0x0002 ≠ 0 then ", allocated" else "")
  ++ (if flags &&& 0x0004 ≠ 0 then ", loaded" else "")
  ++ (if flags &&& 0x0008 ≠ 0 then ", iterated" else "")
  ++ (if flags &&& 0x0010 ≠ 0 then ", moveable" else "")
  ++ (if flags &&& 0x0020 ≠ 0 then ", shareable" else "")
  ++ (if flags &&& 0x0040 ≠ 0 then ", preload" else "")
  ++ (if flags &&& 0x0080 ≠ 0 then
      (if flags &&& 0x0001 ≠ 0 then ", read-only" else ", execute-only") else "")
  ++ (if flags &&& 0x0100 ≠ 0 then ", has relocation data" else "")
  ++ (if flags &&& 0x0800 ≠ 0 then ", self-loading" else "")
  ++ (if flags &&& 0x1000 ≠ 0 then ", discardable" else "")
  ++ (if flags &&& 0x2000 ≠ 0 then ", 32-bit" else "")
  ++ (if flags &&& 0xc608 ≠ 0 then ", (unknown flags 0x" ++ fmt_x 4 (flags &&& 0xc608) ++ ")"
    else "")

/-- `print_segment_flags(flags)`: the line written to the standard output. -/
def print_segment_flags (flags : Nat) : String :=
  "    Flags: 0x" ++ fmt_x 4 flags ++ " (" ++ segment_flags_text flags ++ ")\n"

/-! ## Sample instructions for the printer -/

/-- A choice of masks for the sample lines: one bit per flag, the segment
override in the low three bits of the prefix field, `OP_LL` the union of
`OP_S` and `OP_L`. -/
def sample_consts : instr_consts :=
  ⟨7, 8, 0x10, 0x20, 0x40, 0x80, 1, 2, 4, 8, 0x10, 0x20, 0x100, 0x200, 0x400, 0x1000, 0x2000,
    0x3000⟩

/-- The decoded record of `B8 34 12` in a 16-bit segment: `mov`, roles `AX`
and `IMM`, operand size 16, no prefix, immediate 0x1234, no ModR/M. -/
def mov_record : instr_info :=
  { op := { opcode := 0xB8, name := "mov", arg0 := arg.AX, arg1 := arg.IMM, size := 16 },
    arg1 := 0x1234 }

/-- The decoded record of `66 B8 id` in a 16-bit segment: `mov`, roles `AX`
and `IMM`, effective operand size 32; `bits` is the prefix field, `imm` the
immediate (0x12345678 for the bytes `78 56 34 12`). -/
def mov32_record (bits imm : Nat) : instr_info :=
  { prefix_bits := bits,
    op := { opcode := 0xB8, name := "mov", arg0 := arg.AX, arg1 := arg.IMM, size := 32 },
    arg1 := imm }

/-- The decoded record of `9A 34 12 02 00`: `call`, first operand role `PTR32`
with the offset 0x1234 as value; `opflags` are the flags of the opcode. -/
def call_far_record (opflags : Nat) : instr_info :=
  { op := { opcode := 0x9A, name := "call", arg0 := arg.PTR32, flags := opflags },
    arg0 := 0x1234 }

/-- The decoded record of `D1 E0` in a 16-bit segment: `shl`, first operand
role `RM` with a register ModR/M selecting register 0, operand size 16, second
operand role `ONE`. -/
def shl_record : instr_info :=
  { op := { opcode := 0xD1, subcode := 4, name := "shl", arg0 := arg.RM,
            arg1 := arg.ONE, size := 16 },
    modrm_disp := disptype.DISP_REG, modrm_reg := 0 }

/-- The decoded record of `D4 ib`: `aam` with an 8-bit immediate. -/
def aam_record (imm : Nat) : instr_info :=
  { op := { opcode := 0xD4, name := "aam", arg0 := arg.IMM8, size := 8 }, arg0 := imm }

/-- The decoded record of `D5 ib`: `aad` with an 8-bit immediate. -/
def aad_record (imm : Nat) : instr_info :=
  { op := { opcode := 0xD5, name := "aad", arg0 := arg.IMM8, size := 8 }, arg0 := imm }

/-- A decoder for the sample lines, with the masks of `sample_consts`: it
yields the records above for their bytes, `nop` for `90`, `ret` for `C3`, and
an unknown one-byte opcode for any other byte. -/
def print_sample_get_instr : Decoder := fun _ _ p _ =>
  match p with
  | 0xB8 :: 0x34 :: 0x12 :: _ => (mov_record, 3)
  | 0x66 :: 0xB8 :: 0x78 :: 0x56 :: 0x34 :: 0x12 :: _ => (mov32_record 8 0x12345678, 6)
  | 0x9A :: 0x34 :: 0x12 :: 0x02 :: 0x00 :: _ => (call_far_record 0x400, 5)
  | 0xD1 :: 0xE0 :: _ => (shl_record, 2)
  | 0xD4 :: b :: _ => (aam_record b, 2)
  | 0xD5 :: b :: _ => (aad_record b, 2)
  | 0x90 :: _ => ({ op := { opcode := 0x90, name := "nop" } }, 1)
  | 0xC3 :: _ => ({ op := { opcode := 0xC3, name := "ret" } }, 1)
  | b :: _ => ({ op := { opcode := b } }, 1)
  | [] => ({}, 1)

/-- The bytes of a name of the import name table. -/
def name_bytes (s : String) : List Nat := s.data.map Char.toNat

/-- An import name table: an empty name at offset 0, `WRITEPRIVATEPROFILESTRING`
at offset 1, `MIDIOUTGETERRORTEXT` at offset 27, `LSTRCPY` at offset 47. -/
def sample_names : List Nat :=
  [0] ++ [25] ++ name_bytes "WRITEPRIVATEPROFILESTRING" ++ [19] ++ name_bytes "MIDIOUTGETERRORTEXT"
    ++ [7] ++ name_bytes "LSTRCPY"

/-- An import module table: `KERNEL` with two named exports, `MMSYSTEM`
without export list. -/
def sample_modules : List import_module :=
  [⟨"KERNEL", [⟨1, some "FATALEXIT"⟩, ⟨88, some "LSTRCPY"⟩]⟩, ⟨"MMSYSTEM", []⟩]

/-- The buffer of `MAX_INSTR` bytes that starts with the bytes `l`. -/
def sample_buffer (l : List Nat) : List Nat := l ++ List.replicate (MAX_INSTR - l.length) 0

/-- A code segment of 4 bytes at position 0, followed by a byte that is not
zero: `nop`, two zero bytes, `ret`. -/
def gap_file : File := file_of [0x90, 0, 0, 0xC3, 0xff]

/-- The segment of `gap_file`, none of whose bytes carries `VALID`. -/
def gap_segment : segment := ⟨1, 0, 4, 0, 4, [0, 0, 0, 0], []⟩

/-- A code segment of 4 bytes at position 0 that ends in an instruction of
which only the first byte lies inside: `nop`, `nop`, `nop`, `B8`, and behind
the end of the segment the bytes `34 12`. -/
def hang_file : File := file_of [0x90, 0x90, 0x90, 0xB8, 0x34, 0x12]

/-- The segment of `hang_file`. -/
def hang_segment : segment := ⟨1, 0, 4, 0, 6, [0, 0, 0, 0, 0, 0], []⟩

/-! ## Reading a hexadecimal numeral, and sample memory operands -/
/-- The value of a hexadecimal digit, 0 for another character. -/
def hex_digit_value (c : Char) : Nat :=
  if '0' ≤ c ∧ c ≤ '9' then c.toNat - 48
  else if 'a' ≤ c ∧ c ≤ 'f' then c.toNat - 87
  else if 'A' ≤ c ∧ c ≤ 'F' then c.toNat - 55
  else 0

/-- The number that a string of hexadecimal digits denotes. -/
def hex_value (s : String) : Nat :=
  s.data.foldl (fun a c => 16 * a + hex_digit_value c) 0

/-- The decoded record of a `mov` (8B) of a register from a memory operand
with the given ModR/M and SIB fields and address size. -/
def mem_record (disp : disptype) (reg scale index addrsize : Nat) : instr_info :=
  { op := { opcode := 0x8B, name := "mov", arg0 := arg.REG, arg1 := arg.RM, size := addrsize },
    modrm_disp := disp, modrm_reg := reg, sib_scale := scale, sib_index := index,
    addrsize := addrsize }

/-! ## A segment with two relocation records at one offset -/

/-- A file with a code segment of 4 bytes at position 0 whose first word is
`FFFF`, the relocation count 2, two relocation records of type Internal with
the source offset 0 (one of size 5 to 1:0000, one of size 2 to 1:0002), and at
position 22 the entry of the segment in the segment table. -/
def dup_file : File :=
  file_of [0xFF, 0xFF, 0x90, 0xC3, 2, 0, 5, 0, 0, 0, 1, 0, 0, 0, 2, 0, 0, 0, 1, 0, 2, 0,
    0, 0, 4, 0, 0, 1, 4, 0]

/-- The segment of `dup_file` as the segment table gives it. -/
def dup_segment : segment := ⟨1, 0, 4, 0x100, 4, [0, 0, 0, 0], []⟩

/-- The segment of `dup_file` after the first pass. -/
def dup_segment_read : segment :=
  ⟨1, 0, 4, 0x100, 4, [0x20, 0, 0, 0], [⟨5, 0, [0], 1, 0, none⟩, ⟨2, 0, [0], 1, 2, none⟩]⟩

/-! ## The measure of the scan -/

/-- The number of flag bytes without `SCANNED`, over all segments. -/
def unscanned (segments : List segment) : Nat :=
  (segments.map fun seg =>
    seg.instr_flags.countP fun v => decide (v &&& INSTR_SCANNED = 0)).sum

/-- A segment of two jumps that name each other: `jmp 0004` at offset 0,
`jmp 0000` at offset 4. -/
def mutual_file : File := file_of [0xEB, 0x02, 0x90, 0x90, 0xEB, 0xFA]

/-- The segment of `mutual_file` before the scan. -/
def mutual_segment : segment := ⟨1, 0, 6, 0, 6, [0, 0, 0, 0, 0, 0], []⟩

/-! ## A relocation chain that stands still -/

/-- A file with a segment of 8 bytes at position 0, the relocation count 1 and
one record of raw type 4 (Internal, additive) with the source offset 2; the
word stored at offset 2, the delta to the next offset, is 0. -/
def stall_file : File :=
  file_of [1, 0, 0, 0, 0xff, 0xff, 0, 0, 1, 0, 3, 4, 2, 0, 1, 0, 0x34, 0]

/-! # Theorems -/

/-! ## Relocation chains -/

theorem reloc_advance_eq (f : File) (start type o : Nat) :
    reloc_advance type o (read_word_at f (start + o)) = chain_next f start type o := by
  unfold reloc_advance chain_next
  by_cases h : type &&& 4 = 0 <;> simp [h]

theorem chain_offset_shift (f : File) (start type offset k : Nat) :
    chain_offset f start type (chain_next f start type offset) k
      = chain_offset f start type offset (k + 1) := by
  induction k with
  | zero => rfl
  | succ k ih => simp only [chain_offset, ih]

/-- The chain walk with enough fuel, when the chain has an end. -/
theorem read_reloc_offsets_chain (f : File) (start length type : Nat) :
    ∀ (n offset fuel : Nat), n < fuel →
      (∀ k, k < n → chain_offset f start type offset k < length ∧
        chain_word f start type offset k < 0xFFFB) →
      (length ≤ chain_offset f start type offset n →
        read_reloc_offsets f start length type fuel offset
          = .ok ((List.range n).map (chain_offset f start type offset))) ∧
      (chain_offset f start type offset n < length →
        0xFFFB ≤ chain_word f start type offset n →
        read_reloc_offsets f start length type fuel offset
          = .ok ((List.range (n + 1)).map (chain_offset f start type offset))) := by
  intro n
  induction n with
  | zero =>
    intro offset fuel hf _
    obtain ⟨fuel, rfl⟩ : ∃ m, fuel = m + 1 := ⟨fuel - 1, by omega⟩
    constructor
    · intro h
      simp only [chain_offset] at h
      simp [read_reloc_offsets, h]
    · intro h hw
      simp only [chain_offset, chain_word] at h hw
      have h1 : ¬ offset ≥ length := by omega
      have h2 : ¬ read_word_at f (start + offset) < 0xFFFB := by omega
      simp [read_reloc_offsets, h1, h2, chain_offset, List.range_succ]
  | succ n ih =>
    intro offset fuel hf hk
    obtain ⟨fuel, rfl⟩ : ∃ m, fuel = m + 1 := ⟨fuel - 1, by omega⟩
    have h0 := hk 0 (by omega)
    simp only [chain_offset, chain_word] at h0
    have h1 : ¬ offset ≥ length := by omega
    have hk' : ∀ k, k < n → chain_offset f start type (chain_next f start type offset) k < length ∧
        chain_word f start type (chain_next f start type offset) k < 0xFFFB := by
      intro k hkn
      have := hk (k + 1) (by omega)
      simpa only [chain_word, chain_offset_shift] using this
    have ih' := ih (chain_next f start type offset) fuel (by omega) hk'
    simp only [chain_word, chain_offset_shift] at ih'
    have hmap : ∀ m, (List.range (m + 1)).map (chain_offset f start type offset)
        = offset :: (List.range m).map (chain_offset f start type (chain_next f start type offset)) := by
      intro m
      rw [List.range_succ_eq_map]
      simp [List.map_map, Function.comp_def, chain_offset_shift, chain_offset]
    constructor
    · intro h
      rw [read_reloc_offsets]
      simp only [h1, if_false, h0.2, if_true, reloc_advance_eq]
      rw [ih'.1 h, hmap]
    · intro h hw
      rw [read_reloc_offsets]
      simp only [h1, if_false, h0.2, if_true, reloc_advance_eq]
      rw [ih'.2 h hw, hmap]

/-- Whatever the chain walk returns is an initial stretch of the chain, all
below the segment length, and it stopped for one of the two reasons. -/
theorem read_reloc_offsets_sound (f : File) (start length type : Nat) :
    ∀ (fuel offset : Nat) (l : List Nat),
      read_reloc_offsets f start length type fuel offset = .ok l →
      l = (List.range l.length).map (chain_offset f start type offset) ∧
      (∀ o ∈ l, o < length) ∧
      (∀ k, k + 1 < l.length → chain_word f start type offset k < 0xFFFB) ∧
      (((∀ k, k < l.length → chain_word f start type offset k < 0xFFFB) ∧
          length ≤ chain_offset f start type offset l.length) ∨
        (0 < l.length ∧ 0xFFFB ≤ chain_word f start type offset (l.length - 1))) := by
  intro fuel
  induction fuel with
  | zero => intro offset l h; simp [read_reloc_offsets] at h
  | succ fuel ih =>
    intro offset l h
    rw [read_reloc_offsets] at h
    by_cases h1 : offset ≥ length
    · simp only [h1, if_true] at h
      cases h
      simp [chain_offset]
      exact h1
    · simp only [h1, if_false] at h
      by_cases h2 : read_word_at f (start + offset) < 0xFFFB
      · simp only [h2, if_true, reloc_advance_eq] at h
        cases hrec : read_reloc_offsets f start length type fuel (chain_next f start type offset) with
        | error e => simp [hrec] at h
        | ok l' =>
          simp only [hrec] at h
          cases h
          obtain ⟨e1, e2, e3, e4⟩ := ih _ _ hrec
          simp only [chain_word, chain_offset_shift] at e1 e3 e4
          refine ⟨?_, ?_, ?_, ?_⟩
          · simp only [List.length_cons]
            rw [List.range_succ_eq_map]
            simp only [List.map_cons, List.map_map, Function.comp_def, chain_offset]
            congr 1
            conv_lhs => rw [e1]
            apply List.map_congr_left
            intro k _
            rw [chain_offset_shift, chain_offset]
          · intro o ho
            rcases List.mem_cons.1 ho with rfl | ho
            · omega
            · exact e2 o ho
          · intro k hk
            simp only [List.length_cons] at hk
            cases k with
            | zero => simpa [chain_word, chain_offset] using h2
            | succ k => exact e3 k (by omega)
          · simp only [List.length_cons]
            rcases e4 with ⟨e4, e4'⟩ | ⟨e4, e5⟩
            · left
              refine ⟨?_, e4'⟩
              intro k hk
              cases k with
              | zero => simpa [chain_word, chain_offset] using h2
              | succ k => exact e4 k (by omega)
            · right
              refine ⟨by omega, ?_⟩
              have : l'.length - 1 + 1 = l'.length + 1 - 1 := by omega
              simpa [chain_word, this] using e5
      · simp only [h2, if_false] at h
        cases h
        refine ⟨by simp [chain_offset, List.range_succ], ?_, ?_, ?_⟩
        · intro o ho
          simp at ho
          omega
        · intro k hk
          simp at hk
        · right
          simp [chain_word, chain_offset]
          omega

/-- Equal chain offsets stay equal: the next offset depends on the cursor only. -/
theorem chain_offset_periodic (f : File) (start type offset i j : Nat)
    (h : chain_offset f start type offset i = chain_offset f start type offset j) :
    ∀ m, chain_offset f start type offset (i + m) = chain_offset f start type offset (j + m) := by
  intro m
  induction m with
  | zero => simpa using h
  | succ m ih =>
    have e1 : i + (m + 1) = (i + m) + 1 := by omega
    have e2 : j + (m + 1) = (j + m) + 1 := by omega
    rw [e1, e2, chain_offset, chain_offset, ih]

/-- A chain walk that ends never visits an offset twice. -/
theorem read_reloc_offsets_nodup (f : File) (start length type fuel offset : Nat)
    (l : List Nat) (h : read_reloc_offsets f start length type fuel offset = .ok l) :
    l.Nodup := by
  obtain ⟨e1, e2, e3, e4⟩ := read_reloc_offsets_sound f start length type fuel offset l h
  have hlt : ∀ k, k < l.length → chain_offset f start type offset k < length := by
    intro k hk
    apply e2
    rw [e1]
    exact List.mem_map.2 ⟨k, List.mem_range.2 hk, rfl⟩
  have key : ∀ i j, i < j → j < l.length →
      chain_offset f start type offset i ≠ chain_offset f start type offset j := by
    intro i j hij hj heq
    rcases e4 with ⟨_, e5⟩ | ⟨_, e5⟩
    · have hp := chain_offset_periodic f start type offset i j heq (l.length - j)
      have hj' : j + (l.length - j) = l.length := by omega
      rw [hj'] at hp
      have := hlt (i + (l.length - j)) (by omega)
      omega
    · have hp := chain_offset_periodic f start type offset i j heq (l.length - 1 - j)
      have hj' : j + (l.length - 1 - j) = l.length - 1 := by omega
      rw [hj'] at hp
      have hw := e3 (i + (l.length - 1 - j)) (by omega)
      simp only [chain_word] at hw e5
      rw [hp] at hw
      omega
  rw [e1]
  refine List.Nodup.map_on ?_ (List.nodup_range _)
  intro x hx y hy hxy
  rw [List.mem_range] at hx hy
  by_contra hne
  rcases Nat.lt_or_gt_of_ne hne with hlt' | hgt
  · exact key x y hlt' hy hxy
  · exact key y x hgt hx hxy.symm

/-- A chain walk that ends stores at most `length` offsets. -/
theorem read_reloc_offsets_length_le (f : File) (start length type fuel offset : Nat)
    (l : List Nat) (h : read_reloc_offsets f start length type fuel offset = .ok l) :
    l.length ≤ length := by
  have hnd := read_reloc_offsets_nodup f start length type fuel offset l h
  have hlt := (read_reloc_offsets_sound f start length type fuel offset l h).2.1
  have hsub : l ⊆ List.range length := fun o ho => List.mem_range.2 (hlt o ho)
  have := (List.Nodup.subperm hnd hsub).length_le
  simpa using this

/-- The counting walk and the storing walk run in step: the 16-bit counter
ends as the number of stored offsets modulo 2^16. -/
theorem read_reloc_count_eq (f : File) (start length type : Nat) :
    ∀ (fuel offset count : Nat), count < 65536 →
      read_reloc_count f start length type fuel offset count
        = match read_reloc_offsets f start length type fuel offset with
          | .ok l => .ok ((count + l.length) % 65536)
          | .error e => .error e := by
  intro fuel
  induction fuel with
  | zero => intro offset count _; simp [read_reloc_count, read_reloc_offsets]
  | succ fuel ih =>
    intro offset count hc
    rw [read_reloc_count, read_reloc_offsets]
    by_cases h1 : offset ≥ length
    · simp only [h1, if_true, List.length_nil, Nat.add_zero, Nat.mod_eq_of_lt hc]
    · simp only [h1, if_false]
      by_cases h2 : read_word_at f (start + offset) < 0xFFFB
      · simp only [h2, if_true]
        rw [ih _ _ (Nat.mod_lt _ (by norm_num))]
        cases hrec : read_reloc_offsets f start length type fuel
            (reloc_advance type offset (read_word_at f (start + offset))) with
        | error e => rfl
        | ok l' =>
          simp only [List.length_cons]
          congr 1
          omega
      · simp only [h2, if_false, List.length_singleton]

/-- With a 16-bit segment length, `read_reloc` returns exactly when its chain
walk does, and then with the offsets of that walk. -/
theorem read_reloc_eq (entry_table : List entry) (f : File) (pos start length fuel : Nat)
    (hlen : length < 65536) (ts tofs : Nat)
    (htype : read_byte_at f (pos + 1) &&& 3 ≠ 3)
    (htarget : read_reloc_target entry_table (read_byte_at f (pos + 1))
      (read_word_at f (pos + 4)) (read_word_at f (pos + 6)) = .ok (ts, tofs)) :
    read_reloc entry_table f pos start length fuel
      = match read_reloc_offsets f start length (read_byte_at f (pos + 1)) fuel
          (read_word_at f (pos + 2)) with
        | .ok l => .ok ⟨read_byte_at f pos, read_byte_at f (pos + 1) &&& 3, l, ts, tofs,
            if read_byte_at f (pos + 1) &&& 3 = 0 then get_entry_name entry_table ts tofs
            else none⟩
        | .error e => .error e := by
  unfold read_reloc
  simp only [htype, if_false, htarget]
  rw [read_reloc_count_eq _ _ _ _ _ _ _ (by norm_num)]
  cases hrec : read_reloc_offsets f start length (read_byte_at f (pos + 1)) fuel
      (read_word_at f (pos + 2)) with
  | error e => rfl
  | ok l =>
    have hl := read_reloc_offsets_length_le f start length _ fuel _ l hrec
    have : l.length ≤ (0 + l.length) % 65536 := by
      rw [Nat.zero_add, Nat.mod_eq_of_lt (by omega)]
    simp only [this, if_true]

/-- What `read_reloc` returns carries the offsets of its chain walk. -/
theorem read_reloc_ok_offsets (entry_table : List entry) (f : File)
    (pos start length fuel : Nat) (r : reloc)
    (h : read_reloc entry_table f pos start length fuel = .ok r) :
    (read_byte_at f (pos + 1) &&& 3 = 3 ∧ r.offsets = []) ∨
    (read_byte_at f (pos + 1) &&& 3 ≠ 3 ∧
      read_reloc_offsets f start length (read_byte_at f (pos + 1)) fuel
        (read_word_at f (pos + 2)) = .ok r.offsets) := by
  unfold read_reloc at h
  by_cases h3 : read_byte_at f (pos + 1) &&& 3 = 3
  · simp only [h3, if_true] at h
    cases h
    exact Or.inl ⟨h3, rfl⟩
  · simp only [h3, if_false] at h
    right
    refine ⟨h3, ?_⟩
    split at h
    · cases h
    · split at h
      · cases h
      · split at h
        · cases h
        · rename_i l hl
          split at h
          · cases h
            exact hl
          · cases h

/-- The chain walk on `cyclic_file` never ends. -/
theorem cyclic_file_walk (fuel : Nat) :
    read_reloc_offsets cyclic_file 0 8 0 fuel 0 = .error .out_of_fuel := by
  induction fuel with
  | zero => rfl
  | succ fuel ih =>
    rw [read_reloc_offsets]
    have h1 : ¬ (0 ≥ 8) := by decide
    have h2 : read_word_at cyclic_file (0 + 0) < 0xFFFB := by decide
    have h3 : reloc_advance 0 0 (read_word_at cyclic_file (0 + 0)) = 0 := by decide
    simp only [h1, if_false, h2, if_true, h3, ih]

/-- C1 (as stated, refuted). The record of `cyclic_file` has raw type 0 and
offset 0, the segment has 8 bytes and the word stored at offset 0 is 0: every
chain offset is 0, below the length, with a word below 0xFFFB, so the chain has
no end and `read_reloc` builds no offsets list, whatever the fuel. -/
theorem C1_counterexample_cyclic_chain :
    read_byte_at cyclic_file (10 + 1) &&& 3 ≠ 3 ∧
    (∀ k, chain_offset cyclic_file 0 (read_byte_at cyclic_file (10 + 1))
        (read_word_at cyclic_file (10 + 2)) k < 8 ∧
      chain_word cyclic_file 0 (read_byte_at cyclic_file (10 + 1))
        (read_word_at cyclic_file (10 + 2)) k < 0xFFFB) ∧
    (∀ fuel, read_reloc [] cyclic_file 10 0 8 fuel = .error .out_of_fuel) := by
  have ht : read_byte_at cyclic_file (10 + 1) = 0 := by decide
  have ho : read_word_at cyclic_file (10 + 2) = 0 := by decide
  have hk : ∀ k, chain_offset cyclic_file 0 0 0 k = 0 := by
    intro k
    induction k with
    | zero => rfl
    | succ k ih => rw [chain_offset, ih]; decide
  refine ⟨by decide, ?_, ?_⟩
  · intro k
    rw [ht, ho, chain_word, hk]
    decide
  · intro fuel
    have htg : read_reloc_target [] (read_byte_at cyclic_file (10 + 1))
        (read_word_at cyclic_file (10 + 4)) (read_word_at cyclic_file (10 + 6))
        = .ok (1, 0x34) := rfl
    rw [read_reloc_eq [] cyclic_file 10 0 8 fuel (by decide) 1 0x34 (by decide) htg, ht, ho,
      cyclic_file_walk]

/-- C1 (amended). For a record whose raw type has `(type & 3) != 3`, whose
target assignment stays inside the entry table, and whose chain has an end at
index `n` (the first `o_n` that is at or beyond the segment length, or whose
word is `>= 0xFFFB`), `read_reloc` with more than `n` units of fuel returns a
relocation whose offsets are `o_0 .. o_n` when `o_n` is inside the segment and
`o_0 .. o_(n-1)` when it is not. -/
theorem C1_read_reloc_offsets_are_chain (entry_table : List entry) (f : File)
    (pos start length n fuel : Nat) (hlen : length < 65536)
    (htype : read_byte_at f (pos + 1) &&& 3 ≠ 3)
    (htarget : ∃ t, read_reloc_target entry_table (read_byte_at f (pos + 1))
      (read_word_at f (pos + 4)) (read_word_at f (pos + 6)) = .ok t)
    (hfuel : n < fuel)
    (hchain : ∀ k, k < n →
      chain_offset f start (read_byte_at f (pos + 1)) (read_word_at f (pos + 2)) k < length ∧
      chain_word f start (read_byte_at f (pos + 1)) (read_word_at f (pos + 2)) k < 0xFFFB)
    (hend : length ≤ chain_offset f start (read_byte_at f (pos + 1))
        (read_word_at f (pos + 2)) n ∨
      0xFFFB ≤ chain_word f start (read_byte_at f (pos + 1)) (read_word_at f (pos + 2)) n) :
    ∃ r, read_reloc entry_table f pos start length fuel = .ok r ∧
      r.offsets = (List.range
          (if chain_offset f start (read_byte_at f (pos + 1)) (read_word_at f (pos + 2)) n
              < length then n + 1 else n)).map
        (chain_offset f start (read_byte_at f (pos + 1)) (read_word_at f (pos + 2))) := by
  obtain ⟨⟨ts, tofs⟩, htg⟩ := htarget
  rw [read_reloc_eq entry_table f pos start length fuel hlen ts tofs htype htg]
  have hc := read_reloc_offsets_chain f start length (read_byte_at f (pos + 1)) n
    (read_word_at f (pos + 2)) fuel hfuel hchain
  by_cases hin : chain_offset f start (read_byte_at f (pos + 1)) (read_word_at f (pos + 2)) n
      < length
  · have hw : 0xFFFB ≤ chain_word f start (read_byte_at f (pos + 1))
        (read_word_at f (pos + 2)) n := by
      rcases hend with h | h
      · omega
      · exact h
    rw [hc.2 hin hw]
    exact ⟨_, rfl, by simp only [hin, if_true]⟩
  · rw [hc.1 (by omega)]
    exact ⟨_, rfl, by simp only [hin, if_false]⟩

/-- Witness of C1 (amended): the record of `chain_file`, whose chain is 0, 4
and ends with the word 0xFFFF stored at offset 4. -/
theorem C1_read_reloc_offsets_are_chain_witness :
    ∃ r, read_reloc [] chain_file 10 0 8 2 = .ok r ∧
      r.offsets = (List.range
          (if chain_offset chain_file 0 (read_byte_at chain_file (10 + 1))
              (read_word_at chain_file (10 + 2)) 1 < 8 then 1 + 1 else 1)).map
        (chain_offset chain_file 0 (read_byte_at chain_file (10 + 1))
          (read_word_at chain_file (10 + 2))) :=
  C1_read_reloc_offsets_are_chain [] chain_file 10 0 8 1 2 (by decide) (by decide)
    ⟨(1, 0x34), rfl⟩ (by decide)
    (by
      intro k hk
      obtain rfl : k = 0 := by omega
      decide)
    (Or.inr (by decide))

/-- C2. Every offset of a relocation that `read_reloc` returns for a segment of
length `length` lies below `length`; and the first pass of `print_segments`
leaves every flag byte at or beyond a segment's length as it was, so `RELOC`
is only ever set below the length. -/
theorem C2_reloc_offsets_below_length (entry_table : List entry) (f : File) :
    (∀ (pos start length fuel : Nat) (r : reloc),
      read_reloc entry_table f pos start length fuel = .ok r →
      ∀ o ∈ r.offsets, o < length) ∧
    (∀ (fuel : Nat) (segs segs1 : List segment),
      print_segments_first_pass entry_table f fuel segs = .ok segs1 →
      segs1.length = segs.length ∧
      ∀ (k : Nat) (seg seg1 : segment), segs[k]? = some seg → segs1[k]? = some seg1 →
        seg1.length = seg.length ∧
        ∀ i, seg.length ≤ i → seg1.instr_flags[i]? = seg.instr_flags[i]?) := by
  have hrel : ∀ (pos start length fuel : Nat) (r : reloc),
      read_reloc entry_table f pos start length fuel = .ok r →
      ∀ o ∈ r.offsets, o < length := by
    intro pos start length fuel r h o ho
    rcases read_reloc_ok_offsets entry_table f pos start length fuel r h with ⟨_, h0⟩ | ⟨_, h1⟩
    · rw [h0] at ho
      cases ho
    · exact (read_reloc_offsets_sound f start length _ fuel _ _ h1).2.1 o ho
  have hmark : ∀ (length : Nat) (os : List Nat) (fl fl1 : List Nat),
      (∀ o ∈ os, o < length) → mark_relocs fl os = .ok fl1 →
      ∀ i, length ≤ i → fl1[i]? = fl[i]? := by
    intro length os
    induction os with
    | nil =>
      intro fl fl1 _ h i _
      simp only [mark_relocs] at h
      cases h
      rfl
    | cons o os ih =>
      intro fl fl1 hos h i hi
      simp only [mark_relocs, or_flag] at h
      cases hv : fl[o]? with
      | none => simp [hv] at h
      | some v =>
        simp only [hv] at h
        rw [ih _ _ (fun x hx => hos x (List.mem_cons_of_mem _ hx)) h i hi]
        have : o < length := hos o (List.mem_cons_self _ _)
        rw [List.getElem?_set_ne (by omega)]
  have htab : ∀ (fuel start length n i : Nat) (fl : List Nat) (rs : List reloc)
      (fl1 : List Nat),
      read_reloc_table entry_table f fuel start length n i fl = .ok (rs, fl1) →
      ∀ j, length ≤ j → fl1[j]? = fl[j]? := by
    intro fuel start length n
    induction n with
    | zero =>
      intro i fl rs fl1 h j _
      simp only [read_reloc_table] at h
      cases h
      rfl
    | succ n ih =>
      intro i fl rs fl1 h j hj
      rw [read_reloc_table] at h
      cases hr : read_reloc entry_table f (start + length + 2 + i * 8) start length fuel with
      | error e => simp [hr] at h
      | ok r =>
        simp only [hr] at h
        cases hm : mark_relocs fl r.offsets with
        | error e => simp [hm] at h
        | ok fl' =>
          simp only [hm] at h
          cases ht : read_reloc_table entry_table f fuel start length n (i + 1) fl' with
          | error e => simp [ht] at h
          | ok res =>
            obtain ⟨rs', fl''⟩ := res
            simp only [ht] at h
            cases h
            rw [ih _ _ _ _ ht j hj, hmark length r.offsets fl fl' (hrel _ _ _ _ r hr) hm j hj]
  refine ⟨hrel, ?_⟩
  intro fuel segs
  induction segs with
  | nil =>
    intro segs1 h
    simp only [print_segments_first_pass] at h
    cases h
    exact ⟨rfl, by intro k seg seg1 hk; simp at hk⟩
  | cons seg segs ih =>
    intro segs1 h
    rw [print_segments_first_pass] at h
    cases hs : first_pass_segment entry_table f fuel seg with
    | error e => simp [hs] at h
    | ok seg' =>
      simp only [hs] at h
      cases hp : print_segments_first_pass entry_table f fuel segs with
      | error e => simp [hp] at h
      | ok segs' =>
        simp only [hp] at h
        cases h
        obtain ⟨ih1, ih2⟩ := ih segs' hp
        refine ⟨by simp [ih1], ?_⟩
        intro k sg sg1 hk hk1
        cases k with
        | zero =>
          simp only [List.getElem?_cons_zero, Option.some.injEq] at hk hk1
          subst hk hk1
          unfold first_pass_segment at hs
          cases ht : read_reloc_table entry_table f fuel seg.start seg.length
              (read_word_at f (seg.start + seg.length)) 0 seg.instr_flags with
          | error e => simp [ht] at hs
          | ok res =>
            obtain ⟨rs, fl⟩ := res
            simp only [ht] at hs
            cases hs
            exact ⟨rfl, htab _ _ _ _ _ _ _ _ ht⟩
        | succ k =>
          simp only [List.getElem?_cons_succ] at hk hk1
          exact ih2 k sg sg1 hk hk1

/-- Witness of C2: `read_reloc` on the record of `chain_file` returns a
relocation with offsets 0 and 4, and the first pass over its segment returns
`sample_segment_read`. -/
theorem C2_reloc_offsets_below_length_witness :
    (∀ o ∈ [0, 4], o < 8) ∧
    (∀ i, 8 ≤ i → sample_segment_read.instr_flags[i]? = sample_segment.instr_flags[i]?) :=
  ⟨(C2_reloc_offsets_below_length [] chain_file).1 10 0 8 2 ⟨3, 0, [0, 4], 1, 0x34, none⟩ rfl,
   (((C2_reloc_offsets_below_length [] chain_file).2 2 [sample_segment] [sample_segment_read]
      rfl).2 0 sample_segment sample_segment_read rfl rfl).2⟩

/-- C3 (as stated, refuted). In `abort_file` the chain of the record is
0, 18, 4: offset 18 lies beyond the 8 bytes of the segment, the word found
there is below 0xFFFB and leads to offset 4, which is inside the segment and
holds the terminating word 0xFFFF.  `read_reloc` returns the offsets `[0]`
only: the later in-range offset 4 is not recorded, for any fuel. -/
theorem C3_counterexample_chain_aborted :
    8 ≤ chain_offset abort_file 0 (read_byte_at abort_file (10 + 1))
      (read_word_at abort_file (10 + 2)) 1 ∧
    chain_word abort_file 0 (read_byte_at abort_file (10 + 1))
      (read_word_at abort_file (10 + 2)) 1 < 0xFFFB ∧
    chain_offset abort_file 0 (read_byte_at abort_file (10 + 1))
      (read_word_at abort_file (10 + 2)) 2 < 8 ∧
    0xFFFB ≤ chain_word abort_file 0 (read_byte_at abort_file (10 + 1))
      (read_word_at abort_file (10 + 2)) 2 ∧
    read_reloc [] abort_file 10 0 8 3 = .ok ⟨3, 0, [0], 1, 0x34, none⟩ ∧
    ∀ fuel r, read_reloc [] abort_file 10 0 8 fuel = .ok r →
      chain_offset abort_file 0 (read_byte_at abort_file (10 + 1))
        (read_word_at abort_file (10 + 2)) 2 ∉ r.offsets := by
  refine ⟨by decide, by decide, by decide, by decide, rfl, ?_⟩
  intro fuel r h hmem
  rcases read_reloc_ok_offsets [] abort_file 10 0 8 fuel r h with ⟨h3, _⟩ | ⟨_, hw⟩
  · exact absurd h3 (by decide)
  · obtain ⟨e1, e2, _, _⟩ := read_reloc_offsets_sound abort_file 0 8 _ fuel _ _ hw
    have hlen : r.offsets.length ≤ 1 := by
      by_contra hc
      have h18 : chain_offset abort_file 0 (read_byte_at abort_file (10 + 1))
          (read_word_at abort_file (10 + 2)) 1 ∈ r.offsets := by
        rw [e1]
        exact List.mem_map.2 ⟨1, List.mem_range.2 (by omega), rfl⟩
      have := e2 _ h18
      revert this
      decide
    rw [e1] at hmem
    obtain ⟨k, hk, hk2⟩ := List.mem_map.1 hmem
    rw [List.mem_range] at hk
    obtain rfl : k = 0 := by omega
    revert hk2
    decide

/-- C3 (amended). `read_reloc` records no chain offset at or after the first
one that is at or beyond the segment length: if `o_n >= length` then the
offsets list is `o_0 .. o_(m-1)` for some `m <= n`. -/
theorem C3_chain_stops_at_out_of_range_offset (entry_table : List entry) (f : File)
    (pos start length fuel n : Nat) (r : reloc)
    (h : read_reloc entry_table f pos start length fuel = .ok r)
    (hn : length ≤ chain_offset f start (read_byte_at f (pos + 1))
      (read_word_at f (pos + 2)) n) :
    r.offsets.length ≤ n ∧
    r.offsets = (List.range r.offsets.length).map
      (chain_offset f start (read_byte_at f (pos + 1)) (read_word_at f (pos + 2))) := by
  rcases read_reloc_ok_offsets entry_table f pos start length fuel r h with ⟨_, h0⟩ | ⟨_, hw⟩
  · rw [h0]
    exact ⟨Nat.zero_le _, rfl⟩
  · obtain ⟨e1, e2, _, _⟩ := read_reloc_offsets_sound f start length _ fuel _ _ hw
    refine ⟨?_, e1⟩
    by_contra hc
    have hmem : chain_offset f start (read_byte_at f (pos + 1))
        (read_word_at f (pos + 2)) n ∈ r.offsets := by
      rw [e1]
      exact List.mem_map.2 ⟨n, List.mem_range.2 (by omega), rfl⟩
    have := e2 _ hmem
    omega

/-- Witness of C3 (amended): the record of `abort_file`, whose chain offset of
index 1 is 18. -/
theorem C3_chain_stops_at_out_of_range_offset_witness :
    ([0] : List Nat).length ≤ 1 ∧
    [0] = (List.range ([0] : List Nat).length).map
      (chain_offset abort_file 0 (read_byte_at abort_file (10 + 1))
        (read_word_at abort_file (10 + 2))) :=
  C3_chain_stops_at_out_of_range_offset [] abort_file 10 0 8 3 1 ⟨3, 0, [0], 1, 0x34, none⟩
    rfl (by decide)

/-- C4. For a record of Internal type, the target assignment of `read_reloc`
yields the segment and offset of `entry_table[k-1]` when the module word is
0xFF and the ordinal word `k` has `1 <= k <= entry_count`, and the module
word and the ordinal word themselves when the module word is not 0xFF; and
whenever the chain walk of the record returns, `read_reloc` returns a
relocation with that target, with `type = type & 3` and with `size` the raw
size byte. -/
theorem C4_read_reloc_internal_target (entry_table : List entry) (f : File)
    (pos start length fuel : Nat) (l : List Nat) (hlen : length < 65536)
    (htype : read_byte_at f (pos + 1) &&& 3 = 0)
    (hwalk : read_reloc_offsets f start length (read_byte_at f (pos + 1)) fuel
      (read_word_at f (pos + 2)) = .ok l) :
    (read_word_at f (pos + 4) = 0xff → 1 ≤ read_word_at f (pos + 6) →
      read_word_at f (pos + 6) ≤ entry_table.length →
      ∃ e r, entry_table[read_word_at f (pos + 6) - 1]? = some e ∧
        read_reloc_target entry_table (read_byte_at f (pos + 1)) (read_word_at f (pos + 4))
          (read_word_at f (pos + 6)) = .ok (e.segment, e.offset) ∧
        read_reloc entry_table f pos start length fuel = .ok r ∧
        r.target_segment = e.segment ∧ r.target_offset = e.offset ∧
        r.type = read_byte_at f (pos + 1) &&& 3 ∧ r.size = read_byte_at f pos ∧
        r.offsets = l) ∧
    (read_word_at f (pos + 4) ≠ 0xff →
      ∃ r, read_reloc_target entry_table (read_byte_at f (pos + 1)) (read_word_at f (pos + 4))
          (read_word_at f (pos + 6))
          = .ok (read_word_at f (pos + 4), read_word_at f (pos + 6)) ∧
        read_reloc entry_table f pos start length fuel = .ok r ∧
        r.target_segment = read_word_at f (pos + 4) ∧
        r.target_offset = read_word_at f (pos + 6) ∧
        r.type = read_byte_at f (pos + 1) &&& 3 ∧ r.size = read_byte_at f pos ∧
        r.offsets = l) := by
  have h3 : read_byte_at f (pos + 1) &&& 3 ≠ 3 := by omega
  constructor
  · intro hm h1 h2
    have hlt : read_word_at f (pos + 6) - 1 < entry_table.length := by omega
    have hget : entry_table[read_word_at f (pos + 6) - 1]?
        = some (entry_table[read_word_at f (pos + 6) - 1]) := List.getElem?_eq_getElem hlt
    have htg : read_reloc_target entry_table (read_byte_at f (pos + 1))
        (read_word_at f (pos + 4)) (read_word_at f (pos + 6))
        = .ok ((entry_table[read_word_at f (pos + 6) - 1]).segment,
            (entry_table[read_word_at f (pos + 6) - 1]).offset) := by
      have h0 : read_word_at f (pos + 6) ≠ 0 := by omega
      simp only [read_reloc_target, htype, hm, if_true, h0, if_false, hget]
    have hr := read_reloc_eq entry_table f pos start length fuel hlen _ _ h3 htg
    rw [hwalk] at hr
    exact ⟨_, _, hget, htg, hr, rfl, rfl, rfl, rfl, rfl⟩
  · intro hm
    have htg : read_reloc_target entry_table (read_byte_at f (pos + 1))
        (read_word_at f (pos + 4)) (read_word_at f (pos + 6))
        = .ok (read_word_at f (pos + 4), read_word_at f (pos + 6)) := by
      simp only [read_reloc_target, htype, hm, if_true, if_false]
    have hr := read_reloc_eq entry_table f pos start length fuel hlen _ _ h3 htg
    rw [hwalk] at hr
    exact ⟨_, htg, hr, rfl, rfl, rfl, rfl, rfl⟩

/-- Witness of C4: the record of `entry_file` (module word 0xFF, ordinal 1)
against `sample_entries`, and the record of `chain_file` (module word 1). -/
theorem C4_read_reloc_internal_target_witness :
    (∃ e r, sample_entries[read_word_at entry_file (10 + 6) - 1]? = some e ∧
        read_reloc_target sample_entries (read_byte_at entry_file (10 + 1))
          (read_word_at entry_file (10 + 4)) (read_word_at entry_file (10 + 6))
          = .ok (e.segment, e.offset) ∧
        read_reloc sample_entries entry_file 10 0 8 2 = .ok r ∧
        r.target_segment = e.segment ∧ r.target_offset = e.offset ∧
        r.type = read_byte_at entry_file (10 + 1) &&& 3 ∧
        r.size = read_byte_at entry_file 10 ∧ r.offsets = [0, 4]) ∧
    (∃ r, read_reloc_target sample_entries (read_byte_at chain_file (10 + 1))
          (read_word_at chain_file (10 + 4)) (read_word_at chain_file (10 + 6))
          = .ok (read_word_at chain_file (10 + 4), read_word_at chain_file (10 + 6)) ∧
        read_reloc sample_entries chain_file 10 0 8 2 = .ok r ∧
        r.target_segment = read_word_at chain_file (10 + 4) ∧
        r.target_offset = read_word_at chain_file (10 + 6) ∧
        r.type = read_byte_at chain_file (10 + 1) &&& 3 ∧
        r.size = read_byte_at chain_file 10 ∧ r.offsets = [0, 4]) :=
  ⟨(C4_read_reloc_internal_target sample_entries entry_file 10 0 8 2 [0, 4] (by decide)
      (by decide) rfl).1 (by decide) (by decide) (by decide),
   (C4_read_reloc_internal_target sample_entries chain_file 10 0 8 2 [0, 4] (by decide)
      (by decide) rfl).2 (by decide)⟩

/-- C5. `get_reloc` returns a relocation exactly when some relocation of the
table holds `ip` among its offsets; the relocation returned holds `ip` and
sits at the lowest table index that does; when no relocation holds `ip` the
result is `none`. -/
theorem C5_get_reloc_first_match (ip : Nat) (reloc_data : List reloc) :
    ((∃ r, get_reloc ip reloc_data = some r) ↔ ∃ r ∈ reloc_data, ip ∈ r.offsets) ∧
    (get_reloc ip reloc_data = none ↔ ∀ r ∈ reloc_data, ip ∉ r.offsets) ∧
    (∀ r, get_reloc ip reloc_data = some r →
      ip ∈ r.offsets ∧
      ∃ i : Nat, reloc_data[i]? = some r ∧
        ∀ (j : Nat) (r1 : reloc), j < i → reloc_data[j]? = some r1 → ip ∉ r1.offsets) := by
  induction reloc_data with
  | nil => simp [get_reloc]
  | cons r0 rs ih =>
    obtain ⟨ih1, ih2, ih3⟩ := ih
    by_cases h0 : ip ∈ r0.offsets
    · refine ⟨?_, ?_, ?_⟩
      · simp only [get_reloc, h0, if_true]
        exact ⟨fun _ => ⟨r0, List.mem_cons_self _ _, h0⟩, fun _ => ⟨r0, rfl⟩⟩
      · simp only [get_reloc, h0, if_true]
        constructor
        · intro h; cases h
        · intro h; exact absurd h0 (h r0 (List.mem_cons_self _ _))
      · intro r hr
        simp only [get_reloc, h0, if_true, Option.some.injEq] at hr
        subst hr
        refine ⟨h0, 0, by simp, ?_⟩
        intro j r1 hj
        omega
    · refine ⟨?_, ?_, ?_⟩
      · simp only [get_reloc, h0, if_false]
        rw [ih1]
        constructor
        · rintro ⟨r, hr, hip⟩
          exact ⟨r, List.mem_cons_of_mem _ hr, hip⟩
        · rintro ⟨r, hr, hip⟩
          rcases List.mem_cons.1 hr with rfl | hr
          · exact absurd hip h0
          · exact ⟨r, hr, hip⟩
      · simp only [get_reloc, h0, if_false]
        rw [ih2]
        constructor
        · intro h r hr
          rcases List.mem_cons.1 hr with rfl | hr
          · exact h0
          · exact h r hr
        · intro h r hr
          exact h r (List.mem_cons_of_mem _ hr)
      · intro r hr
        simp only [get_reloc, h0, if_false] at hr
        obtain ⟨hip, i, hi, hlow⟩ := ih3 r hr
        refine ⟨hip, i + 1, by simpa using hi, ?_⟩
        intro j r1 hj hj1
        cases j with
        | zero =>
          simp only [List.getElem?_cons_zero, Option.some.injEq] at hj1
          subst hj1
          exact h0
        | succ j =>
          simp only [List.getElem?_cons_succ] at hj1
          exact hlow j r1 (by omega) hj1

/-! ## The scanner: runs as a relation -/

/-- Every run of `scan_segment` that returns is a run of the relation `Scan`. -/
theorem scan_segment_sound (get_instr : Decoder) (f : File) :
    ∀ (fuel : Nat) (st : List segment) (cs ip : Nat) (st5 : List segment),
      scan_segment get_instr f fuel st cs ip = .ok st5 →
      Scan get_instr f st (some (cs, ip)) st5 := by
  intro fuel
  induction fuel with
  | zero => intro st cs ip st5 h; simp [scan_segment] at h
  | succ fuel ih =>
    intro st cs ip st5 h
    rw [scan_segment] at h
    cases hseg : get_segment st cs with
    | none => simp [hseg] at h
    | some seg =>
      simp only [hseg] at h
      by_cases hip : ip ≥ seg.length
      · rw [if_pos hip] at h
        rw [← Except.ok.inj h]
        exact Scan.past_end st cs ip seg hseg hip
      · rw [if_neg hip] at h
        cases hfl : seg.instr_flags[ip]? with
        | none => simp [hfl] at h
        | some fl =>
          simp only [hfl] at h
          by_cases hsc : fl &&& INSTR_SCANNED ≠ 0
          · rw [if_pos hsc] at h
            rw [← Except.ok.inj h]
            exact Scan.seen st cs ip seg fl hseg (by omega) hfl hsc
          · rw [if_neg hsc] at h
            cases h1 : set_flag st cs ip INSTR_VALID with
            | error e => simp [h1] at h
            | ok st1 =>
              simp only [h1] at h
              cases h2 : mark_scanned cs (decode_at get_instr f seg cs ip).2 ip st1 with
              | error e => simp [h2] at h
              | ok st2 =>
                simp only [h2] at h
                cases h3 : scan_transfer st2 cs ip (decode_at get_instr f seg cs ip).1
                    (decode_at get_instr f seg cs ip).2 with
                | error e => simp [h3] at h
                | ok res =>
                  obtain ⟨st3, target⟩ := res
                  simp only [h3] at h
                  have hsc' : fl &&& INSTR_SCANNED = 0 := by
                    by_contra hc
                    exact hsc hc
                  cases target with
                  | none =>
                    simp only at h
                    by_cases hr : scan_returns (decode_at get_instr f seg cs ip).1 = true
                    · simp only [hr, if_true] at h
                      rw [← Except.ok.inj h]
                      refine Scan.step st st1 st2 st3 st3 st3 cs ip seg fl none hseg (by omega)
                        hfl hsc' h1 h2 h3 (Scan.skip _) ?_
                      rw [if_pos hr]
                      exact Scan.skip _
                    · simp only [hr] at h
                      refine Scan.step st st1 st2 st3 st3 st5 cs ip seg fl none hseg (by omega)
                        hfl hsc' h1 h2 h3 (Scan.skip _) ?_
                      rw [if_neg hr]
                      exact ih _ _ _ _ h
                  | some t =>
                    obtain ⟨tcs, tip⟩ := t
                    simp only at h
                    cases h4 : scan_segment get_instr f fuel st3 tcs tip with
                    | error e => simp [h4] at h
                    | ok st4 =>
                      simp only [h4] at h
                      by_cases hr : scan_returns (decode_at get_instr f seg cs ip).1 = true
                      · simp only [hr, if_true] at h
                        rw [← Except.ok.inj h]
                        refine Scan.step st st1 st2 st3 st4 st4 cs ip seg fl (some (tcs, tip))
                          hseg (by omega) hfl hsc' h1 h2 h3 (ih _ _ _ _ h4) ?_
                        rw [if_pos hr]
                        exact Scan.skip _
                      · simp only [hr] at h
                        refine Scan.step st st1 st2 st3 st4 st5 cs ip seg fl (some (tcs, tip))
                          hseg (by omega) hfl hsc' h1 h2 h3 (ih _ _ _ _ h4) ?_
                        rw [if_neg hr]
                        exact ih _ _ _ _ h

/-! ## Flag bits -/

theorem lor_eq_zero (x y : Nat) : x ||| y = 0 ↔ x = 0 ∧ y = 0 := by
  constructor
  · intro h
    have hx : ∀ i, (x ||| y).testBit i = false := by intro i; rw [h]; simp
    constructor
    · apply Nat.eq_of_testBit_eq
      intro i
      have := hx i
      simp only [Nat.testBit_or, Bool.or_eq_false_iff] at this
      simp [this.1]
    · apply Nat.eq_of_testBit_eq
      intro i
      have := hx i
      simp only [Nat.testBit_or, Bool.or_eq_false_iff] at this
      simp [this.2]
  · rintro ⟨rfl, rfl⟩
    rfl

theorem or_and_bne_zero (v b m : Nat) :
    ((v ||| b) &&& m != 0) = ((v &&& m != 0) || (b &&& m != 0)) := by
  rw [Nat.and_distrib_right, Bool.eq_iff_iff]
  simp only [bne_iff_ne, ne_eq, lor_eq_zero, Bool.or_eq_true]
  tauto

/-! ## The effect of the flag updates -/

theorem get_segment_map_skeleton (st : List segment) (cs : Nat) :
    get_segment (st.map skeleton) cs = (get_segment st cs).map skeleton := by
  unfold get_segment
  by_cases h : cs = 0
  · simp [h]
  · simp [h, List.getElem?_map]

/-- States with the same skeleton have the same segments up to flag values. -/
theorem skeleton_get_segment (st st1 : List segment)
    (h : st1.map skeleton = st.map skeleton) (cs : Nat) (seg : segment)
    (hs : get_segment st cs = some seg) :
    ∃ seg1, get_segment st1 cs = some seg1 ∧ skeleton seg1 = skeleton seg := by
  have h1 := get_segment_map_skeleton st1 cs
  rw [h, get_segment_map_skeleton, hs] at h1
  cases hs1 : get_segment st1 cs with
  | none => simp [hs1] at h1
  | some seg1 =>
    rw [hs1] at h1
    simp only [Option.map_some', Option.some.injEq] at h1
    exact ⟨seg1, rfl, h1.symm⟩

theorem skeleton_fields (seg seg1 : segment) (h : skeleton seg1 = skeleton seg) :
    seg1.cs = seg.cs ∧ seg1.start = seg.start ∧ seg1.length = seg.length ∧
    seg1.flags = seg.flags ∧ seg1.min_alloc = seg.min_alloc ∧
    seg1.reloc_table = seg.reloc_table ∧
    seg1.instr_flags.length = seg.instr_flags.length := by
  unfold skeleton at h
  have h1 := congrArg segment.cs h
  have h2 := congrArg segment.start h
  have h3 := congrArg segment.length h
  have h4 := congrArg segment.flags h
  have h5 := congrArg segment.min_alloc h
  have h6 := congrArg segment.reloc_table h
  have h7 := congrArg (fun s => s.instr_flags.length) h
  simp only [List.length_replicate] at h7
  exact ⟨h1, h2, h3, h4, h5, h6, h7⟩

theorem decode_at_skeleton (get_instr : Decoder) (f : File) (seg seg1 : segment)
    (h : skeleton seg1 = skeleton seg) (cs ip : Nat) :
    decode_at get_instr f seg1 cs ip = decode_at get_instr f seg cs ip := by
  obtain ⟨_, h2, h3, h4, _, _, _⟩ := skeleton_fields seg seg1 h
  unfold decode_at read_instr_buffer
  rw [h2, h3, h4]

/-- The flag bits after `instr_flags[i] |= bit` on segment `cs`. -/
theorem set_flag_spec (st st1 : List segment) (cs i bit : Nat)
    (h : set_flag st cs i bit = .ok st1) :
    st1.map skeleton = st.map skeleton ∧
    (∃ v, flag_at st cs i = some v) ∧
    ∀ c j m, has_flag st1 c j m
      = (has_flag st c j m || (decide (c = cs) && decide (j = i) && (bit &&& m != 0))) := by
  unfold set_flag at h
  cases hs : get_segment st cs with
  | none => simp [hs] at h
  | some seg =>
    simp only [hs, or_flag] at h
    cases hv : seg.instr_flags[i]? with
    | none => simp [hv] at h
    | some v =>
      simp only [hv] at h
      have h' := Except.ok.inj h
      have hcs : cs ≠ 0 := by
        intro h0
        simp [get_segment, h0] at hs
      have hget : st[cs - 1]? = some seg := by
        simpa [get_segment, hcs] using hs
      have hlt : cs - 1 < st.length := by
        rcases List.getElem?_eq_some.1 hget with ⟨hlt, _⟩
        exact hlt
      have hi : i < seg.instr_flags.length := by
        rcases List.getElem?_eq_some.1 hv with ⟨hlt, _⟩
        exact hlt
      refine ⟨?_, ⟨v, by simp [flag_at, hs, hv]⟩, ?_⟩
      · rw [← h', List.map_set]
        have hsk : skeleton { seg with instr_flags := seg.instr_flags.set i (v ||| bit) }
            = skeleton seg := by
          simp [skeleton]
        rw [hsk]
        apply List.ext_getElem?
        intro k
        rw [List.getElem?_set]
        by_cases hk : cs - 1 = k
        · subst hk
          rcases List.getElem?_eq_some.1 hget with ⟨_, hgeq⟩
          simp [hlt, List.getElem?_map, hgeq]
        · simp [hk]
      · intro c j m
        unfold has_flag flag_at
        by_cases hc : c = cs
        · subst hc
          have hs1 : get_segment st1 c
              = some { seg with instr_flags := seg.instr_flags.set i (v ||| bit) } := by
            rw [← h']
            simp [get_segment, hcs, List.getElem?_set, hlt]
          rw [hs1, hs]
          simp only [List.getElem?_set]
          by_cases hj : i = j
          · subst hj
            simp only [hi, if_true, hv, or_and_bne_zero]
            simp
          · have hj' : ¬ j = i := fun e => hj e.symm
            simp [hj, hj']
        · have hs1 : get_segment st1 c = get_segment st c := by
            rw [← h']
            unfold get_segment
            by_cases hc0 : c = 0
            · simp [hc0]
            · have : cs - 1 ≠ c - 1 := by omega
              simp [hc0, List.getElem?_set, this]
          rw [hs1]
          simp [hc]

/-- The flag bits after the marking loop over `[i, i+n)` of segment `cs`. -/
theorem mark_scanned_spec (cs : Nat) :
    ∀ (n i : Nat) (st st1 : List segment), mark_scanned cs n i st = .ok st1 →
      st1.map skeleton = st.map skeleton ∧
      ∀ c j m, has_flag st1 c j m
        = (has_flag st c j m ||
          (decide (c = cs) && decide (i ≤ j ∧ j < i + n) && (INSTR_SCANNED &&& m != 0))) := by
  intro n
  induction n with
  | zero =>
    intro i st st1 h
    simp only [mark_scanned] at h
    rw [← Except.ok.inj h]
    refine ⟨rfl, ?_⟩
    intro c j m
    have : ¬ (i ≤ j ∧ j < i + 0) := by omega
    simp [this]
  | succ n ih =>
    intro i st st1 h
    rw [mark_scanned] at h
    cases h1 : set_flag st cs i INSTR_SCANNED with
    | error e => simp [h1] at h
    | ok st0 =>
      simp only [h1] at h
      obtain ⟨e1, _, e2⟩ := set_flag_spec st st0 cs i INSTR_SCANNED h1
      obtain ⟨e3, e4⟩ := ih (i + 1) st0 st1 h
      refine ⟨e3.trans e1, ?_⟩
      intro c j m
      rw [e4, e2]
      by_cases hc : c = cs
      · by_cases hm : INSTR_SCANNED &&& m = 0
        · simp [hm]
        · by_cases h1 : j = i
          · subst h1
            simp [hc, hm]
          · by_cases h2 : i + 1 ≤ j ∧ j < i + 1 + n
            · have h3 : i ≤ j ∧ j < i + (n + 1) := by omega
              simp [hc, hm, h1, h2, h3]
            · have h3 : ¬ (i ≤ j ∧ j < i + (n + 1)) := by omega
              simp [hc, hm, h1, h2, h3]
      · simp [hc]

/-- The flag bits after the marking of a far target. -/
theorem far_mark_spec (st st1 : List segment) (ts off : Nat) (name : String)
    (h : far_mark st ts off name = .ok st1) :
    st1.map skeleton = st.map skeleton ∧
    ∀ c j m, has_flag st1 c j m
      = (has_flag st c j m || (decide (c = ts) && decide (j = off) &&
          ((INSTR_FAR ||| (if name = "call" then INSTR_FUNC else INSTR_JUMP)) &&& m != 0))) := by
  unfold far_mark at h
  cases h1 : set_flag st ts off INSTR_FAR with
  | error e => simp [h1] at h
  | ok st0 =>
    simp only [h1] at h
    obtain ⟨e1, _, e2⟩ := set_flag_spec st st0 ts off INSTR_FAR h1
    obtain ⟨e3, _, e4⟩ := set_flag_spec st0 st1 ts off _ h
    refine ⟨e3.trans e1, ?_⟩
    intro c j m
    rw [e4, e2, or_and_bne_zero]
    cases has_flag st c j m <;> cases decide (c = ts) <;> cases decide (j = off) <;> simp

/-- The transfer part of the loop body changes at most one flag byte, by
bits among `FAR`, `FUNC` and `JUMP`, and whenever it changes one it names that
byte as the place to scan next. -/
theorem scan_transfer_spec (st st3 : List segment) (cs ip : Nat) (instr : instr_info)
    (len : Nat) (target : Option (Nat × Nat))
    (h : scan_transfer st cs ip instr len = .ok (st3, target)) :
    st3.map skeleton = st.map skeleton ∧
    ∃ c0 j0 b0,
      (∀ c j m, has_flag st3 c j m
        = (has_flag st c j m || (decide (c = c0) && decide (j = j0) && (b0 &&& m != 0)))) ∧
      b0 &&& INSTR_VALID = 0 ∧ b0 &&& INSTR_SCANNED = 0 ∧ b0 &&& INSTR_RELOC = 0 ∧
      (b0 ≠ 0 → ∃ j1, target = some (c0, j1) ∧ (j0 < 65536 → j1 = j0)) := by
  have hnone : ∀ (s : List segment), s = st →
      s.map skeleton = st.map skeleton ∧
      ∃ c0 j0 b0,
        (∀ c j m, has_flag s c j m
          = (has_flag st c j m || (decide (c = c0) && decide (j = j0) && (b0 &&& m != 0)))) ∧
        b0 &&& INSTR_VALID = 0 ∧ b0 &&& INSTR_SCANNED = 0 ∧ b0 &&& INSTR_RELOC = 0 ∧
        (b0 ≠ 0 → ∃ j1, target = some (c0, j1) ∧ (j0 < 65536 → j1 = j0)) := by
    intro s hs
    subst hs
    exact ⟨rfl, 0, 0, 0, by simp, rfl, rfl, rfl, fun h => absurd rfl h⟩
  have hbits : ∀ name : String,
      (INSTR_FAR ||| (if name = "call" then INSTR_FUNC else INSTR_JUMP)) &&& INSTR_VALID = 0 ∧
      (INSTR_FAR ||| (if name = "call" then INSTR_FUNC else INSTR_JUMP)) &&& INSTR_SCANNED = 0 ∧
      (INSTR_FAR ||| (if name = "call" then INSTR_FUNC else INSTR_JUMP)) &&& INSTR_RELOC = 0 := by
    intro name
    by_cases hn : name = "call" <;> simp only [hn, if_true, if_false] <;> decide
  have hbits1 : ∀ name : String,
      (if name = "call" then INSTR_FUNC else INSTR_JUMP) &&& INSTR_VALID = 0 ∧
      (if name = "call" then INSTR_FUNC else INSTR_JUMP) &&& INSTR_SCANNED = 0 ∧
      (if name = "call" then INSTR_FUNC else INSTR_JUMP) &&& INSTR_RELOC = 0 := by
    intro name
    by_cases hn : name = "call" <;> simp only [hn, if_true, if_false] <;> decide
  unfold scan_transfer at h
  by_cases hp : instr.op.arg0 = arg.PTR32
  · simp only [hp, if_true] at h
    cases hs : get_segment st cs with
    | none => simp [hs] at h
    | some seg =>
      simp only [hs] at h
      cases hi : first_reloc_byte seg.instr_flags len ip with
      | none =>
        simp only [hi] at h
        exact hnone st3 (Prod.mk.inj (Except.ok.inj h)).1.symm
      | some i =>
        simp only [hi] at h
        cases hr : get_reloc i seg.reloc_table with
        | none => simp [hr] at h
        | some r =>
          simp only [hr] at h
          by_cases ht : r.type ≠ 0
          · rw [if_pos ht] at h
            exact hnone st3 (Prod.mk.inj (Except.ok.inj h)).1.symm
          · rw [if_neg ht] at h
            by_cases h3 : r.size = 3
            · rw [if_pos h3] at h
              cases hm : far_mark st r.target_segment r.target_offset instr.op.name with
              | error e => simp [hm] at h
              | ok s1 =>
                simp only [hm] at h
                obtain ⟨e1, e2⟩ := Prod.mk.inj (Except.ok.inj h)
                subst e1
                obtain ⟨k1, k2⟩ := far_mark_spec _ _ _ _ _ hm
                obtain ⟨b1, b2, b3⟩ := hbits instr.op.name
                exact ⟨k1, r.target_segment, r.target_offset, _, k2, b1, b2, b3,
                  fun _ => ⟨_, e2.symm, fun _ => rfl⟩⟩
            · rw [if_neg h3] at h
              by_cases h2 : r.size = 2
              · rw [if_pos h2] at h
                cases hm : far_mark st r.target_segment instr.arg0 instr.op.name with
                | error e => simp [hm] at h
                | ok s1 =>
                  simp only [hm] at h
                  obtain ⟨e1, e2⟩ := Prod.mk.inj (Except.ok.inj h)
                  subst e1
                  obtain ⟨k1, k2⟩ := far_mark_spec _ _ _ _ _ hm
                  obtain ⟨b1, b2, b3⟩ := hbits instr.op.name
                  exact ⟨k1, r.target_segment, instr.arg0, _, k2, b1, b2, b3,
                    fun _ => ⟨_, e2.symm, fun hlt => Nat.mod_eq_of_lt hlt⟩⟩
              · rw [if_neg h2] at h
                exact hnone st3 (Prod.mk.inj (Except.ok.inj h)).1.symm
  · simp only [hp, if_false] at h
    by_cases hrel : instr.op.arg0 = arg.REL8 ∨ instr.op.arg0 = arg.REL16
    · rw [if_pos hrel] at h
      cases hm : set_flag st cs instr.arg0
          (if instr.op.name = "call" then INSTR_FUNC else INSTR_JUMP) with
      | error e => simp [hm] at h
      | ok s1 =>
        simp only [hm] at h
        obtain ⟨e1, e2⟩ := Prod.mk.inj (Except.ok.inj h)
        subst e1
        obtain ⟨k1, _, k2⟩ := set_flag_spec _ _ _ _ _ hm
        obtain ⟨b1, b2, b3⟩ := hbits1 instr.op.name
        exact ⟨k1, cs, instr.arg0, _, k2, b1, b2, b3,
          fun _ => ⟨_, e2.symm, fun hlt => Nat.mod_eq_of_lt hlt⟩⟩
    · rw [if_neg hrel] at h
      exact hnone st3 (Prod.mk.inj (Except.ok.inj h)).1.symm

/-! ## What a run of the scanner preserves -/

/-- A run of the scanner keeps the skeleton of the state, never clears a flag
bit and never changes a `RELOC` bit. -/
theorem scan_frame (get_instr : Decoder) (f : File) (st st5 : List segment)
    (t : Option (Nat × Nat)) (h : Scan get_instr f st t st5) :
    st5.map skeleton = st.map skeleton ∧
    (∀ c j m, has_flag st c j m = true → has_flag st5 c j m = true) ∧
    (∀ c j, has_flag st5 c j INSTR_RELOC = has_flag st c j INSTR_RELOC) := by
  induction h with
  | skip st => exact ⟨rfl, fun _ _ _ h => h, fun _ _ => rfl⟩
  | past_end st cs ip seg _ _ => exact ⟨rfl, fun _ _ _ h => h, fun _ _ => rfl⟩
  | seen st cs ip seg fl _ _ _ _ => exact ⟨rfl, fun _ _ _ h => h, fun _ _ => rfl⟩
  | step st st1 st2 st3 st4 st5 cs ip seg fl target hseg hip hfl hsc h1 h2 h3 _ _ ih4 ih5 =>
    obtain ⟨a1, _, a2⟩ := set_flag_spec _ _ _ _ _ h1
    obtain ⟨b1, b2⟩ := mark_scanned_spec _ _ _ _ _ h2
    obtain ⟨c1, c0, j0, b0, c2, _, _, c3, _⟩ := scan_transfer_spec _ _ _ _ _ _ _ h3
    obtain ⟨d1, d2, d3⟩ := ih4
    obtain ⟨e1, e2, e3⟩ := ih5
    refine ⟨e1.trans (d1.trans (c1.trans (b1.trans a1))), ?_, ?_⟩
    · intro c j m hm
      apply e2
      apply d2
      rw [c2, b2, a2, hm]
      rfl
    · intro c j
      rw [e3, d3, c2, b2, a2, c3]
      have hv : (INSTR_VALID &&& INSTR_RELOC != 0) = false := by decide
      have hs : (INSTR_SCANNED &&& INSTR_RELOC != 0) = false := by decide
      simp [hv, hs]

/-- The invariant `VALID ⇒ SCANNED` on a flag state. -/
theorem scan_valid_scanned (get_instr : Decoder) (f : File)
    (hdec : ∀ cs ip p is32, 1 ≤ (get_instr cs ip p is32).2)
    (st st5 : List segment) (t : Option (Nat × Nat)) (h : Scan get_instr f st t st5) :
    (∀ c j, has_flag st c j INSTR_VALID = true → has_flag st c j INSTR_SCANNED = true) →
    (∀ c j, has_flag st5 c j INSTR_VALID = true → has_flag st5 c j INSTR_SCANNED = true) := by
  induction h with
  | skip st => exact fun h => h
  | past_end st cs ip seg _ _ => exact fun h => h
  | seen st cs ip seg fl _ _ _ _ => exact fun h => h
  | step st st1 st2 st3 st4 st5 cs ip seg fl target hseg hip hfl hsc h1 h2 h3 _ _ ih4 ih5 =>
    intro hinv
    obtain ⟨_, _, a2⟩ := set_flag_spec _ _ _ _ _ h1
    obtain ⟨_, b2⟩ := mark_scanned_spec _ _ _ _ _ h2
    obtain ⟨_, c0, j0, b0, c2, c3, c4, _, _⟩ := scan_transfer_spec _ _ _ _ _ _ _ h3
    apply ih5
    apply ih4
    intro c j hv
    have hlen : 1 ≤ (decode_at get_instr f seg cs ip).2 := hdec _ _ _ _
    rw [c2, b2, a2, c3] at hv
    rw [c2, b2, a2, c4]
    have hvs : (INSTR_VALID &&& INSTR_SCANNED != 0) = false := by decide
    have hsv : (INSTR_SCANNED &&& INSTR_VALID != 0) = false := by decide
    have hss : (INSTR_SCANNED &&& INSTR_SCANNED != 0) = true := by decide
    have hvv : (INSTR_VALID &&& INSTR_VALID != 0) = true := by decide
    simp only [hvs, hsv, hss, hvv, Bool.and_false, Bool.or_false, Bool.and_true, bne_self_eq_false,
      Bool.or_eq_true, Bool.and_eq_true, decide_eq_true_eq] at hv ⊢
    rcases hv with hv | ⟨hc, hj⟩
    · exact Or.inl (hinv c j hv)
    · exact Or.inr ⟨hc, by omega⟩

theorem has_flag_of_getElem (st : List segment) (cs i m : Nat) (seg : segment) (fl : Nat)
    (hseg : get_segment st cs = some seg) (hfl : seg.instr_flags[i]? = some fl) :
    has_flag st cs i m = (fl &&& m != 0) := by
  simp [has_flag, flag_at, hseg, hfl]

/-- After a run of `scan_segment(cs, ip)` with `ip` inside the segment, the
byte `cs:ip` carries `SCANNED`. -/
theorem scan_scanned (get_instr : Decoder) (f : File)
    (hdec : ∀ cs ip p is32, 1 ≤ (get_instr cs ip p is32).2)
    (st st5 : List segment) (t : Option (Nat × Nat)) (h : Scan get_instr f st t st5) :
    ∀ cs ip seg, t = some (cs, ip) → get_segment st cs = some seg → ip < seg.length →
      has_flag st5 cs ip INSTR_SCANNED = true := by
  induction h with
  | skip st => intro cs ip seg ht; cases ht
  | past_end st cs0 ip0 seg0 hseg0 hlen =>
    intro cs ip seg ht hseg hip
    cases ht
    rw [hseg0] at hseg
    cases hseg
    omega
  | seen st cs0 ip0 seg0 fl hseg0 _ hfl hsc =>
    intro cs ip seg ht hseg hip
    cases ht
    rw [has_flag_of_getElem st _ _ _ seg0 fl hseg0 hfl]
    simpa using hsc
  | step st st1 st2 st3 st4 st5 cs0 ip0 seg0 fl target hseg0 hip0 hfl hsc h1 h2 h3 s4 s5 _ _ =>
    intro cs ip seg ht hseg hip
    cases ht
    obtain ⟨_, b2⟩ := mark_scanned_spec _ _ _ _ _ h2
    obtain ⟨_, c0, j0, b0, c2, _, _, _, _⟩ := scan_transfer_spec _ _ _ _ _ _ _ h3
    apply (scan_frame _ _ _ _ _ s5).2.1
    apply (scan_frame _ _ _ _ _ s4).2.1
    rw [c2, b2]
    have hlen : 1 ≤ (decode_at get_instr f seg0 cs0 ip0).2 := hdec _ _ _ _
    have hss : (INSTR_SCANNED &&& INSTR_SCANNED != 0) = true := by decide
    have hin : ip0 ≤ ip0 ∧ ip0 < ip0 + (decode_at get_instr f seg0 cs0 ip0).2 := by omega
    rw [hss, decide_eq_true hin, decide_eq_true (rfl : cs0 = cs0)]
    simp

/-- A run of the scanner sets `FUNC` only on bytes that it leaves `SCANNED`
(for bytes inside their segment, whose length is a 16-bit word). -/
theorem scan_func_scanned (get_instr : Decoder) (f : File)
    (hdec : ∀ cs ip p is32, 1 ≤ (get_instr cs ip p is32).2)
    (st st5 : List segment) (t : Option (Nat × Nat)) (h : Scan get_instr f st t st5) :
    ∀ c j seg, get_segment st c = some seg → j < seg.length → seg.length < 65536 →
      has_flag st5 c j INSTR_FUNC = true → has_flag st c j INSTR_FUNC = false →
      has_flag st5 c j INSTR_SCANNED = true := by
  induction h with
  | skip st => intro c j seg _ _ _ h1 h2; rw [h1] at h2; cases h2
  | past_end st cs0 ip0 seg0 _ _ => intro c j seg _ _ _ h1 h2; rw [h1] at h2; cases h2
  | seen st cs0 ip0 seg0 fl _ _ _ _ => intro c j seg _ _ _ h1 h2; rw [h1] at h2; cases h2
  | step st st1 st2 st3 st4 st5 cs ip seg0 fl target hseg0 hip0 hfl hsc h1 h2 h3 s4 s5 ih4 ih5 =>
    intro c j seg hseg hj hw hf5 hf0
    obtain ⟨a1, _, a2⟩ := set_flag_spec _ _ _ _ _ h1
    obtain ⟨b1, b2⟩ := mark_scanned_spec _ _ _ _ _ h2
    obtain ⟨c1, c0, j0, b0, c2, _, _, _, c5⟩ := scan_transfer_spec _ _ _ _ _ _ _ h3
    have d1 := (scan_frame _ _ _ _ _ s4).1
    have sk3 : st3.map skeleton = st.map skeleton := c1.trans (b1.trans a1)
    have sk4 : st4.map skeleton = st.map skeleton := d1.trans sk3
    obtain ⟨seg3, hseg3, hk3⟩ := skeleton_get_segment st st3 sk3 c seg hseg
    obtain ⟨seg4, hseg4, hk4⟩ := skeleton_get_segment st st4 sk4 c seg hseg
    have hl3 := (skeleton_fields seg seg3 hk3).2.2.1
    have hl4 := (skeleton_fields seg seg4 hk4).2.2.1
    cases hf4 : has_flag st4 c j INSTR_FUNC with
    | false => exact ih5 c j seg4 hseg4 (by omega) (by omega) hf5 hf4
    | true =>
      apply (scan_frame _ _ _ _ _ s5).2.1
      cases hf3 : has_flag st3 c j INSTR_FUNC with
      | false => exact ih4 c j seg3 hseg3 (by omega) (by omega) hf4 hf3
      | true =>
        rw [c2, b2, a2, hf0] at hf3
        have hvf : (INSTR_VALID &&& INSTR_FUNC != 0) = false := by decide
        have hsf : (INSTR_SCANNED &&& INSTR_FUNC != 0) = false := by decide
        simp only [hvf, hsf, Bool.and_false, Bool.or_false, Bool.false_or, Bool.and_eq_true,
          decide_eq_true_eq, bne_iff_ne, ne_eq] at hf3
        obtain ⟨⟨hc, hj0⟩, hb⟩ := hf3
        have hb0 : b0 ≠ 0 := by
          intro h0
          rw [h0] at hb
          exact hb (by simp)
        obtain ⟨j1, ht, hj1⟩ := c5 hb0
        have hj1' : j1 = j := by rw [hj1 (by omega), hj0]
        subst hc
        exact scan_scanned get_instr f hdec st3 st4 target s4 c j seg3
          (by rw [ht, hj1']) hseg3 (by omega)

/-! ## The driver -/

theorem sample_get_instr_length (cs ip : Nat) (p : List Nat) (is32 : Nat) :
    1 ≤ (sample_get_instr cs ip p is32).2 := by
  unfold sample_get_instr
  split <;> simp

theorem initial_flags_of_forall (st : List segment)
    (h : ∀ seg ∈ st, ∀ v ∈ seg.instr_flags, v = 0 ∨ v = INSTR_RELOC) : initial_flags st := by
  intro c j v hv
  unfold flag_at get_segment at hv
  by_cases hc : c = 0
  · simp [hc] at hv
  · simp only [hc, if_false] at hv
    cases hs : st[c - 1]? with
    | none => simp [hs] at hv
    | some seg =>
      simp only [hs] at hv
      exact h seg (List.getElem?_mem hs) v (List.getElem?_mem hv)

theorem initial_flags_no_flag (st : List segment) (h : initial_flags st) (c j m : Nat)
    (hm : INSTR_RELOC &&& m = 0) : has_flag st c j m = false := by
  unfold has_flag
  cases hv : flag_at st c j with
  | none => rfl
  | some v =>
    rcases h c j v hv with rfl | rfl
    · simp
    · simp [hm]

/-- The states the second pass of `print_segments` runs through are reachable. -/
theorem scan_entries_reachable (get_instr : Decoder) (f : File) (fuel : Nat) :
    ∀ (entry_table : List entry) (st st1 : List segment),
      reachable_state get_instr f st →
      scan_entries get_instr f fuel entry_table st = .ok st1 →
      reachable_state get_instr f st1 := by
  intro entry_table
  induction entry_table with
  | nil =>
    intro st st1 hr h
    simp only [scan_entries] at h
    rw [← Except.ok.inj h]
    exact hr
  | cons e es ih =>
    intro st st1 hr h
    rw [scan_entries] at h
    by_cases h1 : e.segment = 0xfe
    · rw [if_pos h1] at h
      exact ih st st1 hr h
    · rw [if_neg h1] at h
      by_cases h2 : e.flags &&& 1 = 0
      · rw [if_pos h2] at h
        exact ih st st1 hr h
      · rw [if_neg h2] at h
        cases h3 : scan_segment get_instr f fuel st e.segment e.offset with
        | error err => simp [h3] at h
        | ok sa =>
          simp only [h3] at h
          cases h4 : set_flag sa e.segment e.offset INSTR_FUNC with
          | error err => simp [h4] at h
          | ok sb =>
            simp only [h4] at h
            exact ih sb st1
              (reachable_state.func sa sb _ _ (reachable_state.scan st sa fuel _ _ hr h3) h4) h

theorem second_pass_reachable (get_instr : Decoder) (f : File) (fuel : Nat)
    (entry_table : List entry) (entry_cs entry_ip : Nat) (st st1 : List segment)
    (hr : reachable_state get_instr f st)
    (h : print_segments_second_pass get_instr f fuel entry_table entry_cs entry_ip st
      = .ok st1) :
    reachable_state get_instr f st1 := by
  unfold print_segments_second_pass at h
  cases h1 : scan_entries get_instr f fuel entry_table st with
  | error e => simp [h1] at h
  | ok sa =>
    simp only [h1] at h
    have hra := scan_entries_reachable get_instr f fuel entry_table st sa hr h1
    unfold scan_program_entry at h
    cases h2 : get_segment sa entry_cs with
    | none => simp [h2] at h
    | some seg =>
      simp only [h2] at h
      by_cases h3 : entry_ip ≥ seg.length
      · rw [if_pos h3] at h
        rw [← Except.ok.inj h]
        exact hra
      · rw [if_neg h3] at h
        cases h4 : set_flag sa entry_cs entry_ip INSTR_FUNC with
        | error e => simp [h4] at h
        | ok sb =>
          simp only [h4] at h
          exact reachable_state.scan sb st1 fuel _ _ (reachable_state.func sa sb _ _ hra h4) h

/-- C7. In every flag state reachable from an initial state (all flags zero
except `RELOC`) by the driver and by calls of `scan_segment`, every byte that
carries `VALID` carries `SCANNED`, provided every decode consumes at least one
byte; the states left by the second pass of `print_segments` are such states. -/
theorem C7_valid_implies_scanned (get_instr : Decoder) (f : File)
    (hdec : ∀ cs ip p is32, 1 ≤ (get_instr cs ip p is32).2) :
    (∀ st, reachable_state get_instr f st →
      ∀ cs b, has_flag st cs b INSTR_VALID = true → has_flag st cs b INSTR_SCANNED = true) ∧
    (∀ fuel entry_table entry_cs entry_ip st st1, initial_flags st →
      print_segments_second_pass get_instr f fuel entry_table entry_cs entry_ip st = .ok st1 →
      ∀ cs b, has_flag st1 cs b INSTR_VALID = true → has_flag st1 cs b INSTR_SCANNED = true) := by
  have main : ∀ st, reachable_state get_instr f st →
      ∀ cs b, has_flag st cs b INSTR_VALID = true → has_flag st cs b INSTR_SCANNED = true := by
    intro st hr
    induction hr with
    | init st hinit =>
      intro cs b hv
      rw [initial_flags_no_flag st hinit cs b INSTR_VALID (by decide)] at hv
      cases hv
    | scan st st1 fuel cs ip _ hscan ih =>
      exact scan_valid_scanned get_instr f hdec st st1 _
        (scan_segment_sound get_instr f fuel st cs ip st1 hscan) ih
    | func st st1 cs ip _ hset ih =>
      intro c b hv
      obtain ⟨_, _, e2⟩ := set_flag_spec _ _ _ _ _ hset
      rw [e2] at hv ⊢
      have hfv : (INSTR_FUNC &&& INSTR_VALID != 0) = false := by decide
      rw [hfv] at hv
      simp only [Bool.and_false, Bool.or_false] at hv
      rw [ih c b hv]
      rfl
  refine ⟨main, ?_⟩
  intro fuel entry_table entry_cs entry_ip st st1 hinit hrun
  exact main st1 (second_pass_reachable get_instr f fuel entry_table entry_cs entry_ip st st1
    (reachable_state.init st hinit) hrun)

/-- Witness of C7: the scan of `mov_file` from `overlap_entries` and the
program entry 1:0000 with the sample decoder; byte 3 (the `ret`) carries
`VALID`, hence `SCANNED`. -/
theorem C7_valid_implies_scanned_witness :
    has_flag [mov_segment_scanned] 1 3 INSTR_SCANNED = true :=
  (C7_valid_implies_scanned sample_get_instr mov_file sample_get_instr_length).2
    10 overlap_entries 1 0 [mov_segment] [mov_segment_scanned]
    (initial_flags_of_forall _ (by decide)) rfl 1 3 rfl

/-- `FUNC ⇒ SCANNED` for the bytes inside their segment. -/
theorem func_scanned_scan (get_instr : Decoder) (f : File)
    (hdec : ∀ cs ip p is32, 1 ≤ (get_instr cs ip p is32).2)
    (fuel : Nat) (st st1 : List segment) (cs ip : Nat)
    (hwords : ∀ c seg, get_segment st c = some seg → seg.length < 65536)
    (hrun : scan_segment get_instr f fuel st cs ip = .ok st1) :
    ∀ c j seg, get_segment st c = some seg → j < seg.length →
      has_flag st1 c j INSTR_FUNC = true →
      (has_flag st c j INSTR_FUNC = true → has_flag st c j INSTR_SCANNED = true ∨
        (c = cs ∧ j = ip)) →
      has_flag st1 c j INSTR_SCANNED = true := by
  intro c j seg hseg hj hf1 hold
  have hs := scan_segment_sound get_instr f fuel st cs ip st1 hrun
  cases hf0 : has_flag st c j INSTR_FUNC with
  | false =>
    exact scan_func_scanned get_instr f hdec st st1 _ hs c j seg hseg hj (hwords c seg hseg)
      hf1 hf0
  | true =>
    rcases hold hf0 with h | ⟨rfl, rfl⟩
    · exact (scan_frame _ _ _ _ _ hs).2.1 c j _ h
    · exact scan_scanned get_instr f hdec st st1 _ hs c j seg rfl hseg hj

theorem words_of_skeleton (st st1 : List segment) (h : st1.map skeleton = st.map skeleton)
    (hwords : ∀ c seg, get_segment st c = some seg → seg.length < 65536) :
    ∀ c seg, get_segment st1 c = some seg → seg.length < 65536 := by
  intro c seg1 hseg1
  obtain ⟨seg, hseg, hk⟩ := skeleton_get_segment st1 st h.symm c seg1 hseg1
  have := (skeleton_fields seg1 seg hk).2.2.1
  have := hwords c seg hseg
  omega

theorem scan_entries_func_scanned (get_instr : Decoder) (f : File)
    (hdec : ∀ cs ip p is32, 1 ≤ (get_instr cs ip p is32).2) (fuel : Nat) :
    ∀ (entry_table : List entry) (st st1 : List segment),
      (∀ c seg, get_segment st c = some seg → seg.length < 65536) →
      (∀ c j seg, get_segment st c = some seg → j < seg.length →
        has_flag st c j INSTR_FUNC = true → has_flag st c j INSTR_SCANNED = true) →
      scan_entries get_instr f fuel entry_table st = .ok st1 →
      st1.map skeleton = st.map skeleton ∧
      (∀ c j seg, get_segment st1 c = some seg → j < seg.length →
        has_flag st1 c j INSTR_FUNC = true → has_flag st1 c j INSTR_SCANNED = true) := by
  intro entry_table
  induction entry_table with
  | nil =>
    intro st st1 _ hinv h
    simp only [scan_entries] at h
    rw [← Except.ok.inj h]
    exact ⟨rfl, hinv⟩
  | cons e es ih =>
    intro st st1 hwords hinv h
    rw [scan_entries] at h
    by_cases h1 : e.segment = 0xfe
    · rw [if_pos h1] at h
      exact ih st st1 hwords hinv h
    · rw [if_neg h1] at h
      by_cases h2 : e.flags &&& 1 = 0
      · rw [if_pos h2] at h
        exact ih st st1 hwords hinv h
      · rw [if_neg h2] at h
        cases h3 : scan_segment get_instr f fuel st e.segment e.offset with
        | error err => simp [h3] at h
        | ok sa =>
          simp only [h3] at h
          cases h4 : set_flag sa e.segment e.offset INSTR_FUNC with
          | error err => simp [h4] at h
          | ok sb =>
            simp only [h4] at h
            have hs := scan_segment_sound get_instr f fuel st _ _ sa h3
            have ka := (scan_frame _ _ _ _ _ hs).1
            obtain ⟨kb, _, eb⟩ := set_flag_spec _ _ _ _ _ h4
            have hwb := words_of_skeleton st sb (kb.trans ka) hwords
            have hinvb : ∀ c j seg, get_segment sb c = some seg → j < seg.length →
                has_flag sb c j INSTR_FUNC = true → has_flag sb c j INSTR_SCANNED = true := by
              intro c j segb hsegb hj hfb
              obtain ⟨seg, hseg, hk⟩ :=
                skeleton_get_segment sb st (kb.trans ka).symm c segb hsegb
              have hl := (skeleton_fields segb seg hk).2.2.1
              rw [eb]
              have hsa : has_flag sa c j INSTR_SCANNED = true := by
                cases hfa : has_flag sa c j INSTR_FUNC with
                | true =>
                  refine func_scanned_scan get_instr f hdec fuel st sa _ _ hwords h3 c j seg
                    hseg (by omega) hfa ?_
                  intro hf0
                  exact Or.inl (hinv c j seg hseg (by omega) hf0)
                | false =>
                  rw [eb, hfa] at hfb
                  simp only [Bool.false_or, Bool.and_eq_true, decide_eq_true_eq] at hfb
                  obtain ⟨⟨hc, hj'⟩, _⟩ := hfb
                  subst hc hj'
                  exact scan_scanned get_instr f hdec st sa _ hs _ _ seg rfl hseg (by omega)
              rw [hsa]
              rfl
            obtain ⟨k1, k2⟩ := ih sb st1 hwb hinvb h
            exact ⟨k1.trans (kb.trans ka), k2⟩

theorem mov_segment_words (c : Nat) (seg : segment)
    (h : get_segment [mov_segment] c = some seg) : seg.length < 65536 := by
  have hmem : seg ∈ [mov_segment] := by
    unfold get_segment at h
    by_cases hc : c = 0
    · simp [hc] at h
    · simp only [hc, if_false] at h
      exact List.getElem?_mem h
  rw [List.mem_singleton] at hmem
  rw [hmem]
  decide

/-- C8 (as stated, refuted). `mov_file` holds `mov ax, 1234h` at offset 0;
`overlap_entries` exports 1:0000 and 1:0001.  After the scanning pass byte 1
carries `FUNC` (and `SCANNED`, it lies inside the `mov`) but not `VALID`. -/
theorem C8_counterexample_func_inside_instruction :
    print_segments_second_pass sample_get_instr mov_file 10 overlap_entries 1 0 [mov_segment]
      = .ok [mov_segment_scanned] ∧
    has_flag [mov_segment_scanned] 1 1 INSTR_FUNC = true ∧
    has_flag [mov_segment_scanned] 1 1 INSTR_VALID = false := by
  refine ⟨rfl, rfl, rfl⟩

/-- C8 (amended). After the scanning pass of the driver, started in an initial
flag state on segments whose lengths are 16-bit words and with a decoder that
consumes at least one byte, every byte below its segment's length that carries
`FUNC` carries `SCANNED`: it begins a decoded instruction or lies inside one. -/
theorem C8_func_implies_scanned (get_instr : Decoder) (f : File)
    (hdec : ∀ cs ip p is32, 1 ≤ (get_instr cs ip p is32).2)
    (fuel : Nat) (entry_table : List entry) (entry_cs entry_ip : Nat)
    (st st1 : List segment)
    (hwords : ∀ c seg, get_segment st c = some seg → seg.length < 65536)
    (hinit : initial_flags st)
    (hrun : print_segments_second_pass get_instr f fuel entry_table entry_cs entry_ip st
      = .ok st1) :
    ∀ c j seg, get_segment st1 c = some seg → j < seg.length →
      has_flag st1 c j INSTR_FUNC = true → has_flag st1 c j INSTR_SCANNED = true := by
  unfold print_segments_second_pass at hrun
  cases h1 : scan_entries get_instr f fuel entry_table st with
  | error e => simp [h1] at hrun
  | ok sa =>
    simp only [h1] at hrun
    have hinv0 : ∀ c j seg, get_segment st c = some seg → j < seg.length →
        has_flag st c j INSTR_FUNC = true → has_flag st c j INSTR_SCANNED = true := by
      intro c j seg _ _ hf
      rw [initial_flags_no_flag st hinit c j INSTR_FUNC (by decide)] at hf
      cases hf
    obtain ⟨ka, hinva⟩ := scan_entries_func_scanned get_instr f hdec fuel entry_table st sa
      hwords hinv0 h1
    have hwa := words_of_skeleton st sa ka hwords
    unfold scan_program_entry at hrun
    cases h2 : get_segment sa entry_cs with
    | none => simp [h2] at hrun
    | some sege =>
      simp only [h2] at hrun
      by_cases h3 : entry_ip ≥ sege.length
      · rw [if_pos h3] at hrun
        rw [← Except.ok.inj hrun]
        exact hinva
      · rw [if_neg h3] at hrun
        cases h4 : set_flag sa entry_cs entry_ip INSTR_FUNC with
        | error e => simp [h4] at hrun
        | ok sb =>
          simp only [h4] at hrun
          obtain ⟨kb, _, eb⟩ := set_flag_spec _ _ _ _ _ h4
          have hwb := words_of_skeleton sa sb kb hwa
          have hs := scan_segment_sound get_instr f fuel sb _ _ st1 hrun
          have k1 := (scan_frame _ _ _ _ _ hs).1
          intro c j seg1 hseg1 hj hf1
          obtain ⟨segb, hsegb, hkb⟩ := skeleton_get_segment st1 sb k1.symm c seg1 hseg1
          have hlb := (skeleton_fields seg1 segb hkb).2.2.1
          obtain ⟨sega, hsega, hka⟩ := skeleton_get_segment sb sa kb.symm c segb hsegb
          have hla := (skeleton_fields segb sega hka).2.2.1
          refine func_scanned_scan get_instr f hdec fuel sb st1 _ _ hwb hrun c j segb hsegb
            (by omega) hf1 ?_
          intro hfb
          rw [eb] at hfb
          cases hfa : has_flag sa c j INSTR_FUNC with
          | true =>
            left
            rw [eb, hinva c j sega hsega (by omega) hfa]
            rfl
          | false =>
            rw [hfa] at hfb
            simp only [Bool.false_or, Bool.and_eq_true, decide_eq_true_eq] at hfb
            exact Or.inr hfb.1

/-- Witness of C8 (amended): the run of the counterexample; byte 1 carries
`FUNC` and `SCANNED`. -/
theorem C8_func_implies_scanned_witness :
    has_flag [mov_segment_scanned] 1 1 INSTR_SCANNED = true :=
  C8_func_implies_scanned sample_get_instr mov_file sample_get_instr_length 10
    overlap_entries 1 0 [mov_segment] [mov_segment_scanned] mov_segment_words
    (initial_flags_of_forall _ (by decide)) rfl 1 1 mov_segment_scanned rfl (by decide) rfl

/-- C9. The entry loop of the driver handles exactly the entries with
`segment != 0xFE` and `flags` bit 0 set, each by a scan from its target
followed by `FUNC` on its byte; the program entry gets `FUNC` and a scan when
`entry_ip` is below the length of its segment; an entry that is no root and a
program entry at or beyond the length leave the state as it is. -/
theorem C9_driver_roots (get_instr : Decoder) (f : File) (fuel : Nat)
    (entry_cs entry_ip : Nat) :
    (∀ entry_table st, scan_entries get_instr f fuel entry_table st
      = scan_roots get_instr f fuel (entry_table.filter is_root) st) ∧
    (∀ e st st1, scan_root get_instr f fuel e st = .ok st1 →
      has_flag st1 e.segment e.offset INSTR_FUNC = true) ∧
    (∀ e es st, is_root e = false →
      scan_entries get_instr f fuel (e :: es) st = scan_entries get_instr f fuel es st) ∧
    (∀ st seg, get_segment st entry_cs = some seg → entry_ip < seg.length →
      scan_program_entry get_instr f fuel entry_cs entry_ip st
        = (match set_flag st entry_cs entry_ip INSTR_FUNC with
          | .error e => .error e
          | .ok st1 => scan_segment get_instr f fuel st1 entry_cs entry_ip) ∧
      ∀ st2, scan_program_entry get_instr f fuel entry_cs entry_ip st = .ok st2 →
        has_flag st2 entry_cs entry_ip INSTR_FUNC = true) ∧
    (∀ st seg, get_segment st entry_cs = some seg → seg.length ≤ entry_ip →
      scan_program_entry get_instr f fuel entry_cs entry_ip st = .ok st) ∧
    (∀ entry_table st seg, (∀ e ∈ entry_table, is_root e = false) →
      get_segment st entry_cs = some seg → seg.length ≤ entry_ip →
      print_segments_second_pass get_instr f fuel entry_table entry_cs entry_ip st
        = .ok st) := by
  have hskip : ∀ e es st, is_root e = false →
      scan_entries get_instr f fuel (e :: es) st = scan_entries get_instr f fuel es st := by
    intro e es st hroot
    rw [scan_entries]
    by_cases h1 : e.segment = 0xfe
    · rw [if_pos h1]
    · rw [if_neg h1]
      by_cases h2 : e.flags &&& 1 = 0
      · rw [if_pos h2]
      · have hr : is_root e = true := by
          unfold is_root
          rw [Bool.and_eq_true]
          exact ⟨bne_iff_ne.2 h1, bne_iff_ne.2 h2⟩
        rw [hr] at hroot
        cases hroot
  have hfilter : ∀ entry_table st, scan_entries get_instr f fuel entry_table st
      = scan_roots get_instr f fuel (entry_table.filter is_root) st := by
    intro entry_table
    induction entry_table with
    | nil => intro st; rfl
    | cons e es ih =>
      intro st
      cases hroot : is_root e with
      | false =>
        rw [hskip e es st hroot, List.filter_cons_of_neg (by simp [hroot]), ih]
      | true =>
        rw [List.filter_cons_of_pos hroot, scan_entries, scan_roots, scan_root]
        have hr := hroot
        unfold is_root at hr
        rw [Bool.and_eq_true] at hr
        have h1 : ¬ e.segment = 0xfe := bne_iff_ne.1 hr.1
        have h2 : ¬ e.flags &&& 1 = 0 := bne_iff_ne.1 hr.2
        rw [if_neg h1, if_neg h2]
        cases h3 : scan_segment get_instr f fuel st e.segment e.offset with
        | error err => rfl
        | ok sa =>
          simp only
          cases h4 : set_flag sa e.segment e.offset INSTR_FUNC with
          | error err => rfl
          | ok sb => exact ih sb
  have hend : ∀ st seg, get_segment st entry_cs = some seg → seg.length ≤ entry_ip →
      scan_program_entry get_instr f fuel entry_cs entry_ip st = .ok st := by
    intro st seg hseg hlen
    unfold scan_program_entry
    rw [hseg]
    exact if_pos hlen
  refine ⟨hfilter, ?_, hskip, ?_, hend, ?_⟩
  · intro e st st1 h
    unfold scan_root at h
    cases h3 : scan_segment get_instr f fuel st e.segment e.offset with
    | error err => simp [h3] at h
    | ok sa =>
      simp only [h3] at h
      obtain ⟨_, _, e2⟩ := set_flag_spec _ _ _ _ _ h
      rw [e2]
      have : (INSTR_FUNC &&& INSTR_FUNC != 0) = true := by decide
      rw [this, decide_eq_true rfl, decide_eq_true rfl]
      simp
  · intro st seg hseg hlt
    have heq : scan_program_entry get_instr f fuel entry_cs entry_ip st
        = (match set_flag st entry_cs entry_ip INSTR_FUNC with
          | .error e => .error e
          | .ok st1 => scan_segment get_instr f fuel st1 entry_cs entry_ip) := by
      unfold scan_program_entry
      rw [hseg]
      exact if_neg (by omega)
    refine ⟨heq, ?_⟩
    intro st2 h2
    rw [heq] at h2
    cases h4 : set_flag st entry_cs entry_ip INSTR_FUNC with
    | error e => simp [h4] at h2
    | ok sb =>
      simp only [h4] at h2
      obtain ⟨_, _, e2⟩ := set_flag_spec _ _ _ _ _ h4
      apply (scan_frame _ _ _ _ _ (scan_segment_sound get_instr f fuel sb _ _ st2 h2)).2.1
      rw [e2]
      have : (INSTR_FUNC &&& INSTR_FUNC != 0) = true := by decide
      rw [this, decide_eq_true rfl, decide_eq_true rfl]
      simp
  · intro entry_table st seg hall hseg hlen
    unfold print_segments_second_pass
    have hnil : entry_table.filter is_root = [] := by
      rw [List.filter_eq_nil_iff]
      intro e he
      simp [hall e he]
    rw [hfilter, hnil]
    simp only [scan_roots]
    exact hend st seg hseg hlen

/-- Witness of C9: `constant_entries` holds no root and the program entry
1:0004 lies at the end of the 4 bytes of `mov_segment`, so the scanning pass
changes nothing. -/
theorem C9_driver_roots_witness :
    print_segments_second_pass sample_get_instr mov_file 10 constant_entries 1 4 [mov_segment]
      = .ok [mov_segment] :=
  (C9_driver_roots sample_get_instr mov_file 10 1 4).2.2.2.2.2 constant_entries [mov_segment]
    mov_segment (by decide) rfl (by decide)

/-- C10. When the instruction scanned at `cs:ip` has first operand role
`PTR32` and the first `RELOC`-flagged byte `i` of `[ip, ip+consumed)` is
covered by the relocation `r = get_reloc(i)`:
* `r` Internal of size 3: the scanner marks `(r.target_segment, r.target_offset)`
  with `FAR` and with `FUNC` (mnemonic `call`) or `JUMP` (otherwise), scans
  from there, and then returns (`jmp`) or goes on at `ip+consumed`;
* `r` Internal of size 2: the same at `(r.target_segment, instr.arg0)`, the
  offset being the 16-bit immediate operand;
* `r` of another type or size: the scan goes on from the state in which only
  the instruction itself has been marked, no target is flagged or scanned. -/
theorem C10_far_transfer (get_instr : Decoder) (f : File) (fuel : Nat)
    (st st1 st2 : List segment) (cs ip : Nat) (seg seg2 : segment) (fl i : Nat) (r : reloc)
    (hseg : get_segment st cs = some seg) (hip : ip < seg.length)
    (hfl : seg.instr_flags[ip]? = some fl) (hsc : fl &&& INSTR_SCANNED = 0)
    (hrole : (decode_at get_instr f seg cs ip).1.op.arg0 = arg.PTR32)
    (h1 : set_flag st cs ip INSTR_VALID = .ok st1)
    (h2 : mark_scanned cs (decode_at get_instr f seg cs ip).2 ip st1 = .ok st2)
    (hseg2 : get_segment st2 cs = some seg2)
    (hi : first_reloc_byte seg2.instr_flags (decode_at get_instr f seg cs ip).2 ip = some i)
    (hr : get_reloc i seg2.reloc_table = some r) :
    (r.type = 0 → r.size = 3 →
      scan_segment get_instr f (fuel + 1) st cs ip
        = match far_mark st2 r.target_segment r.target_offset
            (decode_at get_instr f seg cs ip).1.op.name with
          | .error e => .error e
          | .ok st3 =>
            match scan_segment get_instr f fuel st3 r.target_segment r.target_offset with
            | .error e => .error e
            | .ok st4 =>
              if (decode_at get_instr f seg cs ip).1.op.name = "jmp" then .ok st4
              else scan_segment get_instr f fuel st4 cs
                ((ip + (decode_at get_instr f seg cs ip).2) % 65536)) ∧
    (r.type = 0 → r.size = 2 → (decode_at get_instr f seg cs ip).1.arg0 < 65536 →
      scan_segment get_instr f (fuel + 1) st cs ip
        = match far_mark st2 r.target_segment (decode_at get_instr f seg cs ip).1.arg0
            (decode_at get_instr f seg cs ip).1.op.name with
          | .error e => .error e
          | .ok st3 =>
            match scan_segment get_instr f fuel st3 r.target_segment
                (decode_at get_instr f seg cs ip).1.arg0 with
            | .error e => .error e
            | .ok st4 =>
              if (decode_at get_instr f seg cs ip).1.op.name = "jmp" then .ok st4
              else scan_segment get_instr f fuel st4 cs
                ((ip + (decode_at get_instr f seg cs ip).2) % 65536)) ∧
    ((r.type ≠ 0 ∨ (r.size ≠ 3 ∧ r.size ≠ 2)) →
      scan_segment get_instr f (fuel + 1) st cs ip
        = if (decode_at get_instr f seg cs ip).1.op.name = "jmp" then .ok st2
          else scan_segment get_instr f fuel st2 cs
            ((ip + (decode_at get_instr f seg cs ip).2) % 65536)) ∧
    (∀ ts off st3, far_mark st2 ts off (decode_at get_instr f seg cs ip).1.op.name = .ok st3 →
      ∀ c j m, has_flag st3 c j m
        = (has_flag st2 c j m || (decide (c = ts) && decide (j = off) &&
            ((INSTR_FAR ||| (if (decode_at get_instr f seg cs ip).1.op.name = "call"
              then INSTR_FUNC else INSTR_JUMP)) &&& m != 0)))) := by
  have hnsc : ¬ fl &&& INSTR_SCANNED ≠ 0 := fun h => h hsc
  have hnip : ¬ ip ≥ seg.length := by omega
  have hret : scan_returns (decode_at get_instr f seg cs ip).1
      = decide ((decode_at get_instr f seg cs ip).1.op.name = "jmp") := by
    unfold scan_returns
    rw [if_pos hrole]
  have hbody : scan_segment get_instr f (fuel + 1) st cs ip
      = match scan_transfer st2 cs ip (decode_at get_instr f seg cs ip).1
          (decode_at get_instr f seg cs ip).2 with
        | .error e => .error e
        | .ok (st3, target) =>
          match (match target with
            | none => Except.ok st3
            | some (tcs, tip) => scan_segment get_instr f fuel st3 tcs tip) with
          | .error e => .error e
          | .ok st4 =>
            if (decode_at get_instr f seg cs ip).1.op.name = "jmp" then .ok st4
            else scan_segment get_instr f fuel st4 cs
              ((ip + (decode_at get_instr f seg cs ip).2) % 65536) := by
    rw [scan_segment]
    simp only [hseg, hnip, if_false, hfl, hnsc, h1, h2, hret, decide_eq_true_eq]
  have htr : scan_transfer st2 cs ip (decode_at get_instr f seg cs ip).1
      (decode_at get_instr f seg cs ip).2
      = if r.type ≠ 0 then .ok (st2, none)
        else if r.size = 3 then
          match far_mark st2 r.target_segment r.target_offset
              (decode_at get_instr f seg cs ip).1.op.name with
          | .error e => .error e
          | .ok s1 => .ok (s1, some (r.target_segment, r.target_offset))
        else if r.size = 2 then
          match far_mark st2 r.target_segment (decode_at get_instr f seg cs ip).1.arg0
              (decode_at get_instr f seg cs ip).1.op.name with
          | .error e => .error e
          | .ok s1 =>
            .ok (s1, some (r.target_segment, (decode_at get_instr f seg cs ip).1.arg0 % 65536))
        else .ok (st2, none) := by
    unfold scan_transfer
    simp only [hrole, if_true, hseg2, hi, hr]
  refine ⟨?_, ?_, ?_, ?_⟩
  · intro ht h3
    rw [hbody, htr, if_neg (by simp [ht]), if_pos h3]
    cases far_mark st2 r.target_segment r.target_offset
        (decode_at get_instr f seg cs ip).1.op.name with
    | error e => rfl
    | ok s1 => rfl
  · intro ht hs2 hlt
    have h3 : ¬ r.size = 3 := by omega
    rw [hbody, htr, if_neg (by simp [ht]), if_neg h3, if_pos hs2]
    cases far_mark st2 r.target_segment (decode_at get_instr f seg cs ip).1.arg0
        (decode_at get_instr f seg cs ip).1.op.name with
    | error e => rfl
    | ok s1 =>
      simp only [Nat.mod_eq_of_lt hlt]
  · intro hother
    rw [hbody, htr]
    rcases hother with ht | ⟨h3, hs2⟩
    · rw [if_pos ht]
    · by_cases ht : r.type ≠ 0
      · rw [if_pos ht]
      · rw [if_neg ht, if_neg h3, if_neg hs2]
  · intro ts off st3 hm
    exact (far_mark_spec _ _ _ _ _ hm).2

/-- Witness of C10: the `call far` of `far_file` at 1:0000, whose pointer is
covered by `far_reloc` (size 3, internal, target 2:0000). -/
theorem C10_far_transfer_witness :
    scan_segment sample_get_instr far_file (3 + 1) far_state 1 0
      = match far_mark far_state_marked far_reloc.target_segment far_reloc.target_offset
          (decode_at sample_get_instr far_file far_state[0] 1 0).1.op.name with
        | .error e => .error e
        | .ok st3 =>
          match scan_segment sample_get_instr far_file 3 st3 far_reloc.target_segment
              far_reloc.target_offset with
          | .error e => .error e
          | .ok st4 =>
            if (decode_at sample_get_instr far_file far_state[0] 1 0).1.op.name = "jmp"
            then .ok st4
            else scan_segment sample_get_instr far_file 3 st4 1
              ((0 + (decode_at sample_get_instr far_file far_state[0] 1 0).2) % 65536) :=
  (C10_far_transfer sample_get_instr far_file 3 far_state far_state_valid far_state_marked
    1 0 far_state[0] far_state_marked[0] 0 1 far_reloc (by rfl) (by decide) (by rfl) (by rfl)
    (by rfl) (by rfl) (by rfl) (by rfl) (by rfl) (by rfl)).1 (by rfl) (by rfl)

/-! ## Closure of the scanned instructions -/

theorem getD_has_flag (st : List segment) (c j m : Nat) (seg : segment)
    (hseg : get_segment st c = some seg) :
    (seg.instr_flags.getD j 0 &&& m != 0) = has_flag st c j m := by
  unfold has_flag flag_at
  rw [hseg, List.getD_eq_getElem?_getD]
  cases hv : seg.instr_flags[j]? with
  | none => simp [hv]
  | some v => simp [hv]

theorem first_reloc_byte_congr (fl fl1 : List Nat)
    (h : ∀ j, (fl1.getD j 0 &&& INSTR_RELOC != 0) = (fl.getD j 0 &&& INSTR_RELOC != 0)) :
    ∀ n i, first_reloc_byte fl1 n i = first_reloc_byte fl n i := by
  intro n
  induction n with
  | zero => intro i; rfl
  | succ n ih =>
    intro i
    rw [first_reloc_byte, first_reloc_byte, ih]
    have hi := h i
    by_cases h1 : fl.getD i 0 &&& INSTR_RELOC ≠ 0
    · have h2 : fl1.getD i 0 &&& INSTR_RELOC ≠ 0 := by
        rw [← bne_iff_ne, hi, bne_iff_ne]
        exact h1
      rw [if_pos h1, if_pos h2]
    · have h2 : ¬ fl1.getD i 0 &&& INSTR_RELOC ≠ 0 := by
        rw [← bne_iff_ne, hi, bne_iff_ne]
        exact h1
      rw [if_neg h1, if_neg h2]

/-- States that agree on skeleton and `RELOC` bits give the same transfer targets. -/
theorem transfer_target_frame (st st1 : List segment) (c : Nat) (seg seg1 : segment)
    (hseg : get_segment st c = some seg) (hseg1 : get_segment st1 c = some seg1)
    (hk : skeleton seg1 = skeleton seg)
    (hr : ∀ j, has_flag st1 c j INSTR_RELOC = has_flag st c j INSTR_RELOC)
    (cs ip : Nat) (instr : instr_info) (len : Nat) :
    transfer_target seg1 cs ip instr len = transfer_target seg cs ip instr len := by
  unfold transfer_target
  have hrt := (skeleton_fields seg seg1 hk).2.2.2.2.2.1
  have hfr := first_reloc_byte_congr seg.instr_flags seg1.instr_flags (by
    intro j
    rw [getD_has_flag st1 c j _ seg1 hseg1, getD_has_flag st c j _ seg hseg, hr]) len ip
  rw [hfr, hrt]

/-- The target that `scan_transfer` hands on is the one read off the segment. -/
theorem scan_transfer_target (st st3 : List segment) (cs ip : Nat) (instr : instr_info)
    (len : Nat) (target : Option (Nat × Nat)) (seg : segment)
    (hseg : get_segment st cs = some seg)
    (h : scan_transfer st cs ip instr len = .ok (st3, target)) :
    target = transfer_target seg cs ip instr len := by
  unfold scan_transfer at h
  unfold transfer_target
  by_cases hp : instr.op.arg0 = arg.PTR32
  · simp only [hp, if_true, hseg] at h ⊢
    cases hi : first_reloc_byte seg.instr_flags len ip with
    | none =>
      simp only [hi] at h
      exact (Prod.mk.inj (Except.ok.inj h)).2.symm
    | some i =>
      simp only [hi] at h ⊢
      cases hr : get_reloc i seg.reloc_table with
      | none => simp [hr] at h
      | some r =>
        simp only [hr] at h ⊢
        by_cases ht : r.type ≠ 0
        · rw [if_pos ht] at h ⊢
          exact (Prod.mk.inj (Except.ok.inj h)).2.symm
        · rw [if_neg ht] at h ⊢
          by_cases h3 : r.size = 3
          · rw [if_pos h3] at h ⊢
            cases hm : far_mark st r.target_segment r.target_offset instr.op.name with
            | error e => simp [hm] at h
            | ok s1 =>
              simp only [hm] at h
              exact (Prod.mk.inj (Except.ok.inj h)).2.symm
          · rw [if_neg h3] at h ⊢
            by_cases h2 : r.size = 2
            · rw [if_pos h2] at h ⊢
              cases hm : far_mark st r.target_segment instr.arg0 instr.op.name with
              | error e => simp [hm] at h
              | ok s1 =>
                simp only [hm] at h
                exact (Prod.mk.inj (Except.ok.inj h)).2.symm
            · rw [if_neg h2] at h ⊢
              exact (Prod.mk.inj (Except.ok.inj h)).2.symm
  · simp only [hp, if_false] at h ⊢
    by_cases hrel : instr.op.arg0 = arg.REL8 ∨ instr.op.arg0 = arg.REL16
    · rw [if_pos hrel] at h ⊢
      cases hm : set_flag st cs instr.arg0
          (if instr.op.name = "call" then INSTR_FUNC else INSTR_JUMP) with
      | error e => simp [hm] at h
      | ok s1 =>
        simp only [hm] at h
        exact (Prod.mk.inj (Except.ok.inj h)).2.symm
    · rw [if_neg hrel] at h ⊢
      exact (Prod.mk.inj (Except.ok.inj h)).2.symm

/-- A frame relation between two states: same skeleton, no flag bit cleared,
`RELOC` bits unchanged. -/
theorem scanned_if_inside_mono (st st1 : List segment)
    (hk : st1.map skeleton = st.map skeleton)
    (hm : ∀ c j m, has_flag st c j m = true → has_flag st1 c j m = true)
    (c j : Nat) (h : scanned_if_inside st c j) : scanned_if_inside st1 c j := by
  intro seg1 hseg1 hj
  obtain ⟨seg, hseg, hks⟩ := skeleton_get_segment st1 st hk.symm c seg1 hseg1
  have hl := (skeleton_fields seg1 seg hks).2.2.1
  exact hm c j _ (h seg hseg (by omega))

theorem closed_mono (get_instr : Decoder) (f : File) (st st1 : List segment)
    (hk : st1.map skeleton = st.map skeleton)
    (hm : ∀ c j m, has_flag st c j m = true → has_flag st1 c j m = true)
    (hr : ∀ c j, has_flag st1 c j INSTR_RELOC = has_flag st c j INSTR_RELOC)
    (c j : Nat) (h : closed get_instr f st c j) : closed get_instr f st1 c j := by
  intro seg1 hseg1
  obtain ⟨seg, hseg, hks⟩ := skeleton_get_segment st1 st hk.symm c seg1 hseg1
  have hd := decode_at_skeleton get_instr f seg1 seg hks c j
  obtain ⟨h1, h2, h3⟩ := h seg hseg
  rw [← hd]
  refine ⟨?_, ?_, ?_⟩
  · intro k hlt
    exact hm c _ _ (h1 k hlt)
  · intro hret
    exact scanned_if_inside_mono st st1 hk hm _ _ (h2 hret)
  · intro tc tj ht
    rw [transfer_target_frame st st1 c seg seg1 hseg hseg1 hks.symm (hr c)] at ht
    exact scanned_if_inside_mono st st1 hk hm _ _ (h3 tc tj ht)

theorem extends_state_refl (st : List segment) : extends_state st st :=
  ⟨rfl, fun _ _ _ h => h, fun _ _ => rfl⟩

theorem extends_state_trans (st st1 st2 : List segment) (h1 : extends_state st st1)
    (h2 : extends_state st1 st2) : extends_state st st2 :=
  ⟨h2.1.trans h1.1, fun c j m h => h2.2.1 c j m (h1.2.1 c j m h),
    fun c j => (h2.2.2 c j).trans (h1.2.2 c j)⟩

theorem extends_state_of_spec (st st1 : List segment) (c0 j0 b0 : Nat)
    (hk : st1.map skeleton = st.map skeleton)
    (hf : ∀ c j m, has_flag st1 c j m
      = (has_flag st c j m || (decide (c = c0) && decide (j = j0) && (b0 &&& m != 0))))
    (hb : b0 &&& INSTR_RELOC = 0) : extends_state st st1 := by
  refine ⟨hk, ?_, ?_⟩
  · intro c j m h
    rw [hf, h]
    rfl
  · intro c j
    rw [hf, hb]
    simp

theorem extends_state_mark (st st1 : List segment) (cs n i : Nat)
    (h : mark_scanned cs n i st = .ok st1) : extends_state st st1 := by
  obtain ⟨b1, b2⟩ := mark_scanned_spec _ _ _ _ _ h
  refine ⟨b1, ?_, ?_⟩
  · intro c j m hm
    rw [b2, hm]
    rfl
  · intro c j
    rw [b2]
    have hs : (INSTR_SCANNED &&& INSTR_RELOC != 0) = false := by decide
    rw [hs]
    simp

theorem extends_state_scan (get_instr : Decoder) (f : File) (st st5 : List segment)
    (t : Option (Nat × Nat)) (h : Scan get_instr f st t st5) : extends_state st st5 :=
  scan_frame get_instr f st st5 t h

theorem extends_state_segment (st st1 : List segment) (h : extends_state st st1) (c : Nat)
    (seg1 : segment) (hseg1 : get_segment st1 c = some seg1) :
    ∃ seg, get_segment st c = some seg ∧ skeleton seg1 = skeleton seg ∧
      seg1.length = seg.length := by
  obtain ⟨seg, hseg, hk⟩ := skeleton_get_segment st1 st h.1.symm c seg1 hseg1
  exact ⟨seg, hseg, hk.symm, ((skeleton_fields seg1 seg hk).2.2.1).symm⟩

theorem extends_state_segment_fwd (st st1 : List segment) (h : extends_state st st1) (c : Nat)
    (seg : segment) (hseg : get_segment st c = some seg) :
    ∃ seg1, get_segment st1 c = some seg1 ∧ skeleton seg1 = skeleton seg ∧
      seg1.length = seg.length := by
  obtain ⟨seg1, hseg1, hk⟩ := skeleton_get_segment st st1 h.1 c seg hseg
  exact ⟨seg1, hseg1, hk, (skeleton_fields seg seg1 hk).2.2.1⟩

/-- After a run of the scanner, every instruction start that it has newly
marked `VALID` is closed. -/
theorem scan_closed (get_instr : Decoder) (f : File)
    (hdec : ∀ cs ip p is32, 1 ≤ (get_instr cs ip p is32).2)
    (st st5 : List segment) (t : Option (Nat × Nat)) (h : Scan get_instr f st t st5) :
    ∀ c j, has_flag st5 c j INSTR_VALID = true → has_flag st c j INSTR_VALID = false →
      closed get_instr f st5 c j := by
  induction h with
  | skip st => intro c j h1 h2; rw [h1] at h2; cases h2
  | past_end st cs0 ip0 seg0 _ _ => intro c j h1 h2; rw [h1] at h2; cases h2
  | seen st cs0 ip0 seg0 fl _ _ _ _ => intro c j h1 h2; rw [h1] at h2; cases h2
  | step st st1 st2 st3 st4 st5 cs ip seg fl target hseg hip hfl hsc h1 h2 h3 s4 s5 ih4 ih5 =>
    intro c j hv5 hv0
    obtain ⟨a1, _, a2⟩ := set_flag_spec _ _ _ _ _ h1
    obtain ⟨_, b2⟩ := mark_scanned_spec _ _ _ _ _ h2
    obtain ⟨c1, c0, j0, b0, c2, c3, _, c4, _⟩ := scan_transfer_spec _ _ _ _ _ _ _ h3
    have e01 : extends_state st st1 := extends_state_of_spec st st1 _ _ _ a1 a2 (by decide)
    have e12 : extends_state st1 st2 := extends_state_mark _ _ _ _ _ h2
    have e23 : extends_state st2 st3 := extends_state_of_spec st2 st3 _ _ _ c1 c2 c4
    have e34 : extends_state st3 st4 := extends_state_scan _ _ _ _ _ s4
    have e45 : extends_state st4 st5 := extends_state_scan _ _ _ _ _ s5
    cases hv4 : has_flag st4 c j INSTR_VALID with
    | false => exact ih5 c j hv5 hv4
    | true =>
      cases hv3 : has_flag st3 c j INSTR_VALID with
      | false =>
        exact closed_mono get_instr f st4 st5 e45.1 e45.2.1 e45.2.2 c j (ih4 c j hv4 hv3)
      | true =>
        rw [c2, b2, a2, hv0, c3] at hv3
        have hsv : (INSTR_SCANNED &&& INSTR_VALID != 0) = false := by decide
        simp only [hsv, Bool.and_false, Bool.or_false, Bool.false_or, Bool.and_eq_true,
          decide_eq_true_eq, bne_self_eq_false] at hv3
        obtain ⟨⟨hc, hj⟩, _⟩ := hv3
        subst hc hj
        have e02 := extends_state_trans _ _ _ e01 e12
        have e25 := extends_state_trans _ _ _ e23 (extends_state_trans _ _ _ e34 e45)
        have e05 := extends_state_trans _ _ _ e02 e25
        intro seg5 hseg5
        obtain ⟨seg', hseg', hk5, _⟩ := extends_state_segment st st5 e05 c seg5 hseg5
        rw [hseg] at hseg'
        cases hseg'
        rw [decode_at_skeleton get_instr f seg seg5 hk5 c j]
        refine ⟨?_, ?_, ?_⟩
        · intro k hk
          apply e25.2.1
          rw [b2]
          have hss : (INSTR_SCANNED &&& INSTR_SCANNED != 0) = true := by decide
          have hin : j ≤ j + k ∧ j + k < j + (decode_at get_instr f seg c j).2 := by omega
          rw [hss, decide_eq_true hin, decide_eq_true (rfl : c = c)]
          simp
        · intro hret
          rw [hret] at s5
          simp only [Bool.false_eq_true, if_false] at s5
          intro seg5' hseg5' hlt
          obtain ⟨seg4, hseg4, _, hl4⟩ := extends_state_segment st4 st5 e45 c seg5' hseg5'
          exact scan_scanned get_instr f hdec st4 st5 _ s5 c _ seg4 rfl hseg4 (by omega)
        · intro tc tj ht
          obtain ⟨seg2, hseg2, hk2, _⟩ := extends_state_segment_fwd st st2 e02 c seg hseg
          have ht2 := scan_transfer_target st2 st3 c j _ _ target seg2 hseg2 h3
          have hfr := transfer_target_frame st2 st5 c seg2 seg5 hseg2 hseg5
            (hk5.trans hk2.symm) (e25.2.2 c) c j (decode_at get_instr f seg c j).1
            (decode_at get_instr f seg c j).2
          rw [hfr, ← ht2] at ht
          rw [ht] at s4
          intro seg5t hseg5t hlt
          obtain ⟨seg4t, hseg4t, _, hl4⟩ := extends_state_segment st4 st5 e45 tc seg5t hseg5t
          obtain ⟨seg3t, hseg3t, _, hl3⟩ := extends_state_segment st3 st4 e34 tc seg4t hseg4t
          apply e45.2.1
          exact scan_scanned get_instr f hdec st3 st4 _ s4 tc tj seg3t rfl hseg3t (by omega)

theorem scan_returns_false (instr : instr_info) (h1 : instr.op.name ≠ "jmp")
    (h2 : instr.op.name ≠ "ret") : scan_returns instr = false := by
  unfold scan_returns
  by_cases hp : instr.op.arg0 = arg.PTR32
  · rw [if_pos hp]
    exact decide_eq_false h1
  · rw [if_neg hp]
    by_cases hr : instr.op.arg0 = arg.REL8 ∨ instr.op.arg0 = arg.REL16
    · rw [if_pos hr]
      exact decide_eq_false h1
    · rw [if_neg hr, if_neg h1, if_neg h2]

/-- One call of `scan_segment` by the driver keeps "every `VALID` instruction
start is closed" and leaves its own start scanned. -/
theorem scan_segment_closed (get_instr : Decoder) (f : File)
    (hdec : ∀ cs ip p is32, 1 ≤ (get_instr cs ip p is32).2)
    (fuel : Nat) (st st1 : List segment) (cs ip : Nat)
    (hinv : ∀ c j, has_flag st c j INSTR_VALID = true → closed get_instr f st c j)
    (hrun : scan_segment get_instr f fuel st cs ip = .ok st1) :
    extends_state st st1 ∧
    (∀ c j, has_flag st1 c j INSTR_VALID = true → closed get_instr f st1 c j) ∧
    scanned_if_inside st1 cs ip := by
  have hs := scan_segment_sound get_instr f fuel st cs ip st1 hrun
  have e := extends_state_scan _ _ _ _ _ hs
  refine ⟨e, ?_, ?_⟩
  · intro c j hv1
    cases hv0 : has_flag st c j INSTR_VALID with
    | false => exact scan_closed get_instr f hdec st st1 _ hs c j hv1 hv0
    | true => exact closed_mono get_instr f st st1 e.1 e.2.1 e.2.2 c j (hinv c j hv0)
  · intro seg1 hseg1 hlt
    obtain ⟨seg, hseg, _, hl⟩ := extends_state_segment st st1 e cs seg1 hseg1
    exact scan_scanned get_instr f hdec st st1 _ hs cs ip seg rfl hseg (by omega)

theorem set_func_closed (get_instr : Decoder) (f : File) (st st1 : List segment) (cs ip : Nat)
    (hinv : ∀ c j, has_flag st c j INSTR_VALID = true → closed get_instr f st c j)
    (hset : set_flag st cs ip INSTR_FUNC = .ok st1) :
    extends_state st st1 ∧
    (∀ c j, has_flag st1 c j INSTR_VALID = true → closed get_instr f st1 c j) := by
  obtain ⟨a1, _, a2⟩ := set_flag_spec _ _ _ _ _ hset
  have e : extends_state st st1 := extends_state_of_spec st st1 _ _ _ a1 a2 (by decide)
  refine ⟨e, ?_⟩
  intro c j hv1
  rw [a2] at hv1
  have hfv : (INSTR_FUNC &&& INSTR_VALID != 0) = false := by decide
  rw [hfv] at hv1
  simp only [Bool.and_false, Bool.or_false] at hv1
  exact closed_mono get_instr f st st1 e.1 e.2.1 e.2.2 c j (hinv c j hv1)

theorem scan_entries_closed (get_instr : Decoder) (f : File)
    (hdec : ∀ cs ip p is32, 1 ≤ (get_instr cs ip p is32).2) (fuel : Nat) :
    ∀ (entry_table : List entry) (st st1 : List segment),
      (∀ c j, has_flag st c j INSTR_VALID = true → closed get_instr f st c j) →
      scan_entries get_instr f fuel entry_table st = .ok st1 →
      extends_state st st1 ∧
      (∀ c j, has_flag st1 c j INSTR_VALID = true → closed get_instr f st1 c j) ∧
      (∀ e ∈ entry_table, is_root e = true → scanned_if_inside st1 e.segment e.offset) := by
  intro entry_table
  induction entry_table with
  | nil =>
    intro st st1 hinv h
    simp only [scan_entries] at h
    rw [← Except.ok.inj h]
    exact ⟨extends_state_refl st, hinv, by intro e he; cases he⟩
  | cons e es ih =>
    intro st st1 hinv h
    rw [scan_entries] at h
    have hskip : ∀ (hroot : is_root e = false)
        (hrest : scan_entries get_instr f fuel es st = .ok st1),
        extends_state st st1 ∧
        (∀ c j, has_flag st1 c j INSTR_VALID = true → closed get_instr f st1 c j) ∧
        (∀ e' ∈ e :: es, is_root e' = true →
          scanned_if_inside st1 e'.segment e'.offset) := by
      intro hroot hrest
      obtain ⟨k1, k2, k3⟩ := ih st st1 hinv hrest
      refine ⟨k1, k2, ?_⟩
      intro e' he' hr'
      rcases List.mem_cons.1 he' with rfl | he'
      · rw [hroot] at hr'
        cases hr'
      · exact k3 e' he' hr'
    by_cases h1 : e.segment = 0xfe
    · rw [if_pos h1] at h
      exact hskip (by simp [is_root, h1]) h
    · rw [if_neg h1] at h
      by_cases h2 : e.flags &&& 1 = 0
      · rw [if_pos h2] at h
        refine hskip ?_ h
        unfold is_root
        rw [Bool.and_eq_false_iff]
        right
        rw [h2]
        rfl
      · rw [if_neg h2] at h
        cases h3 : scan_segment get_instr f fuel st e.segment e.offset with
        | error err => simp [h3] at h
        | ok sa =>
          simp only [h3] at h
          cases h4 : set_flag sa e.segment e.offset INSTR_FUNC with
          | error err => simp [h4] at h
          | ok sb =>
            simp only [h4] at h
            obtain ⟨ea, ia, ra⟩ := scan_segment_closed get_instr f hdec fuel st sa _ _ hinv h3
            obtain ⟨eb, ib⟩ := set_func_closed get_instr f sa sb _ _ ia h4
            obtain ⟨k1, k2, k3⟩ := ih sb st1 ib h
            refine ⟨extends_state_trans _ _ _ ea (extends_state_trans _ _ _ eb k1), k2, ?_⟩
            intro e' he' hr'
            rcases List.mem_cons.1 he' with rfl | he'
            · have eb1 := extends_state_trans _ _ _ eb k1
              exact scanned_if_inside_mono sa st1 eb1.1 eb1.2.1 _ _ ra
            · exact k3 e' he' hr'

/-- After the second pass of `print_segments`, started without any `VALID`
flag, every `VALID` instruction start is closed and every root is scanned. -/
theorem second_pass_closed (get_instr : Decoder) (f : File)
    (hdec : ∀ cs ip p is32, 1 ≤ (get_instr cs ip p is32).2)
    (fuel : Nat) (entry_table : List entry) (entry_cs entry_ip : Nat)
    (st st1 : List segment) (hinit : initial_flags st)
    (hrun : print_segments_second_pass get_instr f fuel entry_table entry_cs entry_ip st
      = .ok st1) :
    extends_state st st1 ∧
    (∀ c j, has_flag st1 c j INSTR_VALID = true → closed get_instr f st1 c j) ∧
    (∀ c j, (c, j) ∈ scan_root_list entry_table entry_cs entry_ip →
      scanned_if_inside st1 c j) := by
  unfold print_segments_second_pass at hrun
  cases h1 : scan_entries get_instr f fuel entry_table st with
  | error e => simp [h1] at hrun
  | ok sa =>
    simp only [h1] at hrun
    have hinv0 : ∀ c j, has_flag st c j INSTR_VALID = true → closed get_instr f st c j := by
      intro c j hv
      rw [initial_flags_no_flag st hinit c j INSTR_VALID (by decide)] at hv
      cases hv
    obtain ⟨ea, ia, ra⟩ := scan_entries_closed get_instr f hdec fuel entry_table st sa hinv0 h1
    have hroots : ∀ (s2 : List segment), extends_state sa s2 →
        scanned_if_inside s2 entry_cs entry_ip →
        ∀ c j, (c, j) ∈ scan_root_list entry_table entry_cs entry_ip →
          scanned_if_inside s2 c j := by
      intro s2 e2 hpe c j hmem
      unfold scan_root_list at hmem
      rcases List.mem_append.1 hmem with hm | hm
      · obtain ⟨e, he, heq⟩ := List.mem_map.1 hm
        obtain ⟨he1, he2⟩ := List.mem_filter.1 he
        obtain ⟨rfl, rfl⟩ := Prod.mk.inj heq
        exact scanned_if_inside_mono sa s2 e2.1 e2.2.1 _ _ (ra e he1 he2)
      · rw [List.mem_singleton] at hm
        obtain ⟨rfl, rfl⟩ := Prod.mk.inj hm
        exact hpe
    unfold scan_program_entry at hrun
    cases h2 : get_segment sa entry_cs with
    | none => simp [h2] at hrun
    | some sege =>
      simp only [h2] at hrun
      by_cases h3 : entry_ip ≥ sege.length
      · rw [if_pos h3] at hrun
        rw [← Except.ok.inj hrun]
        refine ⟨ea, ia, hroots sa (extends_state_refl sa) ?_⟩
        intro seg hseg hlt
        rw [h2] at hseg
        cases hseg
        omega
      · rw [if_neg h3] at hrun
        cases h4 : set_flag sa entry_cs entry_ip INSTR_FUNC with
        | error e => simp [h4] at hrun
        | ok sb =>
          simp only [h4] at hrun
          obtain ⟨eb, ib⟩ := set_func_closed get_instr f sa sb _ _ ia h4
          obtain ⟨e1, i1, r1⟩ :=
            scan_segment_closed get_instr f hdec fuel sb st1 _ _ ib hrun
          have ea1 := extends_state_trans _ _ _ eb e1
          exact ⟨extends_state_trans _ _ _ ea ea1, i1, hroots st1 ea1 r1⟩

theorem transfer_target_near (seg : segment) (cs ip : Nat) (instr : instr_info) (len : Nat)
    (h : instr.op.arg0 = arg.REL8 ∨ instr.op.arg0 = arg.REL16) :
    transfer_target seg cs ip instr len = some (cs, instr.arg0 % 65536) := by
  unfold transfer_target
  have hp : ¬ instr.op.arg0 = arg.PTR32 := by
    rcases h with h | h <;> rw [h] <;> decide
  rw [if_neg hp, if_pos h]

theorem transfer_target_far (seg : segment) (cs ip : Nat) (instr : instr_info) (len i : Nat)
    (r : reloc) (hp : instr.op.arg0 = arg.PTR32)
    (hi : first_reloc_byte seg.instr_flags len ip = some i)
    (hr : get_reloc i seg.reloc_table = some r) (ht : r.type = 0) :
    (r.size = 3 → transfer_target seg cs ip instr len
      = some (r.target_segment, r.target_offset)) ∧
    (r.size = 2 → transfer_target seg cs ip instr len
      = some (r.target_segment, instr.arg0 % 65536)) := by
  unfold transfer_target
  simp only [hp, if_true, hi, hr]
  have ht' : ¬ r.type ≠ 0 := fun h => h ht
  rw [if_neg ht']
  constructor
  · intro h3
    rw [if_pos h3]
  · intro h2
    have h3 : ¬ r.size = 3 := by omega
    rw [if_neg h3, if_pos h2]

/-- C6 (as stated, refuted). In `jump_file` the root instruction at 1:0000 is
`jmp short` to offset 1, its own second byte.  The instruction at 1:0001 is
therefore reachable; it decodes as the two-byte `inc ax` and covers bytes 1
and 2.  The scanner finds byte 1 already `SCANNED` and returns: byte 2, a
reachable byte, carries no `SCANNED` after the driver has scanned every root. -/
theorem C6_counterexample_overlapping_instruction :
    print_segments_second_pass sample_get_instr jump_file 10 jump_entries 1 0 [jump_segment]
      = .ok [jump_segment_scanned] ∧
    reachable_instr sample_get_instr jump_file [jump_segment]
      (scan_root_list jump_entries 1 0) 1 1 ∧
    (decode_at sample_get_instr jump_file jump_segment 1 1).2 = 2 ∧
    has_flag [jump_segment_scanned] 1 (1 + 1) INSTR_SCANNED = false := by
  refine ⟨rfl, ?_, rfl, rfl⟩
  have hroot : reachable_instr sample_get_instr jump_file [jump_segment]
      (scan_root_list jump_entries 1 0) 1 0 :=
    reachable_instr.root 1 0 jump_segment (by decide) rfl (by decide)
  exact reachable_instr.near 1 0 jump_segment hroot rfl (Or.inl rfl) (by decide)

/-- C6 (amended). After the driver has scanned from every root (second pass
of `print_segments`, started in an initial flag state, with segment lengths
that are 16-bit words and a decoder that consumes at least one byte), every
byte of every instruction reachable from a root carries `SCANNED`, provided
no reachable instruction starts inside an instruction decoded from another
start: every reachable instruction start that carries `SCANNED` carries
`VALID`. -/
theorem C6_reachable_bytes_scanned (get_instr : Decoder) (f : File)
    (hdec : ∀ cs ip p is32, 1 ≤ (get_instr cs ip p is32).2)
    (fuel : Nat) (entry_table : List entry) (entry_cs entry_ip : Nat)
    (st st1 : List segment)
    (hwords : ∀ c seg, get_segment st c = some seg → seg.length < 65536)
    (hinit : initial_flags st)
    (hrun : print_segments_second_pass get_instr f fuel entry_table entry_cs entry_ip st
      = .ok st1)
    (hov : ∀ cs ip,
      reachable_instr get_instr f st (scan_root_list entry_table entry_cs entry_ip) cs ip →
      has_flag st1 cs ip INSTR_SCANNED = true → has_flag st1 cs ip INSTR_VALID = true) :
    ∀ cs ip seg,
      reachable_instr get_instr f st (scan_root_list entry_table entry_cs entry_ip) cs ip →
      get_segment st cs = some seg →
      ∀ k, k < (decode_at get_instr f seg cs ip).2 →
        has_flag st1 cs (ip + k) INSTR_SCANNED = true := by
  obtain ⟨e, hcl, hroots⟩ := second_pass_closed get_instr f hdec fuel entry_table entry_cs
    entry_ip st st1 hinit hrun
  have hvalid : ∀ cs ip,
      reachable_instr get_instr f st (scan_root_list entry_table entry_cs entry_ip) cs ip →
      has_flag st1 cs ip INSTR_VALID = true := by
    intro cs ip hr
    induction hr with
    | root cs ip seg hmem hseg hlt =>
      apply hov _ _ (reachable_instr.root cs ip seg hmem hseg hlt)
      obtain ⟨seg1, hseg1, _, hl1⟩ := extends_state_segment_fwd st st1 e cs seg hseg
      exact hroots cs ip hmem seg1 hseg1 (by omega)
    | fall cs ip seg hprev hseg hn1 hn2 hlt ih =>
      apply hov _ _ (reachable_instr.fall cs ip seg hprev hseg hn1 hn2 hlt)
      obtain ⟨seg1, hseg1, hk1, hl1⟩ := extends_state_segment_fwd st st1 e cs seg hseg
      obtain ⟨_, c2, _⟩ := hcl cs ip ih seg1 hseg1
      rw [decode_at_skeleton get_instr f seg seg1 hk1] at c2
      have hw := hwords cs seg hseg
      have := c2 (scan_returns_false _ hn1 hn2) seg1 hseg1
        (by rw [Nat.mod_eq_of_lt (by omega)]; omega)
      rwa [Nat.mod_eq_of_lt (by omega)] at this
    | near cs ip seg hprev hseg hrel hlt ih =>
      apply hov _ _ (reachable_instr.near cs ip seg hprev hseg hrel hlt)
      obtain ⟨seg1, hseg1, hk1, hl1⟩ := extends_state_segment_fwd st st1 e cs seg hseg
      obtain ⟨_, _, c3⟩ := hcl cs ip ih seg1 hseg1
      rw [decode_at_skeleton get_instr f seg seg1 hk1] at c3
      have hw := hwords cs seg hseg
      have := c3 _ _ (transfer_target_near seg1 cs ip _ _ hrel) seg1 hseg1
        (by rw [Nat.mod_eq_of_lt (by omega)]; omega)
      rwa [Nat.mod_eq_of_lt (by omega)] at this
    | far3 cs ip seg tseg i r hprev hseg hp hi hr ht h3 htseg hlt ih =>
      apply hov _ _ (reachable_instr.far3 cs ip seg tseg i r hprev hseg hp hi hr ht h3 htseg hlt)
      obtain ⟨seg1, hseg1, hk1, hl1⟩ := extends_state_segment_fwd st st1 e cs seg hseg
      obtain ⟨tseg1, htseg1, _, htl1⟩ :=
        extends_state_segment_fwd st st1 e r.target_segment tseg htseg
      obtain ⟨_, _, c3⟩ := hcl cs ip ih seg1 hseg1
      rw [decode_at_skeleton get_instr f seg seg1 hk1,
        transfer_target_frame st st1 cs seg seg1 hseg hseg1 hk1 (e.2.2 cs)] at c3
      exact c3 _ _ ((transfer_target_far seg cs ip _ _ i r hp hi hr ht).1 h3) tseg1 htseg1
        (by omega)
    | far2 cs ip seg tseg i r hprev hseg hp hi hr ht h2 htseg hlt ih =>
      apply hov _ _ (reachable_instr.far2 cs ip seg tseg i r hprev hseg hp hi hr ht h2 htseg hlt)
      obtain ⟨seg1, hseg1, hk1, hl1⟩ := extends_state_segment_fwd st st1 e cs seg hseg
      obtain ⟨tseg1, htseg1, _, htl1⟩ :=
        extends_state_segment_fwd st st1 e r.target_segment tseg htseg
      obtain ⟨_, _, c3⟩ := hcl cs ip ih seg1 hseg1
      rw [decode_at_skeleton get_instr f seg seg1 hk1,
        transfer_target_frame st st1 cs seg seg1 hseg hseg1 hk1 (e.2.2 cs)] at c3
      have hw := hwords r.target_segment tseg htseg
      have := c3 _ _ ((transfer_target_far seg cs ip _ _ i r hp hi hr ht).2 h2) tseg1 htseg1
        (by rw [Nat.mod_eq_of_lt (by omega)]; omega)
      rwa [Nat.mod_eq_of_lt (by omega)] at this
  intro cs ip seg hr hseg k hk
  obtain ⟨seg1, hseg1, hk1, _⟩ := extends_state_segment_fwd st st1 e cs seg hseg
  obtain ⟨c1, _, _⟩ := hcl cs ip (hvalid cs ip hr) seg1 hseg1
  rw [decode_at_skeleton get_instr f seg seg1 hk1] at c1
  exact c1 k hk

/-- The instructions of `mov_file` reachable from 1:0000 are the `mov` at
offset 0 and the `ret` at offset 3. -/
theorem mov_file_reachable (cs ip : Nat)
    (h : reachable_instr sample_get_instr mov_file [mov_segment]
      (scan_root_list jump_entries 1 0) cs ip) :
    cs = 1 ∧ (ip = 0 ∨ ip = 3) := by
  have hseg1 : get_segment [mov_segment] 1 = some mov_segment := rfl
  induction h with
  | root cs ip seg hmem _ _ =>
    have hl : scan_root_list jump_entries 1 0 = [(1, 0), (1, 0)] := by decide
    rw [hl] at hmem
    simp only [List.mem_cons, Prod.mk.injEq, List.mem_singleton, or_self, List.not_mem_nil,
      or_false] at hmem
    exact ⟨hmem.1, Or.inl hmem.2⟩
  | fall cs ip seg _ hseg hn1 hn2 hlt ih =>
    obtain ⟨rfl, hip⟩ := ih
    rw [hseg1] at hseg
    cases hseg
    rcases hip with rfl | rfl
    · exact ⟨rfl, Or.inr rfl⟩
    · exact absurd rfl hn2
  | near cs ip seg _ hseg hrel _ ih =>
    obtain ⟨rfl, hip⟩ := ih
    rw [hseg1] at hseg
    cases hseg
    rcases hip with rfl | rfl
    · rcases hrel with h | h <;> exact absurd h (by decide)
    · rcases hrel with h | h <;> exact absurd h (by decide)
  | far3 cs ip seg tseg i r _ hseg hp _ _ _ _ _ _ ih =>
    obtain ⟨rfl, hip⟩ := ih
    rw [hseg1] at hseg
    cases hseg
    rcases hip with rfl | rfl
    · exact absurd hp (by decide)
    · exact absurd hp (by decide)
  | far2 cs ip seg tseg i r _ hseg hp _ _ _ _ _ _ ih =>
    obtain ⟨rfl, hip⟩ := ih
    rw [hseg1] at hseg
    cases hseg
    rcases hip with rfl | rfl
    · exact absurd hp (by decide)
    · exact absurd hp (by decide)

/-- Witness of C6 (amended): the scan of `mov_file` from the exported entry
and the program entry at 1:0000; the third byte of the `mov` at offset 0 is
reachable and carries `SCANNED`. -/
theorem C6_reachable_bytes_scanned_witness :
    has_flag [mov_segment_reached] 1 (0 + 2) INSTR_SCANNED = true :=
  C6_reachable_bytes_scanned sample_get_instr mov_file sample_get_instr_length 10
    jump_entries 1 0 [mov_segment] [mov_segment_reached] mov_segment_words
    (initial_flags_of_forall _ (by decide)) rfl
    (by
      intro cs ip hr _
      obtain ⟨rfl, hip⟩ := mov_file_reachable cs ip hr
      rcases hip with rfl | rfl
      · rfl
      · rfl)
    1 0 mov_segment
    (reachable_instr.root 1 0 mov_segment (by decide) rfl (by decide)) rfl 2 (by decide)

/-! ## Near transfers and the end of the linear walk -/

/-- A flag update that succeeds is on an allocated byte. -/
theorem set_flag_index_lt (st st1 : List segment) (cs i bit : Nat) (seg : segment)
    (h : set_flag st cs i bit = .ok st1) (hseg : get_segment st cs = some seg) :
    i < seg.instr_flags.length := by
  obtain ⟨_, ⟨v, hv⟩, _⟩ := set_flag_spec _ _ _ _ _ h
  unfold flag_at at hv
  rw [hseg] at hv
  exact (List.getElem?_eq_some.mp hv).1

/-- A marking loop that succeeds stays inside the flag array. -/
theorem mark_scanned_index_le (cs : Nat) :
    ∀ (n i : Nat) (st st1 : List segment) (seg : segment),
      mark_scanned cs n i st = .ok st1 → get_segment st cs = some seg → 0 < n →
      i + n ≤ seg.instr_flags.length := by
  intro n
  induction n with
  | zero => intro i st st1 seg _ _ hn; omega
  | succ n ih =>
    intro i st st1 seg h hseg _
    rw [mark_scanned] at h
    cases hs : set_flag st cs i INSTR_SCANNED with
    | error e => simp [hs] at h
    | ok s1 =>
      rw [hs] at h
      have hlt := set_flag_index_lt _ _ _ _ _ seg hs hseg
      by_cases hn : n = 0
      · omega
      · obtain ⟨hk, _, _⟩ := set_flag_spec _ _ _ _ _ hs
        obtain ⟨seg1, hseg1, hk1⟩ := skeleton_get_segment st s1 hk cs seg hseg
        have hl := (skeleton_fields seg seg1 hk1).2.2.2.2.2.2
        have := ih (i + 1) s1 st1 seg1 h hseg1 (by omega)
        omega

/-- The characterisation of `scan_returns`. -/
theorem scan_returns_iff (instr : instr_info) :
    scan_returns instr = true ↔
      (instr.op.name = "jmp" ∨
        (instr.op.name = "ret" ∧ instr.op.arg0 ≠ arg.PTR32 ∧ instr.op.arg0 ≠ arg.REL8 ∧
          instr.op.arg0 ≠ arg.REL16)) := by
  unfold scan_returns
  by_cases hp : instr.op.arg0 = arg.PTR32
  · rw [if_pos hp, decide_eq_true_eq]
    constructor
    · exact fun h => Or.inl h
    · rintro (h | ⟨_, h, _⟩)
      · exact h
      · exact absurd hp h
  · rw [if_neg hp]
    by_cases hr : instr.op.arg0 = arg.REL8 ∨ instr.op.arg0 = arg.REL16
    · rw [if_pos hr, decide_eq_true_eq]
      constructor
      · exact fun h => Or.inl h
      · rintro (h | ⟨_, _, h8, h16⟩)
        · exact h
        · rcases hr with hr | hr
          · exact absurd hr h8
          · exact absurd hr h16
    · rw [if_neg hr]
      by_cases hj : instr.op.name = "jmp"
      · rw [if_pos hj]
        exact ⟨fun _ => Or.inl hj, fun _ => rfl⟩
      · rw [if_neg hj]
        by_cases ht : instr.op.name = "ret"
        · rw [if_pos ht]
          refine ⟨fun _ => Or.inr ⟨ht, hp, ?_, ?_⟩, fun _ => rfl⟩
          · exact fun h => hr (Or.inl h)
          · exact fun h => hr (Or.inr h)
        · rw [if_neg ht]
          constructor
          · intro h
            exact absurd h (by decide)
          · rintro (h | ⟨h, _⟩)
            · exact absurd h hj
            · exact absurd h ht

/-- The loop body of `scan_segment` at an unscanned byte inside the segment,
once the instruction has been marked. -/
theorem scan_segment_body (get_instr : Decoder) (f : File) (fuel : Nat)
    (st st1 st2 : List segment) (cs ip : Nat) (seg : segment) (fl : Nat)
    (hseg : get_segment st cs = some seg) (hip : ip < seg.length)
    (hfl : seg.instr_flags[ip]? = some fl) (hsc : fl &&& INSTR_SCANNED = 0)
    (h1 : set_flag st cs ip INSTR_VALID = .ok st1)
    (h2 : mark_scanned cs (decode_at get_instr f seg cs ip).2 ip st1 = .ok st2) :
    scan_segment get_instr f (fuel + 1) st cs ip
      = match scan_transfer st2 cs ip (decode_at get_instr f seg cs ip).1
          (decode_at get_instr f seg cs ip).2 with
        | .error e => .error e
        | .ok (st3, target) =>
          match (match target with
            | none => Except.ok st3
            | some (tcs, tip) => scan_segment get_instr f fuel st3 tcs tip) with
          | .error e => .error e
          | .ok st4 =>
            if scan_returns (decode_at get_instr f seg cs ip).1 then .ok st4
            else scan_segment get_instr f fuel st4 cs
              ((ip + (decode_at get_instr f seg cs ip).2) % 65536) := by
  have hnsc : ¬ fl &&& INSTR_SCANNED ≠ 0 := fun h => h hsc
  have hnip : ¬ ip ≥ seg.length := by omega
  rw [scan_segment]
  simp only [hseg, hnip, if_false, hfl, hnsc, h1, h2]

/-- The segment `cs` after the instruction at `cs:ip` has been marked has the
flag array of the size it had before. -/
theorem marked_segment (st st1 st2 : List segment) (cs ip n : Nat) (seg : segment)
    (hseg : get_segment st cs = some seg)
    (h1 : set_flag st cs ip INSTR_VALID = .ok st1)
    (h2 : mark_scanned cs n ip st1 = .ok st2) :
    (∃ seg1, get_segment st1 cs = some seg1 ∧
      seg1.instr_flags.length = seg.instr_flags.length) ∧
    ∃ seg2, get_segment st2 cs = some seg2 ∧
      seg2.instr_flags.length = seg.instr_flags.length := by
  obtain ⟨hk1, _, _⟩ := set_flag_spec _ _ _ _ _ h1
  obtain ⟨hk2, _⟩ := mark_scanned_spec _ _ _ _ _ h2
  obtain ⟨seg1, hseg1, hs1⟩ := skeleton_get_segment st st1 hk1 cs seg hseg
  obtain ⟨seg2, hseg2, hs2⟩ := skeleton_get_segment st1 st2 hk2 cs seg1 hseg1
  have hl1 := (skeleton_fields seg seg1 hs1).2.2.2.2.2.2
  have hl2 := (skeleton_fields seg1 seg2 hs2).2.2.2.2.2.2
  exact ⟨⟨seg1, hseg1, hl1⟩, seg2, hseg2, hl2.trans hl1⟩

/-- C11. When the instruction scanned at `cs:ip` has first operand role `REL8`
or `REL16` (the flag array having at most 2^16 bytes, its size being a 16-bit
word): the scanner sets `FUNC` (mnemonic `call`) or `JUMP` (any other
mnemonic) on byte `arg0` of segment `cs`, scans segment `cs` from `arg0`, and
then returns (`jmp`) or goes on at `ip+consumed`.  The flag update adds that
one bit on that one byte and nothing else, so the other of the two bits is as
it was; and after a scan that returns the byte `arg0` carries the bit. -/
theorem C11_near_transfer (get_instr : Decoder) (f : File) (fuel : Nat)
    (st st1 st2 : List segment) (cs ip : Nat) (seg : segment) (fl : Nat)
    (hseg : get_segment st cs = some seg) (hip : ip < seg.length)
    (hfl : seg.instr_flags[ip]? = some fl) (hsc : fl &&& INSTR_SCANNED = 0)
    (hlen : seg.instr_flags.length ≤ 65536)
    (hrole : (decode_at get_instr f seg cs ip).1.op.arg0 = arg.REL8 ∨
      (decode_at get_instr f seg cs ip).1.op.arg0 = arg.REL16)
    (h1 : set_flag st cs ip INSTR_VALID = .ok st1)
    (h2 : mark_scanned cs (decode_at get_instr f seg cs ip).2 ip st1 = .ok st2) :
    scan_segment get_instr f (fuel + 1) st cs ip
      = (match set_flag st2 cs (decode_at get_instr f seg cs ip).1.arg0
            (if (decode_at get_instr f seg cs ip).1.op.name = "call"
              then INSTR_FUNC else INSTR_JUMP) with
        | .error e => .error e
        | .ok st3 =>
          match scan_segment get_instr f fuel st3 cs (decode_at get_instr f seg cs ip).1.arg0 with
          | .error e => .error e
          | .ok st4 =>
            if (decode_at get_instr f seg cs ip).1.op.name = "jmp" then .ok st4
            else scan_segment get_instr f fuel st4 cs
              ((ip + (decode_at get_instr f seg cs ip).2) % 65536)) ∧
    (∀ st3, set_flag st2 cs (decode_at get_instr f seg cs ip).1.arg0
        (if (decode_at get_instr f seg cs ip).1.op.name = "call"
          then INSTR_FUNC else INSTR_JUMP) = .ok st3 →
      (∀ c j m, has_flag st3 c j m
        = (has_flag st2 c j m || (decide (c = cs) &&
            decide (j = (decode_at get_instr f seg cs ip).1.arg0) &&
            ((if (decode_at get_instr f seg cs ip).1.op.name = "call"
              then INSTR_FUNC else INSTR_JUMP) &&& m != 0)))) ∧
      ∀ c j, has_flag st3 c j
          (if (decode_at get_instr f seg cs ip).1.op.name = "call"
            then INSTR_JUMP else INSTR_FUNC)
        = has_flag st2 c j
          (if (decode_at get_instr f seg cs ip).1.op.name = "call"
            then INSTR_JUMP else INSTR_FUNC)) ∧
    (∀ st5, scan_segment get_instr f (fuel + 1) st cs ip = .ok st5 →
      has_flag st5 cs (decode_at get_instr f seg cs ip).1.arg0
        (if (decode_at get_instr f seg cs ip).1.op.name = "call"
          then INSTR_FUNC else INSTR_JUMP) = true) := by
  have hnp : ¬ (decode_at get_instr f seg cs ip).1.op.arg0 = arg.PTR32 := by
    rcases hrole with h | h <;> rw [h] <;> decide
  have hret : scan_returns (decode_at get_instr f seg cs ip).1
      = decide ((decode_at get_instr f seg cs ip).1.op.name = "jmp") := by
    unfold scan_returns
    rw [if_neg hnp, if_pos hrole]
  have htr : scan_transfer st2 cs ip (decode_at get_instr f seg cs ip).1
      (decode_at get_instr f seg cs ip).2
      = match set_flag st2 cs (decode_at get_instr f seg cs ip).1.arg0
            (if (decode_at get_instr f seg cs ip).1.op.name = "call"
              then INSTR_FUNC else INSTR_JUMP) with
        | .error e => .error e
        | .ok s1 => .ok (s1, some (cs, (decode_at get_instr f seg cs ip).1.arg0 % 65536)) := by
    unfold scan_transfer
    rw [if_neg hnp, if_pos hrole]
  obtain ⟨_, seg2, hseg2, hl2⟩ := marked_segment st st1 st2 cs ip _ seg hseg h1 h2
  have hbody := scan_segment_body get_instr f fuel st st1 st2 cs ip seg fl hseg hip hfl hsc h1 h2
  have heq : scan_segment get_instr f (fuel + 1) st cs ip
      = (match set_flag st2 cs (decode_at get_instr f seg cs ip).1.arg0
            (if (decode_at get_instr f seg cs ip).1.op.name = "call"
              then INSTR_FUNC else INSTR_JUMP) with
        | .error e => .error e
        | .ok st3 =>
          match scan_segment get_instr f fuel st3 cs (decode_at get_instr f seg cs ip).1.arg0 with
          | .error e => .error e
          | .ok st4 =>
            if (decode_at get_instr f seg cs ip).1.op.name = "jmp" then .ok st4
            else scan_segment get_instr f fuel st4 cs
              ((ip + (decode_at get_instr f seg cs ip).2) % 65536)) := by
    rw [hbody, htr, hret]
    cases hs : set_flag st2 cs (decode_at get_instr f seg cs ip).1.arg0
        (if (decode_at get_instr f seg cs ip).1.op.name = "call"
          then INSTR_FUNC else INSTR_JUMP) with
    | error e => rfl
    | ok s1 =>
      have hlt := set_flag_index_lt _ _ _ _ _ seg2 hs hseg2
      have hm : (decode_at get_instr f seg cs ip).1.arg0 % 65536
          = (decode_at get_instr f seg cs ip).1.arg0 := Nat.mod_eq_of_lt (by omega)
      simp only [hm, decide_eq_true_eq]
  refine ⟨heq, ?_, ?_⟩
  · intro st3 hs
    obtain ⟨_, _, hf⟩ := set_flag_spec _ _ _ _ _ hs
    refine ⟨hf, ?_⟩
    intro c j
    rw [hf]
    by_cases hc : (decode_at get_instr f seg cs ip).1.op.name = "call"
    · rw [if_pos hc, if_pos hc]
      have hz : (INSTR_FUNC &&& INSTR_JUMP != 0) = false := by decide
      rw [hz]
      simp
    · rw [if_neg hc, if_neg hc]
      have hz : (INSTR_JUMP &&& INSTR_FUNC != 0) = false := by decide
      rw [hz]
      simp
  · intro st5 h5
    rw [heq] at h5
    cases hs : set_flag st2 cs (decode_at get_instr f seg cs ip).1.arg0
        (if (decode_at get_instr f seg cs ip).1.op.name = "call"
          then INSTR_FUNC else INSTR_JUMP) with
    | error e => simp [hs] at h5
    | ok s3 =>
      simp only [hs] at h5
      obtain ⟨_, _, hf⟩ := set_flag_spec _ _ _ _ _ hs
      have h3 : has_flag s3 cs (decode_at get_instr f seg cs ip).1.arg0
          (if (decode_at get_instr f seg cs ip).1.op.name = "call"
            then INSTR_FUNC else INSTR_JUMP) = true := by
        rw [hf]
        have hb : ((if (decode_at get_instr f seg cs ip).1.op.name = "call"
            then INSTR_FUNC else INSTR_JUMP) &&&
            (if (decode_at get_instr f seg cs ip).1.op.name = "call"
              then INSTR_FUNC else INSTR_JUMP) != 0) = true := by
          by_cases hc : (decode_at get_instr f seg cs ip).1.op.name = "call"
          · rw [if_pos hc]; decide
          · rw [if_neg hc]; decide
        rw [hb]
        simp
      cases h4 : scan_segment get_instr f fuel s3 cs
          (decode_at get_instr f seg cs ip).1.arg0 with
      | error e => simp [h4] at h5
      | ok s4 =>
        simp only [h4] at h5
        have e4 := (scan_frame get_instr f _ _ _ (scan_segment_sound get_instr f _ _ _ _ _ h4)).2.1
        have h4f := e4 _ _ _ h3
        by_cases hj : (decode_at get_instr f seg cs ip).1.op.name = "jmp"
        · simp only [hj, if_true] at h5
          rw [← Except.ok.inj h5]
          exact h4f
        · simp only [hj, if_false] at h5
          exact (scan_frame get_instr f _ _ _
            (scan_segment_sound get_instr f _ _ _ _ _ h5)).2.1 _ _ _ h4f

/-- Witness of C11: the `call` of `call_file` at 1:0000 (`E8 00 00`, role
`REL16`, `arg0 = 3`, 3 bytes) leaves byte 1:0003 tagged `FUNC`. -/
theorem C11_near_transfer_witness :
    scan_segment sample_get_instr call_file (2 + 1) [call_segment] 1 0
      = .ok [call_segment_scanned] ∧
    has_flag [call_segment_scanned] 1 3 INSTR_FUNC = true :=
  ⟨by rfl,
    (C11_near_transfer sample_get_instr call_file 2 [call_segment] [call_segment_valid]
      [call_segment_marked] 1 0 call_segment 0 (by rfl) (by decide) (by rfl) (by rfl)
      (by decide) (Or.inr (by rfl)) (by rfl) (by rfl)).2.2 [call_segment_scanned] (by rfl)⟩

/-- C12. Let the instruction at `cs:ip` be scanned (the flag array having
fewer than 2^16 bytes, its size being a 16-bit word), `st3` be the state after
its transfer target has been flagged and `st4` the state after the scan of
that target, if there is one.  When the mnemonic is `jmp` (whatever the
operand role), or the mnemonic is `ret` and the first operand role is none of
`PTR32`, `REL8`, `REL16`, the call returns `st4`: nothing is scanned at
`ip+consumed` as a fall-through.  After every other instruction the walk goes
on from `st4` at `ip+consumed`. -/
theorem C12_walk_end (get_instr : Decoder) (f : File) (fuel : Nat)
    (st st1 st2 st3 st4 : List segment) (cs ip : Nat) (seg : segment) (fl : Nat)
    (target : Option (Nat × Nat))
    (hseg : get_segment st cs = some seg) (hip : ip < seg.length)
    (hfl : seg.instr_flags[ip]? = some fl) (hsc : fl &&& INSTR_SCANNED = 0)
    (hlen : seg.instr_flags.length < 65536)
    (h1 : set_flag st cs ip INSTR_VALID = .ok st1)
    (h2 : mark_scanned cs (decode_at get_instr f seg cs ip).2 ip st1 = .ok st2)
    (h3 : scan_transfer st2 cs ip (decode_at get_instr f seg cs ip).1
      (decode_at get_instr f seg cs ip).2 = .ok (st3, target))
    (h4 : (match target with
      | none => Except.ok st3
      | some (tcs, tip) => scan_segment get_instr f fuel st3 tcs tip) = .ok st4) :
    (((decode_at get_instr f seg cs ip).1.op.name = "jmp" ∨
        ((decode_at get_instr f seg cs ip).1.op.name = "ret" ∧
          (decode_at get_instr f seg cs ip).1.op.arg0 ≠ arg.PTR32 ∧
          (decode_at get_instr f seg cs ip).1.op.arg0 ≠ arg.REL8 ∧
          (decode_at get_instr f seg cs ip).1.op.arg0 ≠ arg.REL16)) →
      scan_segment get_instr f (fuel + 1) st cs ip = .ok st4) ∧
    (¬ ((decode_at get_instr f seg cs ip).1.op.name = "jmp" ∨
        ((decode_at get_instr f seg cs ip).1.op.name = "ret" ∧
          (decode_at get_instr f seg cs ip).1.op.arg0 ≠ arg.PTR32 ∧
          (decode_at get_instr f seg cs ip).1.op.arg0 ≠ arg.REL8 ∧
          (decode_at get_instr f seg cs ip).1.op.arg0 ≠ arg.REL16)) →
      scan_segment get_instr f (fuel + 1) st cs ip
        = scan_segment get_instr f fuel st4 cs (ip + (decode_at get_instr f seg cs ip).2)) := by
  have hbody := scan_segment_body get_instr f fuel st st1 st2 cs ip seg fl hseg hip hfl hsc h1 h2
  rw [h3] at hbody
  simp only [h4] at hbody
  obtain ⟨⟨seg1, hseg1, hl1⟩, _⟩ := marked_segment st st1 st2 cs ip _ seg hseg h1 h2
  have hin : ip + (decode_at get_instr f seg cs ip).2 < 65536 := by
    have hlt : ip < seg.instr_flags.length := (List.getElem?_eq_some.mp hfl).1
    by_cases hn : (decode_at get_instr f seg cs ip).2 = 0
    · omega
    · have := mark_scanned_index_le cs _ _ _ _ seg1 h2 hseg1 (by omega)
      omega
  constructor
  · intro h
    rw [hbody, if_pos ((scan_returns_iff _).mpr h)]
  · intro h
    have hr : ¬ scan_returns (decode_at get_instr f seg cs ip).1 = true :=
      fun hh => h ((scan_returns_iff _).mp hh)
    rw [hbody, if_neg hr, Nat.mod_eq_of_lt hin]

/-- Witness of C12: the `jmp` of `loop_file` at 1:0000 (`EB FE`, role `REL8`,
`arg0 = 0`, 2 bytes) marks bytes 0 and 1 only, and the scan returns. -/
theorem C12_walk_end_witness :
    scan_segment sample_get_instr loop_file (1 + 1) [loop_segment] 1 0
      = .ok [loop_segment_scanned] :=
  (C12_walk_end sample_get_instr loop_file 1 [loop_segment] [loop_segment_valid]
    [loop_segment_marked] [loop_segment_scanned] [loop_segment_scanned] 1 0 loop_segment 0
    (some (1, 0)) (by rfl) (by decide) (by rfl) (by rfl) (by decide) (by rfl) (by rfl)
    (by rfl) (by rfl)).1 (Or.inl (by rfl))

/-! ## The relocation loop of the printer -/

theorem getElem?_getD_flag (l : List Nat) (i : Nat) (h : i < l.length) :
    l[i]? = some (l.getD i 0) := by
  rw [List.getD_eq_getElem?_getD, List.getElem?_eq_getElem h]
  rfl

/-- The relocation loop over bytes without `RELOC` flag changes nothing. -/
theorem reloc_loop_clean (mods : List import_module) (names : List Nat) (entries : List entry)
    (flags : List Nat) (reloc_data : List reloc) (instr : instr_info) (s : operands) :
    ∀ (n i : Nat),
      (∀ j, j < n → i + j < flags.length ∧ flags.getD (i + j) 0 &&& INSTR_RELOC = 0) →
      reloc_loop mods names entries flags reloc_data instr n i s = .ok s := by
  intro n
  induction n with
  | zero => intro i _; rfl
  | succ n ih =>
    intro i h
    obtain ⟨hl, hz⟩ := h 0 (by omega)
    rw [reloc_loop, getElem?_getD_flag flags i hl]
    simp only [Nat.add_zero] at hz
    simp only [hz, ne_eq, not_true_eq_false, if_false]
    apply ih (i + 1)
    intro j hj
    have := h (j + 1) (by omega)
    rw [show i + 1 + j = i + (j + 1) by omega]
    exact this

/-- The relocation loop over bytes of which one carries the `RELOC` flag is
the rewriting step for the relocation of that byte. -/
theorem reloc_loop_single (mods : List import_module) (names : List Nat) (entries : List entry)
    (flags : List Nat) (reloc_data : List reloc) (instr : instr_info) (r : reloc) :
    ∀ (n i k : Nat) (s : operands), k < n →
      (i + k < flags.length ∧ flags.getD (i + k) 0 &&& INSTR_RELOC ≠ 0) →
      get_reloc ((i + k) % 65536) reloc_data = some r →
      (∀ j, j < n → j ≠ k →
        i + j < flags.length ∧ flags.getD (i + j) 0 &&& INSTR_RELOC = 0) →
      reloc_loop mods names entries flags reloc_data instr n i s
        = reloc_rewrite mods names entries instr r s := by
  intro n
  induction n with
  | zero => intro i k s hk; omega
  | succ n ih =>
    intro i k s hk hv hr ho
    rw [reloc_loop]
    cases k with
    | zero =>
      simp only [Nat.add_zero] at hv hr
      rw [getElem?_getD_flag flags i hv.1]
      simp only [hv.2, ne_eq, not_false_eq_true, if_true, hr]
      cases hw : reloc_rewrite mods names entries instr r s with
      | error e => rfl
      | ok s1 =>
        simp only []
        apply reloc_loop_clean
        intro j hj
        have := ho (j + 1) (by omega) (by omega)
        rw [show i + 1 + j = i + (j + 1) by omega]
        exact this
    | succ k =>
      obtain ⟨hl, hz⟩ := ho 0 (by omega) (by omega)
      simp only [Nat.add_zero] at hz hl
      rw [getElem?_getD_flag flags i hl]
      simp only [hz, ne_eq, not_true_eq_false, if_false]
      apply ih (i + 1) k s (by omega)
      · rw [show i + 1 + k = i + (k + 1) by omega]
        exact hv
      · rw [show i + 1 + k = i + (k + 1) by omega]
        exact hr
      · intro j hj hne
        have := ho (j + 1) (by omega) (by omega)
        rw [show i + 1 + j = i + (j + 1) by omega]
        exact this


/-! ## The parts of `print_instr` -/

theorem append_ne_empty (s t : String) (h : t ≠ "") : s ++ t ≠ "" := by
  intro h1
  have h2 := congrArg String.length h1
  rw [String.length_append] at h2
  have h3 : t.length = 0 := by
    have : ("" : String).length = 0 := rfl
    omega
  cases t with
  | mk data =>
    have h4 : data.length = 0 := h3
    rw [List.length_eq_zero] at h4
    exact h (by rw [h4])

theorem append_ne_empty_left (s t : String) (h : s ≠ "") : s ++ t ≠ "" := by
  intro h1
  have h2 := congrArg String.length h1
  rw [String.length_append] at h2
  have h3 : s.length = 0 := by
    have : ("" : String).length = 0 := rfl
    omega
  cases s with
  | mk data =>
    have h4 : data.length = 0 := h3
    rw [List.length_eq_zero] at h4
    exact h (by rw [h4])

theorem print_arg_buffer_of (K : instr_consts) (asm : asm_dialect) (value : Nat) (argtype : arg)
    (instr : instr_info) (s : String) (m : Bool)
    (h : print_arg K asm value argtype instr = .ok (s, m)) (hl : s.length ≤ 31) :
    print_arg_buffer K asm value argtype instr = .ok (s, m) := by
  unfold print_arg_buffer
  rw [h]
  simp only []
  rw [if_neg (by omega)]

theorem print_arg2_none (K : instr_consts) (asm : asm_dialect) (instr : instr_info)
    (h1 : instr.op.flags &&& K.OP_ARG2_IMM = 0) (h2 : instr.op.flags &&& K.OP_ARG2_IMM8 = 0)
    (h3 : instr.op.flags &&& K.OP_ARG2_CL = 0) :
    print_arg2 K asm instr = .ok ("", false) := by
  unfold print_arg2
  rw [if_neg (fun h => h h1), if_neg (fun h => h h2), if_neg (fun h => h h3)]

theorem print_args_of (K : instr_consts) (asm : asm_dialect) (instr : instr_info)
    (a0 a1 a2 : String) (m0 m1 m2 : Bool)
    (h0 : print_arg_buffer K asm instr.arg0 instr.op.arg0 instr = .ok (a0, m0))
    (h1 : print_arg_buffer K asm instr.arg1 instr.op.arg1 instr = .ok (a1, m1))
    (h2 : print_arg2 K asm instr = .ok (a2, m2)) :
    print_args K asm instr = .ok (⟨a0, a1, a2, none⟩, m0 || m1 || m2) := by
  unfold print_args
  rw [h0, h1, h2]

theorem print_instr_operands_clean (K : instr_consts) (asm : asm_dialect)
    (mods : List import_module) (names : List Nat) (entries : List entry) (ip : Nat)
    (flags : List Nat) (reloc_data : List reloc) (instr : instr_info) (len : Nat)
    (s : operands) (usedmem : Bool)
    (hargs : print_args K asm instr = .ok (s, usedmem))
    (hfl : ∀ j, j < len → ip + j < flags.length ∧ flags.getD (ip + j) 0 &&& INSTR_RELOC = 0) :
    print_instr_operands K asm mods names entries ip flags reloc_data instr len
      = .ok (s, usedmem) := by
  unfold print_instr_operands
  rw [hargs]
  simp only []
  rw [reloc_loop_clean _ _ _ _ _ _ _ len ip hfl]

theorem print_instr_operands_single (K : instr_consts) (asm : asm_dialect)
    (mods : List import_module) (names : List Nat) (entries : List entry) (ip : Nat)
    (flags : List Nat) (reloc_data : List reloc) (instr : instr_info) (len : Nat)
    (s s1 : operands) (usedmem : Bool) (k : Nat) (r : reloc)
    (hargs : print_args K asm instr = .ok (s, usedmem))
    (hk : k < len)
    (hv : ip + k < flags.length ∧ flags.getD (ip + k) 0 &&& INSTR_RELOC ≠ 0)
    (hr : get_reloc ((ip + k) % 65536) reloc_data = some r)
    (ho : ∀ j, j < len → j ≠ k →
      ip + j < flags.length ∧ flags.getD (ip + j) 0 &&& INSTR_RELOC = 0)
    (hw : reloc_rewrite mods names entries instr r s = .ok s1) :
    print_instr_operands K asm mods names entries ip flags reloc_data instr len
      = .ok (s1, usedmem) := by
  unfold print_instr_operands
  rw [hargs]
  simp only []
  rw [reloc_loop_single _ _ _ _ _ _ r len ip k s hk hv hr ho, hw]

theorem print_instr_of (K : instr_consts) (asm : asm_dialect) (get_instr : Decoder)
    (mods : List import_module) (names : List Nat) (entries : List entry) (cs ip : Nat)
    (flags p : List Nat) (reloc_data : List reloc) (is32 : Nat)
    (instr : instr_info) (len : Nat) (s : operands) (usedmem : Bool) (head text wrap : String)
    (hd : get_instr cs ip p is32 = (instr, len))
    (hops : print_instr_operands K asm mods names entries ip flags reloc_data instr len
      = .ok (s, usedmem))
    (hhead : print_instr_head cs ip flags p len = .ok head)
    (htext : print_instr_text K asm entries cs instr s usedmem = .ok text)
    (hwrap : print_instr_wrap asm cs ip p len = .ok wrap) :
    print_instr K asm get_instr mods names entries cs ip flags p reloc_data is32
      = .ok (head ++ text ++ wrap, len) := by
  unfold print_instr
  rw [hd]
  simp only []
  rw [hops]
  simp only []
  rw [hhead]
  simp only []
  rw [htext]
  simp only []
  rw [hwrap]

theorem print_instr_wrap_short (asm : asm_dialect) (cs ip : Nat) (p : List Nat) (len : Nat)
    (h : len ≤ 7) : print_instr_wrap asm cs ip p len = .ok "" := by
  unfold print_instr_wrap
  rw [if_neg (by omega)]

/-- The prefix words of an instruction without prefix bits: none. -/
theorem print_instr_prefixes_none (K : instr_consts) (asm : asm_dialect) (instr : instr_info)
    (usedmem : Bool)
    (hseg : instr.prefix_bits &&& K.PREFIX_SEG_MASK = 0)
    (hop : instr.prefix_bits &&& K.PREFIX_OP32 = 0 ∨ instr.op.size = 16 ∨ instr.op.size = 32)
    (haddr : instr.prefix_bits &&& K.PREFIX_ADDR32 = 0)
    (hlock : instr.prefix_bits &&& K.PREFIX_LOCK = 0)
    (hrepne : instr.prefix_bits &&& K.PREFIX_REPNE = 0)
    (hrepe : instr.prefix_bits &&& K.PREFIX_REPE = 0) :
    print_instr_prefixes K asm instr usedmem = .ok "" := by
  unfold print_instr_prefixes
  have h2 : ¬ (instr.prefix_bits &&& K.PREFIX_OP32 ≠ 0 ∧ instr.op.size ≠ 16 ∧
      instr.op.size ≠ 32) := by
    rintro ⟨a, b, c⟩
    rcases hop with h | h | h
    · exact a h
    · exact b h
    · exact c h
  rw [if_neg (fun h => h.1 hseg)]
  simp only []
  rw [if_neg h2, if_neg (fun h => h.1 haddr), if_neg (fun h => h.1 haddr),
    if_neg (fun h => h hlock), if_neg (fun h => h hrepne), if_neg (fun h => h hrepe)]
  rfl

/-! ## The rewriting of operands by relocations -/

theorem snprintf32_short (t : String) (h : t.length ≤ 31) : snprintf32 t = t := by
  unfold snprintf32
  cases t with
  | mk data =>
    have h1 : data.length ≤ 31 := h
    simp only [List.take_of_length_le h1]

theorem read_name_eq (bytes post : List Nat) :
    (∀ b ∈ bytes, b ≠ 0) → ∀ pre : List Nat,
      read_name (pre ++ bytes ++ post) bytes.length pre.length
        = .ok (bytes.map Char.ofNat) := by
  induction bytes with
  | nil => intro _ pre; rfl
  | cons b bs ih =>
    intro h pre
    have hb : b ≠ 0 := h b (List.mem_cons_self _ _)
    have hget : (pre ++ b :: bs ++ post)[pre.length]? = some b := by
      rw [List.append_assoc, List.getElem?_append_right (le_refl _)]
      simp
    have hrest := ih (fun x hx => h x (List.mem_cons_of_mem _ hx)) (pre ++ [b])
    have e1 : pre ++ [b] ++ bs ++ post = pre ++ b :: bs ++ post := by simp
    have e2 : (pre ++ [b]).length = pre.length + 1 := by simp
    rw [e1, e2] at hrest
    rw [List.length_cons, read_name, hget]
    simp only []
    rw [if_neg hb, hrest]
    rfl

theorem import_name_eq (pre bytes post : List Nat) (h : ∀ b ∈ bytes, b ≠ 0) :
    import_name (pre ++ bytes.length :: bytes ++ post) pre.length
      = .ok (String.mk (bytes.map Char.ofNat)) := by
  have hget : (pre ++ bytes.length :: bytes ++ post)[pre.length]? = some bytes.length := by
    rw [List.append_assoc, List.getElem?_append_right (le_refl _)]
    simp
  have hrest := read_name_eq bytes post h (pre ++ [bytes.length])
  have e1 : pre ++ [bytes.length] ++ bytes ++ post = pre ++ bytes.length :: bytes ++ post := by
    simp
  have e2 : (pre ++ [bytes.length]).length = pre.length + 1 := by simp
  rw [e1, e2] at hrest
  unfold import_name
  rw [hget]
  simp only []
  rw [hrest]

theorem reloc_module_internal (mods : List import_module) (r : reloc) (h : r.type = 0) :
    reloc_module mods r = .ok "" := by
  unfold reloc_module
  rw [if_neg (by omega)]

theorem reloc_module_imported (mods : List import_module) (r : reloc) (m : import_module)
    (h : r.type = 1 ∨ r.type = 2) (hm : get_module mods r.target_segment = some m) :
    reloc_module mods r = .ok m.name := by
  unfold reloc_module
  rw [if_pos h, hm]

theorem reloc_text_internal (mods : List import_module) (names : List Nat) (r : reloc)
    (module internal : String) (ic : Option (Option String)) (lead : String)
    (h : r.type = 0) :
    reloc_text mods names r module internal ic lead = .ok (some internal, ic) := by
  unfold reloc_text
  rw [if_pos h]

theorem reloc_text_ordinal (mods : List import_module) (names : List Nat) (r : reloc)
    (module internal : String) (ic : Option (Option String)) (lead : String)
    (m : import_module) (h : r.type = 1) (hm : get_module mods r.target_segment = some m) :
    reloc_text mods names r module internal ic lead
      = .ok (some (snprintf32 (lead ++ module ++ "." ++ fmt_d r.target_offset)),
          some (find_export m.exports r.target_offset)) := by
  unfold reloc_text get_imported_name
  rw [if_neg (by omega), if_pos h, hm]

theorem reloc_text_name (mods : List import_module) (names : List Nat) (r : reloc)
    (module internal : String) (ic : Option (Option String)) (lead : String)
    (n : String) (h : r.type = 2) (hn : import_name names r.target_offset = .ok n) :
    reloc_text mods names r module internal ic lead
      = .ok (some (snprintf32 (lead ++ module ++ "." ++ n)), none) := by
  unfold reloc_text
  rw [if_neg (by omega), if_neg (by omega), if_pos h, hn]

/-- C13 (as stated, refuted). For `9A 34 12 02 00` at 1:0000 (`call`, first
operand role `PTR32`) with the byte 1:0001 covered by a relocation of size 3
and type ImportedName, module 1 (`KERNEL`) and name offset 1
(`WRITEPRIVATEPROFILESTRING`), the first operand becomes
`KERNEL.WRITEPRIVATEPROFILESTRIN`: the text `<module name>.<name>` has 32
characters, of which `snprintf` copies 31 into the operand buffer. -/
theorem C13_counterexample_truncated_name :
    get_module sample_modules 1 = some ⟨"KERNEL", [⟨1, some "FATALEXIT"⟩, ⟨88, some "LSTRCPY"⟩]⟩ ∧
    import_name sample_names 1 = .ok "WRITEPRIVATEPROFILESTRING" ∧
    reloc_rewrite sample_modules sample_names [] (call_far_record 0x400)
        ⟨3, 2, [1], 1, 1, none⟩ ⟨"", "", "", none⟩
      = .ok ⟨"KERNEL.WRITEPRIVATEPROFILESTRIN", "", "", none⟩ ∧
    "KERNEL.WRITEPRIVATEPROFILESTRIN" ≠ "KERNEL" ++ "." ++ "WRITEPRIVATEPROFILESTRING" ∧
    print_instr sample_consts asm_dialect.NASM print_sample_get_instr sample_modules
        sample_names [] 1 0 [0, 0x20, 0, 0, 0, 0]
        (sample_buffer [0x9A, 0x34, 0x12, 0x02, 0x00]) [⟨3, 2, [1], 1, 1, none⟩] 0
      = .ok ("   1.0000:\t9a 34 12 02 00          call\tKERNEL.WRITEPRIVATEPROFILESTRIN", 5) := by
  refine ⟨rfl, rfl, rfl, by decide, rfl⟩

/-- C13 (amended). For an instruction whose first operand role is `PTR32`, the
rewriting step of `print_instr` for a `RELOC`-flagged byte covered by the
relocation `r` gives:
* `r.size` 3, Internal: first operand `<target_segment in decimal>:<target_offset
  printed by %04x>`, comment `r.text`;
* `r.size` 3, ImportedOrdinal, the module being in the module table: first
  operand the first 31 characters of `<module name>.<ordinal in decimal>`,
  comment `get_imported_name(module, ordinal)`;
* `r.size` 3, ImportedName: first operand the first 31 characters of
  `<module name>.<name>`, the comment is kept;
* `r.size` 2, Internal: first operand `<target_segment>:<arg0 printed by %04x>`,
  comment the entry name at `(target_segment, arg0)`;
the other operands are kept.  A text of at most 31 characters is copied as a
whole.  The name at an offset of the import name table whose length byte is
followed by that many bytes other than 0 is the string of these bytes.  When
the flagged byte is the only one of the instruction, the operand buffers and
the comment of `print_instr` after the relocation loop are those of this step. -/
theorem C13_pointer_relocation (mods : List import_module) (names : List Nat) (entries : List entry)
    (instr : instr_info) (r : reloc) (s : operands)
    (hrole : instr.op.arg0 = arg.PTR32) :
    (r.size = 3 → r.type = 0 →
      reloc_rewrite mods names entries instr r s
        = .ok ⟨fmt_d r.target_segment ++ ":" ++ fmt_x 4 r.target_offset, s.arg1, s.arg2,
            r.text⟩) ∧
    (r.size = 3 → r.type = 1 → ∀ m, get_module mods r.target_segment = some m →
      reloc_rewrite mods names entries instr r s
        = .ok ⟨snprintf32 (m.name ++ "." ++ fmt_d r.target_offset), s.arg1, s.arg2,
            find_export m.exports r.target_offset⟩ ∧
      get_imported_name mods r.target_segment r.target_offset
        = .ok (find_export m.exports r.target_offset)) ∧
    (r.size = 3 → r.type = 2 → ∀ m n, get_module mods r.target_segment = some m →
      import_name names r.target_offset = .ok n →
      reloc_rewrite mods names entries instr r s
        = .ok ⟨snprintf32 (m.name ++ "." ++ n), s.arg1, s.arg2, s.comment⟩) ∧
    (r.size = 2 → r.type = 0 →
      reloc_rewrite mods names entries instr r s
        = .ok ⟨fmt_d r.target_segment ++ ":" ++ fmt_x 4 instr.arg0, s.arg1, s.arg2,
            get_entry_name entries r.target_segment (instr.arg0 % 65536)⟩) ∧
    (∀ t : String, (snprintf32 t).data = t.data.take 31 ∧ (t.length ≤ 31 → snprintf32 t = t)) ∧
    (∀ pre bytes post : List Nat, (∀ b ∈ bytes, b ≠ 0) →
      import_name (pre ++ bytes.length :: bytes ++ post) pre.length
        = .ok (String.mk (bytes.map Char.ofNat))) ∧
    (∀ (K : instr_consts) (asm : asm_dialect) (ip : Nat) (flags : List Nat)
      (reloc_data : List reloc) (len k : Nat) (usedmem : Bool) (s1 : operands),
      print_args K asm instr = .ok (s, usedmem) → k < len →
      (ip + k < flags.length ∧ flags.getD (ip + k) 0 &&& INSTR_RELOC ≠ 0) →
      get_reloc ((ip + k) % 65536) reloc_data = some r →
      (∀ j, j < len → j ≠ k →
        ip + j < flags.length ∧ flags.getD (ip + j) 0 &&& INSTR_RELOC = 0) →
      reloc_rewrite mods names entries instr r s = .ok s1 →
      print_instr_operands K asm mods names entries ip flags reloc_data instr len
        = .ok (s1, usedmem)) := by
  refine ⟨?_, ?_, ?_, ?_, ?_, ?_, ?_⟩
  · intro h3 h0
    unfold reloc_rewrite
    rw [reloc_module_internal mods r h0]
    simp only []
    rw [if_pos ⟨hrole, h3⟩, reloc_text_internal _ _ _ _ _ _ _ h0]
    rfl
  · intro h3 h1 m hm
    constructor
    · unfold reloc_rewrite
      rw [reloc_module_imported mods r m (Or.inl h1) hm]
      simp only []
      rw [if_pos ⟨hrole, h3⟩, reloc_text_ordinal _ _ _ _ _ _ _ m h1 hm, String.empty_append]
      rfl
    · unfold get_imported_name
      rw [hm]
  · intro h3 h2 m n hm hn
    unfold reloc_rewrite
    rw [reloc_module_imported mods r m (Or.inr h2) hm]
    simp only []
    rw [if_pos ⟨hrole, h3⟩, reloc_text_name _ _ _ _ _ _ _ n h2 hn, String.empty_append]
    rfl
  · intro h2 h0
    unfold reloc_rewrite
    rw [reloc_module_internal mods r h0]
    simp only []
    rw [if_neg (by omega), if_pos ⟨hrole, h2, h0⟩]
  · intro t
    exact ⟨rfl, snprintf32_short t⟩
  · exact import_name_eq
  · intro K asm ip flags reloc_data len k usedmem s1 hargs hk hv hr ho hw
    exact print_instr_operands_single K asm mods names entries ip flags reloc_data instr len
      s s1 usedmem k r hargs hk hv hr ho hw

/-- Witness of C13 (amended): the far pointer of `9A 34 12 02 00` with a
relocation of size 3 and type Internal to 2:0034, named `symname`. -/
theorem C13_pointer_relocation_witness :
    reloc_rewrite [] [] [] (call_far_record 0x400) ⟨3, 0, [1], 2, 0x34, some "symname"⟩
        ⟨"", "", "", none⟩
      = .ok ⟨"2:0034", "", "", some "symname"⟩ :=
  (C13_pointer_relocation [] [] [] (call_far_record 0x400)
    ⟨3, 0, [1], 2, 0x34, some "symname"⟩ ⟨"", "", "", none⟩ (by rfl)).1 (by rfl) (by rfl)

/-- C14 (as stated, refuted). For `B8 34 12` at 1:0000 (`mov`, roles `AX` and
`IMM`) with the byte 1:0001 covered by a relocation of size 2 and type
ImportedName, module 2 (`MMSYSTEM`) and name offset 27
(`MIDIOUTGETERRORTEXT`), the second operand becomes
`seg MMSYSTEM.MIDIOUTGETERRORTEX`: the text `seg <module>.<name>` has 32
characters, of which `snprintf` copies 31 into the operand buffer. -/
theorem C14_counterexample_truncated_name :
    get_module sample_modules 2 = some ⟨"MMSYSTEM", []⟩ ∧
    import_name sample_names 27 = .ok "MIDIOUTGETERRORTEXT" ∧
    reloc_rewrite sample_modules sample_names [] mov_record
        ⟨2, 2, [1], 2, 27, none⟩ ⟨"ax", "1234h", "", none⟩
      = .ok ⟨"ax", "seg MMSYSTEM.MIDIOUTGETERRORTEX", "", none⟩ ∧
    "seg MMSYSTEM.MIDIOUTGETERRORTEX" ≠ "seg " ++ "MMSYSTEM" ++ "." ++ "MIDIOUTGETERRORTEXT" ∧
    print_instr sample_consts asm_dialect.NASM print_sample_get_instr sample_modules
        sample_names [] 1 0 [0, 0x20, 0, 0] (sample_buffer [0xB8, 0x34, 0x12])
        [⟨2, 2, [1], 2, 27, none⟩] 0
      = .ok ("   1.0000:\tb8 34 12                mov\tax, seg MMSYSTEM.MIDIOUTGETERRORTEX", 3) := by
  refine ⟨rfl, rfl, rfl, by decide, rfl⟩

/-- C14 (amended). For an instruction with an operand of role `IMM` whose first
operand role is not `PTR32`, the rewriting step of `print_instr` for a
`RELOC`-flagged byte covered by a relocation `r` of size 2 or 5 replaces one
operand buffer, the first when its role is `IMM` and otherwise the second, and
keeps the other buffers:
* Internal: by `seg <target_segment>` for size 2 and by the target offset
  printed by `%04x` for size 5, the comment is kept;
* ImportedOrdinal, the module being in the module table: by the first 31
  characters of `seg <module>.<ordinal>` for size 2 and of `<module>.<ordinal>`
  for size 5, the comment becomes `get_imported_name(module, ordinal)`;
* ImportedName: by the first 31 characters of `seg <module>.<name>` for size 2
  and of `<module>.<name>` for size 5, the comment is kept.
A text of at most 31 characters is copied as a whole. -/
theorem C14_immediate_relocation (mods : List import_module) (names : List Nat) (entries : List entry)
    (instr : instr_info) (r : reloc) (s : operands)
    (hnp : instr.op.arg0 ≠ arg.PTR32)
    (himm : instr.op.arg0 = arg.IMM ∨ instr.op.arg1 = arg.IMM)
    (hsize : r.size = 2 ∨ r.size = 5) :
    (r.type = 0 →
      reloc_rewrite mods names entries instr r s
        = .ok (if instr.op.arg0 = arg.IMM
            then ⟨if r.size = 2 then "seg " ++ fmt_d r.target_segment
              else fmt_x 4 r.target_offset, s.arg1, s.arg2, s.comment⟩
            else ⟨s.arg0, if r.size = 2 then "seg " ++ fmt_d r.target_segment
              else fmt_x 4 r.target_offset, s.arg2, s.comment⟩)) ∧
    (r.type = 1 → ∀ m, get_module mods r.target_segment = some m →
      reloc_rewrite mods names entries instr r s
        = .ok (if instr.op.arg0 = arg.IMM
            then ⟨snprintf32 ((if r.size = 2 then "seg " else "") ++ m.name ++ "."
              ++ fmt_d r.target_offset), s.arg1, s.arg2, find_export m.exports r.target_offset⟩
            else ⟨s.arg0, snprintf32 ((if r.size = 2 then "seg " else "") ++ m.name ++ "."
              ++ fmt_d r.target_offset), s.arg2, find_export m.exports r.target_offset⟩)) ∧
    (r.type = 2 → ∀ m n, get_module mods r.target_segment = some m →
      import_name names r.target_offset = .ok n →
      reloc_rewrite mods names entries instr r s
        = .ok (if instr.op.arg0 = arg.IMM
            then ⟨snprintf32 ((if r.size = 2 then "seg " else "") ++ m.name ++ "." ++ n),
              s.arg1, s.arg2, s.comment⟩
            else ⟨s.arg0, snprintf32 ((if r.size = 2 then "seg " else "") ++ m.name ++ "." ++ n),
              s.arg2, s.comment⟩)) ∧
    (∀ t : String, (snprintf32 t).data = t.data.take 31 ∧ (t.length ≤ 31 → snprintf32 t = t)) := by
  have c1 : ¬ (instr.op.arg0 = arg.PTR32 ∧ r.size = 3) := fun h => hnp h.1
  have c2 : ¬ (instr.op.arg0 = arg.PTR32 ∧ r.size = 2 ∧ r.type = 0) := fun h => hnp h.1
  have key : ∀ (module : String) (t : Option String) (c : Option (Option String)),
      reloc_module mods r = .ok module →
      reloc_text mods names r module ("seg " ++ fmt_d r.target_segment) none "seg " = .ok (t, c) ∨
        r.size ≠ 2 →
      reloc_text mods names r module (fmt_x 4 r.target_offset) none "" = .ok (t, c) ∨
        r.size ≠ 5 →
      reloc_rewrite mods names entries instr r s
        = .ok (if instr.op.arg0 = arg.IMM
            then ⟨t.getD s.arg0, s.arg1, s.arg2, c.getD s.comment⟩
            else ⟨s.arg0, t.getD s.arg1, s.arg2, c.getD s.comment⟩) := by
    intro module t c hmodule h2 h5
    unfold reloc_rewrite
    rw [hmodule]
    simp only []
    rw [if_neg c1, if_neg c2]
    by_cases h0 : instr.op.arg0 = arg.IMM
    · rcases hsize with hs | hs
      · have ht := h2.resolve_right (fun h => h hs)
        rw [if_pos ⟨h0, hs⟩, ht, if_pos h0]
      · have ht := h5.resolve_right (fun h => h hs)
        have n2 : ¬ r.size = 2 := by omega
        rw [if_neg (fun h => n2 h.2), if_neg (fun h => n2 h.2), if_pos ⟨h0, hs⟩, ht, if_pos h0]
    · have h1 : instr.op.arg1 = arg.IMM := himm.resolve_left h0
      rcases hsize with hs | hs
      · have ht := h2.resolve_right (fun h => h hs)
        rw [if_neg (fun h => h0 h.1), if_pos ⟨h1, hs⟩, ht, if_neg h0]
      · have ht := h5.resolve_right (fun h => h hs)
        have n2 : ¬ r.size = 2 := by omega
        rw [if_neg (fun h => h0 h.1), if_neg (fun h => n2 h.2), if_neg (fun h => h0 h.1),
          if_pos ⟨h1, hs⟩, ht, if_neg h0]
  refine ⟨?_, ?_, ?_, fun t => ⟨rfl, snprintf32_short t⟩⟩
  · intro h0
    have := key "" (some (if r.size = 2 then "seg " ++ fmt_d r.target_segment
      else fmt_x 4 r.target_offset)) none (reloc_module_internal mods r h0)
      (by
        by_cases hs : r.size = 2
        · left; rw [if_pos hs]; exact reloc_text_internal _ _ _ _ _ _ _ h0
        · right; exact hs)
      (by
        by_cases hs : r.size = 5
        · left
          rw [if_neg (by omega)]
          exact reloc_text_internal _ _ _ _ _ _ _ h0
        · right; exact hs)
    exact this
  · intro h1 m hm
    have := key m.name (some (snprintf32 ((if r.size = 2 then "seg " else "") ++ m.name ++ "."
      ++ fmt_d r.target_offset))) (some (find_export m.exports r.target_offset))
      (reloc_module_imported mods r m (Or.inl h1) hm)
      (by
        by_cases hs : r.size = 2
        · left; rw [if_pos hs]; exact reloc_text_ordinal _ _ _ _ _ _ _ m h1 hm
        · right; exact hs)
      (by
        by_cases hs : r.size = 5
        · left
          rw [if_neg (by omega)]
          exact reloc_text_ordinal _ _ _ _ _ _ _ m h1 hm
        · right; exact hs)
    exact this
  · intro h2 m n hm hn
    have := key m.name (some (snprintf32 ((if r.size = 2 then "seg " else "") ++ m.name ++ "."
      ++ n))) none
      (reloc_module_imported mods r m (Or.inr h2) hm)
      (by
        by_cases hs : r.size = 2
        · left; rw [if_pos hs]; exact reloc_text_name _ _ _ _ _ _ _ n h2 hn
        · right; exact hs)
      (by
        by_cases hs : r.size = 5
        · left
          rw [if_neg (by omega)]
          exact reloc_text_name _ _ _ _ _ _ _ n h2 hn
        · right; exact hs)
    exact this

/-- Witness of C14 (amended): the immediate of `B8 34 12` with a relocation of
size 2 and type Internal to segment 3. -/
theorem C14_immediate_relocation_witness :
    reloc_rewrite [] [] [] mov_record ⟨2, 0, [1], 3, 0, none⟩ ⟨"ax", "1234h", "", none⟩
      = .ok ⟨"ax", "seg 3", "", none⟩ :=
  (C14_immediate_relocation [] [] [] mov_record ⟨2, 0, [1], 3, 0, none⟩
    ⟨"ax", "1234h", "", none⟩ (by decide) (Or.inr (by rfl)) (Or.inl (by rfl))).1 (by rfl)


theorem reloc_text_other (mods : List import_module) (names : List Nat) (r : reloc)
    (module internal : String) (ic : Option (Option String)) (lead : String)
    (h : 2 < r.type) :
    reloc_text mods names r module internal ic lead = .ok (none, none) := by
  unfold reloc_text
  rw [if_neg (by omega), if_neg (by omega), if_neg (by omega)]

theorem operands_eta (s : operands) :
    (⟨Option.getD none s.arg0, s.arg1, s.arg2, Option.getD none s.comment⟩ : operands) = s ∧
    (⟨s.arg0, Option.getD none s.arg1, s.arg2, Option.getD none s.comment⟩ : operands) = s := by
  cases s
  exact ⟨rfl, rfl⟩

/-- The rewriting step changes nothing for a relocation outside the rewrite
table, the module of an imported target being in the module table. -/
theorem reloc_rewrite_outside (mods : List import_module) (names : List Nat)
    (entries : List entry) (instr : instr_info) (r : reloc) (s : operands)
    (hmod : r.type = 1 ∨ r.type = 2 → get_module mods r.target_segment ≠ none)
    (hout : (r.size = 0 ∨ r.size = 1 ∨ r.size = 4) ∨
      (¬ (instr.op.arg0 = arg.PTR32 ∧ r.size = 3 ∧ r.type ≤ 2) ∧
       ¬ (instr.op.arg0 = arg.PTR32 ∧ r.size = 2 ∧ r.type = 0) ∧
       ¬ ((instr.op.arg0 = arg.IMM ∨ instr.op.arg1 = arg.IMM) ∧ (r.size = 2 ∨ r.size = 5) ∧
          r.type ≤ 2))) :
    reloc_rewrite mods names entries instr r s = .ok s := by
  have hm : ∃ module, reloc_module mods r = Except.ok module := by
    unfold reloc_module
    by_cases ht : r.type = 1 ∨ r.type = 2
    · rw [if_pos ht]
      cases hg : get_module mods r.target_segment with
      | none => exact absurd hg (hmod ht)
      | some m => exact ⟨m.name, rfl⟩
    · rw [if_neg ht]
      exact ⟨"", rfl⟩
  obtain ⟨module, hmodule⟩ := hm
  unfold reloc_rewrite
  rw [hmodule]
  simp only []
  by_cases hty : r.type ≤ 2
  · have c1 : ¬ (instr.op.arg0 = arg.PTR32 ∧ r.size = 3) := by
      rintro ⟨a, b⟩
      rcases hout with h | h
      · omega
      · exact h.1 ⟨a, b, hty⟩
    have c2 : ¬ (instr.op.arg0 = arg.PTR32 ∧ r.size = 2 ∧ r.type = 0) := by
      rintro ⟨a, b, c⟩
      rcases hout with h | h
      · omega
      · exact h.2.1 ⟨a, b, c⟩
    have c3 : ¬ (instr.op.arg0 = arg.IMM ∧ r.size = 2) := by
      rintro ⟨a, b⟩
      rcases hout with h | h
      · omega
      · exact h.2.2 ⟨Or.inl a, Or.inl b, hty⟩
    have c4 : ¬ (instr.op.arg1 = arg.IMM ∧ r.size = 2) := by
      rintro ⟨a, b⟩
      rcases hout with h | h
      · omega
      · exact h.2.2 ⟨Or.inr a, Or.inl b, hty⟩
    have c5 : ¬ (instr.op.arg0 = arg.IMM ∧ r.size = 5) := by
      rintro ⟨a, b⟩
      rcases hout with h | h
      · omega
      · exact h.2.2 ⟨Or.inl a, Or.inr b, hty⟩
    have c6 : ¬ (instr.op.arg1 = arg.IMM ∧ r.size = 5) := by
      rintro ⟨a, b⟩
      rcases hout with h | h
      · omega
      · exact h.2.2 ⟨Or.inr a, Or.inr b, hty⟩
    rw [if_neg c1, if_neg c2, if_neg c3, if_neg c4, if_neg c5, if_neg c6]
  · have hgt : 2 < r.type := by omega
    have c2 : ¬ (instr.op.arg0 = arg.PTR32 ∧ r.size = 2 ∧ r.type = 0) := by
      rintro ⟨_, _, c⟩
      omega
    simp only [reloc_text_other mods names r _ _ _ _ hgt, (operands_eta s).1,
      (operands_eta s).2, if_neg c2, ite_self]

theorem reloc_loop_skip (mods : List import_module) (names : List Nat) (entries : List entry)
    (flags : List Nat) (reloc_data : List reloc) (instr : instr_info) (i v0 : Nat) :
    ∀ (n i0 : Nat) (s : operands), (i < i0 ∨ i0 + n ≤ i) →
      reloc_loop mods names entries (flags.set i v0) reloc_data instr n i0 s
        = reloc_loop mods names entries flags reloc_data instr n i0 s := by
  intro n
  induction n with
  | zero => intro i0 s _; rfl
  | succ n ih =>
    intro i0 s h
    have hne : i ≠ i0 := by omega
    rw [reloc_loop, reloc_loop, List.getElem?_set_ne hne]
    cases flags[i0]? with
    | none => rfl
    | some v =>
      simp only []
      by_cases hf : v &&& INSTR_RELOC ≠ 0
      · rw [if_pos hf, if_pos hf]
        cases get_reloc (i0 % 65536) reloc_data with
        | none => rfl
        | some r =>
          simp only []
          cases reloc_rewrite mods names entries instr r s with
          | error e => rfl
          | ok s1 => exact ih (i0 + 1) s1 (by omega)
      · rw [if_neg hf, if_neg hf]
        exact ih (i0 + 1) s (by omega)

/-- Clearing the `RELOC` flag of a byte whose rewriting step changes nothing
leaves the result of the relocation loop as it is. -/
theorem reloc_loop_set (mods : List import_module) (names : List Nat) (entries : List entry)
    (flags : List Nat) (reloc_data : List reloc) (instr : instr_info) (i v v0 : Nat) (r : reloc)
    (hv : flags[i]? = some v)
    (hr : get_reloc (i % 65536) reloc_data = some r)
    (hid : ∀ s, reloc_rewrite mods names entries instr r s = .ok s)
    (hv0 : v0 &&& INSTR_RELOC = 0) :
    ∀ (n i0 : Nat) (s : operands),
      reloc_loop mods names entries (flags.set i v0) reloc_data instr n i0 s
        = reloc_loop mods names entries flags reloc_data instr n i0 s := by
  have hlt : i < flags.length := (List.getElem?_eq_some.mp hv).1
  intro n
  induction n with
  | zero => intro i0 s; rfl
  | succ n ih =>
    intro i0 s
    by_cases hi : i = i0
    · subst hi
      rw [reloc_loop, reloc_loop, hv, List.getElem?_set_self hlt]
      simp only []
      rw [if_neg (fun h => h hv0),
        reloc_loop_skip mods names entries flags reloc_data instr i v0 n (i + 1) s
          (Or.inl (by omega))]
      by_cases hf : v &&& INSTR_RELOC ≠ 0
      · rw [if_pos hf, hr]
        simp only []
        rw [hid s]
      · rw [if_neg hf]
    · rw [reloc_loop, reloc_loop, List.getElem?_set_ne hi]
      cases flags[i0]? with
      | none => rfl
      | some w =>
        simp only []
        by_cases hf : w &&& INSTR_RELOC ≠ 0
        · rw [if_pos hf, if_pos hf]
          cases get_reloc (i0 % 65536) reloc_data with
          | none => rfl
          | some r1 =>
            simp only []
            cases reloc_rewrite mods names entries instr r1 s with
            | error e => rfl
            | ok s1 => exact ih (i0 + 1) s1
        · rw [if_neg hf, if_neg hf]
          exact ih (i0 + 1) s

/-- C15. Let the byte `i` of the flag array be covered by the relocation `r`,
the one that the relocation loop of `print_instr` looks up when the byte
carries `RELOC`, whose size kind is 0, 1 or 4 (whatever its type), or whose
combination of operand roles, size kind and type is outside the rewrite table
(the module of an imported target being in the module table).  The rewriting
step for `r` leaves the three operand buffers and the comment as they are, and
the operand buffers and the comment that `print_instr` has after its
relocation loop are those it has when the byte `i` carries no `RELOC` flag. -/
theorem C15_unhandled_relocation (K : instr_consts) (asm : asm_dialect)
    (mods : List import_module) (names : List Nat) (entries : List entry) (ip : Nat)
    (flags : List Nat) (reloc_data : List reloc) (instr : instr_info) (len : Nat)
    (i v v0 : Nat) (r : reloc)
    (hv : flags[i]? = some v)
    (hr : get_reloc (i % 65536) reloc_data = some r)
    (hmod : r.type = 1 ∨ r.type = 2 → get_module mods r.target_segment ≠ none)
    (hout : (r.size = 0 ∨ r.size = 1 ∨ r.size = 4) ∨
      (¬ (instr.op.arg0 = arg.PTR32 ∧ r.size = 3 ∧ r.type ≤ 2) ∧
       ¬ (instr.op.arg0 = arg.PTR32 ∧ r.size = 2 ∧ r.type = 0) ∧
       ¬ ((instr.op.arg0 = arg.IMM ∨ instr.op.arg1 = arg.IMM) ∧ (r.size = 2 ∨ r.size = 5) ∧
          r.type ≤ 2)))
    (hv0 : v0 &&& INSTR_RELOC = 0) :
    (∀ s, reloc_rewrite mods names entries instr r s = .ok s) ∧
    print_instr_operands K asm mods names entries ip flags reloc_data instr len
      = print_instr_operands K asm mods names entries ip (flags.set i v0) reloc_data instr len := by
  have hid := fun s => reloc_rewrite_outside mods names entries instr r s hmod hout
  refine ⟨hid, ?_⟩
  unfold print_instr_operands
  cases print_args K asm instr with
  | error e => rfl
  | ok a =>
    obtain ⟨s, usedmem⟩ := a
    simp only []
    rw [reloc_loop_set mods names entries flags reloc_data instr i v v0 r hv hr hid hv0]

/-- Witness of C15: the `mov` of `B8 34 12` at offset 0 with a relocation of
size kind 0 on its byte 1; the operands are those of the instruction without
the flag. -/
theorem C15_unhandled_relocation_witness :
    print_instr_operands sample_consts asm_dialect.NASM [] [] [] 0 [0, 0x20, 0, 0]
        [⟨0, 0, [1], 1, 0x10, none⟩] mov_record 3
      = print_instr_operands sample_consts asm_dialect.NASM [] [] [] 0
        ([0, 0x20, 0, 0].set 1 0) [⟨0, 0, [1], 1, 0x10, none⟩] mov_record 3 :=
  (C15_unhandled_relocation sample_consts asm_dialect.NASM [] [] [] 0 [0, 0x20, 0, 0]
    [⟨0, 0, [1], 1, 0x10, none⟩] mov_record 3 1 0x20 0 ⟨0, 0, [1], 1, 0x10, none⟩
    (by rfl) (by rfl) (by decide) (by decide) (by decide)).2

/-! ## Sample lines of the printer -/

theorem mov_record_args (K : instr_consts) (asm : asm_dialect) :
    print_args K asm mov_record
      = .ok (⟨get_reg16 asm 0 false, if asm = asm_dialect.GAS then "$0x1234" else "1234h", "",
          none⟩, false) := by
  cases asm <;>
  simp [print_args, print_arg_buffer, print_arg, print_arg2, mov_record, print_arg_register,
    reg8_index, reg16_index, get_reg16, Nat.zero_and, reg16] <;> rfl

theorem mov32_record_line (K : instr_consts) (get_instr : Decoder)
    (mods : List import_module) (names : List Nat) (entries : List entry) (cs ip : Nat)
    (flags p : List Nat) (reloc_data : List reloc) (is32 : Nat) (head : String) (bits imm : Nat)
    (himm : (fmt_X 8 imm).length ≤ 30)
    (hseg : bits &&& K.PREFIX_SEG_MASK = 0) (haddr : bits &&& K.PREFIX_ADDR32 = 0)
    (hlock : bits &&& K.PREFIX_LOCK = 0) (hrepne : bits &&& K.PREFIX_REPNE = 0)
    (hrepe : bits &&& K.PREFIX_REPE = 0)
    (hd : get_instr cs ip p is32 = (mov32_record bits imm, 6))
    (hfl : ∀ j, j < 6 → ip + j < flags.length ∧ flags.getD (ip + j) 0 &&& INSTR_RELOC = 0)
    (hhead : print_instr_head cs ip flags p 6 = .ok head) :
    print_instr K asm_dialect.NASM get_instr mods names entries cs ip flags p reloc_data is32
      = .ok (head ++ ("mov" ++ "\t" ++ "eax" ++ ", " ++ (fmt_X 8 imm ++ "h")) ++ "", 6) := by
  have hne : fmt_X 8 imm ++ "h" ≠ "" := append_ne_empty _ _ (by decide)
  have h0 : print_arg_buffer K asm_dialect.NASM (mov32_record bits imm).arg0
      (mov32_record bits imm).op.arg0 (mov32_record bits imm) = .ok ("eax", false) :=
    print_arg_buffer_of _ _ _ _ _ _ _ (by rfl) (by decide)
  have h1 : print_arg_buffer K asm_dialect.NASM (mov32_record bits imm).arg1
      (mov32_record bits imm).op.arg1 (mov32_record bits imm)
      = .ok (fmt_X 8 imm ++ "h", false) := by
    apply print_arg_buffer_of
    · simp [print_arg, mov32_record, Nat.zero_and]
    · rw [String.length_append]
      have : ("h" : String).length = 1 := rfl
      omega
  have h2 : print_arg2 K asm_dialect.NASM (mov32_record bits imm) = .ok ("", false) :=
    print_arg2_none _ _ _ (Nat.zero_and _) (Nat.zero_and _) (Nat.zero_and _)
  have hargs := print_args_of _ _ _ _ _ _ _ _ _ h0 h1 h2
  have hops := print_instr_operands_clean K asm_dialect.NASM mods names entries ip flags
    reloc_data _ 6 _ _ hargs hfl
  have hpre : print_instr_prefixes K asm_dialect.NASM (mov32_record bits imm)
      (false || false || false) = .ok "" :=
    print_instr_prefixes_none _ _ _ _ hseg (Or.inr (Or.inr rfl)) haddr hlock hrepne hrepe
  have hbits : (mov32_record bits imm).prefix_bits = bits := rfl
  have hflags : (mov32_record bits imm).op.flags = 0 := rfl
  have htext : print_instr_text K asm_dialect.NASM entries cs (mov32_record bits imm)
      ⟨"eax", fmt_X 8 imm ++ "h", "", none⟩ (false || false || false)
      = .ok ("mov" ++ "\t" ++ "eax" ++ ", " ++ (fmt_X 8 imm ++ "h")) := by
    unfold print_instr_text
    rw [hpre]
    simp [print_instr_name, instr_name, print_instr_args, hne, hflags, Nat.zero_and, mov32_record]
    rw [← String.append_assoc, ← String.append_assoc]
    rfl
  exact print_instr_of K _ get_instr mods names entries cs ip flags p reloc_data is32 _ _ _ _
    head _ "" hd hops hhead htext (print_instr_wrap_short _ _ _ _ _ (by decide))

theorem call_far_record_line (K : instr_consts) (get_instr : Decoder)
    (mods : List import_module) (names : List Nat) (entries : List entry) (cs ip : Nat)
    (flags p : List Nat) (reloc_data : List reloc) (is32 : Nat) (head : String)
    (opflags k : Nat) (offsets : List Nat)
    (h2a : opflags &&& K.OP_ARG2_IMM = 0) (h2b : opflags &&& K.OP_ARG2_IMM8 = 0)
    (h2c : opflags &&& K.OP_ARG2_CL = 0) (hstack : opflags &&& K.OP_STACK = 0)
    (hstring : opflags &&& K.OP_STRING = 0)
    (hd : get_instr cs ip p is32 = (call_far_record opflags, 5))
    (hk : k < 5)
    (hv : ip + k < flags.length ∧ flags.getD (ip + k) 0 &&& INSTR_RELOC ≠ 0)
    (hr : get_reloc ((ip + k) % 65536) reloc_data = some ⟨3, 0, offsets, 2, 0x34, some "symname"⟩)
    (ho : ∀ j, j < 5 → j ≠ k →
      ip + j < flags.length ∧ flags.getD (ip + j) 0 &&& INSTR_RELOC = 0)
    (hhead : print_instr_head cs ip flags p 5 = .ok head) :
    print_instr K asm_dialect.NASM get_instr mods names entries cs ip flags p reloc_data is32
      = .ok (head ++ "call\t2:0034\t<symname>", 5) := by
  have h0 : print_arg_buffer K asm_dialect.NASM (call_far_record opflags).arg0
      (call_far_record opflags).op.arg0 (call_far_record opflags) = .ok ("", false) :=
    print_arg_buffer_of _ _ _ _ _ _ _ (by rfl) (by decide)
  have h1 : print_arg_buffer K asm_dialect.NASM (call_far_record opflags).arg1
      (call_far_record opflags).op.arg1 (call_far_record opflags) = .ok ("", false) :=
    print_arg_buffer_of _ _ _ _ _ _ _ (by rfl) (by decide)
  have h2 : print_arg2 K asm_dialect.NASM (call_far_record opflags) = .ok ("", false) :=
    print_arg2_none _ _ _ h2a h2b h2c
  have hargs := print_args_of _ _ _ _ _ _ _ _ _ h0 h1 h2
  have hw : reloc_rewrite mods names entries (call_far_record opflags)
      ⟨3, 0, offsets, 2, 0x34, some "symname"⟩ ⟨"", "", "", none⟩
      = .ok ⟨"2:0034", "", "", some "symname"⟩ := by
    simp [reloc_rewrite, reloc_text, call_far_record]
    rfl
  have hops := print_instr_operands_single K asm_dialect.NASM mods names entries ip flags
    reloc_data _ 5 _ _ _ k _ hargs hk hv hr ho hw
  have hpre : print_instr_prefixes K asm_dialect.NASM (call_far_record opflags)
      (false || false || false) = .ok "" :=
    print_instr_prefixes_none _ _ _ _ (Nat.zero_and _) (Or.inl (Nat.zero_and _))
      (Nat.zero_and _) (Nat.zero_and _) (Nat.zero_and _) (Nat.zero_and _)
  have htext : print_instr_text K asm_dialect.NASM entries cs (call_far_record opflags)
      ⟨"2:0034", "", "", some "symname"⟩ (false || false || false)
      = .ok "call\t2:0034\t<symname>" := by
    unfold print_instr_text
    rw [hpre]
    simp [print_instr_name, instr_name, print_instr_args, Nat.zero_and, call_far_record, hstack, hstring]
    rfl
  have := print_instr_of K _ get_instr mods names entries cs ip flags p reloc_data is32 _ _ _ _
    head _ "" hd hops hhead htext (print_instr_wrap_short _ _ _ _ _ (by decide))
  rw [this, String.append_empty]

theorem shl_record_line (K : instr_consts) (get_instr : Decoder)
    (mods : List import_module) (names : List Nat) (entries : List entry) (cs ip : Nat)
    (flags p : List Nat) (reloc_data : List reloc) (is32 : Nat) (head : String)
    (hd : get_instr cs ip p is32 = (shl_record, 2))
    (hfl : ∀ j, j < 2 → ip + j < flags.length ∧ flags.getD (ip + j) 0 &&& INSTR_RELOC = 0)
    (hhead : print_instr_head cs ip flags p 2 = .ok head) :
    print_instr K asm_dialect.NASM get_instr mods names entries cs ip flags p reloc_data is32
      = .ok (head ++ "shl\tax, 1h", 2) := by
  have h0 : print_arg_buffer K asm_dialect.NASM shl_record.arg0
      shl_record.op.arg0 shl_record = .ok ("ax", false) :=
    print_arg_buffer_of _ _ _ _ _ _ _ (by rfl) (by decide)
  have h1 : print_arg_buffer K asm_dialect.NASM shl_record.arg1
      shl_record.op.arg1 shl_record = .ok ("1h", false) :=
    print_arg_buffer_of _ _ _ _ _ _ _ (by rfl) (by decide)
  have h2 : print_arg2 K asm_dialect.NASM shl_record = .ok ("", false) :=
    print_arg2_none _ _ _ (Nat.zero_and _) (Nat.zero_and _) (Nat.zero_and _)
  have hargs := print_args_of _ _ _ _ _ _ _ _ _ h0 h1 h2
  have hops := print_instr_operands_clean K asm_dialect.NASM mods names entries ip flags
    reloc_data _ 2 _ _ hargs hfl
  have hpre : print_instr_prefixes K asm_dialect.NASM shl_record
      (false || false || false) = .ok "" :=
    print_instr_prefixes_none _ _ _ _ (Nat.zero_and _) (Or.inl (Nat.zero_and _))
      (Nat.zero_and _) (Nat.zero_and _) (Nat.zero_and _) (Nat.zero_and _)
  have htext : print_instr_text K asm_dialect.NASM entries cs shl_record
      ⟨"ax", "1h", "", none⟩ (false || false || false)
      = .ok "shl\tax, 1h" := by
    unfold print_instr_text
    rw [hpre]
    simp [print_instr_name, instr_name, print_instr_args, Nat.zero_and, shl_record]
  have := print_instr_of K _ get_instr mods names entries cs ip flags p reloc_data is32 _ _ _ _
    head _ "" hd hops hhead htext (print_instr_wrap_short _ _ _ _ _ (by decide))
  rw [this, String.append_empty]

theorem ite_snd {α β : Type} (c : Prop) [Decidable c] (x y : α × β) :
    (if c then x else y).2 = if c then x.2 else y.2 := by
  split <;> rfl

theorem print_instr_name_aam (K : instr_consts) (asm : asm_dialect) (instr : instr_info)
    (a0 : String)
    (hstack : instr.op.flags &&& K.OP_STACK = 0) (hstring : instr.op.flags &&& K.OP_STRING = 0)
    (hop : instr.op.opcode = 0xD4 ∨ instr.op.opcode = 0xD5) :
    (instr.arg0 = 10 →
      print_instr_name K asm instr a0
        = (if instr.op.opcode = 0xD4 then "aam" else "aad", "")) ∧
    (instr.arg0 ≠ 10 → (print_instr_name K asm instr a0).2 = a0) := by
  rcases hop with h | h
  · constructor
    · intro h10
      simp only [print_instr_name, hstack, hstring, h, h10, ne_eq, not_true_eq_false, false_and,
        and_false, if_false, Nat.reduceEqDiff, and_self, if_true]
    · intro h10
      simp only [print_instr_name, hstack, hstring, h, h10, ne_eq, not_true_eq_false, false_and,
        and_false, if_false, Nat.reduceEqDiff, ite_snd, ite_self]
  · constructor
    · intro h10
      simp only [print_instr_name, hstack, hstring, h, h10, ne_eq, not_true_eq_false, false_and,
        and_false, if_false, Nat.reduceEqDiff, and_self, if_true]
    · intro h10
      simp only [print_instr_name, hstack, hstring, h, h10, ne_eq, not_true_eq_false, false_and,
        and_false, if_false, Nat.reduceEqDiff, ite_snd, ite_self]

/-- C16. When the decoder yields the record of `B8 34 12` (`mov`, roles `AX`
and `IMM`, operand size 16, no prefix, immediate 0x1234, no ModR/M) and none
of the three bytes carries `RELOC`, the line of `print_instr` is the start of
the line followed by the mnemonic `mov`, a tab and the operands `ax, 1234h`
under NASM and under MASM, and by the mnemonic `movw`, a tab and the operands
`$0x1234,%ax` under GAS (the mask `OP_LL` being a set of bits that is not
empty). -/
theorem C16_mov_immediate (K : instr_consts) (get_instr : Decoder)
    (mods : List import_module) (names : List Nat) (entries : List entry) (cs ip : Nat)
    (flags p : List Nat) (reloc_data : List reloc) (is32 : Nat) (head : String)
    (hK : K.OP_LL ≠ 0)
    (hd : get_instr cs ip p is32 = (mov_record, 3))
    (hfl : ∀ j, j < 3 → ip + j < flags.length ∧ flags.getD (ip + j) 0 &&& INSTR_RELOC = 0)
    (hhead : print_instr_head cs ip flags p 3 = .ok head) :
    print_instr K asm_dialect.NASM get_instr mods names entries cs ip flags p reloc_data is32
      = .ok (head ++ "mov" ++ "\t" ++ "ax, 1234h", 3) ∧
    print_instr K asm_dialect.MASM get_instr mods names entries cs ip flags p reloc_data is32
      = .ok (head ++ "mov" ++ "\t" ++ "ax, 1234h", 3) ∧
    print_instr K asm_dialect.GAS get_instr mods names entries cs ip flags p reloc_data is32
      = .ok (head ++ "movw" ++ "\t" ++ "$0x1234,%ax", 3) := by
  have hz : ¬ (0 = K.OP_LL) := fun h => hK h.symm
  refine ⟨?_, ?_, ?_⟩ <;>
  · unfold print_instr print_instr_operands
    rw [hd]
    simp only [mov_record_args, reloc_loop_clean _ _ _ _ _ _ _ 3 ip hfl, hhead]
    simp [print_instr_text, print_instr_prefixes, print_instr_name, instr_name,
      print_instr_args, print_instr_wrap, mov_record, Nat.zero_and, get_reg16, reg16, hz,
      String.append_assoc]
    try rfl

/-- Witness of C16: the three lines for `B8 34 12` at 1:0000 with the masks of
`sample_consts`. -/
theorem C16_mov_immediate_witness :
    print_instr sample_consts asm_dialect.NASM print_sample_get_instr [] [] [] 1 0
        (List.replicate 16 0) (sample_buffer [0xB8, 0x34, 0x12]) [] 0
      = .ok ("   1.0000:\tb8 34 12                mov\tax, 1234h", 3) ∧
    print_instr sample_consts asm_dialect.MASM print_sample_get_instr [] [] [] 1 0
        (List.replicate 16 0) (sample_buffer [0xB8, 0x34, 0x12]) [] 0
      = .ok ("   1.0000:\tb8 34 12                mov\tax, 1234h", 3) ∧
    print_instr sample_consts asm_dialect.GAS print_sample_get_instr [] [] [] 1 0
        (List.replicate 16 0) (sample_buffer [0xB8, 0x34, 0x12]) [] 0
      = .ok ("   1.0000:\tb8 34 12                movw\t$0x1234,%ax", 3) :=
  C16_mov_immediate sample_consts print_sample_get_instr [] [] [] 1 0 (List.replicate 16 0)
    (sample_buffer [0xB8, 0x34, 0x12]) [] 0 "   1.0000:\tb8 34 12                "
    (by decide) (by rfl) (by decide) (by rfl)

/-- C17 (as stated, refuted). For `66 B8 78 56 34 12` at 1:0000, decoded as
`mov` with roles `AX` and `IMM`, the prefix `OP32` and the effective operand
size 32, the NASM line of `print_instr` is `mov`, a tab, `eax, 12345678h`: no
word `o32 ` stands in front of the mnemonic. -/
theorem C17_counterexample_no_o32 :
    print_instr sample_consts asm_dialect.NASM print_sample_get_instr [] [] [] 1 0
        (List.replicate 16 0) (sample_buffer [0x66, 0xB8, 0x78, 0x56, 0x34, 0x12]) [] 0
      = .ok ("   1.0000:\t66 b8 78 56 34 12       mov\teax, 12345678h", 6) ∧
    print_instr sample_consts asm_dialect.NASM print_sample_get_instr [] [] [] 1 0
        (List.replicate 16 0) (sample_buffer [0x66, 0xB8, 0x78, 0x56, 0x34, 0x12]) [] 0
      ≠ .ok ("   1.0000:\t66 b8 78 56 34 12       o32 mov\teax, 12345678h", 6) := by
  have h : print_instr sample_consts asm_dialect.NASM print_sample_get_instr [] [] [] 1 0
        (List.replicate 16 0) (sample_buffer [0x66, 0xB8, 0x78, 0x56, 0x34, 0x12]) [] 0
      = .ok ("   1.0000:\t66 b8 78 56 34 12       mov\teax, 12345678h", 6) := by rfl
  refine ⟨h, ?_⟩
  rw [h]
  intro h1
  exact absurd (congrArg Prod.fst (Except.ok.inj h1)) (by decide)

/-- C17 (amended). When the decoder yields the record of `66 B8 78 56 34 12`
(`mov`, roles `AX` and `IMM`, effective operand size 32, immediate 0x12345678,
of the prefix bits `OP32` only) and none of the six bytes carries `RELOC`, the
NASM line of `print_instr` is the start of the line followed by `mov`, a tab
and `eax, 12345678h`, without prefix word.  For an instruction with these
prefix bits the prefix words of the NASM line are `o32 ` exactly when the
operand size is neither 16 nor 32. -/
theorem C17_operand_size_override (K : instr_consts) (get_instr : Decoder)
    (mods : List import_module) (names : List Nat) (entries : List entry) (cs ip : Nat)
    (flags p : List Nat) (reloc_data : List reloc) (is32 : Nat) (head : String) (bits : Nat)
    (hop : bits &&& K.PREFIX_OP32 ≠ 0)
    (hseg : bits &&& K.PREFIX_SEG_MASK = 0) (haddr : bits &&& K.PREFIX_ADDR32 = 0)
    (hlock : bits &&& K.PREFIX_LOCK = 0) (hrepne : bits &&& K.PREFIX_REPNE = 0)
    (hrepe : bits &&& K.PREFIX_REPE = 0)
    (hd : get_instr cs ip p is32 = (mov32_record bits 0x12345678, 6))
    (hfl : ∀ j, j < 6 → ip + j < flags.length ∧ flags.getD (ip + j) 0 &&& INSTR_RELOC = 0)
    (hhead : print_instr_head cs ip flags p 6 = .ok head) :
    print_instr K asm_dialect.NASM get_instr mods names entries cs ip flags p reloc_data is32
      = .ok (head ++ "mov\teax, 12345678h", 6) ∧
    (∀ (instr : instr_info) (usedmem : Bool), instr.prefix_bits = bits →
      (print_instr_prefixes K asm_dialect.NASM instr usedmem = .ok "o32 "
        ↔ (instr.op.size ≠ 16 ∧ instr.op.size ≠ 32))) := by
  constructor
  · rw [mov32_record_line K get_instr mods names entries cs ip flags p reloc_data is32 head bits
      0x12345678 (by decide) hseg haddr hlock hrepne hrepe hd hfl hhead]
    have h8 : fmt_X 8 0x12345678 = "12345678" := by decide
    rw [h8, String.append_empty]
    rfl
  · intro instr usedmem hb
    unfold print_instr_prefixes
    rw [hb]
    simp only [hseg, haddr, hlock, hrepne, hrepe, hop, ne_eq, not_true_eq_false, false_and,
      if_false, not_false_eq_true, true_and]
    by_cases h : ¬ instr.op.size = 16 ∧ ¬ instr.op.size = 32
    · simp [h]
    · simp only [h, if_false, iff_false]
      intro h1
      exact absurd (Except.ok.inj h1) (by decide)


/-- Witness of C17 (amended): the line for `66 B8 78 56 34 12` at 1:0000 with
the masks of `sample_consts`, where `OP32` is the bit 8 of the prefix field. -/
theorem C17_operand_size_override_witness :
    print_instr sample_consts asm_dialect.NASM print_sample_get_instr [] [] [] 1 0
        (List.replicate 16 0) (sample_buffer [0x66, 0xB8, 0x78, 0x56, 0x34, 0x12]) [] 0
      = .ok ("   1.0000:\t66 b8 78 56 34 12       mov\teax, 12345678h", 6) :=
  (C17_operand_size_override sample_consts print_sample_get_instr [] [] [] 1 0 (List.replicate 16 0)
    (sample_buffer [0x66, 0xB8, 0x78, 0x56, 0x34, 0x12]) [] 0
    "   1.0000:\t66 b8 78 56 34 12       " 8
    (by decide) (by decide) (by decide) (by decide) (by decide) (by decide) (by rfl) (by decide)
    (by rfl)).1


/-- C18 (as stated, refuted). For `9A 34 12 02 00` at 1:0000, decoded as `call`
with first operand role `PTR32` and the far flag, the byte 1:0001 covered by a
relocation of size 3 and type Internal with target 2:0034 and name `symname`,
the NASM line of `print_instr` is `call`, a tab, `2:0034`, a tab and
`<symname>`: no word `far` is printed. -/
theorem C18_counterexample_no_far :
    print_instr sample_consts asm_dialect.NASM print_sample_get_instr [] [] [] 1 0
        [0, 0x20, 0, 0, 0, 0] (sample_buffer [0x9A, 0x34, 0x12, 0x02, 0x00])
        [⟨3, 0, [1], 2, 0x34, some "symname"⟩] 0
      = .ok ("   1.0000:\t9a 34 12 02 00          call\t2:0034\t<symname>", 5) ∧
    print_instr sample_consts asm_dialect.NASM print_sample_get_instr [] [] [] 1 0
        [0, 0x20, 0, 0, 0, 0] (sample_buffer [0x9A, 0x34, 0x12, 0x02, 0x00])
        [⟨3, 0, [1], 2, 0x34, some "symname"⟩] 0
      ≠ .ok ("   1.0000:\t9a 34 12 02 00          call\tfar 2:0034\t<symname>", 5) := by
  have h : print_instr sample_consts asm_dialect.NASM print_sample_get_instr [] [] [] 1 0
        [0, 0x20, 0, 0, 0, 0] (sample_buffer [0x9A, 0x34, 0x12, 0x02, 0x00])
        [⟨3, 0, [1], 2, 0x34, some "symname"⟩] 0
      = .ok ("   1.0000:\t9a 34 12 02 00          call\t2:0034\t<symname>", 5) := by rfl
  refine ⟨h, ?_⟩
  rw [h]
  intro h1
  exact absurd (congrArg Prod.fst (Except.ok.inj h1)) (by decide)

/-- C18 (amended). When the decoder yields the record of `9A 34 12 02 00`
(`call`, first operand role `PTR32`, of the opcode flags the far flag only
among those the printer tests for the operands and the name) and one of its
five bytes carries `RELOC`, covered by a relocation of size 3 and type
Internal with target 2:0034 and name `symname`, the NASM line of `print_instr`
is the start of the line followed by `call`, a tab, `2:0034`, a tab and
`<symname>`.  The far flag shows in the mnemonic under GAS only (`lcall`);
`print_arg` prints nothing for the role `PTR32`, and the word `far ` begins
the text of a memory operand under NASM and MASM. -/
theorem C18_far_call_line (K : instr_consts) (get_instr : Decoder)
    (mods : List import_module) (names : List Nat) (entries : List entry) (cs ip : Nat)
    (flags p : List Nat) (reloc_data : List reloc) (is32 : Nat) (head : String)
    (opflags k : Nat) (offsets : List Nat)
    (hfar : opflags &&& K.OP_FAR ≠ 0)
    (h2a : opflags &&& K.OP_ARG2_IMM = 0) (h2b : opflags &&& K.OP_ARG2_IMM8 = 0)
    (h2c : opflags &&& K.OP_ARG2_CL = 0) (hstack : opflags &&& K.OP_STACK = 0)
    (hstring : opflags &&& K.OP_STRING = 0)
    (hd : get_instr cs ip p is32 = (call_far_record opflags, 5))
    (hk : k < 5)
    (hv : ip + k < flags.length ∧ flags.getD (ip + k) 0 &&& INSTR_RELOC ≠ 0)
    (hr : get_reloc ((ip + k) % 65536) reloc_data = some ⟨3, 0, offsets, 2, 0x34, some "symname"⟩)
    (ho : ∀ j, j < 5 → j ≠ k →
      ip + j < flags.length ∧ flags.getD (ip + j) 0 &&& INSTR_RELOC = 0)
    (hhead : print_instr_head cs ip flags p 5 = .ok head) :
    print_instr K asm_dialect.NASM get_instr mods names entries cs ip flags p reloc_data is32
      = .ok (head ++ "call\t2:0034\t<symname>", 5) ∧
    (∀ a0, print_instr_name K asm_dialect.GAS (call_far_record opflags) a0 = ("lcall", a0)) ∧
    (∀ (asm : asm_dialect) (value : Nat) (instr : instr_info),
      print_arg K asm value arg.PTR32 instr = .ok ("", false)) ∧
    (∀ (asm : asm_dialect) (value : Nat) (instr : instr_info) (sg : String),
      instr.op.flags &&& K.OP_FAR ≠ 0 → seg_override K asm instr = .ok sg →
      ∃ rest, print_arg_mem_nasm K asm value instr = .ok ("far " ++ rest)) := by
  refine ⟨call_far_record_line K get_instr mods names entries cs ip flags p reloc_data is32 head
    opflags k offsets h2a h2b h2c hstack hstring hd hk hv hr ho hhead, ?_, ?_, ?_⟩
  · intro a0
    simp only [print_instr_name, instr_name, call_far_record, hstack, hstring, hfar, ne_eq,
      not_true_eq_false, false_and, if_false, Nat.reduceEqDiff, not_false_eq_true, if_true]
    rfl
  · intro asm value instr
    rfl
  · intro asm value instr sg hf hsg
    unfold print_arg_mem_nasm
    rw [hsg]
    simp only [hf, ne_eq, not_false_eq_true, if_true, String.append_assoc]
    exact ⟨_, rfl⟩

/-- Witness of C18 (amended): the line for `9A 34 12 02 00` at 1:0000 with the
masks of `sample_consts`, where the far flag is the bit 0x400 of the opcode
flags. -/
theorem C18_far_call_line_witness :
    print_instr sample_consts asm_dialect.NASM print_sample_get_instr [] [] [] 1 0
        [0, 0x20, 0, 0, 0, 0] (sample_buffer [0x9A, 0x34, 0x12, 0x02, 0x00])
        [⟨3, 0, [1], 2, 0x34, some "symname"⟩] 0
      = .ok ("   1.0000:\t9a 34 12 02 00          " ++ "call\t2:0034\t<symname>", 5) :=
  (C18_far_call_line sample_consts print_sample_get_instr [] [] [] 1 0 [0, 0x20, 0, 0, 0, 0]
    (sample_buffer [0x9A, 0x34, 0x12, 0x02, 0x00]) [⟨3, 0, [1], 2, 0x34, some "symname"⟩] 0
    "   1.0000:\t9a 34 12 02 00          " 0x400 1 [1]
    (by decide) (by decide) (by decide) (by decide) (by decide) (by decide) (by rfl) (by decide)
    (by decide) (by rfl) (by decide) (by rfl)).1

/-- C19 (as stated, refuted). For `D1 E0` at 1:0000, decoded as `shl` with first
operand role `RM` (register ModR/M, register 0, operand size 16) and second
operand role `ONE`, the NASM line of `print_instr` is `shl`, a tab and
`ax, 1h`: the constant one is printed as `1h`, not as `1`. -/
theorem C19_counterexample_one_is_1h :
    print_instr sample_consts asm_dialect.NASM print_sample_get_instr [] [] [] 1 0
        (List.replicate 16 0) (sample_buffer [0xD1, 0xE0]) [] 0
      = .ok ("   1.0000:\td1 e0                   shl\tax, 1h", 2) ∧
    print_instr sample_consts asm_dialect.NASM print_sample_get_instr [] [] [] 1 0
        (List.replicate 16 0) (sample_buffer [0xD1, 0xE0]) [] 0
      ≠ .ok ("   1.0000:\td1 e0                   shl\tax, 1", 2) := by
  have h : print_instr sample_consts asm_dialect.NASM print_sample_get_instr [] [] [] 1 0
        (List.replicate 16 0) (sample_buffer [0xD1, 0xE0]) [] 0
      = .ok ("   1.0000:\td1 e0                   shl\tax, 1h", 2) := by rfl
  refine ⟨h, ?_⟩
  rw [h]
  intro h1
  exact absurd (congrArg Prod.fst (Except.ok.inj h1)) (by decide)

/-- C19 (amended). When the decoder yields the record of `D1 E0` (`shl`, first
operand role `RM` with a register ModR/M selecting register 0, operand size
16, second operand role `ONE`) and none of the two bytes carries `RELOC`, the
NASM line of `print_instr` is the start of the line followed by `shl`, a tab
and `ax, 1h`.  For every instruction `print_arg` prints the role `ONE` as `1h`
under NASM and MASM and as `$0x1` under GAS. -/
theorem C19_shift_by_one (K : instr_consts) (get_instr : Decoder)
    (mods : List import_module) (names : List Nat) (entries : List entry) (cs ip : Nat)
    (flags p : List Nat) (reloc_data : List reloc) (is32 : Nat) (head : String)
    (hd : get_instr cs ip p is32 = (shl_record, 2))
    (hfl : ∀ j, j < 2 → ip + j < flags.length ∧ flags.getD (ip + j) 0 &&& INSTR_RELOC = 0)
    (hhead : print_instr_head cs ip flags p 2 = .ok head) :
    print_instr K asm_dialect.NASM get_instr mods names entries cs ip flags p reloc_data is32
      = .ok (head ++ "shl\tax, 1h", 2) ∧
    (∀ (value : Nat) (instr : instr_info),
      print_arg K asm_dialect.NASM value arg.ONE instr = .ok ("1h", false) ∧
      print_arg K asm_dialect.MASM value arg.ONE instr = .ok ("1h", false) ∧
      print_arg K asm_dialect.GAS value arg.ONE instr = .ok ("$0x1", false)) :=
  ⟨shl_record_line K get_instr mods names entries cs ip flags p reloc_data is32 head hd hfl
    hhead, fun _ _ => ⟨rfl, rfl, rfl⟩⟩

/-- Witness of C19 (amended): the line for `D1 E0` at 1:0000. -/
theorem C19_shift_by_one_witness :
    print_instr sample_consts asm_dialect.NASM print_sample_get_instr [] [] [] 1 0
        (List.replicate 16 0) (sample_buffer [0xD1, 0xE0]) [] 0
      = .ok ("   1.0000:\td1 e0                   " ++ "shl\tax, 1h", 2) :=
  (C19_shift_by_one sample_consts print_sample_get_instr [] [] [] 1 0 (List.replicate 16 0)
    (sample_buffer [0xD1, 0xE0]) [] 0 "   1.0000:\td1 e0                   "
    (by rfl) (by decide) (by rfl)).1

/-- C20. For an instruction of opcode 0xD4 (resp. 0xD5) that is neither a stack
nor a string opcode:
* when its operand value `arg0` is 10, the name printed is `aam` (resp. `aad`)
  and the buffer `arg0` is emptied, in every syntax; with no second and third
  operand and no comment the text behind the prefix words is the mnemonic
  alone, without tab and operand text; and when the decoder yields such an
  instruction of role `IMM8` without relocation, the line of `print_instr` is
  the start of the line, the prefix words and the mnemonic;
* when `arg0` differs from 10, the buffer `arg0` is kept, an operand text that
  is not empty is printed behind a tab, and the text of the immediate of role
  `IMM8` is not empty. -/
theorem C20_aam_aad (K : instr_consts) (asm : asm_dialect) (instr : instr_info)
    (hstack : instr.op.flags &&& K.OP_STACK = 0) (hstring : instr.op.flags &&& K.OP_STRING = 0)
    (hop : instr.op.opcode = 0xD4 ∨ instr.op.opcode = 0xD5) :
    (instr.arg0 = 10 →
      (∀ a0, print_instr_name K asm instr a0
        = (if instr.op.opcode = 0xD4 then "aam" else "aad", "")) ∧
      (∀ (entries : List entry) (cs : Nat) (s : operands) (usedmem : Bool) (pre : String),
        s.arg1 = "" → s.arg2 = "" → s.comment = none → instr.op.arg0 ≠ arg.REL16 →
        print_instr_prefixes K asm instr usedmem = .ok pre →
        print_instr_text K asm entries cs instr s usedmem
          = .ok (pre ++ (if instr.op.opcode = 0xD4 then "aam" else "aad"))) ∧
      (∀ (get_instr : Decoder) (mods : List import_module) (names : List Nat)
        (entries : List entry) (cs ip : Nat) (flags p : List Nat) (reloc_data : List reloc)
        (is32 len : Nat) (head pre : String),
        get_instr cs ip p is32 = (instr, len) → len ≤ 7 →
        instr.op.arg0 = arg.IMM8 → instr.op.arg1 = arg.NONE →
        instr.op.flags &&& K.OP_ARG2_IMM = 0 → instr.op.flags &&& K.OP_ARG2_IMM8 = 0 →
        instr.op.flags &&& K.OP_ARG2_CL = 0 →
        (∀ j, j < len → ip + j < flags.length ∧ flags.getD (ip + j) 0 &&& INSTR_RELOC = 0) →
        print_instr_head cs ip flags p len = .ok head →
        print_instr_prefixes K asm instr false = .ok pre →
        print_instr K asm get_instr mods names entries cs ip flags p reloc_data is32
          = .ok (head ++ (pre ++ (if instr.op.opcode = 0xD4 then "aam" else "aad")), len))) ∧
    (instr.arg0 ≠ 10 →
      (∀ a0, (print_instr_name K asm instr a0).2 = a0) ∧
      (∀ a0, a0 ≠ "" →
        print_instr_args asm (print_instr_name K asm instr a0).2 "" "" = "\t" ++ a0) ∧
      (print_arg K asm instr.arg0 arg.IMM8 instr
        = .ok (if asm = asm_dialect.GAS then "$0x" ++ fmt_x 2 instr.arg0
          else fmt_X 2 instr.arg0 ++ "h", false)) ∧
      (if asm = asm_dialect.GAS then "$0x" ++ fmt_x 2 instr.arg0
          else fmt_X 2 instr.arg0 ++ "h") ≠ "") := by
  have hname := fun a0 => print_instr_name_aam K asm instr a0 hstack hstring hop
  have htxt : ∀ (entries : List entry) (cs : Nat) (s : operands) (usedmem : Bool)
      (pre : String), instr.arg0 = 10 →
      s.arg1 = "" → s.arg2 = "" → s.comment = none → instr.op.arg0 ≠ arg.REL16 →
      print_instr_prefixes K asm instr usedmem = .ok pre →
      print_instr_text K asm entries cs instr s usedmem
        = .ok (pre ++ (if instr.op.opcode = 0xD4 then "aam" else "aad")) := by
    intro entries cs s usedmem pre h10 h1 h2 hc hr hp
    unfold print_instr_text
    rw [hp]
    simp only []
    rw [(hname s.arg0).1 h10, h1, h2, hc]
    have ha : ∀ asm, print_instr_args asm "" "" "" = "" := by
      intro asm; cases asm <;> rfl
    simp only [ha, String.append_empty, hr, false_and, if_false]
  have himm : print_arg K asm instr.arg0 arg.IMM8 instr
      = .ok (if asm = asm_dialect.GAS then "$0x" ++ fmt_x 2 instr.arg0
        else fmt_X 2 instr.arg0 ++ "h", false) := by
    simp only [print_arg]
    rw [if_neg (fun h => h hstack)]
  constructor
  · intro h10
    refine ⟨fun a0 => (hname a0).1 h10, fun entries cs s usedmem pre => htxt entries cs s usedmem pre h10, ?_⟩
    intro get_instr mods names entries cs ip flags p reloc_data is32 len head pre hd hlen hr0 hr1
      h2a h2b h2c hfl hhead hpre
    have hlen0 : (if asm = asm_dialect.GAS then "$0x" ++ fmt_x 2 instr.arg0
        else fmt_X 2 instr.arg0 ++ "h").length ≤ 31 := by
      rw [h10]
      cases asm <;> decide
    have h0 : print_arg_buffer K asm instr.arg0 instr.op.arg0 instr
        = .ok (if asm = asm_dialect.GAS then "$0x" ++ fmt_x 2 instr.arg0
          else fmt_X 2 instr.arg0 ++ "h", false) := by
      rw [hr0]
      exact print_arg_buffer_of _ _ _ _ _ _ _ himm hlen0
    have h1 : print_arg_buffer K asm instr.arg1 instr.op.arg1 instr = .ok ("", false) := by
      rw [hr1]
      exact print_arg_buffer_of _ _ _ _ _ _ _ (by rfl) (by decide)
    have h2 := print_arg2_none K asm instr h2a h2b h2c
    have hargs := print_args_of _ _ _ _ _ _ _ _ _ h0 h1 h2
    have hops := print_instr_operands_clean K asm mods names entries ip flags
      reloc_data _ len _ _ hargs hfl
    have hne : instr.op.arg0 ≠ arg.REL16 := by rw [hr0]; decide
    have htext := htxt entries cs
      ⟨if asm = asm_dialect.GAS then "$0x" ++ fmt_x 2 instr.arg0 else fmt_X 2 instr.arg0 ++ "h",
        "", "", none⟩ (false || false || false) pre h10 rfl rfl rfl hne hpre
    have := print_instr_of K _ get_instr mods names entries cs ip flags p reloc_data is32 _ _ _ _
      head _ "" hd hops hhead htext (print_instr_wrap_short _ _ _ _ _ hlen)
    rw [this, String.append_empty]
  · intro h10
    refine ⟨fun a0 => (hname a0).2 h10, ?_, himm, ?_⟩
    · intro a0 hne
      rw [(hname a0).2 h10]
      cases asm <;> simp [print_instr_args, hne]
    · cases asm
      · exact append_ne_empty_left _ _ (by decide)
      · exact append_ne_empty _ _ (by decide)
      · exact append_ne_empty _ _ (by decide)

/-- Witness of C20: the line for `D4 0A` at 1:0000. -/
theorem C20_aam_aad_witness :
    print_instr sample_consts asm_dialect.NASM print_sample_get_instr [] [] [] 1 0
        (List.replicate 16 0) (sample_buffer [0xD4, 0x0A]) [] 0
      = .ok ("   1.0000:\td4 0a                   aam", 2) :=
  ((C20_aam_aad sample_consts asm_dialect.NASM (aam_record 10) (by decide) (by decide)
    (Or.inl (by rfl))).1 (by rfl)).2.2 print_sample_get_instr [] [] [] 1 0 (List.replicate 16 0)
    (sample_buffer [0xD4, 0x0A]) [] 0 2 "   1.0000:\td4 0a                   " ""
    (by rfl) (by decide) (by rfl) (by rfl) (by decide) (by decide) (by decide) (by decide)
    (by rfl) (by rfl)

/-! ## The buffer handed to the decoder -/

theorem read_instr_buffer_getElem (f : File) (seg : segment) (ip i : Nat) (hi : i < MAX_INSTR) :
    (read_instr_buffer f seg ip)[i]?
      = some (if i < seg.length - ip then read_byte_at f (seg.start + ip + i) else 0) := by
  unfold read_instr_buffer
  rw [List.getElem?_map, List.getElem?_range hi]
  rfl

theorem read_instr_buffer_congr (f g : File) (seg : segment) (ip : Nat)
    (h : ∀ j, j < seg.length → read_byte_at g (seg.start + j) = read_byte_at f (seg.start + j)) :
    read_instr_buffer g seg ip = read_instr_buffer f seg ip := by
  unfold read_instr_buffer
  apply List.map_congr_left
  intro i _
  by_cases hi : i < seg.length - ip
  · rw [if_pos hi, if_pos hi, Nat.add_assoc]
    exact h (ip + i) (by omega)
  · rw [if_neg hi, if_neg hi]

theorem skip_invalid_congr (f g : File) (opts : Nat) (seg : segment) (fuel ip : Nat)
    (hopts : opts &&& DISASSEMBLE_ALL = 0) :
    skip_invalid g opts seg fuel ip = skip_invalid f opts seg fuel ip := by
  unfold skip_invalid
  rw [if_neg (fun h => h hopts), if_neg (fun h => h hopts)]

/-- Without the option `DISASSEMBLE_ALL` the output of `print_disassembly`
depends on the file through the bytes of the segment only. -/
theorem print_disassembly_congr (K : instr_consts) (asm : asm_dialect) (get_instr : Decoder)
    (mods : List import_module) (names : List Nat) (entries : List entry) (f g : File)
    (opts : Nat) (seg : segment) (hopts : opts &&& DISASSEMBLE_ALL = 0)
    (h : ∀ j, j < seg.length → read_byte_at g (seg.start + j) = read_byte_at f (seg.start + j)) :
    ∀ fuel ip, print_disassembly K asm get_instr mods names entries g opts seg fuel ip
      = print_disassembly K asm get_instr mods names entries f opts seg fuel ip := by
  intro fuel
  induction fuel with
  | zero => intro ip; rfl
  | succ fuel ih =>
    intro ip
    rw [print_disassembly, print_disassembly]
    simp only [skip_invalid_congr f g opts seg fuel ip hopts,
      read_instr_buffer_congr f g seg _ h, ih]

/-- C21. For a segment and an `ip` below its length, the buffer that
`scan_segment` and `print_disassembly` hand to the decoder has `MAX_INSTR` = 16
bytes; its byte `i` is the byte of the segment at `ip+i` when `ip+i` lies below
the length of the segment, and zero otherwise.  Hence two files with the same
bytes inside the segment give the same buffer and the same decoded instruction
in the scanner, whatever bytes follow the segment, and, without the option
`DISASSEMBLE_ALL`, the same output of `print_disassembly`. -/
theorem C21_decoder_buffer (get_instr : Decoder) (f : File) (seg : segment) (cs ip : Nat)
    (hip : ip < seg.length) :
    (read_instr_buffer f seg ip).length = 16 ∧
    (∀ i, i < 16 → (read_instr_buffer f seg ip)[i]?
      = some (if ip + i < seg.length then read_byte_at f (seg.start + ip + i) else 0)) ∧
    decode_at get_instr f seg cs ip
      = get_instr cs ip (read_instr_buffer f seg ip) (seg.flags &&& 0x2000) ∧
    (∀ g : File,
      (∀ j, j < seg.length → read_byte_at g (seg.start + j) = read_byte_at f (seg.start + j)) →
      read_instr_buffer g seg ip = read_instr_buffer f seg ip ∧
      decode_at get_instr g seg cs ip = decode_at get_instr f seg cs ip ∧
      ∀ (K : instr_consts) (asm : asm_dialect) (mods : List import_module) (names : List Nat)
        (entries : List entry) (opts fuel ip0 : Nat), opts &&& DISASSEMBLE_ALL = 0 →
        print_disassembly K asm get_instr mods names entries g opts seg fuel ip0
          = print_disassembly K asm get_instr mods names entries f opts seg fuel ip0) := by
  refine ⟨?_, ?_, rfl, ?_⟩
  · unfold read_instr_buffer
    rw [List.length_map, List.length_range]
    rfl
  · intro i hi
    rw [read_instr_buffer_getElem f seg ip i hi]
    by_cases h : ip + i < seg.length
    · rw [if_pos h, if_pos (by omega)]
    · rw [if_neg h, if_neg (by omega)]
  · intro g hg
    have hb := read_instr_buffer_congr f g seg ip hg
    refine ⟨hb, ?_, ?_⟩
    · unfold decode_at
      rw [hb]
    · intro K asm mods names entries opts fuel ip0 hopts
      exact print_disassembly_congr K asm get_instr mods names entries f g opts seg hopts hg
        fuel ip0

/-- Witness of C21: at offset 3 of the 4 bytes of `hang_segment` the buffer is
the byte `B8` followed by zeros; the bytes `34 12` behind the end of the
segment are not read. -/
theorem C21_decoder_buffer_witness :
    read_instr_buffer hang_file hang_segment 3
      = [0xB8, 0, 0, 0, 0, 0, 0, 0, 0, 0, 0, 0, 0, 0, 0, 0] ∧
    (read_instr_buffer hang_file hang_segment 3).length = 16 :=
  ⟨by rfl, (C21_decoder_buffer sample_get_instr hang_file hang_segment 1 3 (by decide)).1⟩

/-! ## Skipping in `print_disassembly`, and the flags of a segment -/

/-- C26. In the mode `DISASSEMBLE_ALL` the loop `while (read_byte() == 0) ip++;`
of `print_disassembly` tests the byte behind the one at `ip` when the byte at
`ip` is not zero.  In the segment `90 00 00 C3`, none of whose bytes carries
`VALID`, the byte at offset 0 is `90`, yet decoding goes on at offset 2: the
line `     ...` is not printed, the byte `90` gets no line, and the first line
of the output is that of the zero byte at offset 2. -/
theorem C26_skip_drops_nonzero_byte :
    read_byte_at gap_file (gap_segment.start + 0) = 0x90 ∧
    gap_segment.instr_flags = [0, 0, 0, 0] ∧
    skip_invalid gap_file DISASSEMBLE_ALL gap_segment 10 0 = .ok (false, 2) ∧
    print_disassembly sample_consts .NASM print_sample_get_instr [] [] [] gap_file
        DISASSEMBLE_ALL gap_segment 10 0
      = .ok ["   1.0002:\t00                      ?\n",
             "   1.0003:\tc3                      ret\n"] :=
  ⟨by rfl, by rfl, by rfl, by rfl⟩

/-- Counterexample to C27: the flags word `0x0400` is described as
`code, (unknown flags 0x0400)`, which is not the description `code` of the
flags word 0. -/
theorem C27_counterexample_unknown_0400 :
    segment_flags_text 0x0400 = "code, (unknown flags 0x0400)" ∧
    segment_flags_text 0 = "code" ∧
    segment_flags_text 0x0400 ≠ segment_flags_text 0 ∧
    print_segment_flags 0x0400 = "    Flags: 0x0400 (code, (unknown flags 0x0400))\n" :=
  ⟨by rfl, by rfl, by decide, by rfl⟩

/-- C27, amended. The mask `0xc608` of unknown flags contains bit `0x0400`: for
every flags word `f` with bit `0x0400` set, the description of
`print_segment_flags` is the list `known` of the names of the known flags of
`f` followed by the note `, (unknown flags 0x....)` with the value
`f & 0xc608`, in which bit `0x0400` is set.  The description of `f` with that
bit cleared has the same list `known`, followed by a note only if another bit
of `0xc208` is set. -/
theorem C27_flag_0400_reported (f : Nat) (h : f &&& 0x0400 ≠ 0) :
    (f &&& 0xc608) &&& 0x0400 ≠ 0 ∧
    ∃ known : String,
      segment_flags_text f = known ++ (", (unknown flags 0x" ++ fmt_x 4 (f &&& 0xc608) ++ ")") ∧
      segment_flags_text (f &&& 0xfbff) = known ++
        (if f &&& 0xc208 ≠ 0 then ", (unknown flags 0x" ++ fmt_x 4 (f &&& 0xc208) ++ ")"
          else "") := by
  have h1 : (f &&& 0xc608) &&& 0x0400 ≠ 0 := by
    rw [Nat.and_assoc]
    exact h
  have h2 : f &&& 0xc608 ≠ 0 := by
    intro h0
    rw [h0] at h1
    exact h1 (Nat.zero_and _)
  refine ⟨h1, Exists.intro ?w ⟨?a, ?b⟩⟩
  case a =>
    unfold segment_flags_text
    rw [if_pos h2]
    exact rfl
  case b =>
    unfold segment_flags_text
    simp only [Nat.and_assoc]
    exact rfl

/-- Witness of C27 at the flags word `0x0d50`. -/
theorem C27_flag_0400_reported_witness :
    (0x0d50 &&& 0x0400 ≠ 0) ∧
    ((0x0d50 &&& 0xc608) &&& 0x0400 ≠ 0 ∧
    ∃ known : String,
      segment_flags_text 0x0d50
        = known ++ (", (unknown flags 0x" ++ fmt_x 4 (0x0d50 &&& 0xc608) ++ ")") ∧
      segment_flags_text (0x0d50 &&& 0xfbff) = known ++
        (if 0x0d50 &&& 0xc208 ≠ 0 then ", (unknown flags 0x" ++ fmt_x 4 (0x0d50 &&& 0xc208) ++ ")"
          else "")) :=
  ⟨by decide, C27_flag_0400_reported 0x0d50 (by decide)⟩

/-! ## The module table in `print_instr` -/

theorem reloc_text_local (mods1 mods2 : List import_module) (names : List Nat) (r : reloc)
    (m1 m2 internal : String) (ic : Option (Option String)) (lead : String)
    (h1 : r.type ≠ 1) (h2 : r.type ≠ 2) :
    reloc_text mods1 names r m1 internal ic lead = reloc_text mods2 names r m2 internal ic lead := by
  unfold reloc_text
  rw [if_neg h1, if_neg h2, if_neg h1, if_neg h2]

theorem reloc_module_local (mods : List import_module) (r : reloc)
    (h1 : r.type ≠ 1) (h2 : r.type ≠ 2) : reloc_module mods r = .ok "" := by
  unfold reloc_module
  rw [if_neg (by rintro (h | h); exacts [h1 h, h2 h])]

theorem reloc_rewrite_local (mods1 mods2 : List import_module) (names : List Nat)
    (entries : List entry) (instr : instr_info) (r : reloc) (s : operands)
    (h1 : r.type ≠ 1) (h2 : r.type ≠ 2) :
    reloc_rewrite mods1 names entries instr r s = reloc_rewrite mods2 names entries instr r s := by
  unfold reloc_rewrite
  rw [reloc_module_local mods1 r h1 h2, reloc_module_local mods2 r h1 h2]
  simp only [reloc_text_local mods1 mods2 names r "" "" _ _ _ h1 h2]

theorem reloc_loop_local (mods1 mods2 : List import_module) (names : List Nat)
    (entries : List entry) (flags : List Nat) (reloc_data : List reloc) (instr : instr_info) :
    ∀ (n i : Nat) (s : operands),
      (∀ j, j < n → ∀ v r, flags[i + j]? = some v → v &&& INSTR_RELOC ≠ 0 →
        get_reloc ((i + j) % 65536) reloc_data = some r → r.type ≠ 1 ∧ r.type ≠ 2) →
      reloc_loop mods1 names entries flags reloc_data instr n i s
        = reloc_loop mods2 names entries flags reloc_data instr n i s := by
  intro n
  induction n with
  | zero => intro i s _; rfl
  | succ n ih =>
    intro i s h
    have hn : ∀ s1, reloc_loop mods1 names entries flags reloc_data instr n (i + 1) s1
        = reloc_loop mods2 names entries flags reloc_data instr n (i + 1) s1 := by
      intro s1
      apply ih
      intro j hj v r hv hf hr
      have e : i + 1 + j = i + (j + 1) := by omega
      rw [e] at hv hr
      exact h (j + 1) (by omega) v r hv hf hr
    rw [reloc_loop, reloc_loop]
    cases hv : flags[i]? with
    | none => rfl
    | some v =>
      simp only []
      by_cases hf : v &&& INSTR_RELOC ≠ 0
      · rw [if_pos hf, if_pos hf]
        cases hr : get_reloc (i % 65536) reloc_data with
        | none => rfl
        | some r =>
          simp only []
          obtain ⟨h1, h2⟩ := h 0 (by omega) v r hv hf hr
          rw [reloc_rewrite_local mods1 mods2 names entries instr r s h1 h2]
          cases reloc_rewrite mods2 names entries instr r s with
          | error e => rfl
          | ok s1 => exact hn s1
      · rw [if_neg hf, if_neg hf]
        exact hn s

/-- C28. The module table is read only for a relocation of type 1
(ImportedOrdinal) or 2 (ImportedName).  If every relocation that covers a
`RELOC`-flagged byte of the instruction at `ip` has another type, then
`print_instr` gives the same result for any two module tables, and the same
as for the empty table, every index into which is out of range. -/
theorem C28_import_table_only_for_imported (K : instr_consts) (asm : asm_dialect)
    (get_instr : Decoder)
    (mods1 mods2 : List import_module) (names : List Nat) (entries : List entry) (cs ip : Nat)
    (flags p : List Nat) (reloc_data : List reloc) (is32 : Nat)
    (h : ∀ j, j < (get_instr cs ip p is32).2 → ∀ v r, flags[ip + j]? = some v →
      v &&& INSTR_RELOC ≠ 0 → get_reloc ((ip + j) % 65536) reloc_data = some r →
      r.type ≠ 1 ∧ r.type ≠ 2) :
    (∀ m, get_module [] m = none) ∧
    print_instr K asm get_instr mods1 names entries cs ip flags p reloc_data is32
      = print_instr K asm get_instr mods2 names entries cs ip flags p reloc_data is32 ∧
    print_instr K asm get_instr mods1 names entries cs ip flags p reloc_data is32
      = print_instr K asm get_instr [] names entries cs ip flags p reloc_data is32 := by
  have key : ∀ m1 m2, print_instr K asm get_instr m1 names entries cs ip flags p reloc_data is32
      = print_instr K asm get_instr m2 names entries cs ip flags p reloc_data is32 := by
    intro m1 m2
    unfold print_instr print_instr_operands
    simp only [reloc_loop_local m1 m2 names entries flags reloc_data _ _ ip _ h]
  refine ⟨?_, key _ _, key _ _⟩
  intro m
  unfold get_module
  split_ifs <;> rfl

/-- Witness of C28: `B8 34 12` at 1:0000 with the byte 1:0001 covered by a
relocation of size 2 and type Internal to segment 3 is printed as
`mov ax, seg 3` with the sample module table and with the empty one. -/
theorem C28_import_table_only_for_imported_witness :
    print_instr sample_consts asm_dialect.NASM print_sample_get_instr sample_modules
        sample_names [] 1 0 [0, 0x20, 0, 0] (sample_buffer [0xB8, 0x34, 0x12])
        [⟨2, 0, [1], 3, 0, none⟩] 0
      = .ok ("   1.0000:\tb8 34 12                mov\tax, seg 3", 3) ∧
    print_instr sample_consts asm_dialect.NASM print_sample_get_instr []
        sample_names [] 1 0 [0, 0x20, 0, 0] (sample_buffer [0xB8, 0x34, 0x12])
        [⟨2, 0, [1], 3, 0, none⟩] 0
      = .ok ("   1.0000:\tb8 34 12                mov\tax, seg 3", 3) ∧
    print_instr sample_consts asm_dialect.NASM print_sample_get_instr sample_modules
        sample_names [] 1 0 [0, 0x20, 0, 0] (sample_buffer [0xB8, 0x34, 0x12])
        [⟨2, 0, [1], 3, 0, none⟩] 0
      = print_instr sample_consts asm_dialect.NASM print_sample_get_instr []
        sample_names [] 1 0 [0, 0x20, 0, 0] (sample_buffer [0xB8, 0x34, 0x12])
        [⟨2, 0, [1], 3, 0, none⟩] 0 :=
  ⟨by rfl, by rfl, (C28_import_table_only_for_imported sample_consts asm_dialect.NASM print_sample_get_instr sample_modules []
    sample_names [] 1 0 [0, 0x20, 0, 0] (sample_buffer [0xB8, 0x34, 0x12])
        [⟨2, 0, [1], 3, 0, none⟩] 0 (by
      intro j hj v r hv hf hr
      have hj3 : j < 3 := hj
      interval_cases j
      · cases Option.some.inj hv; exact absurd rfl hf
      · cases Option.some.inj hr; exact ⟨by decide, by decide⟩
      · cases Option.some.inj hv; exact absurd rfl hf)).2.1⟩

/-! ## Displacements and index registers of memory operands -/

theorem hex_digit_value_digitChar (k : Nat) (h : k < 16) :
    hex_digit_value (Nat.digitChar k) = k ∧ hex_digit_value (upper_hex (Nat.digitChar k)) = k := by
  interval_cases k <;> exact ⟨by decide, by decide⟩

theorem foldl_toDigitsCore (val : Char → Nat) (hval : ∀ k, k < 16 → val (Nat.digitChar k) = k) :
    ∀ (fuel n : Nat) (ds : List Char), n < fuel →
      List.foldl (fun a c => 16 * a + val c) 0 (Nat.toDigitsCore 16 fuel n ds)
        = List.foldl (fun a c => 16 * a + val c) n ds := by
  intro fuel
  induction fuel with
  | zero => intro n ds h; omega
  | succ fuel ih =>
    intro n ds h
    rw [Nat.toDigitsCore]
    by_cases h0 : n / 16 = 0
    · rw [if_pos h0, List.foldl_cons, hval _ (Nat.mod_lt _ (by decide))]
      congr 1
      omega
    · rw [if_neg h0, ih (n / 16) _ (by omega), List.foldl_cons,
        hval _ (Nat.mod_lt _ (by decide))]
      congr 1
      omega

theorem foldl_replicate_zero (val : Char → Nat) (h0 : val '0' = 0) (k : Nat) (l : List Char) :
    List.foldl (fun a c => 16 * a + val c) 0 (List.replicate k '0' ++ l)
      = List.foldl (fun a c => 16 * a + val c) 0 l := by
  induction k with
  | zero => rfl
  | succ k ih =>
    rw [List.replicate_succ, List.cons_append, List.foldl_cons, h0]
    exact ih

theorem hex_value_fmt_x (w m : Nat) : hex_value (fmt_x w m) = m := by
  unfold hex_value fmt_x
  show List.foldl _ 0 (_ ++ Nat.toDigits 16 m) = m
  rw [foldl_replicate_zero hex_digit_value (by decide)]
  unfold Nat.toDigits
  rw [foldl_toDigitsCore hex_digit_value (fun k hk => (hex_digit_value_digitChar k hk).1)
    _ _ _ (Nat.lt_succ_self m)]
  rfl

theorem hex_value_fmt_X (w m : Nat) : hex_value (fmt_X w m) = m := by
  unfold hex_value fmt_X
  show List.foldl _ 0 (List.map upper_hex (_ ++ Nat.toDigits 16 m)) = m
  rw [List.foldl_map, foldl_replicate_zero (fun c => hex_digit_value (upper_hex c)) (by decide)]
  unfold Nat.toDigits
  rw [foldl_toDigitsCore (fun c => hex_digit_value (upper_hex c))
    (fun k hk => (hex_digit_value_digitChar k hk).2) _ _ _ (Nat.lt_succ_self m)]
  rfl

theorem signed_disp_eq (fmt : Nat → Nat → String) (neg pos : String) (digits bits value : Nat) :
    signed_disp fmt neg pos digits bits value
      = (if 2 ^ (bits - 1) ≤ value % 2 ^ bits then neg else pos)
        ++ fmt digits (if 2 ^ (bits - 1) ≤ value % 2 ^ bits then 2 ^ bits - value % 2 ^ bits
          else value % 2 ^ bits) := by
  unfold signed_disp
  by_cases h : 2 ^ (bits - 1) ≤ value % 2 ^ bits
  · rw [if_pos h, if_pos h, if_pos h]
  · rw [if_neg h, if_neg h, if_neg h]

theorem disp_magnitude_spec (bits value : Nat) (hb : 1 ≤ bits) :
    (if 2 ^ (bits - 1) ≤ value % 2 ^ bits then 2 ^ bits - value % 2 ^ bits
      else value % 2 ^ bits) ≤ 2 ^ (bits - 1) ∧
    (if 2 ^ (bits - 1) ≤ value % 2 ^ bits then
      1 ≤ 2 ^ bits - value % 2 ^ bits ∧ (value + (2 ^ bits - value % 2 ^ bits)) % 2 ^ bits = 0
    else True) := by
  have hp : 2 ^ bits = 2 * 2 ^ (bits - 1) := by
    rw [← Nat.pow_succ']
    congr 1
    omega
  have hlt : value % 2 ^ bits < 2 ^ bits := Nat.mod_lt _ (Nat.two_pow_pos bits)
  by_cases h : 2 ^ (bits - 1) ≤ value % 2 ^ bits
  · rw [if_pos h, if_pos h]
    refine ⟨by omega, by omega, ?_⟩
    have hd := Nat.div_add_mod value (2 ^ bits)
    have e : value + (2 ^ bits - value % 2 ^ bits) = 2 ^ bits * (value / 2 ^ bits + 1) := by
      rw [Nat.mul_add, Nat.mul_one]
      omega
    rw [e, Nat.mul_mod_right]
  · rw [if_neg h, if_neg h]
    exact ⟨by omega, trivial⟩

theorem print_arg_mem_gas_base_ok (instr : instr_info) (h : instr.modrm_reg < 8) :
    ∃ base, print_arg_mem_gas_base instr = .ok base := by
  unfold print_arg_mem_gas_base
  by_cases h16 : instr.addrsize = 16
  · rw [if_pos h16]
    have hl : instr.modrm_reg < modrm16_gas.length := h
    rw [List.getElem?_eq_getElem hl]
    exact ⟨_, rfl⟩
  · rw [if_neg h16]
    exact ⟨_, rfl⟩

theorem print_arg_mem (K : instr_consts) (asm : asm_dialect) (value : Nat) (argtype : arg)
    (instr : instr_info) (harg : argtype = arg.RM ∨ argtype = arg.MEM)
    (hd : instr.modrm_disp ≠ disptype.DISP_REG) :
    print_arg K asm value argtype instr
      = match (if asm = asm_dialect.GAS then print_arg_mem_gas K value instr
          else print_arg_mem_nasm K asm value instr) with
        | .error e => .error e
        | .ok s => .ok (s, true) := by
  rcases harg with rfl | rfl <;> simp only [print_arg, if_neg hd]

/-- C23. For a memory operand (role `RM` or `MEM`) with a base register
(`modrm_reg` below 8) and a displacement of 8 bits, or of 16 bits under 16-bit
addressing, `print_arg` prints a sign and a magnitude `m` in 2 resp. 4
hexadecimal digits, which read back as `m`: `m` is at most 128 resp. 32768;
when the top bit of the displacement is set the sign is `-`, `m` is at least 1
and displacement plus `m` is 0 modulo 2^8 resp. 2^16; otherwise `m` is the
displacement.  GAS prints `-0x` or `0x` in front of the digits, between the
segment override and the bracket with the base; NASM and MASM print `-` or
`+` in front of them and `h]` behind. -/
theorem C23_signed_displacement (K : instr_consts) (asm : asm_dialect) (value : Nat)
    (argtype : arg) (instr : instr_info) (sg : String) (bits : Nat)
    (harg : argtype = arg.RM ∨ argtype = arg.MEM)
    (hbase : instr.modrm_reg < 8)
    (hdisp : instr.modrm_disp = disptype.DISP_8 ∧ bits = 8 ∨
      instr.modrm_disp = disptype.DISP_16 ∧ instr.addrsize = 16 ∧ bits = 16)
    (hsg : seg_override K asm instr = .ok sg) :
    ∃ m, m ≤ 2 ^ (bits - 1) ∧
      (if 2 ^ (bits - 1) ≤ value % 2 ^ bits then 1 ≤ m ∧ (value + m) % 2 ^ bits = 0
        else m = value % 2 ^ bits) ∧
      hex_value (fmt_x (bits / 4) m) = m ∧ hex_value (fmt_X (bits / 4) m) = m ∧
      (asm = asm_dialect.GAS → ∃ base, print_arg_mem_gas_base instr = .ok base ∧
        print_arg K asm value argtype instr
          = .ok ((if instr.op.opcode = 0xFF ∧ 2 ≤ instr.op.subcode ∧ instr.op.subcode ≤ 5
                then "*" else "") ++ sg
              ++ ((if 2 ^ (bits - 1) ≤ value % 2 ^ bits then "-0x" else "0x")
                ++ fmt_x (bits / 4) m)
              ++ "(" ++ base ++ ")", true)) ∧
      (asm ≠ asm_dialect.GAS → ∃ pre, print_arg K asm value argtype instr
          = .ok (pre ++ ((if 2 ^ (bits - 1) ≤ value % 2 ^ bits then "-" else "+")
                ++ fmt_X (bits / 4) m ++ "h") ++ "]", true)) := by
  have hb : 1 ≤ bits := by rcases hdisp with ⟨_, h⟩ | ⟨_, _, h⟩ <;> omega
  have hreg : instr.modrm_disp ≠ disptype.DISP_REG := by
    rcases hdisp with ⟨h, _⟩ | ⟨h, _, _⟩ <;> rw [h] <;> decide
  obtain ⟨hm1, hm2⟩ := disp_magnitude_spec bits value hb
  refine ⟨_, hm1, ?_, hex_value_fmt_x _ _, hex_value_fmt_X _ _, ?_, ?_⟩
  · by_cases h : 2 ^ (bits - 1) ≤ value % 2 ^ bits
    · rw [if_pos h] at hm2 ⊢
      rw [if_pos h]
      exact hm2
    · rw [if_neg h, if_neg h]
  · intro hgas
    subst hgas
    obtain ⟨base, hbase1⟩ := print_arg_mem_gas_base_ok instr hbase
    refine ⟨base, hbase1, ?_⟩
    rw [print_arg_mem K _ value argtype instr harg hreg, if_pos rfl]
    unfold print_arg_mem_gas
    rw [hsg, hbase1]
    rcases hdisp with ⟨h, rfl⟩ | ⟨h, h16, rfl⟩
    · simp only [h, if_true, signed_disp_eq]
    · have h8 : instr.modrm_reg ≠ 8 := by omega
      simp only [h, h16, if_neg h8, and_self, if_true, signed_disp_eq,
        show disptype.DISP_16 ≠ disptype.DISP_8 by decide, if_false, reduceCtorEq]
  · intro hgas
    rw [print_arg_mem K _ value argtype instr harg hreg, if_neg hgas]
    unfold print_arg_mem_nasm
    rw [hsg]
    have h8 : ¬ (instr.modrm_reg = 8 ∧ ¬ (instr.sib_scale ≠ 0 ∧ instr.sib_index < 8)) := by
      intro h
      omega
    rcases hdisp with ⟨h, rfl⟩ | ⟨h, h16, rfl⟩
    · simp only [h, if_true, signed_disp_eq]
      exact ⟨_, rfl⟩
    · simp only [h, h16, if_neg h8, and_self, if_true, signed_disp_eq,
        show disptype.DISP_16 ≠ disptype.DISP_8 by decide, if_false, reduceCtorEq]
      exact ⟨_, rfl⟩

/-- Witness of C23: the displacement `FE` on the base `bp` is printed as
`-0x02(%bp)` by GAS and as `[bp-02h]` by NASM. -/
theorem C23_signed_displacement_witness :
    print_arg sample_consts asm_dialect.GAS 0xFE arg.RM (mem_record disptype.DISP_8 6 0 0 16)
      = .ok ("-0x02(%bp)", true) ∧
    print_arg sample_consts asm_dialect.NASM 0xFE arg.RM (mem_record disptype.DISP_8 6 0 0 16)
      = .ok ("[bp-02h]", true) ∧
    ∃ m, m ≤ 2 ^ (8 - 1) ∧
      (if 2 ^ (8 - 1) ≤ 0xFE % 2 ^ 8 then 1 ≤ m ∧ (0xFE + m) % 2 ^ 8 = 0
        else m = 0xFE % 2 ^ 8) :=
  ⟨by rfl, by rfl,
    (C23_signed_displacement sample_consts asm_dialect.NASM 0xFE arg.RM
      (mem_record disptype.DISP_8 6 0 0 16) "" 8 (Or.inl rfl) (by decide)
      (Or.inl ⟨rfl, rfl⟩) (by rfl)).imp fun _ h => ⟨h.1, h.2.1⟩⟩

/-- Counterexample to C24: under 32-bit addressing, without base
(`modrm_reg` 8) and with the index `eax` of scale 4, the displacement
`FFFFFFFC` is printed with a sign by NASM and MASM, as `[eax*4-00000004h]`;
GAS prints `0xfffffffc` and no index; without SIB byte NASM prints
`[FFFFFFFCh]`. -/
theorem C24_counterexample_signed_with_index :
    print_arg sample_consts asm_dialect.NASM 0xFFFFFFFC arg.RM
        (mem_record disptype.DISP_16 8 4 0 32) = .ok ("[eax*4-00000004h]", true) ∧
    print_arg sample_consts asm_dialect.MASM 0xFFFFFFFC arg.RM
        (mem_record disptype.DISP_16 8 4 0 32) = .ok ("[eax*4-00000004h]", true) ∧
    print_arg sample_consts asm_dialect.GAS 0xFFFFFFFC arg.RM
        (mem_record disptype.DISP_16 8 4 0 32) = .ok ("0xfffffffc", true) ∧
    print_arg sample_consts asm_dialect.NASM 0xFFFFFFFC arg.RM
        (mem_record disptype.DISP_16 8 0 0 32) = .ok ("[FFFFFFFCh]", true) :=
  ⟨by rfl, by rfl, by rfl, by rfl⟩

/-- C24, amended. For a memory operand without base (`modrm_reg` 8) and with a
displacement of kind `DISP_16`, of 16 or 32 bits by the address size: GAS
prints `0x` and the unsigned value in 4 resp. 8 digits and returns, whatever
the SIB fields are; NASM and MASM print the unsigned value in 4 resp. 8 digits
and `h`, without sign, right behind the opening bracket, when the instruction
has no index (`sib_scale` 0 or `sib_index` above 7); with an index (`sib_scale`
not 0 and `sib_index` below 8) they print, behind index and scale, the sign `-`
or `+` and the magnitude of the displacement taken as a signed number. -/
theorem C24_direct_memory (K : instr_consts) (asm : asm_dialect) (value : Nat)
    (argtype : arg) (instr : instr_info) (sg : String) (bits : Nat)
    (harg : argtype = arg.RM ∨ argtype = arg.MEM)
    (h8 : instr.modrm_reg = 8)
    (hdisp : instr.modrm_disp = disptype.DISP_16)
    (hsize : instr.addrsize = 16 ∧ bits = 16 ∨ instr.addrsize = 32 ∧ bits = 32)
    (hsg : seg_override K asm instr = .ok sg) :
    (asm = asm_dialect.GAS →
      print_arg K asm value argtype instr
        = .ok ((if instr.op.opcode = 0xFF ∧ 2 ≤ instr.op.subcode ∧ instr.op.subcode ≤ 5
              then "*" else "") ++ sg ++ "0x" ++ fmt_x (bits / 4) value, true)) ∧
    (asm ≠ asm_dialect.GAS → ¬ (instr.sib_scale ≠ 0 ∧ instr.sib_index < 8) →
      print_arg K asm value argtype instr
        = .ok ((if instr.op.flags &&& K.OP_FAR ≠ 0 then "far "
              else if instr.op.arg0 ≠ arg.REG ∧ instr.op.arg1 ≠ arg.REG then
                (if instr.op.size = 8 then "byte " else if instr.op.size = 16 then "word "
                  else if instr.op.size = 32 then "dword "
                  else if instr.op.size = 64 then "qword "
                  else if instr.op.size = 80 then "tword " else "")
                ++ (if asm = asm_dialect.MASM then "ptr " else "")
              else "")
            ++ (if asm = asm_dialect.NASM then "[" else "")
            ++ sg
            ++ (if asm = asm_dialect.MASM then "[" else "")
            ++ (fmt_X (bits / 4) value ++ "h") ++ "]", true)) ∧
    (asm ≠ asm_dialect.GAS → instr.sib_scale ≠ 0 ∧ instr.sib_index < 8 →
      ∃ m, m ≤ 2 ^ (bits - 1) ∧
        (if 2 ^ (bits - 1) ≤ value % 2 ^ bits then 1 ≤ m ∧ (value + m) % 2 ^ bits = 0
          else m = value % 2 ^ bits) ∧
        ∃ pre, print_arg K asm value argtype instr
          = .ok (pre ++ (get_reg16 asm instr.sib_index true ++ "*" ++ digit_char instr.sib_scale)
              ++ ((if 2 ^ (bits - 1) ≤ value % 2 ^ bits then "-" else "+")
                ++ fmt_X (bits / 4) m ++ "h") ++ "]", true)) := by
  have hb : 1 ≤ bits := by rcases hsize with ⟨_, h⟩ | ⟨_, h⟩ <;> omega
  have hreg : instr.modrm_disp ≠ disptype.DISP_REG := by rw [hdisp]; decide
  have hne : disptype.DISP_16 ≠ disptype.DISP_8 := by decide
  have hlt : ¬ instr.modrm_reg < 8 := by omega
  refine ⟨?_, ?_, ?_⟩
  · intro hgas
    subst hgas
    rw [print_arg_mem K _ value argtype instr harg hreg, if_pos rfl]
    unfold print_arg_mem_gas
    rw [hsg]
    rcases hsize with ⟨h16, rfl⟩ | ⟨h32, rfl⟩
    · simp only [hdisp, h16, h8, if_neg hne, and_self, if_true]
    · simp only [hdisp, h32, h8, if_neg hne, and_self, if_true, and_false, if_false,
        Nat.reduceEqDiff]
  · intro hgas hsib
    rw [print_arg_mem K _ value argtype instr harg hreg, if_neg hgas]
    unfold print_arg_mem_nasm
    rw [hsg]
    rcases hsize with ⟨h16, rfl⟩ | ⟨h32, rfl⟩
    · simp only [hdisp, h16, if_neg hne, if_neg hsib, if_neg hlt, h8, and_self, if_true,
        not_false_eq_true, String.append_empty, hsib, if_false, lt_self_iff_false,
        Nat.reduceDiv]
    · simp only [hdisp, h32, if_neg hne, if_neg hsib, if_neg hlt, h8, and_self, if_true,
        not_false_eq_true, String.append_empty, hsib, and_false, if_false, Nat.reduceEqDiff,
        lt_self_iff_false, Nat.reduceDiv]
  · intro hgas hsib
    obtain ⟨hm1, hm2⟩ := disp_magnitude_spec bits value hb
    refine ⟨_, hm1, ?_, ?_⟩
    · by_cases h : 2 ^ (bits - 1) ≤ value % 2 ^ bits
      · rw [if_pos h] at hm2 ⊢
        rw [if_pos h]
        exact hm2
      · rw [if_neg h, if_neg h]
    · rw [print_arg_mem K _ value argtype instr harg hreg, if_neg hgas]
      unfold print_arg_mem_nasm
      rw [hsg]
      have hns : ¬ (instr.modrm_reg = 8 ∧ ¬ (instr.sib_scale ≠ 0 ∧ instr.sib_index < 8)) :=
        fun h => h.2 hsib
      rcases hsize with ⟨h16, rfl⟩ | ⟨h32, rfl⟩
      · simp only [hdisp, h16, if_neg hne, if_pos hsib, if_neg hlt, if_neg hns, and_self,
          if_true, String.append_empty, signed_disp_eq]
        exact ⟨_, rfl⟩
      · simp only [hdisp, h32, if_neg hne, if_pos hsib, if_neg hlt, if_neg hns, and_self,
          if_true, String.append_empty, signed_disp_eq, and_false, if_false, Nat.reduceEqDiff]
        exact ⟨_, rfl⟩

/-- Witness of C24: the direct address `FFFC` under 16-bit addressing is
printed as `[FFFCh]` by MASM and as `0xfffc` by GAS. -/
theorem C24_direct_memory_witness :
    print_arg sample_consts asm_dialect.MASM 0xFFFC arg.RM
        (mem_record disptype.DISP_16 8 0 0 16) = .ok ("[FFFCh]", true) ∧
    print_arg sample_consts asm_dialect.GAS 0xFFFC arg.RM
        (mem_record disptype.DISP_16 8 0 0 16) = .ok ("0xfffc", true) ∧
    print_arg sample_consts asm_dialect.GAS 0xFFFC arg.RM (mem_record disptype.DISP_16 8 0 0 16)
      = .ok ((if (mem_record disptype.DISP_16 8 0 0 16).op.opcode = 0xFF ∧
              2 ≤ (mem_record disptype.DISP_16 8 0 0 16).op.subcode ∧
              (mem_record disptype.DISP_16 8 0 0 16).op.subcode ≤ 5
            then "*" else "") ++ "" ++ "0x" ++ fmt_x (16 / 4) 0xFFFC, true) :=
  ⟨by rfl, by rfl,
    (C24_direct_memory sample_consts asm_dialect.GAS 0xFFFC arg.RM
      (mem_record disptype.DISP_16 8 0 0 16) "" 16 (Or.inl rfl) (by rfl) (by rfl)
      (Or.inl ⟨rfl, rfl⟩) (by rfl)).1 rfl⟩

/-- C25. The branches of `print_arg` disagree on the index register of a
32-bit memory operand with SIB byte.  For the base `ebx` and scale 2: with
`sib_index` 0 (`eax`) GAS prints `(%ebx)`, without index, where NASM and MASM
print `[eax*2+ebx]`; with `sib_index` 4 GAS prints `(%ebx,%esp,2)` and NASM and
MASM print `[esp*2+ebx]`, naming `esp` as index. -/
theorem C25_index_register_mismatch :
    print_arg sample_consts asm_dialect.GAS 0 arg.RM (mem_record disptype.DISP_NONE 3 2 0 32)
      = .ok ("(%ebx)", true) ∧
    print_arg sample_consts asm_dialect.NASM 0 arg.RM (mem_record disptype.DISP_NONE 3 2 0 32)
      = .ok ("[eax*2+ebx]", true) ∧
    print_arg sample_consts asm_dialect.MASM 0 arg.RM (mem_record disptype.DISP_NONE 3 2 0 32)
      = .ok ("[eax*2+ebx]", true) ∧
    print_arg sample_consts asm_dialect.GAS 0 arg.RM (mem_record disptype.DISP_NONE 3 2 4 32)
      = .ok ("(%ebx,%esp,2)", true) ∧
    print_arg sample_consts asm_dialect.NASM 0 arg.RM (mem_record disptype.DISP_NONE 3 2 4 32)
      = .ok ("[esp*2+ebx]", true) ∧
    print_arg sample_consts asm_dialect.MASM 0 arg.RM (mem_record disptype.DISP_NONE 3 2 4 32)
      = .ok ("[esp*2+ebx]", true) :=
  ⟨by rfl, by rfl, by rfl, by rfl, by rfl, by rfl⟩

/-! ## The `RELOC` flags after the first pass -/

theorem or_flag_spec (fl fl1 : List Nat) (i bit : Nat) (h : or_flag fl i bit = .ok fl1) :
    ∃ v, fl[i]? = some v ∧ fl1 = fl.set i (v ||| bit) := by
  unfold or_flag at h
  cases hv : fl[i]? with
  | none => rw [hv] at h; cases h
  | some v =>
    rw [hv] at h
    exact ⟨v, rfl, (Except.ok.inj h).symm⟩

theorem or_reloc_and (v : Nat) : (v ||| INSTR_RELOC) &&& INSTR_RELOC ≠ 0 := by
  rw [Nat.and_distrib_right]
  intro h
  exact absurd ((lor_eq_zero _ _).1 h).2 (by decide)

theorem mark_relocs_spec : ∀ (os fl fl1 : List Nat), mark_relocs fl os = .ok fl1 →
    fl1.length = fl.length ∧ (∀ o ∈ os, o < fl.length) ∧
    ∀ j v1, fl1[j]? = some v1 → ∃ v, fl[j]? = some v ∧
      (v1 = v ∨ v1 = v ||| INSTR_RELOC) ∧
      (v1 &&& INSTR_RELOC ≠ 0 ↔ (v &&& INSTR_RELOC ≠ 0 ∨ j ∈ os)) := by
  intro os
  induction os with
  | nil =>
    intro fl fl1 h
    cases Except.ok.inj h
    refine ⟨rfl, fun o ho => absurd ho (List.not_mem_nil o), ?_⟩
    intro j v1 hv
    exact ⟨v1, hv, Or.inl rfl, by simp⟩
  | cons o os ih =>
    intro fl fl1 h
    rw [mark_relocs] at h
    cases ho : or_flag fl o INSTR_RELOC with
    | error e => rw [ho] at h; cases h
    | ok fl0 =>
      rw [ho] at h
      simp only [] at h
      obtain ⟨v0, hv0, rfl⟩ := or_flag_spec fl fl0 o INSTR_RELOC ho
      obtain ⟨h1, h2, h3⟩ := ih _ fl1 h
      rw [List.length_set] at h1 h2
      have hlt : o < fl.length := (List.getElem?_eq_some.mp hv0).1
      refine ⟨h1, ?_, ?_⟩
      · intro o1 ho1
        rcases List.mem_cons.1 ho1 with rfl | ho1
        · exact hlt
        · exact h2 o1 ho1
      · intro j v1 hv1
        obtain ⟨v, hv, hor, hiff⟩ := h3 j v1 hv1
        by_cases hj : j = o
        · subst hj
          rw [List.getElem?_set_self hlt] at hv
          cases Option.some.inj hv
          refine ⟨v0, hv0, ?_, ?_⟩
          · rcases hor with rfl | rfl
            · exact Or.inr rfl
            · right
              rw [Nat.or_assoc, Nat.or_self]
          · constructor
            · intro _
              exact Or.inr (List.mem_cons_self _ _)
            · intro _
              exact hiff.2 (Or.inl (or_reloc_and v0))
        · rw [List.getElem?_set_ne (fun e => hj e.symm)] at hv
          refine ⟨v, hv, hor, ?_⟩
          rw [hiff, List.mem_cons]
          constructor
          · rintro (h | h)
            · exact Or.inl h
            · exact Or.inr (Or.inr h)
          · rintro (h | h | h)
            · exact Or.inl h
            · exact absurd h hj
            · exact Or.inr h

theorem read_reloc_offsets_fine (entry_table : List entry) (f : File)
    (pos start length fuel : Nat) (r : reloc)
    (h : read_reloc entry_table f pos start length fuel = .ok r) :
    r.offsets.Nodup ∧ ∀ o ∈ r.offsets, o < length := by
  rcases read_reloc_ok_offsets entry_table f pos start length fuel r h with ⟨_, h0⟩ | ⟨_, h1⟩
  · rw [h0]
    exact ⟨List.nodup_nil, fun o ho => absurd ho (List.not_mem_nil o)⟩
  · exact ⟨read_reloc_offsets_nodup f start length _ fuel _ _ h1,
      (read_reloc_offsets_sound f start length _ fuel _ _ h1).2.1⟩

theorem read_reloc_table_spec (entry_table : List entry) (f : File) (fuel start length : Nat) :
    ∀ (n i : Nat) (fl : List Nat) (rs : List reloc) (fl2 : List Nat),
      read_reloc_table entry_table f fuel start length n i fl = .ok (rs, fl2) →
      fl2.length = fl.length ∧ rs.length = n ∧
      (∀ r ∈ rs, r.offsets.Nodup ∧ ∀ o ∈ r.offsets, o < length ∧ o < fl.length) ∧
      ∀ j v2, fl2[j]? = some v2 → ∃ v, fl[j]? = some v ∧
        (v2 = v ∨ v2 = v ||| INSTR_RELOC) ∧
        (v2 &&& INSTR_RELOC ≠ 0 ↔ (v &&& INSTR_RELOC ≠ 0 ∨ ∃ r ∈ rs, j ∈ r.offsets)) := by
  intro n
  induction n with
  | zero =>
    intro i fl rs fl2 h
    cases Except.ok.inj h
    refine ⟨rfl, rfl, fun r hr => absurd hr (List.not_mem_nil r), ?_⟩
    intro j v2 hv
    exact ⟨v2, hv, Or.inl rfl, by simp⟩
  | succ n ih =>
    intro i fl rs fl2 h
    rw [read_reloc_table] at h
    cases hr : read_reloc entry_table f (start + length + 2 + i * 8) start length fuel with
    | error e => rw [hr] at h; cases h
    | ok r =>
      rw [hr] at h
      simp only [] at h
      cases hm : mark_relocs fl r.offsets with
      | error e => rw [hm] at h; cases h
      | ok fl1 =>
        rw [hm] at h
        simp only [] at h
        cases ht : read_reloc_table entry_table f fuel start length n (i + 1) fl1 with
        | error e => rw [ht] at h; cases h
        | ok p =>
          obtain ⟨rs1, fl3⟩ := p
          rw [ht] at h
          cases Except.ok.inj h
          obtain ⟨m1, m2, m3⟩ := mark_relocs_spec r.offsets fl fl1 hm
          obtain ⟨t1, t2, t3, t4⟩ := ih (i + 1) fl1 rs1 fl2 ht
          obtain ⟨o1, o2⟩ := read_reloc_offsets_fine entry_table f _ start length fuel r hr
          refine ⟨t1.trans m1, by rw [List.length_cons, t2], ?_, ?_⟩
          · intro r1 hr1
            rcases List.mem_cons.1 hr1 with rfl | hr1
            · exact ⟨o1, fun o ho => ⟨o2 o ho, m2 o ho⟩⟩
            · obtain ⟨a, b⟩ := t3 r1 hr1
              exact ⟨a, fun o ho => ⟨(b o ho).1, m1 ▸ (b o ho).2⟩⟩
          · intro j v2 hv2
            obtain ⟨v1, hv1, hor1, hiff1⟩ := t4 j v2 hv2
            obtain ⟨v, hv, hor, hiff⟩ := m3 j v1 hv1
            refine ⟨v, hv, ?_, ?_⟩
            · rcases hor1 with rfl | rfl
              · exact hor
              · rcases hor with rfl | rfl
                · exact Or.inr rfl
                · right
                  rw [Nat.or_assoc, Nat.or_self]
            · rw [hiff1, hiff]
              constructor
              · rintro ((h | h) | ⟨r1, hr1, hj⟩)
                · exact Or.inl h
                · exact Or.inr ⟨r, List.mem_cons_self _ _, h⟩
                · exact Or.inr ⟨r1, List.mem_cons_of_mem _ hr1, hj⟩
              · rintro (h | ⟨r1, hr1, hj⟩)
                · exact Or.inl (Or.inl h)
                · rcases List.mem_cons.1 hr1 with rfl | hr1
                  · exact Or.inl (Or.inr hj)
                  · exact Or.inr ⟨r1, hr1, hj⟩

theorem get_reloc_of_mem (ip : Nat) : ∀ (rs : List reloc), (∃ r ∈ rs, ip ∈ r.offsets) →
    ∃ r, get_reloc ip rs = some r ∧ r ∈ rs ∧ ip ∈ r.offsets := by
  intro rs
  induction rs with
  | nil => rintro ⟨r, hr, _⟩; exact absurd hr (List.not_mem_nil r)
  | cons r0 rs ih =>
    rintro ⟨r, hr, hip⟩
    rw [get_reloc]
    by_cases h0 : ip ∈ r0.offsets
    · rw [if_pos h0]
      exact ⟨r0, rfl, List.mem_cons_self _ _, h0⟩
    · rw [if_neg h0]
      rcases List.mem_cons.1 hr with rfl | hr
      · exact absurd hip h0
      · obtain ⟨r1, a, b, c⟩ := ih ⟨r, hr, hip⟩
        exact ⟨r1, a, List.mem_cons_of_mem _ b, c⟩

/-- The first pass on one segment whose flag bytes are zero: the fields read
from the segment table are kept, and a flag byte is zero or `RELOC`; it is
`RELOC` exactly when a relocation of the table lists its offset. -/
theorem first_pass_segment_spec (entry_table : List entry) (f : File) (fuel : Nat)
    (seg seg1 : segment) (hz : ∀ v ∈ seg.instr_flags, v = 0)
    (h : first_pass_segment entry_table f fuel seg = .ok seg1) :
    seg1.cs = seg.cs ∧ seg1.start = seg.start ∧ seg1.length = seg.length ∧
    seg1.flags = seg.flags ∧ seg1.min_alloc = seg.min_alloc ∧
    seg1.instr_flags.length = seg.instr_flags.length ∧
    seg1.reloc_table.length = read_word_at f (seg.start + seg.length) ∧
    (∀ r ∈ seg1.reloc_table, r.offsets.Nodup ∧
      ∀ o ∈ r.offsets, o < seg.length ∧ o < seg1.instr_flags.length) ∧
    ∀ j v, seg1.instr_flags[j]? = some v →
      (v = 0 ∨ v = INSTR_RELOC) ∧
      (v &&& INSTR_RELOC ≠ 0 ↔ ∃ r ∈ seg1.reloc_table, j ∈ r.offsets) := by
  unfold first_pass_segment at h
  simp only [] at h
  cases ht : read_reloc_table entry_table f fuel seg.start seg.length
      (read_word_at f (seg.start + seg.length)) 0 seg.instr_flags with
  | error e => rw [ht] at h; cases h
  | ok p =>
    obtain ⟨rs, fl⟩ := p
    rw [ht] at h
    cases Except.ok.inj h
    obtain ⟨t1, t2, t3, t4⟩ := read_reloc_table_spec entry_table f fuel seg.start seg.length
      _ 0 seg.instr_flags rs fl ht
    refine ⟨rfl, rfl, rfl, rfl, rfl, t1, t2, ?_, ?_⟩
    · intro r hr
      obtain ⟨a, b⟩ := t3 r hr
      exact ⟨a, fun o ho => ⟨(b o ho).1, t1 ▸ (b o ho).2⟩⟩
    · intro j v hv
      obtain ⟨v0, hv0, hor, hiff⟩ := t4 j v hv
      have h0 : v0 = 0 := hz v0 (List.getElem?_mem hv0)
      subst h0
      refine ⟨?_, ?_⟩
      · rcases hor with rfl | rfl
        · exact Or.inl rfl
        · exact Or.inr (Nat.zero_or _)
      · rw [hiff]
        constructor
        · rintro (h | h)
          · exact absurd (Nat.zero_and _) h
          · exact h
        · exact Or.inr

theorem first_pass_getElem (entry_table : List entry) (f : File) (fuel : Nat) :
    ∀ (segs st : List segment), print_segments_first_pass entry_table f fuel segs = .ok st →
      ∀ (k : Nat) (seg1 : segment), st[k]? = some seg1 →
        ∃ seg, segs[k]? = some seg ∧ first_pass_segment entry_table f fuel seg = .ok seg1 := by
  intro segs
  induction segs with
  | nil =>
    intro st h k seg1 hk
    cases Except.ok.inj h
    cases hk
  | cons seg segs ih =>
    intro st h k seg1 hk
    rw [print_segments_first_pass] at h
    cases h1 : first_pass_segment entry_table f fuel seg with
    | error e => rw [h1] at h; cases h
    | ok s1 =>
      rw [h1] at h
      simp only [] at h
      cases h2 : print_segments_first_pass entry_table f fuel segs with
      | error e => rw [h2] at h; cases h
      | ok st1 =>
        rw [h2] at h
        cases Except.ok.inj h
        cases k with
        | zero =>
          rw [List.getElem?_cons_zero] at hk
          cases Option.some.inj hk
          exact ⟨seg, List.getElem?_cons_zero, h1⟩
        | succ k =>
          rw [List.getElem?_cons_succ] at hk
          obtain ⟨seg0, a, b⟩ := ih st1 h2 k seg1 hk
          exact ⟨seg0, by rw [List.getElem?_cons_succ]; exact a, b⟩

/-- The flag bytes of the segments that `read_segment_table` returns are zero. -/
theorem read_segment_table_zero (f : File) (align pos : Nat) :
    ∀ (count k : Nat), ∀ seg ∈ read_segment_table f align pos count k,
      ∀ v ∈ seg.instr_flags, v = 0 := by
  intro count
  induction count with
  | zero => intro k seg hs; exact absurd hs (List.not_mem_nil seg)
  | succ count ih =>
    intro k seg hs v hv
    rw [read_segment_table] at hs
    rcases List.mem_cons.1 hs with rfl | hs
    · exact (List.mem_replicate.1 hv).2
    · exact ih (k + 1) seg hs v hv

/-- Counterexample to C22: in `dup_file` two relocation records have the
source offset 0.  After the first pass byte 0 of the segment carries `RELOC`
and two different relocations of the table list it. -/
theorem C22_counterexample_two_relocations :
    first_pass_segment [] dup_file 10 dup_segment = .ok dup_segment_read ∧
    dup_segment_read.instr_flags[0]? = some INSTR_RELOC ∧
    dup_segment_read.reloc_table
      = [⟨5, 0, [0], 1, 0, none⟩, ⟨2, 0, [0], 1, 2, none⟩] ∧
    0 ∈ (⟨5, 0, [0], 1, 0, none⟩ : reloc).offsets ∧
    0 ∈ (⟨2, 0, [0], 1, 2, none⟩ : reloc).offsets ∧
    (⟨5, 0, [0], 1, 0, none⟩ : reloc) ≠ ⟨2, 0, [0], 1, 2, none⟩ :=
  ⟨by rfl, by rfl, by rfl, by decide, by decide, by decide⟩

/-- C22, amended. After the first pass on a segment whose flag bytes were
zero, a flag byte carries `RELOC` exactly when at least one relocation of the
table of the segment lists its offset; no relocation lists an offset twice,
and every offset that a relocation lists lies below the length of the segment
and carries `RELOC`.  Two relocations may list the same offset. -/
theorem C22_reloc_flag_iff_listed (entry_table : List entry) (f : File) (fuel : Nat)
    (seg seg1 : segment) (hz : ∀ v ∈ seg.instr_flags, v = 0)
    (h : first_pass_segment entry_table f fuel seg = .ok seg1) :
    (∀ j v, seg1.instr_flags[j]? = some v →
      (v &&& INSTR_RELOC ≠ 0 ↔ ∃ r ∈ seg1.reloc_table, j ∈ r.offsets)) ∧
    (∀ r ∈ seg1.reloc_table, r.offsets.Nodup ∧
      ∀ o ∈ r.offsets, o < seg.length ∧ seg1.instr_flags[o]? = some INSTR_RELOC) := by
  obtain ⟨_, _, _, _, _, _, _, h8, h9⟩ := first_pass_segment_spec entry_table f fuel seg seg1 hz h
  refine ⟨fun j v hv => (h9 j v hv).2, ?_⟩
  intro r hr
  refine ⟨(h8 r hr).1, ?_⟩
  intro o ho
  obtain ⟨a, b⟩ := (h8 r hr).2 o ho
  refine ⟨a, ?_⟩
  have hv := getElem?_getD_flag seg1.instr_flags o b
  obtain ⟨c, d⟩ := h9 o _ hv
  rw [hv]
  rcases c with c | c
  · exact absurd (d.2 ⟨r, hr, ho⟩) (by rw [c]; exact fun h => h (Nat.zero_and _))
  · rw [c]

/-- Witness of C22 on the segment of `dup_file`. -/
theorem C22_reloc_flag_iff_listed_witness :
    (∀ j v, dup_segment_read.instr_flags[j]? = some v →
      (v &&& INSTR_RELOC ≠ 0 ↔ ∃ r ∈ dup_segment_read.reloc_table, j ∈ r.offsets)) ∧
    (∀ r ∈ dup_segment_read.reloc_table, r.offsets.Nodup ∧
      ∀ o ∈ r.offsets, o < dup_segment.length ∧
        dup_segment_read.instr_flags[o]? = some INSTR_RELOC) :=
  C22_reloc_flag_iff_listed [] dup_file 10 dup_segment dup_segment_read (by decide) (by rfl)

/-- After the first pass on segments whose flag bytes were zero, the flag
state is an initial one, and `get_reloc` finds a relocation for every byte that
carries `RELOC`. -/
theorem reloc_flag_listed (entry_table : List entry) (f : File) (fuel : Nat)
    (segs st : List segment) (hz : ∀ seg ∈ segs, ∀ v ∈ seg.instr_flags, v = 0)
    (hrun : print_segments_first_pass entry_table f fuel segs = .ok st) :
    initial_flags st ∧
    ∀ c j, has_flag st c j INSTR_RELOC = true →
      ∃ seg r, get_segment st c = some seg ∧ get_reloc j seg.reloc_table = some r ∧
        j ∈ r.offsets := by
  have key : ∀ c seg1, get_segment st c = some seg1 → ∀ j v, seg1.instr_flags[j]? = some v →
      (v = 0 ∨ v = INSTR_RELOC) ∧
      (v &&& INSTR_RELOC ≠ 0 ↔ ∃ r ∈ seg1.reloc_table, j ∈ r.offsets) := by
    intro c seg1 hseg j v hv
    unfold get_segment at hseg
    by_cases hc : c = 0
    · rw [if_pos hc] at hseg; cases hseg
    · rw [if_neg hc] at hseg
      obtain ⟨seg, hs, hf⟩ := first_pass_getElem entry_table f fuel segs st hrun _ seg1 hseg
      exact (first_pass_segment_spec entry_table f fuel seg seg1
        (hz seg (List.getElem?_mem hs)) hf).2.2.2.2.2.2.2.2 j v hv
  constructor
  · intro c j v hv
    unfold flag_at at hv
    cases hseg : get_segment st c with
    | none => rw [hseg] at hv; cases hv
    | some seg1 =>
      rw [hseg] at hv
      exact (key c seg1 hseg j v hv).1
  · intro c j hf
    unfold has_flag flag_at at hf
    cases hseg : get_segment st c with
    | none => rw [hseg] at hf; cases hf
    | some seg1 =>
      rw [hseg] at hf
      simp only [] at hf
      cases hv : seg1.instr_flags[j]? with
      | none => rw [hv] at hf; cases hf
      | some v =>
        rw [hv] at hf
        simp only [bne_iff_ne] at hf
        obtain ⟨r, a, _, b⟩ := get_reloc_of_mem j seg1.reloc_table
          ((key c seg1 hseg j v hv).2.1 hf)
        exact ⟨seg1, r, rfl, a, b⟩

theorem reloc_flag_extends (st st1 : List segment) (hext : extends_state st st1)
    (h : ∀ c j, has_flag st c j INSTR_RELOC = true →
      ∃ seg r, get_segment st c = some seg ∧ get_reloc j seg.reloc_table = some r ∧
        j ∈ r.offsets) :
    ∀ c j, has_flag st1 c j INSTR_RELOC = true →
      ∃ seg r, get_segment st1 c = some seg ∧ get_reloc j seg.reloc_table = some r ∧
        j ∈ r.offsets := by
  intro c j hf
  rw [hext.2.2 c j] at hf
  obtain ⟨seg, r, hseg, hr, hj⟩ := h c j hf
  obtain ⟨seg1, hseg1, hk, _⟩ := extends_state_segment_fwd st st1 hext c seg hseg
  refine ⟨seg1, r, hseg1, ?_, hj⟩
  rw [(skeleton_fields seg seg1 hk).2.2.2.2.2.1]
  exact hr

/-- C30. After the first pass of `print_segments` on segments whose flag bytes
were zero, as `calloc` leaves them, `get_reloc(j)` on the relocation table of a
segment returns a relocation that lists `j` for every byte `j` of the segment
that carries `RELOC`.  The same holds in every state that a call of
`scan_segment` returns from there, and in the state after the second pass, for
a decoder that consumes at least one byte. -/
theorem C30_reloc_flag_has_relocation (entry_table : List entry) (f : File) (fuel : Nat)
    (segs st : List segment) (hz : ∀ seg ∈ segs, ∀ v ∈ seg.instr_flags, v = 0)
    (hrun : print_segments_first_pass entry_table f fuel segs = .ok st) :
    (∀ c j, has_flag st c j INSTR_RELOC = true →
      ∃ seg r, get_segment st c = some seg ∧ get_reloc j seg.reloc_table = some r ∧
        j ∈ r.offsets) ∧
    (∀ (get_instr : Decoder) (fuel2 cs ip : Nat) (st1 : List segment),
      scan_segment get_instr f fuel2 st cs ip = .ok st1 →
      ∀ c j, has_flag st1 c j INSTR_RELOC = true →
        ∃ seg r, get_segment st1 c = some seg ∧ get_reloc j seg.reloc_table = some r ∧
          j ∈ r.offsets) ∧
    (∀ (get_instr : Decoder) (fuel2 entry_cs entry_ip : Nat) (st1 : List segment),
      (∀ cs ip p is32, 1 ≤ (get_instr cs ip p is32).2) →
      print_segments_second_pass get_instr f fuel2 entry_table entry_cs entry_ip st = .ok st1 →
      ∀ c j, has_flag st1 c j INSTR_RELOC = true →
        ∃ seg r, get_segment st1 c = some seg ∧ get_reloc j seg.reloc_table = some r ∧
          j ∈ r.offsets) := by
  obtain ⟨hinit, h⟩ := reloc_flag_listed entry_table f fuel segs st hz hrun
  refine ⟨h, ?_, ?_⟩
  · intro get_instr fuel2 cs ip st1 hs
    exact reloc_flag_extends st st1
      (extends_state_scan get_instr f st st1 _ (scan_segment_sound get_instr f fuel2 st cs ip st1 hs)) h
  · intro get_instr fuel2 entry_cs entry_ip st1 hdec hs
    exact reloc_flag_extends st st1
      (second_pass_closed get_instr f hdec fuel2 entry_table entry_cs entry_ip st st1 hinit hs).1 h

/-- Witness of C30: the segment table of `dup_file` gives `dup_segment`, whose
flag bytes are zero; after the first pass every flagged byte has a relocation. -/
theorem C30_reloc_flag_has_relocation_witness :
    read_segment_table dup_file 0 22 1 0 = [dup_segment] ∧
    print_segments_first_pass [] dup_file 10 [dup_segment] = .ok [dup_segment_read] ∧
    (∀ c j, has_flag [dup_segment_read] c j INSTR_RELOC = true →
      ∃ seg r, get_segment [dup_segment_read] c = some seg ∧
        get_reloc j seg.reloc_table = some r ∧ j ∈ r.offsets) :=
  ⟨by rfl, by rfl, (C30_reloc_flag_has_relocation [] dup_file 10 [dup_segment] [dup_segment_read]
    (by decide) (by rfl)).1⟩

/-! ## Termination of `scan_segment` -/

theorem sum_pointwise {α : Type} (w : α → Nat) :
    ∀ (l l1 : List α), l1.length = l.length →
      (∀ (k : Nat) (a a1 : α), l[k]? = some a → l1[k]? = some a1 → w a1 ≤ w a) →
      (l1.map w).sum ≤ (l.map w).sum ∧
      ((∃ (k : Nat) (a a1 : α), l[k]? = some a ∧ l1[k]? = some a1 ∧ w a1 < w a) →
        (l1.map w).sum < (l.map w).sum) := by
  intro l
  induction l with
  | nil =>
    intro l1 hl _
    cases l1 with
    | nil =>
      refine ⟨Nat.le_refl _, ?_⟩
      rintro ⟨k, a, a1, h, _⟩
      cases h
    | cons _ _ => cases hl
  | cons x l ih =>
    intro l1 hl h
    cases l1 with
    | nil => cases hl
    | cons y l1 =>
      have hxy : w y ≤ w x := h 0 x y List.getElem?_cons_zero List.getElem?_cons_zero
      obtain ⟨i1, i2⟩ := ih l1 (Nat.succ.inj hl) (fun k a a1 ha ha1 =>
        h (k + 1) a a1 (by rw [List.getElem?_cons_succ]; exact ha)
          (by rw [List.getElem?_cons_succ]; exact ha1))
      simp only [List.map_cons, List.sum_cons]
      refine ⟨by omega, ?_⟩
      rintro ⟨k, a, a1, ha, ha1, hlt⟩
      cases k with
      | zero =>
        rw [List.getElem?_cons_zero] at ha ha1
        cases Option.some.inj ha
        cases Option.some.inj ha1
        omega
      | succ k =>
        rw [List.getElem?_cons_succ] at ha ha1
        have := i2 ⟨k, a, a1, ha, ha1, hlt⟩
        omega

theorem countP_eq_sum (q : Nat → Bool) (l : List Nat) :
    l.countP q = (l.map fun v => if q v then 1 else 0).sum := by
  induction l with
  | nil => rfl
  | cons x l ih =>
    rw [List.countP_cons, List.map_cons, List.sum_cons, ih]
    cases q x <;> simp [Nat.add_comm]

theorem get_segment_succ (st : List segment) (k : Nat) : get_segment st (k + 1) = st[k]? := by
  unfold get_segment
  rw [if_neg (by omega)]
  rfl

/-- A state that extends another has no more bytes without `SCANNED`, and fewer
when a byte that lacked `SCANNED` has got it. -/
theorem unscanned_extends (st st1 : List segment) (h : extends_state st st1) :
    unscanned st1 ≤ unscanned st ∧
    ∀ c j, flag_at st c j ≠ none → has_flag st c j INSTR_SCANNED = false →
      has_flag st1 c j INSTR_SCANNED = true → unscanned st1 < unscanned st := by
  have hlen : st1.length = st.length := by
    have := congrArg List.length h.1
    simpa using this
  have hseg : ∀ (k : Nat) (s s1 : segment), st[k]? = some s → st1[k]? = some s1 →
      s1.instr_flags.length = s.instr_flags.length ∧
      ∀ (j : Nat) (v v1 : Nat), s.instr_flags[j]? = some v → s1.instr_flags[j]? = some v1 →
        ((v &&& INSTR_SCANNED != 0) = has_flag st (k + 1) j INSTR_SCANNED) ∧
        ((v1 &&& INSTR_SCANNED != 0) = has_flag st1 (k + 1) j INSTR_SCANNED) := by
    intro k s s1 hs hs1
    have g : get_segment st (k + 1) = some s := by rw [get_segment_succ]; exact hs
    have g1 : get_segment st1 (k + 1) = some s1 := by rw [get_segment_succ]; exact hs1
    obtain ⟨s2, g2, hk⟩ := skeleton_get_segment st st1 h.1 (k + 1) s g
    rw [g1] at g2
    cases Option.some.inj g2
    refine ⟨(skeleton_fields s s1 hk).2.2.2.2.2.2, ?_⟩
    intro j v v1 hv hv1
    exact ⟨(has_flag_of_getElem st (k + 1) j _ s v g hv).symm,
      (has_flag_of_getElem st1 (k + 1) j _ s1 v1 g1 hv1).symm⟩
  have hw : ∀ (k : Nat) (s s1 : segment), st[k]? = some s → st1[k]? = some s1 →
      (s1.instr_flags.countP fun v => decide (v &&& INSTR_SCANNED = 0))
        ≤ (s.instr_flags.countP fun v => decide (v &&& INSTR_SCANNED = 0)) ∧
      ((∃ (j : Nat) (v : Nat), s.instr_flags[j]? = some v ∧
          has_flag st (k + 1) j INSTR_SCANNED = false ∧
          has_flag st1 (k + 1) j INSTR_SCANNED = true) →
        (s1.instr_flags.countP fun v => decide (v &&& INSTR_SCANNED = 0))
          < (s.instr_flags.countP fun v => decide (v &&& INSTR_SCANNED = 0))) := by
    intro k s s1 hs hs1
    obtain ⟨hl, hf⟩ := hseg k s s1 hs hs1
    rw [countP_eq_sum, countP_eq_sum]
    have hp := sum_pointwise (fun v : Nat => if decide (v &&& INSTR_SCANNED = 0) then 1 else 0)
      s.instr_flags s1.instr_flags hl (by
        intro j v v1 hv hv1
        obtain ⟨e, e1⟩ := hf j v v1 hv hv1
        by_cases hz : v &&& INSTR_SCANNED = 0
        · simp only [hz, decide_True, if_true]
          split_ifs <;> omega
        · have hm : has_flag st (k + 1) j INSTR_SCANNED = true := by
            rw [← e]; simpa using hz
          have hm1 := h.2.1 _ _ _ hm
          rw [← e1] at hm1
          have hz1 : ¬ v1 &&& INSTR_SCANNED = 0 := by simpa using hm1
          simp only [hz, hz1, decide_False]
          exact Nat.le_refl _)
    refine ⟨hp.1, ?_⟩
    rintro ⟨j, v, hv, hm, hm1⟩
    have hj : j < s1.instr_flags.length := by
      rw [hl]; exact (List.getElem?_eq_some.mp hv).1
    have hv1 := getElem?_getD_flag s1.instr_flags j hj
    apply hp.2
    refine ⟨j, v, _, hv, hv1, ?_⟩
    obtain ⟨e, e1⟩ := hf j v _ hv hv1
    rw [← e] at hm
    rw [← e1] at hm1
    have hz : v &&& INSTR_SCANNED = 0 := by simpa using hm
    have hz1 : ¬ (s1.instr_flags.getD j 0 &&& INSTR_SCANNED = 0) := by simpa using hm1
    simp only [hz, hz1, decide_True, decide_False, if_true]
    decide
  have hs := sum_pointwise
    (fun seg : segment => seg.instr_flags.countP fun v => decide (v &&& INSTR_SCANNED = 0))
    st st1 hlen (fun k s s1 a a1 => (hw k s s1 a a1).1)
  refine ⟨hs.1, ?_⟩
  intro c j hne hm hm1
  apply hs.2
  cases c with
  | zero => exact absurd (by simp [flag_at, get_segment]) hne
  | succ k =>
    cases hsk : st[k]? with
    | none => exact absurd (by simp [flag_at, get_segment_succ, hsk]) hne
    | some s =>
      have hk1 : k < st1.length := by rw [hlen]; exact (List.getElem?_eq_some.mp hsk).1
      have hs1 : st1[k]? = some st1[k] := List.getElem?_eq_getElem hk1
      cases hv : s.instr_flags[j]? with
      | none => exact absurd (by simp [flag_at, get_segment_succ, hsk, hv]) hne
      | some v => exact ⟨k, s, _, hsk, hs1, (hw k s _ hsk hs1).2 ⟨j, v, hv, hm, hm1⟩⟩

theorem set_flag_fault (st : List segment) (cs i bit : Nat) :
    set_flag st cs i bit ≠ .error .out_of_fuel := by
  unfold set_flag or_flag
  cases get_segment st cs with
  | none => intro h; cases h
  | some seg =>
    simp only []
    cases hv : seg.instr_flags[i]? with
    | none => intro h; cases h
    | some v => intro h; cases h

theorem mark_scanned_fault (cs : Nat) : ∀ (n i : Nat) (st : List segment),
    mark_scanned cs n i st ≠ .error .out_of_fuel := by
  intro n
  induction n with
  | zero => intro i st h; cases h
  | succ n ih =>
    intro i st
    rw [mark_scanned]
    cases h1 : set_flag st cs i INSTR_SCANNED with
    | error e =>
      intro h
      exact set_flag_fault st cs i INSTR_SCANNED (h1.trans h)
    | ok st1 => exact ih (i + 1) st1

theorem far_mark_fault (st : List segment) (ts off : Nat) (name : String) :
    far_mark st ts off name ≠ .error .out_of_fuel := by
  unfold far_mark
  cases h1 : set_flag st ts off INSTR_FAR with
  | error e =>
    intro h
    exact set_flag_fault st ts off INSTR_FAR (h1.trans h)
  | ok st1 => exact set_flag_fault st1 ts off _

theorem scan_transfer_fault (st : List segment) (cs ip : Nat) (instr : instr_info)
    (len : Nat) : scan_transfer st cs ip instr len ≠ .error .out_of_fuel := by
  unfold scan_transfer
  intro h
  split at h
  · split at h
    · cases h
    · split at h
      · cases h
      · split at h
        · cases h
        · split at h
          · cases h
          · split at h
            · split at h
              · rename_i e he
                cases h
                exact far_mark_fault _ _ _ _ he
              · cases h
            · split at h
              · split at h
                · rename_i e he
                  cases h
                  exact far_mark_fault _ _ _ _ he
                · cases h
              · cases h
  · split at h
    · split at h
      · rename_i e he
        cases h
        exact set_flag_fault _ _ _ _ he
      · cases h
    · cases h

/-- The state after the marking of the instruction at a byte that lacked
`SCANNED`, and every state the transfer part makes of it, has fewer bytes
without `SCANNED`. -/
theorem unscanned_marked (get_instr : Decoder) (f : File)
    (hdec : ∀ cs ip p is32, 1 ≤ (get_instr cs ip p is32).2)
    (st st1 st2 st3 : List segment) (cs ip : Nat) (seg : segment) (fl : Nat)
    (target : Option (Nat × Nat))
    (hseg : get_segment st cs = some seg)
    (hfl : seg.instr_flags[ip]? = some fl) (hsc : fl &&& INSTR_SCANNED = 0)
    (h1 : set_flag st cs ip INSTR_VALID = .ok st1)
    (h2 : mark_scanned cs (decode_at get_instr f seg cs ip).2 ip st1 = .ok st2)
    (h3 : scan_transfer st2 cs ip (decode_at get_instr f seg cs ip).1
      (decode_at get_instr f seg cs ip).2 = .ok (st3, target)) :
    unscanned st2 < unscanned st ∧ unscanned st3 ≤ unscanned st2 := by
  obtain ⟨a1, _, a2⟩ := set_flag_spec _ _ _ _ _ h1
  have e1 : extends_state st st1 := extends_state_of_spec st st1 cs ip INSTR_VALID a1 a2 (by decide)
  have e2 : extends_state st1 st2 := extends_state_mark st1 st2 cs _ ip h2
  obtain ⟨c1, c0, j0, b0, c2, _, _, c3, _⟩ := scan_transfer_spec _ _ _ _ _ _ _ h3
  have e3 : extends_state st2 st3 := extends_state_of_spec st2 st3 c0 j0 b0 c1 c2 c3
  refine ⟨(unscanned_extends st st2 (extends_state_trans _ _ _ e1 e2)).2 cs ip ?_ ?_ ?_,
    (unscanned_extends st2 st3 e3).1⟩
  · simp [flag_at, hseg, hfl]
  · rw [has_flag_of_getElem st cs ip _ seg fl hseg hfl, hsc]
    rfl
  · rw [(mark_scanned_spec _ _ _ _ _ h2).2]
    have hlen : 1 ≤ (decode_at get_instr f seg cs ip).2 := hdec _ _ _ _
    have hr : ip ≤ ip ∧ ip < ip + (decode_at get_instr f seg cs ip).2 := by omega
    simp [hr]
    exact Or.inr (by decide)

theorem scan_segment_total (get_instr : Decoder) (f : File)
    (hdec : ∀ cs ip p is32, 1 ≤ (get_instr cs ip p is32).2) :
    ∀ (fuel : Nat) (st : List segment) (cs ip : Nat), unscanned st < fuel →
      scan_segment get_instr f fuel st cs ip ≠ .error .out_of_fuel := by
  intro fuel
  induction fuel with
  | zero => intro st cs ip h; omega
  | succ fuel ih =>
    intro st cs ip hm
    cases hseg : get_segment st cs with
    | none =>
      rw [scan_segment, hseg]
      intro h; cases h
    | some seg =>
      by_cases hip : ip ≥ seg.length
      · rw [scan_segment, hseg]
        simp only [hip, if_true]
        intro h; cases h
      · cases hfl : seg.instr_flags[ip]? with
        | none =>
          rw [scan_segment, hseg]
          simp only [hip, if_false, hfl]
          intro h; cases h
        | some fl =>
          by_cases hsc : fl &&& INSTR_SCANNED = 0
          · cases h1 : set_flag st cs ip INSTR_VALID with
            | error e =>
              rw [scan_segment, hseg]
              simp only [hip, if_false, hfl, hsc, ne_eq, not_true_eq_false, h1]
              intro h
              exact set_flag_fault st cs ip INSTR_VALID (h1.trans h)
            | ok st1 =>
              cases h2 : mark_scanned cs (decode_at get_instr f seg cs ip).2 ip st1 with
              | error e =>
                rw [scan_segment, hseg]
                simp only [hip, if_false, hfl, hsc, ne_eq, not_true_eq_false, h1, h2]
                intro h
                exact mark_scanned_fault cs _ ip st1 (h2.trans h)
              | ok st2 =>
                rw [scan_segment_body get_instr f fuel st st1 st2 cs ip seg fl hseg
                  (by omega) hfl hsc h1 h2]
                cases h3 : scan_transfer st2 cs ip (decode_at get_instr f seg cs ip).1
                    (decode_at get_instr f seg cs ip).2 with
                | error e =>
                  simp only []
                  intro h
                  cases h
                  exact scan_transfer_fault st2 cs ip _ _ h3
                | ok p =>
                  obtain ⟨st3, target⟩ := p
                  obtain ⟨m1, m2⟩ := unscanned_marked get_instr f hdec st st1 st2 st3 cs ip seg fl
                    target hseg hfl hsc h1 h2 h3
                  simp only []
                  have hcont : ∀ st4, unscanned st4 ≤ unscanned st3 →
                      (if scan_returns (decode_at get_instr f seg cs ip).1 = true
                        then Except.ok st4
                        else scan_segment get_instr f fuel st4 cs
                          ((ip + (decode_at get_instr f seg cs ip).2) % 65536))
                        ≠ .error .out_of_fuel := by
                    intro st4 h4
                    by_cases hr : scan_returns (decode_at get_instr f seg cs ip).1 = true
                    · rw [if_pos hr]
                      intro h; cases h
                    · rw [if_neg hr]
                      exact ih st4 cs _ (by omega)
                  cases target with
                  | none => exact hcont st3 (Nat.le_refl _)
                  | some t =>
                    obtain ⟨tcs, tip⟩ := t
                    simp only []
                    cases h4 : scan_segment get_instr f fuel st3 tcs tip with
                    | error e =>
                      simp only []
                      intro h
                      exact ih st3 tcs tip (by omega) (h4.trans h)
                    | ok st4 =>
                      simp only []
                      exact hcont st4 (unscanned_extends st3 st4 (extends_state_scan get_instr f
                        st3 st4 _ (scan_segment_sound get_instr f fuel st3 tcs tip st4 h4))).1
          · rw [scan_segment, hseg]
            simp only [hip, if_false, hfl, hsc, ne_eq, not_false_eq_true, if_true]
            intro h; cases h

/-- A run that does not run out of fuel has the same result with more fuel. -/
theorem scan_segment_fuel_succ (get_instr : Decoder) (f : File) :
    ∀ (fuel : Nat) (st : List segment) (cs ip : Nat),
      scan_segment get_instr f fuel st cs ip ≠ .error .out_of_fuel →
      scan_segment get_instr f (fuel + 1) st cs ip = scan_segment get_instr f fuel st cs ip := by
  intro fuel
  induction fuel with
  | zero => intro st cs ip h; exact absurd rfl h
  | succ fuel ih =>
    intro st cs ip hne
    cases hseg : get_segment st cs with
    | none => rw [scan_segment, scan_segment, hseg]
    | some seg =>
      by_cases hip : ip ≥ seg.length
      · rw [scan_segment, scan_segment, hseg]
        simp only [hip, if_true]
      · cases hfl : seg.instr_flags[ip]? with
        | none =>
          rw [scan_segment, scan_segment, hseg]
          simp only [hip, if_false, hfl]
        | some fl =>
          by_cases hsc : fl &&& INSTR_SCANNED = 0
          · cases h1 : set_flag st cs ip INSTR_VALID with
            | error e =>
              rw [scan_segment, scan_segment, hseg]
              simp only [hip, if_false, hfl, hsc, ne_eq, not_true_eq_false, h1]
            | ok st1 =>
              cases h2 : mark_scanned cs (decode_at get_instr f seg cs ip).2 ip st1 with
              | error e =>
                rw [scan_segment, scan_segment, hseg]
                simp only [hip, if_false, hfl, hsc, ne_eq, not_true_eq_false, h1, h2]
              | ok st2 =>
                rw [scan_segment_body get_instr f fuel st st1 st2 cs ip seg fl hseg
                  (by omega) hfl hsc h1 h2] at hne ⊢
                rw [scan_segment_body get_instr f (fuel + 1) st st1 st2 cs ip seg fl hseg
                  (by omega) hfl hsc h1 h2]
                cases h3 : scan_transfer st2 cs ip (decode_at get_instr f seg cs ip).1
                    (decode_at get_instr f seg cs ip).2 with
                | error e => rfl
                | ok p =>
                  obtain ⟨st3, target⟩ := p
                  rw [h3] at hne
                  simp only [] at hne ⊢
                  have hcont : ∀ st4,
                      (if scan_returns (decode_at get_instr f seg cs ip).1 = true
                        then Except.ok st4
                        else scan_segment get_instr f fuel st4 cs
                          ((ip + (decode_at get_instr f seg cs ip).2) % 65536))
                        ≠ .error .out_of_fuel →
                      (if scan_returns (decode_at get_instr f seg cs ip).1 = true
                        then Except.ok st4
                        else scan_segment get_instr f (fuel + 1) st4 cs
                          ((ip + (decode_at get_instr f seg cs ip).2) % 65536))
                      = (if scan_returns (decode_at get_instr f seg cs ip).1 = true
                        then Except.ok st4
                        else scan_segment get_instr f fuel st4 cs
                          ((ip + (decode_at get_instr f seg cs ip).2) % 65536)) := by
                    intro st4 h4
                    by_cases hr : scan_returns (decode_at get_instr f seg cs ip).1 = true
                    · rw [if_pos hr, if_pos hr]
                    · rw [if_neg hr] at h4
                      rw [if_neg hr, if_neg hr, ih st4 cs _ h4]
                  cases target with
                  | none => exact hcont st3 hne
                  | some t =>
                    obtain ⟨tcs, tip⟩ := t
                    simp only [] at hne ⊢
                    have ht : scan_segment get_instr f fuel st3 tcs tip ≠ .error .out_of_fuel := by
                      intro h
                      rw [h] at hne
                      exact hne rfl
                    rw [ih st3 tcs tip ht]
                    cases h4 : scan_segment get_instr f fuel st3 tcs tip with
                    | error e => rfl
                    | ok st4 =>
                      rw [h4] at hne
                      exact hcont st4 hne
          · rw [scan_segment, scan_segment, hseg]
            simp only [hip, if_false, hfl, hsc, ne_eq, not_false_eq_true, if_true]

theorem scan_segment_fuel_add (get_instr : Decoder) (f : File) (fuel : Nat)
    (st : List segment) (cs ip : Nat)
    (h : scan_segment get_instr f fuel st cs ip ≠ .error .out_of_fuel) :
    ∀ d, scan_segment get_instr f (fuel + d) st cs ip = scan_segment get_instr f fuel st cs ip := by
  intro d
  induction d with
  | zero => rfl
  | succ d ih =>
    rw [← Nat.add_assoc, scan_segment_fuel_succ get_instr f (fuel + d) st cs ip (by rw [ih]; exact h),
      ih]

/-- C29. For a decoder that consumes at least one byte, a call of
`scan_segment` on any state and any `(cs, ip)` ends: with more fuel than the
number of flag bytes without `SCANNED` the run does not run out of fuel (it
returns a state, or stops at an access outside the segment list or a flag
array), and its result is the same for every such amount of fuel.  A call on a
byte inside the segment that carries `SCANNED` returns the state as it is.  A
run that returns leaves no more bytes without `SCANNED` than there were, and
when the byte `cs:ip` lay inside the segment and lacked `SCANNED`, it carries
`SCANNED` afterwards and the number has gone down. -/
theorem C29_scan_segment_terminates (get_instr : Decoder) (f : File)
    (hdec : ∀ cs ip p is32, 1 ≤ (get_instr cs ip p is32).2)
    (st : List segment) (cs ip : Nat) :
    (∀ fuel, unscanned st < fuel →
      scan_segment get_instr f fuel st cs ip ≠ .error .out_of_fuel ∧
      scan_segment get_instr f fuel st cs ip
        = scan_segment get_instr f (unscanned st + 1) st cs ip) ∧
    (∀ fuel seg fl, get_segment st cs = some seg → ip < seg.length →
      seg.instr_flags[ip]? = some fl → fl &&& INSTR_SCANNED ≠ 0 →
      scan_segment get_instr f (fuel + 1) st cs ip = .ok st) ∧
    (∀ fuel st1, scan_segment get_instr f fuel st cs ip = .ok st1 →
      unscanned st1 ≤ unscanned st ∧
      ∀ seg fl, get_segment st cs = some seg → ip < seg.length →
        seg.instr_flags[ip]? = some fl → fl &&& INSTR_SCANNED = 0 →
        has_flag st1 cs ip INSTR_SCANNED = true ∧ unscanned st1 < unscanned st) := by
  refine ⟨?_, ?_, ?_⟩
  · intro fuel hf
    refine ⟨scan_segment_total get_instr f hdec fuel st cs ip hf, ?_⟩
    have h1 := scan_segment_total get_instr f hdec (unscanned st + 1) st cs ip (by omega)
    have h2 := scan_segment_fuel_add get_instr f (unscanned st + 1) st cs ip h1
      (fuel - (unscanned st + 1))
    rw [← h2]
    congr 1
    omega
  · intro fuel seg fl hseg hip hfl hsc
    rw [scan_segment, hseg]
    have hip1 : ¬ ip ≥ seg.length := by omega
    simp only [hip1, if_false, hfl, hsc, ne_eq, not_false_eq_true, if_true]
  · intro fuel st1 h
    have hs := scan_segment_sound get_instr f fuel st cs ip st1 h
    have he := extends_state_scan get_instr f st st1 _ hs
    refine ⟨(unscanned_extends st st1 he).1, ?_⟩
    intro seg fl hseg hip hfl hsc
    have hsc1 := scan_scanned get_instr f hdec st st1 _ hs cs ip seg rfl hseg hip
    refine ⟨hsc1, (unscanned_extends st st1 he).2 cs ip ?_ ?_ hsc1⟩
    · simp [flag_at, hseg, hfl]
    · rw [has_flag_of_getElem st cs ip _ seg fl hseg hfl, hsc]
      rfl

/-- Witness of C29: the two jumps of `mutual_file` name each other and the jump
of `loop_file` names itself; the scans return, with 7 units of fuel for the 6
bytes of `mutual_segment`. -/
theorem C29_scan_segment_terminates_witness :
    unscanned [mutual_segment] = 6 ∧
    scan_segment sample_get_instr mutual_file 7 [mutual_segment] 1 0
      = .ok [⟨1, 0, 6, 0, 6, [7, 1, 0, 0, 7, 1], []⟩] ∧
    scan_segment sample_get_instr loop_file 4 [loop_segment] 1 0 = .ok [loop_segment_scanned] ∧
    scan_segment sample_get_instr mutual_file 7 [mutual_segment] 1 0 ≠ .error .out_of_fuel :=
  ⟨by rfl, by rfl, by rfl,
    ((C29_scan_segment_terminates sample_get_instr mutual_file sample_get_instr_length
      [mutual_segment] 1 0).1 7 (by decide)).1⟩

/-! ## Relocation chains without end -/

/-- A chain that comes back to an offset it has visited, having stayed inside
the segment on words below 0xFFFB up to there, does so for ever. -/
theorem chain_cycle_all (f : File) (start length type offset i j : Nat) (hij : i < j)
    (hcyc : chain_offset f start type offset i = chain_offset f start type offset j)
    (hin : ∀ k, k < j → chain_offset f start type offset k < length ∧
      chain_word f start type offset k < 0xFFFB) :
    ∀ k, chain_offset f start type offset k < length ∧
      chain_word f start type offset k < 0xFFFB := by
  intro k
  induction k using Nat.strong_induction_on with
  | _ k ih =>
    by_cases hk : k < j
    · exact hin k hk
    · have hp := chain_offset_periodic f start type offset i j hcyc (k - j)
      have e : j + (k - j) = k := by omega
      rw [e] at hp
      have h := ih (i + (k - j)) (by omega)
      unfold chain_word at h ⊢
      rw [← hp]
      exact h

/-- The chain walk on a chain without end runs out of any fuel. -/
theorem read_reloc_offsets_endless (f : File) (start length type : Nat) :
    ∀ (fuel offset : Nat),
      (∀ k, chain_offset f start type offset k < length ∧
        chain_word f start type offset k < 0xFFFB) →
      read_reloc_offsets f start length type fuel offset = .error .out_of_fuel := by
  intro fuel
  induction fuel with
  | zero => intro offset _; rfl
  | succ fuel ih =>
    intro offset h
    have h0 := h 0
    simp only [chain_offset, chain_word] at h0
    have h1 : ¬ offset ≥ length := by omega
    rw [read_reloc_offsets]
    simp only [h1, if_false, h0.2, if_true, reloc_advance_eq]
    rw [ih (chain_next f start type offset)]
    intro k
    have hk := h (k + 1)
    unfold chain_word at hk ⊢
    rw [chain_offset_shift]
    exact hk

/-- C31. The chain walk of `read_reloc` has no end when the chain comes back
to an offset already visited, every offset up to there lying below the segment
length with a stored word below 0xFFFB; in particular when the additive bit is
clear, the record offset is 0, the segment is not empty and the word stored at
offset 0 is 0, and when the additive bit is set and the word stored at the
record offset, inside the segment, is 0.  Then every offset of the chain lies
below the length with a word below 0xFFFB, and for every amount of fuel the
storing walk, the counting walk and `read_reloc` itself (for a record whose
type is not 3 and whose target is found) run out of fuel: no offsets list
results. -/
theorem C31_chain_walk_never_ends (f : File) (start length type offset : Nat)
    (h : (∃ i j, i < j ∧
          chain_offset f start type offset i = chain_offset f start type offset j ∧
          ∀ k, k < j → chain_offset f start type offset k < length ∧
            chain_word f start type offset k < 0xFFFB) ∨
      (type &&& 4 = 0 ∧ offset = 0 ∧ 0 < length ∧ read_word_at f (start + 0) = 0) ∨
      (type &&& 4 ≠ 0 ∧ offset < length ∧ offset < 65536 ∧
        read_word_at f (start + offset) = 0)) :
    (∀ k, chain_offset f start type offset k < length ∧
      chain_word f start type offset k < 0xFFFB) ∧
    (∀ fuel, read_reloc_offsets f start length type fuel offset = .error .out_of_fuel) ∧
    (∀ fuel count, count < 65536 →
      read_reloc_count f start length type fuel offset count = .error .out_of_fuel) ∧
    (∀ (entry_table : List entry) (pos fuel ts tofs : Nat),
      read_byte_at f (pos + 1) = type → read_word_at f (pos + 2) = offset →
      type &&& 3 ≠ 3 →
      read_reloc_target entry_table type (read_word_at f (pos + 4)) (read_word_at f (pos + 6))
        = .ok (ts, tofs) →
      read_reloc entry_table f pos start length fuel = .error .out_of_fuel) := by
  have hcycle : ∃ i j, i < j ∧
      chain_offset f start type offset i = chain_offset f start type offset j ∧
      ∀ k, k < j → chain_offset f start type offset k < length ∧
        chain_word f start type offset k < 0xFFFB := by
    rcases h with h | ⟨h4, h0, hl, hw⟩ | ⟨h4, hl, h16, hw⟩
    · exact h
    · subst h0
      refine ⟨0, 1, by omega, ?_, ?_⟩
      · simp only [chain_offset, chain_next, h4, if_true, hw]
      · intro k hk
        have : k = 0 := by omega
        subst this
        simp only [chain_offset, chain_word, hw]
        exact ⟨hl, by decide⟩
    · refine ⟨0, 1, by omega, ?_, ?_⟩
      · simp only [chain_offset, chain_next, h4, if_false, hw, Nat.add_zero,
          Nat.mod_eq_of_lt h16]
      · intro k hk
        have : k = 0 := by omega
        subst this
        simp only [chain_offset, chain_word, hw]
        exact ⟨hl, by decide⟩
  obtain ⟨i, j, hij, hcyc, hin⟩ := hcycle
  have hall := chain_cycle_all f start length type offset i j hij hcyc hin
  have hwalk := fun fuel => read_reloc_offsets_endless f start length type fuel offset hall
  have hcount : ∀ fuel count, count < 65536 →
      read_reloc_count f start length type fuel offset count = .error .out_of_fuel := by
    intro fuel count hc
    rw [read_reloc_count_eq f start length type fuel offset count hc, hwalk]
  refine ⟨hall, hwalk, hcount, ?_⟩
  intro entry_table pos fuel ts tofs ht ho h3 htg
  unfold read_reloc
  simp only [ht, ho, h3, if_false, htg, hcount fuel 0 (by decide)]

/-- Witness of C31: the record of `cyclic_file` (additive bit clear, offset 0,
word 0 at offset 0) and the record of `stall_file` (additive bit set, delta 0
at offset 2). -/
theorem C31_chain_walk_never_ends_witness :
    (∀ fuel, read_reloc [] cyclic_file 10 0 8 fuel = .error .out_of_fuel) ∧
    (∀ fuel, read_reloc [] stall_file 10 0 8 fuel = .error .out_of_fuel) :=
  ⟨fun fuel => (C31_chain_walk_never_ends cyclic_file 0 8 0 0
      (Or.inr (Or.inl ⟨by decide, rfl, by decide, by decide⟩))).2.2.2 [] 10 fuel 1 0x34
      (by decide) (by decide) (by decide) (by rfl),
    fun fuel => (C31_chain_walk_never_ends stall_file 0 8 4 2
      (Or.inr (Or.inr ⟨by decide, by decide, by decide, by decide⟩))).2.2.2 [] 10 fuel 1 0x34
      (by decide) (by decide) (by decide) (by rfl)⟩

end Semblance
